import Mathlib

/-!
# Oro: a verification development

A shallow embedding of parts of the Oro interpreter (packages `token`, `rerror`, `ast`,
`runtime`, `runtime/cmd`, `lexer`, `parser` and `interpreter`), and of the function
`strconv.ParseInt` of the Go library that the parser calls, followed by theorems about
them.

Conventions of the embedding

* A Go interface value that may be `nil` (`ast.Node`, `ast.Expression`, `ast.Statement`,
  `runtime.Data`) is a value of the corresponding inductive type, whose constructor `absent`
  stands for the `nil` interface.  A Go pointer field that may be `nil` is an `Option`.
* A Go `map[string]V` is an association list: reading takes the first binding of the key,
  writing replaces the binding of the key or appends a new one.
* `int` and `int64` values are `Int`; a `float64` is carried as its IEEE-754 bit pattern and
  no arithmetic on it is modelled.  A Go `string` is a `String`: `len` is the number of
  bytes of its UTF-8 encoding and a read `s[i]` takes the byte at `i`.  The lexer and the
  write `s[i] = w` go by character, which is the byte of the source for ASCII text.
* Objects reached through pointers (scopes, arrays, dictionaries, the parser, the
  interpreter) are modelled by value: a method that mutates its receiver or an argument
  returns the mutated object.  A scope is the struct of the source with its parent held
  inside it, so a scope value is the whole chain of frames from the current one outwards.
  An array or a dictionary that two names or two values share in the source is two values
  here, and a function value holds a copy of the frames it was made in: what is written
  through one of them is not seen through the other.  The theorems on arrays, dictionaries
  and loops are stated for the evaluations in which no such write is made.
* The methods of the parser, whose loops and recursion follow the tokens the lexer yields,
  and the methods of the lexer that loop over the bytes of the buffer take a number `fuel`.
  They and the methods of the interpreter return a `Res`: `ok` with what the method returns,
  `fault` where the Go runtime panics, `timeout` where the fuel does not suffice.
-/

namespace Oro

/-- A Go `string`. -/
abbrev Str := String

/-! ## token/token.go -/

namespace token

/-- Source positions, `token.Position`. -/
structure Position where
  Row : Int
  Col : Int
  deriving DecidableEq, Repr, Inhabited

/-- The constants of `token/token.go`.  In the source `TType` is a string type and the
constants are pairwise distinct strings; `TType.str` gives the string of each.  `Zero` is the
zero value of the type, the empty string, which the type of a `Token` left unset has. -/
inductive TType where
  | Identifier | Boolean | String | Integer | Float
  | Assign | PlusAssign | MinusAssign | MultiplyAssign | DivideAssign
  | Equal | NotEqual | Greater | GreaterEqual | Less | LessEqual
  | Plus | Minus | Multiply | Exponential | Modulus | Divide
  | BitwiseOr | BitwiseAnd | BitwiseNot | BitShiftLeft | BitShiftRight
  | LogicalOr | LogicalAnd | Not | Pipe | Arrow | FatArrow | QuestionMark
  | Space | NewLine | LeftParenthesis | LeftBracket | LeftBraces
  | RightParenthesis | RightBracket | RightBraces
  | Colon | SemiColon | Range | Ellipsis | Dot | Comma | Underscore
  | Val | Var | Function | Do | End | Then | If | Else | Repeat | In | Is | As | Nil
  | Return | Match | With | When | Break | Continue | Module | Use | True | False
  | Comment | Eof
  | Zero
  deriving DecidableEq, Repr, Inhabited

/-- The string value of each constant. -/
def TType.str : TType → Str
  | .Identifier => "IDENTIFIER" | .Boolean => "BOOLEAN" | .String => "STRING"
  | .Integer => "INTEGER" | .Float => "FLOAT"
  | .Assign => "=" | .PlusAssign => "+=" | .MinusAssign => "-="
  | .MultiplyAssign => "*=" | .DivideAssign => "/="
  | .Equal => "==" | .NotEqual => "!=" | .Greater => ">" | .GreaterEqual => ">="
  | .Less => "<" | .LessEqual => "<="
  | .Plus => "+" | .Minus => "-" | .Multiply => "*" | .Exponential => "**"
  | .Modulus => "%" | .Divide => "/"
  | .BitwiseOr => "|" | .BitwiseAnd => "&" | .BitwiseNot => "~"
  | .BitShiftLeft => "<<" | .BitShiftRight => ">>"
  | .LogicalOr => "||" | .LogicalAnd => "&&" | .Not => "!"
  | .Pipe => "|>" | .Arrow => "->" | .FatArrow => "=>" | .QuestionMark => "?"
  | .Space => " " | .NewLine => "\n" | .LeftParenthesis => "(" | .LeftBracket => "["
  | .LeftBraces => "\x7b" | .RightParenthesis => ")" | .RightBracket => "]"
  | .RightBraces => "\x7d"
  | .Colon => ":" | .SemiColon => ";" | .Range => ".." | .Ellipsis => "..."
  | .Dot => "." | .Comma => "," | .Underscore => "_"
  | .Val => "val" | .Var => "var" | .Function => "fn" | .Do => "do" | .End => "end"
  | .Then => "then" | .If => "if" | .Else => "else" | .Repeat => "repeat" | .In => "in"
  | .Is => "is" | .As => "as" | .Nil => "nil" | .Return => "return" | .Match => "match"
  | .With => "with" | .When => "when" | .Break => "break" | .Continue => "continue"
  | .Module => "module" | .Use => "use" | .True => "true" | .False => "false"
  | .Comment => "COMMENT" | .Eof => "EOF"
  | .Zero => ""

/-- A lexical token, `token.Token`; field `Typ` is the source's `Type`. -/
structure Token where
  Typ : TType
  Literal : String
  Position : Position
  deriving DecidableEq, Repr, Inhabited

/-- The zero value of `Token`. -/
def Token.zero : Token := ⟨.Zero, "", ⟨0, 0⟩⟩

end token

open token (TType Token Position)

/-! ## rerror/rerror.go -/

namespace rerror

/-- The error classes `rerror.Parse` and `rerror.Runtime`. -/
inductive TError where
  | Parse
  | Runtime
  deriving DecidableEq, Repr, Inhabited

/-- The string of an error class. -/
def TError.str : TError → Str
  | .Parse => "Parse Error"
  | .Runtime => "Runtime Error"

/-- One call of `rerror.Error`, kept as its three arguments. -/
structure Entry where
  terror : TError
  location : Position
  msg : String
  deriving DecidableEq, Repr, Inhabited

/-- The string `rerror.Error` appends for an entry: `Sprintf(ErrorLine, ...)` with
`ErrorLine = "%s [Line %d:%d]: %s"`. -/
def Entry.format (e : Entry) : String :=
  e.terror.str ++ " [Line " ++ toString e.location.Row ++ ":" ++ toString e.location.Col
    ++ "]: " ++ e.msg

/-- `rerror.Error` on the global list `errors`, given as the list of the calls made so
far. -/
def Error (errors : List Entry) (terror : TError) (location : Position) (msg : String) :
    List Entry :=
  errors ++ [⟨terror, location, msg⟩]

/-- `rerror.HasErrors`. -/
def HasErrors (errors : List Entry) : Bool := decide (errors.length > 0)

end rerror

/-- A `float64`, carried as its IEEE-754 bit pattern. -/
structure Float64 where
  bits : Nat
  deriving DecidableEq, Repr, Inhabited

/-! ## ast/ast.go -/

namespace ast

/-- The struct `ast.Identifier`. -/
structure Identifier where
  Token : Token
  Value : String
  deriving DecidableEq, Repr, Inhabited

/-- The struct `ast.String` (its `Interpolated` map is never written by the parser and is
left out). -/
structure StringLit where
  Token : Token
  Value : String
  deriving DecidableEq, Repr, Inhabited

/-- The struct `ast.IdentifierList`. -/
structure IdentifierList where
  Token : Token
  Elements : List Identifier
  deriving DecidableEq, Repr, Inhabited

mutual
/-- The node types of `ast/ast.go`; `absent` is the `nil` interface value. -/
inductive Node where
  | absent
  | Program (Statements : List Node)
  | Boolean (Token : Token) (Value : Bool)
  | String (s : StringLit)
  | Integer (Token : Token) (Value : Int)
  | Float (Token : Token) (Value : Float64)
  | Array (Token : Token) (List : ExpressionList)
  | Dictionary (Token : Token) (Pairs : List (Node × Node))
  | Symbol (Token : Token) (Value : String)
  | Nil (Token : Token)
  | Val (Token : Token) (Name : Identifier) (Value : Node)
  | Var (Token : Token) (Name : Identifier) (Value : Node)
  | Is (Token : Token) (Left : Node) (Right : Identifier)
  | As (Token : Token) (Left : Node) (Right : Identifier)
  | If (Token : Token) (Condition : Node) (Then : BlockStatement) (Else : Option BlockStatement)
  | Repeat (Token : Token) (Arguments : IdentifierList) (Enumerable : Node)
      (Body : BlockStatement)
  | Match (Token : Token) (Control : Node) (Whens : List MatchWhen)
      (Else : Option BlockStatement)
  | Break (Token : Token)
  | Continue (Token : Token)
  | Return (Token : Token) (Value : Node)
  | Pipe (Token : Token) (Left : Node) (Right : Node)
  | PlaceHolder (Token : Token)
  | Function (Token : Token) (Parameters : List FunctionParameter) (Body : BlockStatement)
      (ReturnType : Option Identifier) (Variadic : Bool)
  | FunctionCall (Token : Token) (Function : Node) (Arguments : ExpressionList)
  | Module (Token : Token) (Name : Identifier) (Body : BlockStatement)
  | ModuleAccess (Token : Token) (Object : Identifier) (Parameter : Identifier)
  | Subscript (Token : Token) (Left : Node) (Index : Node)
  | Use (Token : Token) (File : StringLit)
  | Assign (Token : Token) (Operator : String) (Name : Node) (Right : Node)
  | Block (b : BlockStatement)
  | ExpressionStatement (Token : Token) (Expression : Node)
  | ExpressionList (l : ExpressionList)
  | Identifier (id : Identifier)
  | PrefixExpression (Token : Token) (Operator : String) (Right : Node)
  | InfixExpression (Token : Token) (Left : Node) (Operator : String) (Right : Node)
/-- The struct `ast.BlockStatement`. -/
inductive BlockStatement where
  | mk (Token : Token) (Statements : List Node)
/-- The struct `ast.ExpressionList`. -/
inductive ExpressionList where
  | mk (Token : Token) (Elements : List Node)
/-- The struct `ast.MatchWhen`. -/
inductive MatchWhen where
  | mk (Token : Token) (Values : ExpressionList) (Body : BlockStatement)
/-- The struct `ast.FunctionParameter`; field `Typ` is the source's `Type`. -/
inductive FunctionParameter where
  | mk (Token : Token) (Name : Identifier) (Typ : Option Identifier) (Default : Node)
end

instance : Inhabited Node := ⟨.absent⟩

/-- Field `Statements` of a block. -/
def BlockStatement.Statements : BlockStatement → List Node
  | .mk _ ss => ss

/-- Field `Token` of a block. -/
def BlockStatement.Token : BlockStatement → Token
  | .mk t _ => t

/-- Field `Elements` of an expression list. -/
def ExpressionList.Elements : ExpressionList → List Node
  | .mk _ es => es

/-- The method `TokenPosition` of every node type: the position of the node's token, and the
zero position for a `Program`.  Calling it on the `nil` interface faults (`none`). -/
def Node.TokenPosition : Node → Option Position
  | .absent => none
  | .Program _ => some ⟨0, 0⟩
  | .Boolean t _ => some t.Position
  | .String s => some s.Token.Position
  | .Integer t _ => some t.Position
  | .Float t _ => some t.Position
  | .Array t _ => some t.Position
  | .Dictionary t _ => some t.Position
  | .Symbol t _ => some t.Position
  | .Nil t => some t.Position
  | .Val t _ _ => some t.Position
  | .Var t _ _ => some t.Position
  | .Is t _ _ => some t.Position
  | .As t _ _ => some t.Position
  | .If t _ _ _ => some t.Position
  | .Repeat t _ _ _ => some t.Position
  | .Match t _ _ _ => some t.Position
  | .Break t => some t.Position
  | .Continue t => some t.Position
  | .Return t _ => some t.Position
  | .Pipe t _ _ => some t.Position
  | .PlaceHolder t => some t.Position
  | .Function t _ _ _ _ => some t.Position
  | .FunctionCall t _ _ => some t.Position
  | .Module t _ _ => some t.Position
  | .ModuleAccess t _ _ => some t.Position
  | .Subscript t _ _ => some t.Position
  | .Use t _ => some t.Position
  | .Assign t _ _ _ => some t.Position
  | .Block b => some b.Token.Position
  | .ExpressionStatement t _ => some t.Position
  | .ExpressionList (.mk t _) => some t.Position
  | .Identifier id => some id.Token.Position
  | .PrefixExpression t _ _ => some t.Position
  | .InfixExpression t _ _ _ => some t.Position

/-- The method `TokenLiteral` of every node type: the literal of the node's token; for a
`Program` that of its first statement, or the empty string.  Calling it on the `nil`
interface faults (`none`). -/
def Node.TokenLiteral : Node → Option Str
  | .absent => none
  | .Program [] => some ""
  | .Program (s :: _) => Node.TokenLiteral s
  | .Boolean t _ => some t.Literal
  | .String s => some s.Token.Literal
  | .Integer t _ => some t.Literal
  | .Float t _ => some t.Literal
  | .Array t _ => some t.Literal
  | .Dictionary t _ => some t.Literal
  | .Symbol t _ => some t.Literal
  | .Nil t => some t.Literal
  | .Val t _ _ => some t.Literal
  | .Var t _ _ => some t.Literal
  | .Is t _ _ => some t.Literal
  | .As t _ _ => some t.Literal
  | .If t _ _ _ => some t.Literal
  | .Repeat t _ _ _ => some t.Literal
  | .Match t _ _ _ => some t.Literal
  | .Break t => some t.Literal
  | .Continue t => some t.Literal
  | .Return t _ => some t.Literal
  | .Pipe t _ _ => some t.Literal
  | .PlaceHolder t => some t.Literal
  | .Function t _ _ _ _ => some t.Literal
  | .FunctionCall t _ _ => some t.Literal
  | .Module t _ _ => some t.Literal
  | .ModuleAccess t _ _ => some t.Literal
  | .Subscript t _ _ => some t.Literal
  | .Use t _ => some t.Literal
  | .Assign t _ _ _ => some t.Literal
  | .Block b => some b.Token.Literal
  | .ExpressionStatement t _ => some t.Literal
  | .ExpressionList (.mk t _) => some t.Literal
  | .Identifier id => some id.Token.Literal
  | .PrefixExpression t _ _ => some t.Literal
  | .InfixExpression t _ _ _ => some t.Literal

end ast

/-! ## runtime/types.go and runtime/scope.go -/

namespace runtime

mutual
/-- The value types of `runtime/types.go`; `absent` is the `nil` interface value.  A pointer
to a scope is modelled by the scope it points to. -/
inductive Data where
  | absent
  | TBoolean (Value : Bool)
  | TString (Value : String)
  | TInteger (Value : Int)
  | TFloat (Value : Float64)
  | TArray (Elements : List Data)
  | TDictionary (Pairs : List (Data × Data))
  | TSymbol (Value : String)
  | TPlaceHolder
  | TNil
  | TFunction (Parameters : List ast.FunctionParameter) (Body : ast.BlockStatement)
      (ReturnType : Option ast.Identifier) (Variadic : Bool) (Scope : Scope)
  | TModule (Name : ast.Identifier) (Body : ast.BlockStatement)
  | TBreak
  | TContinue
  | TReturn (Value : Data)
/-- The struct `runtime.Scope`: a frame `store` and the scope `parent` points to. -/
inductive Scope where
  | mk (store : List (String × Data)) (parent : Option Scope)
end

instance : Inhabited Data := ⟨.absent⟩

/-- A `map[string]Data`. -/
abbrev Store := List (String × Data)

/-- The map read `value, ok := m[name]`. -/
def Store.get : Store → String → Option Data
  | [], _ => none
  | (k, v) :: rest, name => if k = name then some v else Store.get rest name

/-- The map write `m[name] = value`. -/
def Store.set : Store → String → Data → Store
  | [], name, value => [(name, value)]
  | (k, v) :: rest, name, value =>
    if k = name then (k, value) :: rest else (k, v) :: Store.set rest name value

/-- Field `store`. -/
def Scope.store : Scope → Store
  | .mk st _ => st

/-- Field `parent`. -/
def Scope.parent : Scope → Option Scope
  | .mk _ p => p

/-- `NewScope`. -/
def NewScope : Scope := .mk [] none

/-- `NewScopeFrom`. -/
def NewScopeFrom (parent : Scope) : Scope := .mk [] (some parent)

/-- `Scope.Read`: `some value` for `(value, true)`, `none` for not found. -/
def Scope.Read : Scope → String → Option Data
  | .mk st none, name => Store.get st name
  | .mk st (some p), name =>
    match Store.get st name with
    | some v => some v
    | none => Scope.Read p name

/-- `Scope.Write`. -/
def Scope.Write : Scope → String → Data → Scope
  | .mk st p, name, value => .mk (Store.set st name value) p

/-- `Scope.updateParents`, called on `scope` (the receiver is not used by the body):
returns `scope` with the writes made to it and to its ancestors. -/
def Scope.updateParents : Scope → String → Data → Scope
  | .mk st none, name, value =>
    if (Scope.Read (.mk st none) name).isSome then Scope.Write (.mk st none) name value
    else .mk st none
  | .mk st (some p), name, value =>
    let scope := if (Scope.Read (.mk st (some p)) name).isSome
      then Scope.Write (.mk st (some p)) name value else .mk st (some p)
    .mk scope.store (some (Scope.updateParents p name value))

/-- `Scope.Update`. -/
def Scope.Update (s : Scope) (name : String) (value : Data) : Scope :=
  Scope.updateParents s name value

/-- The loop of `Scope.Merge` over the entries of the other scope's store. -/
def Scope.mergeLoop : Store → Store → Store
  | st, [] => st
  | st, (k, v) :: rest =>
    match Store.get st k with
    | some _ => Scope.mergeLoop st rest
    | none => Scope.mergeLoop (Store.set st k v) rest

/-- `Scope.Merge`: the receiver and the argument `scope` as they are after the call (the
loop writes to the receiver's store only). -/
def Scope.Merge : Scope → Scope → Scope × Scope
  | .mk st p, scope => (.mk (Scope.mergeLoop st scope.store) p, scope)

/-- The frames of a scope chain, innermost first: the scope's own store, then its parent's,
and so on. -/
def Scope.frames : Scope → List Store
  | .mk st none => [st]
  | .mk st (some p) => st :: Scope.frames p

/-- The scope reached from `s` by following `parent` links `k` times (`s` itself for
`k = 0`), if there are that many. -/
def Scope.ancestor : Scope → Nat → Option Scope
  | s, 0 => some s
  | .mk _ none, _ + 1 => none
  | .mk _ (some p), k + 1 => Scope.ancestor p k

end runtime

/-! ## Outcomes of a call -/

/-- The outcome of running a function of the program: it returned (`ok`), the Go runtime
panicked on a nil dereference or a failed type assertion (`fault`), or the fuel given to the
model ran out before the call returned (`timeout`). -/
inductive Res (α : Type) where
  | ok (a : α)
  | fault
  | timeout
  deriving Repr

/-- Sequencing of outcomes. -/
def Res.bind {α β : Type} : Res α → (α → Res β) → Res β
  | .ok a, f => f a
  | .fault, _ => .fault
  | .timeout, _ => .timeout

instance : Monad Res where
  pure := Res.ok
  bind := Res.bind

/-! ## parser/precedence.go -/

namespace parser

open ast

/-- Precedence level 1. -/
def Lowest : Int := 1
/-- Precedence level 2. -/
def Assign : Int := 2
/-- Precedence level 3. -/
def Pipe : Int := 3
/-- Precedence level 4. -/
def Arrow : Int := 4
/-- Precedence level 5. -/
def Ternary : Int := 5
/-- Precedence level 6. -/
def Boolean : Int := 6
/-- Precedence level 7. -/
def Bitwise : Int := 7
/-- Precedence level 8. -/
def Comparison : Int := 8
/-- Precedence level 9. -/
def Range : Int := 9
/-- Precedence level 10. -/
def BitShift : Int := 10
/-- Precedence level 11. -/
def Sum : Int := 11
/-- Precedence level 12. -/
def Product : Int := 12
/-- Precedence level 13. -/
def Exponential : Int := 13
/-- Precedence level 14. -/
def Prefix : Int := 14
/-- Precedence level 15. -/
def Call : Int := 15
/-- Precedence level 16. -/
def Index : Int := 16
/-- Precedence level 17. -/
def As : Int := 17

/-- The map `precedences`. -/
def precedences : TType → Option Int
  | .Assign => some Assign
  | .PlusAssign => some Assign
  | .MinusAssign => some Assign
  | .MultiplyAssign => some Assign
  | .DivideAssign => some Assign
  | .Plus => some Sum
  | .Minus => some Sum
  | .Multiply => some Product
  | .Divide => some Product
  | .Modulus => some Product
  | .Exponential => some Exponential
  | .Equal => some Comparison
  | .NotEqual => some Comparison
  | .Less => some Comparison
  | .LessEqual => some Comparison
  | .GreaterEqual => some Comparison
  | .Greater => some Comparison
  | .LogicalOr => some Boolean
  | .LogicalAnd => some Boolean
  | .Dot => some Call
  | .LeftParenthesis => some Call
  | .LeftBracket => some Index
  | .BitwiseOr => some Bitwise
  | .BitwiseAnd => some Bitwise
  | .BitwiseNot => some Bitwise
  | .BitShiftLeft => some BitShift
  | .BitShiftRight => some BitShift
  | .Range => some Range
  | .Pipe => some Pipe
  | .Arrow => some Arrow
  | .QuestionMark => some Ternary
  | .Is => some Assign
  | .As => some As
  | _ => none

/-! ## parser/parser.go -/

/-- What the parser calls outside its package: `lexer.Lexer.NextToken` on a lexer state of
type `L`, and `strconv.ParseInt(s, base, 64)` and `strconv.ParseFloat(s, 64)`, each `none`
when the Go function returns an error. -/
structure Env (L : Type) where
  NextToken : L → Token × L
  ParseInt : String → Nat → Option Int
  ParseFloat : String → Option Float64

/-- The struct `parser.Parser`.  The two handler tables are fixed by `New` and are the
functions `prefixFunction` and `infixFunction` below; `errors` holds the calls of
`rerror.Error` made by the parser. -/
structure Parser (L : Type) where
  lexer : L
  token : Token
  peekToken : Token
  errors : List rerror.Entry

/-- The handlers `New` registers as prefix functions. -/
inductive prefixParseFn where
  | parseVal | parseVar | parseModule | parseIf | parseMatch | parseRepeat | parseFunction
  | parseUse | parseArrayOrDictionary | parseIdentifier | parseInteger | parseFloat
  | parseString | parseBoolean | parseNil | parsePlaceHolder | parseSymbol | parsePrefix
  | parseGroup
  deriving DecidableEq, Repr

/-- The handlers `New` registers as infix functions. -/
inductive infixParseFn where
  | parseAssign | parseModuleAccess | parseFunctionCall | parseSubscript | parsePipe
  | parseArrowFunction | parseTernary | parseIs | parseAs | parseInfix | parseInfixRight
  deriving DecidableEq, Repr

/-- The table `prefixFunction` as `New` fills it. -/
def prefixFunction : TType → Option prefixParseFn
  | .Val => some .parseVal
  | .Var => some .parseVar
  | .Module => some .parseModule
  | .If => some .parseIf
  | .Match => some .parseMatch
  | .Repeat => some .parseRepeat
  | .Function => some .parseFunction
  | .Use => some .parseUse
  | .LeftBracket => some .parseArrayOrDictionary
  | .Identifier => some .parseIdentifier
  | .Integer => some .parseInteger
  | .Float => some .parseFloat
  | .String => some .parseString
  | .Boolean => some .parseBoolean
  | .Nil => some .parseNil
  | .Underscore => some .parsePlaceHolder
  | .Colon => some .parseSymbol
  | .Not => some .parsePrefix
  | .BitwiseNot => some .parsePrefix
  | .Minus => some .parsePrefix
  | .LeftParenthesis => some .parseGroup
  | _ => none

/-- The table `infixFunction` as `New` fills it. -/
def infixFunction : TType → Option infixParseFn
  | .Assign => some .parseAssign
  | .PlusAssign => some .parseAssign
  | .MinusAssign => some .parseAssign
  | .MultiplyAssign => some .parseAssign
  | .DivideAssign => some .parseAssign
  | .Dot => some .parseModuleAccess
  | .LeftParenthesis => some .parseFunctionCall
  | .LeftBracket => some .parseSubscript
  | .Pipe => some .parsePipe
  | .Arrow => some .parseArrowFunction
  | .QuestionMark => some .parseTernary
  | .Is => some .parseIs
  | .As => some .parseAs
  | .Range => some .parseInfix
  | .Plus => some .parseInfix
  | .Minus => some .parseInfix
  | .Divide => some .parseInfix
  | .Multiply => some .parseInfix
  | .Modulus => some .parseInfix
  | .Exponential => some .parseInfix
  | .Equal => some .parseInfix
  | .NotEqual => some .parseInfix
  | .Less => some .parseInfix
  | .LessEqual => some .parseInfix
  | .Greater => some .parseInfix
  | .GreaterEqual => some .parseInfix
  | .LogicalOr => some .parseInfixRight
  | .LogicalAnd => some .parseInfixRight
  | .BitwiseAnd => some .parseInfix
  | .BitwiseOr => some .parseInfix
  | .BitShiftLeft => some .parseInfix
  | .BitShiftRight => some .parseInfix
  | _ => none

section
variable {L : Type} (env : Env L)

/-- `Parser.precedence`. -/
def precedence (p : Parser L) : Int :=
  match precedences p.token.Typ with
  | some v => v
  | none => Lowest

/-- `Parser.peekPrecedence`. -/
def peekPrecedence (p : Parser L) : Int :=
  match precedences p.peekToken.Typ with
  | some v => v
  | none => Lowest

/-- `Parser.nextToken`. -/
def nextToken (p : Parser L) : Parser L :=
  { p with token := p.peekToken, peekToken := (env.NextToken p.lexer).1,
           lexer := (env.NextToken p.lexer).2 }

/-- `Parser.matchToken`. -/
def matchToken (p : Parser L) (tokenType : List TType) : Bool :=
  tokenType.any (fun t => decide (p.token.Typ = t))

/-- `Parser.peekTokenMatch`. -/
def peekTokenMatch (p : Parser L) (tokenType : List TType) : Bool :=
  tokenType.any (fun t => decide (p.peekToken.Typ = t))

/-- `Parser.synchronize`. -/
def synchronize : Nat → Parser L → Res (Parser L)
  | 0, _ => .timeout
  | fuel + 1, p =>
    if matchToken p [.Eof] then .ok p
    else
      match p.token.Typ with
      | .Val | .If | .Repeat | .Match | .When | .Else | .Return | .Function | .Module => .ok p
      | _ => synchronize fuel (nextToken env p)

/-- `Parser.parserError`. -/
def parserError (fuel : Nat) (p : Parser L) (msg : String) : Res (Parser L) :=
  synchronize env fuel { p with errors := rerror.Error p.errors .Parse p.token.Position msg }

/-- `New`. -/
def New (l : L) : Parser L :=
  nextToken env (nextToken env ⟨l, Token.zero, Token.zero, []⟩)

/-- `Parser.parseModuleAccess`. -/
def parseModuleAccess (fuel : Nat) (p : Parser L) (left : Node) : Res (Node × Parser L) :=
  match left with
  | .Identifier object =>
    if peekTokenMatch p [.Identifier] then
      let tok := p.token
      let p := nextToken env p
      .ok (.ModuleAccess tok object ⟨p.token, p.token.Literal⟩, p)
    else .ok (.absent, p)
  | object =>
    match object.TokenLiteral with
    | none => .fault
    | some literal => do
      let p ← parserError env fuel p ("Cannot use '" ++ literal ++ "' as MODULE caller")
      pure (.absent, p)

/-- `Parser.parseIdentifier`. -/
def parseIdentifier (p : Parser L) : Node × Parser L :=
  (.Identifier ⟨p.token, p.token.Literal⟩, p)

/-- `Parser.parseInteger`.  The prefixes are tested, and the slices `literal[2:]` and
`literal[:1]` taken, on the list of the characters of the literal. -/
def parseInteger (fuel : Nat) (p : Parser L) : Res (Node × Parser L) :=
  let literal := p.token.Literal
  let r :=
    if "0b".data.isPrefixOf literal.data then env.ParseInt (String.mk (literal.data.drop 2)) 2
    else if "0x".data.isPrefixOf literal.data then env.ParseInt literal 0
    else if "0o".data.isPrefixOf literal.data then
      env.ParseInt (String.mk (literal.data.take 1 ++ literal.data.drop 2)) 0
    else env.ParseInt literal 0
  match r with
  | none => do
    let p ← parserError env fuel p ("Couldn't parse " ++ literal ++ " as Integer")
    pure (.absent, p)
  | some value => .ok (.Integer p.token value, p)

/-- `Parser.parseFloat`. -/
def parseFloat (fuel : Nat) (p : Parser L) : Res (Node × Parser L) :=
  let literal := p.token.Literal
  match env.ParseFloat literal with
  | none => do
    let p ← parserError env fuel p ("Couldn't parse " ++ literal ++ " as Float")
    pure (.absent, p)
  | some value => .ok (.Float p.token value, p)

/-- `Parser.parseString`. -/
def parseString (p : Parser L) : Node × Parser L :=
  (.String ⟨p.token, p.token.Literal⟩, p)

/-- `Parser.parseBoolean`. -/
def parseBoolean (p : Parser L) : Node × Parser L :=
  (.Boolean p.token (decide (p.token.Literal = TType.True.str)), p)

/-- `Parser.parseNil`. -/
def parseNil (p : Parser L) : Node × Parser L :=
  (.Nil p.token, p)

/-- `Parser.parsePlaceHolder`. -/
def parsePlaceHolder (p : Parser L) : Node × Parser L :=
  (.PlaceHolder p.token, p)

/-- `Parser.parseBreak`. -/
def parseBreak (p : Parser L) : Node × Parser L :=
  (.Break p.token, p)

/-- `Parser.parseContinue`. -/
def parseContinue (p : Parser L) : Node × Parser L :=
  (.Continue p.token, p)

/-- `Parser.parseUse`. -/
def parseUse (fuel : Nat) (p : Parser L) : Res (Node × Parser L) :=
  let tok := p.token
  let p := nextToken env p
  if matchToken p [.String, .Identifier] then
    .ok (.Use tok ⟨p.token, p.token.Literal⟩, p)
  else do
    let p ← parserError env fuel p "USE expects a string or identifier as filename"
    pure (.absent, p)

/-- `Parser.parseSymbol`. -/
def parseSymbol (fuel : Nat) (p : Parser L) : Res (Node × Parser L) :=
  let p := nextToken env p
  if !matchToken p [.Identifier] then do
    let p ← parserError env fuel p "Symbol expects an identifier"
    pure (.absent, p)
  else .ok (.Symbol p.token p.token.Literal, p)

/-- `Parser.parseIs`. -/
def parseIs (fuel : Nat) (p : Parser L) (left : Node) : Res (Node × Parser L) :=
  let tok := p.token
  let p := nextToken env p
  if !matchToken p [.Identifier] then do
    let p ← parserError env fuel p "IS operator expects a types"
    pure (.absent, p)
  else .ok (.Is tok left ⟨p.token, p.token.Literal⟩, p)

/-- `Parser.parseAs`. -/
def parseAs (fuel : Nat) (p : Parser L) (left : Node) : Res (Node × Parser L) :=
  let tok := p.token
  let p := nextToken env p
  if !matchToken p [.Identifier] then do
    let p ← parserError env fuel p "AS operator expects a types"
    pure (.absent, p)
  else .ok (.As tok left ⟨p.token, p.token.Literal⟩, p)

/-- The loop of `parseArrowFunction` over the elements of an expression list: the
parameters built so far followed by one per element, or `none` at an element that is not an
identifier. -/
def arrowParameters (tok : Token) : List Node → List FunctionParameter →
    Option (List FunctionParameter)
  | [], acc => some acc
  | .Identifier parameter :: rest, acc =>
    arrowParameters tok rest (acc ++ [.mk tok parameter none .absent])
  | _ :: _, _ => none

/-- The last loop of `parseArrayOrDictionary`: the pairs `list[i] => list[i+1]` for even
`i`, in the order of the list (the source keeps them in a map keyed by the node). -/
def dictionaryPairs : List Node → List (Node × Node)
  | k :: v :: rest => (k, v) :: dictionaryPairs rest
  | _ => []

/-- The string `%s` gives for a slice of token types: the strings of the elements between
brackets, separated by blanks. -/
def sprintTypes (ts : List TType) : String :=
  "[" ++ " ".intercalate (ts.map TType.str) ++ "]"

mutual

/-- `Parser.parseStatement`. -/
def parseStatement : Nat → Parser L → Res (Node × Parser L)
  | 0, _ => .timeout
  | fuel + 1, p =>
    match p.token.Typ with
    | .Comment | .NewLine => .ok (.absent, p)
    | .Break => .ok (parseBreak p)
    | .Continue => .ok (parseContinue p)
    | .Return => parseReturn fuel p
    | _ => parseExpressionStatement fuel p

/-- `Parser.parseVal`. -/
def parseVal : Nat → Parser L → Res (Node × Parser L)
  | 0, _ => .timeout
  | fuel + 1, p =>
    let tok := p.token
    if !peekTokenMatch p [.Identifier] then do
      let p ← parserError env fuel p "VAL expects an identifier"
      pure (.absent, p)
    else
      let p := nextToken env p
      let name : Identifier := ⟨p.token, p.token.Literal⟩
      if !peekTokenMatch p [.Assign] then do
        let p ← parserError env fuel p "Missing assignment in VAL"
        pure (.absent, p)
      else do
        let p := nextToken env (nextToken env p)
        let (value, p) ← parseExpression fuel Lowest p
        pure (.Val tok name value, p)

/-- `Parser.parseVar`. -/
def parseVar : Nat → Parser L → Res (Node × Parser L)
  | 0, _ => .timeout
  | fuel + 1, p =>
    let tok := p.token
    if !peekTokenMatch p [.Identifier] then do
      let p ← parserError env fuel p "VAR expects an identifier"
      pure (.absent, p)
    else
      let p := nextToken env p
      let name : Identifier := ⟨p.token, p.token.Literal⟩
      if !peekTokenMatch p [.Assign] then do
        let p ← parserError env fuel p "Missing assignment in VAR"
        pure (.absent, p)
      else do
        let p := nextToken env (nextToken env p)
        let (value, p) ← parseExpression fuel Lowest p
        pure (.Var tok name value, p)

/-- `Parser.parseModule`. -/
def parseModule : Nat → Parser L → Res (Node × Parser L)
  | 0, _ => .timeout
  | fuel + 1, p =>
    let tok := p.token
    if !peekTokenMatch p [.Identifier] then do
      let p ← parserError env fuel p "Expecting an identifier as MODULE name"
      pure (.absent, p)
    else do
      let p := nextToken env p
      let name : Identifier := ⟨p.token, p.token.Literal⟩
      let p := if matchToken p [.Do] then nextToken env p else p
      let (body, p) ← parseBlockBody fuel p
      if !matchToken p [.End] then do
        let p ← parserError env fuel p "Missing END closing statement in MODULE"
        pure (.absent, p)
      else pure (.Module tok name body, p)

/-- The loop of `parseIf` that reads the statements of the then-block. -/
def parseIfLoop : Nat → Parser L → List Node → Res (List Node × Parser L)
  | 0, _, _ => .timeout
  | fuel + 1, p, statements =>
    if matchToken p [.End, .Else, .Eof] then .ok (statements, p)
    else do
      let (statement, p) ← parseStatement fuel p
      let statements := match statement with
        | .absent => statements
        | st => statements ++ [st]
      parseIfLoop fuel (nextToken env p) statements

/-- `Parser.parseIf`. -/
def parseIf : Nat → Parser L → Res (Node × Parser L)
  | 0, _ => .timeout
  | fuel + 1, p => do
    let tok := p.token
    let p := nextToken env p
    let (condition, p) ← parseExpression fuel Lowest p
    match condition with
    | .absent => do
      let p ← parserError env fuel p "Missing condition expression in IF"
      pure (.absent, p)
    | condition => do
      let p := nextToken env p
      let p := if matchToken p [.Then, .Do] then nextToken env p else p
      let blockTok := p.token
      let (statements, p) ← parseIfLoop fuel p []
      if statements.length = 0 then do
        let p ← parserError env fuel p "Empty body in IF"
        pure (.absent, p)
      else if matchToken p [.Else] then do
        let (elseBody, p) ← parseBlockBody fuel p
        if elseBody.Statements.length = 0 then do
          let p ← parserError env fuel p "Empty ELSE body in IF"
          pure (.absent, p)
        else if !matchToken p [.End] then do
          let p ← parserError env fuel p "Missing END closing statement in IF"
          pure (.absent, p)
        else pure (.If tok condition (.mk blockTok statements) (some elseBody), p)
      else if !matchToken p [.End] then do
        let p ← parserError env fuel p "Missing END closing statement in IF"
        pure (.absent, p)
      else pure (.If tok condition (.mk blockTok statements) none, p)

/-- The loop of `parseMatch` over the whens: the whens and the else-block read so far are
passed along; the result is `none` where the source returns `nil` from inside the loop. -/
def parseMatchLoop : Nat → Parser L → List MatchWhen → Option BlockStatement →
    Res (Option (List MatchWhen × Option BlockStatement) × Parser L)
  | 0, _, _, _ => .timeout
  | fuel + 1, p, whens, els =>
    if matchToken p [.End, .Eof] then .ok (some (whens, els), p)
    else
      match p.token.Typ with
      | .When => do
        let tok := p.token
        let p := nextToken env p
        let (elements, p) ← parseDelimited fuel .Comma [.NewLine, .Then] p
        if elements.length = 0 then do
          let p ← parserError env fuel p "Missing expression in MATCH WHEN"
          parseMatchLoop fuel (nextToken env p) whens els
        else do
          let (body, p) ← parseMatchWhen fuel p
          parseMatchLoop fuel (nextToken env p) (whens ++ [.mk tok (.mk tok elements) body]) els
      | .Else =>
        if !peekTokenMatch p [.Then, .NewLine] then do
          let p ← parserError env fuel p "ELSE when in MATCH can't have parameters"
          pure (none, p)
        else do
          let p := nextToken env p
          let (elseBody, p) ← parseMatchWhen fuel p
          if elseBody.Statements.length = 0 then do
            let p ← parserError env fuel p "Missing ELSE when body in MATCH"
            pure (none, p)
          else parseMatchLoop fuel (nextToken env p) whens (some elseBody)
      | _ => parseMatchLoop fuel (nextToken env p) whens els

/-- `Parser.parseMatch`. -/
def parseMatch : Nat → Parser L → Res (Node × Parser L)
  | 0, _ => .timeout
  | fuel + 1, p => do
    let tok := p.token
    let p := nextToken env p
    let (control, p) ← parseExpression fuel Lowest p
    let p := match control with
      | .absent => p
      | _ => nextToken env p
    let p ← if !matchToken p [.With, .NewLine]
      then parserError env fuel p "Missing WITH statement in inline MATCH" else pure p
    let p := nextToken env p
    let (r, p) ← parseMatchLoop fuel p [] none
    match r with
    | none => pure (.absent, p)
    | some (whens, els) =>
      if !matchToken p [.End] then do
        let p ← parserError env fuel p "Missing END closing statement in MATCH"
        pure (.absent, p)
      else pure (.Match tok control whens els, p)

/-- The loop of `parseMatchWhen`. -/
def parseMatchWhenLoop : Nat → Parser L → List Node → Res (List Node × Parser L)
  | 0, _, _ => .timeout
  | fuel + 1, p, statements =>
    if peekTokenMatch p [.When, .Else, .End, .Eof] then .ok (statements, p)
    else do
      let p := nextToken env p
      let (statement, p) ← parseStatement fuel p
      let statements := match statement with
        | .absent => statements
        | st => statements ++ [st]
      parseMatchWhenLoop fuel p statements

/-- `Parser.parseMatchWhen`. -/
def parseMatchWhen : Nat → Parser L → Res (BlockStatement × Parser L)
  | 0, _ => .timeout
  | fuel + 1, p => do
    let tok := p.token
    let (statements, p) ← parseMatchWhenLoop fuel p []
    pure (.mk tok statements, p)

/-- The loop of `parseRepeat` over the loop arguments.  The result holds the elements put
in `Arguments` and the enumerable (both are set only when `in` is met); it is `none` where
the source returns `nil` from inside the loop. -/
def parseRepeatLoop : Nat → Parser L → List Identifier →
    Res (Option (List Identifier × Node) × Parser L)
  | 0, _, _ => .timeout
  | fuel + 1, p, arguments =>
    if matchToken p [.Do, .NewLine, .Eof] then .ok (some ([], .absent), p)
    else
      match p.token.Typ with
      | .Comma => parseRepeatLoop fuel (nextToken env p) arguments
      | .In => do
        let p := nextToken env p
        let (enumerable, p) ← parseExpression fuel Lowest p
        match enumerable with
        | .absent => do
          let p ← parserError env fuel p "Missing enumerable in REPEAT loop"
          pure (none, p)
        | enumerable => pure (some (arguments, enumerable), p)
      | _ =>
        parseRepeatLoop fuel (nextToken env p) (arguments ++ [⟨p.token, p.token.Literal⟩])

/-- `Parser.parseRepeat`. -/
def parseRepeat : Nat → Parser L → Res (Node × Parser L)
  | 0, _ => .timeout
  | fuel + 1, p => do
    let tok := p.token
    let p := nextToken env p
    let (r, p) ← parseRepeatLoop fuel p []
    match r with
    | none => pure (.absent, p)
    | some (arguments, enumerable) =>
      let p := if peekTokenMatch p [.Do] then nextToken env p else p
      let (body, p) ← parseBlockBody fuel p
      if body.Statements.length = 0 then do
        let p ← parserError env fuel p "Empty body in REPEAT loop"
        pure (.absent, p)
      else if !matchToken p [.End] then do
        let p ← parserError env fuel p "Missing END closing statement in REPEAT loop"
        pure (.absent, p)
      else pure (.Repeat tok ⟨Token.zero, arguments⟩ enumerable body, p)

/-- The loop of `parseFunction` over the parameter list: the parameters, return type and
variadic flag read so far are passed along; the result is `none` where the source returns
`nil` from inside the loop. -/
def parseFunctionLoop : Nat → Parser L → List FunctionParameter → Option Identifier → Bool →
    Res (Option (List FunctionParameter × Option Identifier × Bool) × Parser L)
  | 0, _, _, _, _ => .timeout
  | fuel + 1, p, parameters, returnType, variadic =>
    if matchToken p [.Do, .NewLine] then .ok (some (parameters, returnType, variadic), p)
    else
      match p.token.Typ with
      | .LeftParenthesis | .RightParenthesis =>
        parseFunctionLoop fuel (nextToken env p) parameters returnType variadic
      | .Comma =>
        if variadic then do
          let p ← parserError env fuel p
            "Variadic argument in function should be the last parameter"
          pure (none, p)
        else parseFunctionLoop fuel (nextToken env p) parameters returnType variadic
      | .Ellipsis =>
        if variadic then do
          let p ← parserError env fuel p "Function expects only 1 variadic argument"
          pure (none, p)
        else if !peekTokenMatch p [.Identifier] then do
          let p ← parserError env fuel p "Variadic argument in function expects an identifier"
          pure (none, p)
        else parseFunctionLoop fuel (nextToken env p) parameters returnType true
      | .Eof => do
        let p ← parserError env fuel p "Missing body in function"
        pure (none, p)
      | .Arrow =>
        if peekTokenMatch p [.Identifier] then
          let p := nextToken env p
          parseFunctionLoop fuel (nextToken env p) parameters
            (some ⟨p.token, p.token.Literal⟩) variadic
        else do
          let p ← parserError env fuel p "Function expecting a return types"
          parseFunctionLoop fuel (nextToken env p) parameters returnType variadic
      | .Identifier =>
        let paramName : Identifier := ⟨p.token, p.token.Literal⟩
        if peekTokenMatch p [.Colon] then
          let p := nextToken env p
          if peekTokenMatch p [.Identifier] then
            let p := nextToken env p
            let paramType : Identifier := ⟨p.token, p.token.Literal⟩
            if peekTokenMatch p [.Assign] then do
              let p := nextToken env (nextToken env p)
              let (defaultValue, p) ← parseExpression fuel Lowest p
              parseFunctionLoop fuel (nextToken env p)
                (parameters ++ [.mk p.token paramName (some paramType) defaultValue])
                returnType variadic
            else
              parseFunctionLoop fuel (nextToken env p)
                (parameters ++ [.mk p.token paramName (some paramType) .absent])
                returnType variadic
          else do
            let p ← parserError env fuel p
              ("Function parameter '" ++ paramName.Value ++ "' expecting a types")
            pure (none, p)
        else if peekTokenMatch p [.Assign] then do
          let p := nextToken env (nextToken env p)
          let (defaultValue, p) ← parseExpression fuel Lowest p
          parseFunctionLoop fuel (nextToken env p)
            (parameters ++ [.mk p.token paramName none defaultValue]) returnType variadic
        else
          parseFunctionLoop fuel (nextToken env p)
            (parameters ++ [.mk p.token paramName none .absent]) returnType variadic
      | t => do
        let p ← parserError env fuel p
          ("Unexpected token '" ++ t.str ++ "' as function parameter")
        pure (none, p)

/-- `Parser.parseFunction`. -/
def parseFunction : Nat → Parser L → Res (Node × Parser L)
  | 0, _ => .timeout
  | fuel + 1, p => do
    let tok := p.token
    let p := nextToken env p
    let (r, p) ← parseFunctionLoop fuel p [] none false
    match r with
    | none => pure (.absent, p)
    | some (parameters, returnType, variadic) =>
      let (body, p) ← parseBlockBody fuel p
      if body.Statements.length = 0 then do
        let p ← parserError env fuel p "Empty body in function"
        pure (.absent, p)
      else if !matchToken p [.End] then do
        let p ← parserError env fuel p "Missing END statement in function"
        pure (.absent, p)
      else pure (.Function tok parameters body returnType variadic, p)

/-- `Parser.parseFunctionCall`. -/
def parseFunctionCall : Nat → Parser L → Node → Res (Node × Parser L)
  | 0, _, _ => .timeout
  | fuel + 1, p, function => do
    let tok := p.token
    let p := nextToken env p
    let (elements, p) ← parseDelimited fuel .Comma [.RightParenthesis] p
    pure (.FunctionCall tok function (.mk tok elements), p)

/-- The first loop of `parseArrayOrDictionary`: the elements read and the dictionary flag,
or `none` where the source returns `nil` from inside the loop. -/
def parseArrayLoop : Nat → Parser L → List Node → Bool →
    Res (Option (List Node × Bool) × Parser L)
  | 0, _, _, _ => .timeout
  | fuel + 1, p, list, isDictionary =>
    if matchToken p [.RightBracket] then .ok (some (list, isDictionary), p)
    else if matchToken p [.NewLine, .Eof] then do
      let p ← parserError env fuel p "Missing closing ']' in enumerable"
      pure (none, p)
    else if matchToken p [.FatArrow] then parseArrayLoop fuel (nextToken env p) list true
    else if matchToken p [.Comma] then parseArrayLoop fuel (nextToken env p) list isDictionary
    else do
      let (expression, p) ← parseExpression fuel Lowest p
      match expression with
      | .absent => pure (none, p)
      | expression => parseArrayLoop fuel (nextToken env p) (list ++ [expression]) isDictionary

/-- `Parser.parseArrayOrDictionary`. -/
def parseArrayOrDictionary : Nat → Parser L → Res (Node × Parser L)
  | 0, _ => .timeout
  | fuel + 1, p => do
    let p := nextToken env p
    let (r, p) ← parseArrayLoop fuel p [] false
    match r with
    | none => pure (.absent, p)
    | some (list, isDictionary) =>
      if !isDictionary then pure (.Array p.token (.mk Token.zero list), p)
      else if list.length % 2 = 1 then do
        let p ← parserError env fuel p "Dictionary expects elements as Key:Value"
        pure (.absent, p)
      else pure (.Dictionary p.token (dictionaryPairs list), p)

/-- `Parser.parseReturn`. -/
def parseReturn : Nat → Parser L → Res (Node × Parser L)
  | 0, _ => .timeout
  | fuel + 1, p => do
    let tok := p.token
    let p := nextToken env p
    let (value, p) ← parseExpression fuel Lowest p
    pure (.Return tok value, p)

/-- `Parser.parseSubscript`. -/
def parseSubscript : Nat → Parser L → Node → Res (Node × Parser L)
  | 0, _, _ => .timeout
  | fuel + 1, p, left =>
    let tok := p.token
    let p := nextToken env p
    if matchToken p [.RightBracket] then .ok (.Subscript tok left (.PlaceHolder p.token), p)
    else if matchToken p [.Underscore] then
      let p := nextToken env p
      .ok (.Subscript tok left (.PlaceHolder p.token), p)
    else do
      let (index, p) ← parseExpression fuel Lowest p
      if !peekTokenMatch p [.RightBracket] then do
        let p ← parserError env fuel p "Missing closing ] in subscript expression"
        pure (.absent, p)
      else pure (.Subscript tok left index, nextToken env p)

/-- `Parser.parsePipe`. -/
def parsePipe : Nat → Parser L → Node → Res (Node × Parser L)
  | 0, _, _ => .timeout
  | fuel + 1, p, left => do
    let tok := p.token
    let p := nextToken env p
    let (right, p) ← parseExpression fuel Pipe p
    pure (.Pipe tok left right, p)

/-- `Parser.parseArrowFunction`. -/
def parseArrowFunction : Nat → Parser L → Node → Res (Node × Parser L)
  | 0, _, _ => .timeout
  | fuel + 1, p, left =>
    let tok := p.token
    let parameters : Option (List FunctionParameter) :=
      match left with
      | .Identifier expressionType => some [.mk p.token expressionType none .absent]
      | .ExpressionList expressionType => arrowParameters p.token expressionType.Elements []
      | _ => none
    match parameters with
    | none =>
      match left with
      | .ExpressionList _ => do
        let p ← parserError env fuel p
          "Arrow function expects a list of identifiers as arguments"
        pure (.absent, p)
      | _ => do
        let p ← parserError env fuel p "Arrow function expects identifiers as arguments"
        pure (.absent, p)
    | some parameters => do
      let p := nextToken env p
      let (statement, p) ← parseExpressionStatement fuel p
      pure (.Function tok parameters (.mk Token.zero [statement]) none false, p)

/-- `Parser.parseAssign`. -/
def parseAssign : Nat → Parser L → Node → Res (Node × Parser L)
  | 0, _, _ => .timeout
  | fuel + 1, p, left =>
    let tok := p.token
    let operator := p.token.Literal
    let name : Option Node :=
      match left with
      | .Identifier identifier => some (.Identifier identifier)
      | .Subscript t (.Identifier l) i => some (.Subscript t (.Identifier l) i)
      | _ => none
    match name with
    | none => do
      let p ← parserError env fuel p "Assignment operator expects an identifier"
      pure (.absent, p)
    | some name => do
      let p := nextToken env p
      let (right, p) ← parseExpression fuel Lowest p
      match right with
      | .absent => pure (.absent, p)
      | right =>
        if operator = TType.PlusAssign.str ∨ operator = TType.MinusAssign.str ∨
            operator = TType.MultiplyAssign.str ∨ operator = TType.DivideAssign.str then
          pure (.Assign tok operator name
            (.InfixExpression p.token left (operator.take 1) right), p)
        else pure (.Assign tok operator name right, p)

/-- `Parser.parseTernary`. -/
def parseTernary : Nat → Parser L → Node → Res (Node × Parser L)
  | 0, _, _ => .timeout
  | fuel + 1, p, left => do
    let tok := p.token
    let p := nextToken env p
    let (thn, p) ← parseExpression fuel Lowest p
    match thn with
    | .absent => do
      let p ← parserError env fuel p "Missing THEN condition in ternary operator"
      pure (.absent, p)
    | thn =>
      let p := nextToken env p
      if !matchToken p [.Colon] then do
        let p ← parserError env fuel p "Ternary operator expects an else (:) expression"
        pure (.absent, p)
      else do
        let p := nextToken env p
        let (elseExpr, p) ← parseExpression fuel Lowest p
        match elseExpr with
        | .absent => do
          let p ← parserError env fuel p "Missing ELSE condition in ternary operator"
          pure (.absent, p)
        | elseExpr =>
          pure (.If tok left (.mk Token.zero [.ExpressionStatement Token.zero thn])
            (some (.mk Token.zero [.ExpressionStatement Token.zero elseExpr])), p)

/-- `Parser.parseDelimited`: the loop, with the list read so far passed along. -/
def parseDelimitedLoop : Nat → TType → List TType → Parser L → List Node →
    Res (List Node × Parser L)
  | 0, _, _, _, _ => .timeout
  | fuel + 1, delimiter, endTypes, p, list =>
    if matchToken p endTypes then .ok (list, p)
    else if p.token.Typ = delimiter then
      parseDelimitedLoop fuel delimiter endTypes (nextToken env p) list
    else if p.token.Typ = .NewLine ∨ p.token.Typ = .Eof then do
      let p ← parserError env fuel p
        ("Missing closing '" ++ sprintTypes endTypes ++ "' in parameter list")
      pure (list, p)
    else do
      let (elem, p) ← parseExpression fuel Lowest p
      match elem with
      | .absent => do
        let p ← parserError env fuel p
          ("Unexpected '" ++ p.token.Literal ++ "' in expression list")
        pure (list, p)
      | elem => parseDelimitedLoop fuel delimiter endTypes (nextToken env p) (list ++ [elem])

/-- `Parser.parseDelimited`. -/
def parseDelimited : Nat → TType → List TType → Parser L → Res (List Node × Parser L)
  | 0, _, _, _ => .timeout
  | fuel + 1, delimiter, endTypes, p => parseDelimitedLoop fuel delimiter endTypes p []

/-- `Parser.parseExpressionStatement`. -/
def parseExpressionStatement : Nat → Parser L → Res (Node × Parser L)
  | 0, _ => .timeout
  | fuel + 1, p => do
    let tok := p.token
    let (expression, p) ← parseExpression fuel Lowest p
    pure (.ExpressionStatement tok expression, p)

/-- The call `prefix()` of `parseExpression`, for each handler of the table. -/
def callPrefix : Nat → prefixParseFn → Parser L → Res (Node × Parser L)
  | 0, _, _ => .timeout
  | fuel + 1, fn, p =>
    match fn with
    | .parseVal => parseVal fuel p
    | .parseVar => parseVar fuel p
    | .parseModule => parseModule fuel p
    | .parseIf => parseIf fuel p
    | .parseMatch => parseMatch fuel p
    | .parseRepeat => parseRepeat fuel p
    | .parseFunction => parseFunction fuel p
    | .parseUse => parseUse env fuel p
    | .parseArrayOrDictionary => parseArrayOrDictionary fuel p
    | .parseIdentifier => .ok (parseIdentifier p)
    | .parseInteger => parseInteger env fuel p
    | .parseFloat => parseFloat env fuel p
    | .parseString => .ok (parseString p)
    | .parseBoolean => .ok (parseBoolean p)
    | .parseNil => .ok (parseNil p)
    | .parsePlaceHolder => .ok (parsePlaceHolder p)
    | .parseSymbol => parseSymbol env fuel p
    | .parsePrefix => parsePrefix fuel p
    | .parseGroup => parseGroup fuel p

/-- The call `infix(left)` of `parseExpression`, for each handler of the table. -/
def callInfix : Nat → infixParseFn → Parser L → Node → Res (Node × Parser L)
  | 0, _, _, _ => .timeout
  | fuel + 1, fn, p, left =>
    match fn with
    | .parseAssign => parseAssign fuel p left
    | .parseModuleAccess => parseModuleAccess env fuel p left
    | .parseFunctionCall => parseFunctionCall fuel p left
    | .parseSubscript => parseSubscript fuel p left
    | .parsePipe => parsePipe fuel p left
    | .parseArrowFunction => parseArrowFunction fuel p left
    | .parseTernary => parseTernary fuel p left
    | .parseIs => parseIs env fuel p left
    | .parseAs => parseAs env fuel p left
    | .parseInfix => parseInfix fuel p left
    | .parseInfixRight => parseInfixRight fuel p left

/-- The loop of `parseExpression`, entered with the expression read so far. -/
def parseExpressionLoop : Nat → Int → Node → Parser L → Res (Node × Parser L)
  | 0, _, _, _ => .timeout
  | fuel + 1, precedence, left, p =>
    if precedence < peekPrecedence p then
      match infixFunction p.peekToken.Typ with
      | none => .ok (left, p)
      | some fn => do
        let (left, p) ← callInfix fuel fn (nextToken env p) left
        parseExpressionLoop fuel precedence left p
    else .ok (left, p)

/-- `Parser.parseExpression`. -/
def parseExpression : Nat → Int → Parser L → Res (Node × Parser L)
  | 0, _, _ => .timeout
  | fuel + 1, precedence, p =>
    match prefixFunction p.token.Typ with
    | none => do
      let p ← parserError env fuel p ("Unexpected expression '" ++ p.token.Literal ++ "'")
      pure (.absent, p)
    | some fn => do
      let (left, p) ← callPrefix fuel fn p
      parseExpressionLoop fuel precedence left p

/-- `Parser.parseGroup`. -/
def parseGroup : Nat → Parser L → Res (Node × Parser L)
  | 0, _ => .timeout
  | fuel + 1, p => do
    let p := nextToken env p
    let (expression, p) ← parseExpression fuel Lowest p
    if peekTokenMatch p [.Comma] then do
      let p := nextToken env p
      let (rest, p) ← parseDelimited fuel .Comma [.RightParenthesis] p
      pure (.ExpressionList (.mk Token.zero ([expression] ++ rest)), p)
    else if !peekTokenMatch p [.RightParenthesis] then do
      let p ← parserError env fuel p "Missing closing ')' for grouped expression"
      pure (.absent, p)
    else pure (expression, nextToken env p)

/-- `Parser.parsePrefix`. -/
def parsePrefix : Nat → Parser L → Res (Node × Parser L)
  | 0, _ => .timeout
  | fuel + 1, p => do
    let tok := p.token
    let operator := p.token.Literal
    let p := nextToken env p
    let (right, p) ← parseExpression fuel Prefix p
    pure (.PrefixExpression tok operator right, p)

/-- `Parser.parseInfix`. -/
def parseInfix : Nat → Parser L → Node → Res (Node × Parser L)
  | 0, _, _ => .timeout
  | fuel + 1, p, left => do
    let tok := p.token
    let operator := p.token.Literal
    let precedence := precedence p
    let p := nextToken env p
    let (right, p) ← parseExpression fuel precedence p
    pure (.InfixExpression tok left operator right, p)

/-- `Parser.parseInfixRight`. -/
def parseInfixRight : Nat → Parser L → Node → Res (Node × Parser L)
  | 0, _, _ => .timeout
  | fuel + 1, p, left => do
    let tok := p.token
    let operator := p.token.Literal
    let precedence := precedence p
    let p := nextToken env p
    let (right, p) ← parseExpression fuel (precedence - 1) p
    pure (.InfixExpression tok left operator right, p)

/-- The loop of `parseBlockBody`. -/
def parseBlockBodyLoop : Nat → Parser L → List Node → Res (List Node × Parser L)
  | 0, _, _ => .timeout
  | fuel + 1, p, statements =>
    if matchToken p [.End, .Eof] then .ok (statements, p)
    else do
      let (statement, p) ← parseStatement fuel p
      let statements := match statement with
        | .absent => statements
        | st => statements ++ [st]
      parseBlockBodyLoop fuel (nextToken env p) statements

/-- `Parser.parseBlockBody`. -/
def parseBlockBody : Nat → Parser L → Res (BlockStatement × Parser L)
  | 0, _ => .timeout
  | fuel + 1, p => do
    let tok := p.token
    let p := nextToken env p
    let (statements, p) ← parseBlockBodyLoop fuel p []
    pure (.mk tok statements, p)

end

/-- The loop of `Parse`. -/
def ParseLoop : Nat → Parser L → List Node → Res (List Node × Parser L)
  | 0, _, _ => .timeout
  | fuel + 1, p, statements =>
    if matchToken p [.Eof] then .ok (statements, p)
    else do
      let (statement, p) ← parseStatement env fuel p
      let statements := match statement with
        | .absent => statements
        | st => statements ++ [st]
      ParseLoop fuel (nextToken env p) statements

/-- `Parser.Parse`. -/
def Parse (fuel : Nat) (p : Parser L) : Res (Node × Parser L) := do
  let (statements, p) ← ParseLoop env fuel p []
  pure (.Program statements, p)

end

/-! ### Token streams

The parser reads its lexer only through `NextToken`.  The theorems about the parser run it
on a lexer state that hands out the tokens of a given list and then, as the lexer does at the
end of its input, a token of type `Eof` on every further call. -/

/-- A lexer state: the tokens still to be handed out and the token handed out once they are
used up. -/
structure TokenStream where
  tokens : List Token
  eof : Token

/-- `NextToken` on a `TokenStream`. -/
def TokenStream.NextToken (l : TokenStream) : Token × TokenStream :=
  match l.tokens with
  | [] => (l.eof, l)
  | t :: ts => (t, ⟨ts, l.eof⟩)

/-- The parser's environment over a `TokenStream`, for any `strconv` functions. -/
def streamEnv (ParseInt : String → Nat → Option Int) (ParseFloat : String → Option Float64) :
    Env TokenStream :=
  ⟨TokenStream.NextToken, ParseInt, ParseFloat⟩

/-- The parser state in which `cur` is the current token and the tokens `rest`, followed by
`eof` for ever, are the ones that come next (the first of them is the peek token). -/
def positioned (cur : Token) (rest : List Token) (eof : Token)
    (errors : List rerror.Entry) : Parser TokenStream :=
  match rest with
  | [] => ⟨⟨[], eof⟩, cur, eof, errors⟩
  | t :: ts => ⟨⟨ts, eof⟩, cur, t, errors⟩

/-- The precedence `peekPrecedence` finds for a token type. -/
def precedenceOf (t : TType) : Int :=
  match precedences t with
  | some v => v
  | none => Lowest

/-- An operand that binds tighter than the boolean operators: a non-empty run of tokens
`ts`, whose first token starts an expression, which `parseExpression` reads as the expression
`A` whenever it is called at a precedence from `Lowest` up to `Boolean` and the token after
the run has a precedence up to `Boolean` (`&&`, `||`, the end of the input, ...).  Reading it "as `A`"
means: the call reaches its loop with `A` as the left expression, the last token of the run
as current token, nothing reported and the rest of the input untouched.  The numbers `k` and
`j` are the fuel the model needs before and after that point. -/
def Operand (env : Env TokenStream) (ts : List Token) (A : Node) : Prop :=
  ∃ first more last, ts = first :: more ∧ ts.getLast? = some last ∧
    (prefixFunction first.Typ).isSome = true ∧
    ∃ k j : Nat, ∀ (fuel : Nat) (prec : Int) (rest : List Token) (eof : Token)
      (errors : List rerror.Entry),
      eof.Typ = .Eof → Lowest ≤ prec → prec ≤ Boolean →
      (∀ next, rest.head? = some next → precedenceOf next.Typ ≤ Boolean) →
      parseExpression env (fuel + k) prec (positioned first (more ++ rest) eof errors) =
        parseExpressionLoop env (fuel + j) prec A (positioned last rest eof errors)

end parser
/-! ## runtime/types.go: the type tags -/

namespace runtime

/-- The method `Type` of every value type; calling it on the `nil` interface faults
(`none`). -/
def Data.Type : Data → Option Str
  | .absent => none
  | .TBoolean _ => some "Boolean"
  | .TString _ => some "String"
  | .TInteger _ => some "Integer"
  | .TFloat _ => some "Float"
  | .TArray _ => some "Array"
  | .TDictionary _ => some "Dictionary"
  | .TSymbol _ => some "Symbol"
  | .TPlaceHolder => some "PlaceHolder"
  | .TNil => some "Nil"
  | .TFunction _ _ _ _ _ => some "Function"
  | .TModule _ _ => some "Module"
  | .TBreak => some "Break"
  | .TContinue => some "Continue"
  | .TReturn _ => some "Return"

end runtime

/-! ## interpreter/interpreter.go -/

namespace interpreter

open ast runtime

/-- The map read `value, ok := m[name]` on a `map[string]V`. -/
def mapGet {V : Type} : List (String × V) → String → Option V
  | [], _ => none
  | (k, v) :: rest, name => if k = name then some v else mapGet rest name

/-- The map write `m[name] = value` on a `map[string]V`. -/
def mapSet {V : Type} : List (String × V) → String → V → List (String × V)
  | [], name, value => [(name, value)]
  | (k, v) :: rest, name, value =>
    if k = name then (k, value) :: rest else (k, v) :: mapSet rest name value

/-- The struct `interpreter.Interpreter`.  A module is kept as the two fields of its
`runtime.TModule`. -/
structure Interpreter where
  modules : List (String × (Identifier × BlockStatement))
  moduleCache : List (String × List (String × Data))
  useCache : List (String × Data)
  immutable : List (String × Identifier)
  useStdlib : Bool

/-- `interpreter.New`. -/
def New : Interpreter := ⟨[], [], [], [], false⟩

/-- What a call of a method of the interpreter works on: the interpreter `i`, the scope
`sc` it is called with (with its ancestors), and the list `errors` of `rerror`. -/
structure State where
  i : Interpreter
  sc : Scope
  errors : List rerror.Entry

/-- What the methods embedded here call and this development does not embed: the
dispatching method `Interpreter.Interpreter`, which they call on their sub-expressions, and
the `Check` methods of the runtime values (`none` where the call faults). -/
structure Ops where
  Interpreter : Node → State → Res (Data × State)
  Check : Data → Option String

/-- `Interpreter.interpreterError`, given the position of the node it is called with. -/
def interpreterError (st : State) (position : Position) (msg : String) : State :=
  { st with errors := rerror.Error st.errors .Runtime position msg }

/-- `Interpreter.checkArrayBounds`: the index, or the message of the error. -/
def checkArrayBounds (array : List Data) (index : Int) : Except String Int :=
  let originalIdx := index
  let index := if index < 0 then (array.length : Int) + index else index
  if index < 0 ∨ index > (array.length : Int) - 1 then
    .error ("Array index '" ++ toString originalIdx ++ "' out of bounds")
  else .ok index

/-- The bytes of a Go string, which are the UTF-8 encoding of its characters. -/
def bytes (s : String) : List Nat :=
  s.toUTF8.data.toList.map UInt8.toNat

/-- `Interpreter.checkStringBounds`: the index, or the message of the error.  `len(str)` is
the number of bytes of the string. -/
def checkStringBounds (str : String) (index : Int) : Except String Int :=
  let originalIdx := index
  let index := if index < 0 then (str.utf8ByteSize : Int) + index else index
  if index < 0 ∨ index > (str.utf8ByteSize : Int) - 1 then
    .error ("String index '" ++ toString originalIdx ++ "' out of bounds")
  else .ok index

/-- The loop of the dictionary case of `AssignSubscript`: the pairs after the first key
whose `Check()` equals that of the index got the value, or `none` when no key does.  The
source ranges over a map, in no fixed order; the model takes the order of the list. -/
def assignDictionary (check : Data → Option String) (index value : Data) :
    List (Data × Data) → Res (Option (List (Data × Data)))
  | [] => .ok none
  | (k, v) :: rest =>
    match check k, check index with
    | some ck, some ci =>
      if ck = ci then .ok (some ((k, value) :: rest))
      else
        match assignDictionary check index value rest with
        | .ok (some rest') => .ok (some ((k, v) :: rest'))
        | .ok none => .ok none
        | .fault => .fault
        | .timeout => .timeout
    | _, _ => .fault

/-- `Interpreter.AssignSubscript`, given the index expression of the subscript: the pair
`(Data, error)` it returns, as the value or the message of the error, and the state after
the call.  The source writes into the array or the dictionary `original` and returns it;
here, where an array and a dictionary are values, the written one is returned as a new
value, and `original` is what the object held when `Assign` read it: a write made to the
same object while the right-hand side or the index is evaluated, or through another name,
is not seen.  The string case splices the characters of the string, which is the splice of
the bytes that the source makes when the string written to is ASCII. -/
def AssignSubscript (ops : Ops) (nsIndex : Node) (original value : Data) (st : State) :
    Res (Except String Data × State) := do
  let (index, st) ← ops.Interpreter nsIndex st
  match index with
  | .absent => pure (.ok .absent, st)
  | index =>
    match original with
    | .absent => .fault
    | .TString str =>
      match index with
      | .TInteger idx =>
        match value with
        | .absent => .fault
        | .TString value =>
          match checkStringBounds str idx with
          | .error err => pure (.error err, st)
          | .ok idx =>
            pure (.ok (.TString (str.take idx.toNat ++ value ++ str.drop (idx.toNat + 1))), st)
        | _ => pure (.error "Subscript assignment not recognized", st)
      | .TPlaceHolder => .fault
      | _ => pure (.error "Subscript assignment not recognized", st)
    | .TArray elements =>
      match index with
      | .TInteger idx =>
        match checkArrayBounds elements idx with
        | .error err => pure (.error err, st)
        | .ok idx => pure (.ok (.TArray (elements.set idx.toNat value)), st)
      | .TPlaceHolder => pure (.ok (.TArray (elements ++ [value])), st)
      | _ => pure (.error "Subscript assignment not recognized", st)
    | .TDictionary pairs =>
      match index with
      | .TPlaceHolder => .fault
      | index =>
        match assignDictionary ops.Check index value pairs with
        | .ok (some pairs') => pure (.ok (.TDictionary pairs'), st)
        | .ok none => pure (.ok (.TDictionary (pairs ++ [(index, value)])), st)
        | .fault => .fault
        | .timeout => .timeout
    | _ =>
      match index with
      | .TPlaceHolder => .fault
      | _ => pure (.error "Subscript assignment not recognized", st)

/-- `Interpreter.Val`, on the fields of the node `nl` (its token gives the position of the
errors). -/
def Val (ops : Ops) (Token : Token) (Name : Identifier) (Value : Node) (st : State) :
    Res (Data × State) := do
  let (data, st) ← ops.Interpreter Value st
  match data with
  | .absent => pure (.absent, st)
  | data =>
    match st.sc.Read Name.Value with
    | some _ =>
      pure (.absent, interpreterError st Token.Position
        ("Identifier '" ++ Name.Value ++ "' already declared"))
    | none =>
      let sc := st.sc.Write Name.Value data
      let immutable :=
        match mapGet st.i.immutable Name.Value with
        | some _ => st.i.immutable
        | none => mapSet st.i.immutable Name.Value Name
      pure (data, { st with sc := sc, i := { st.i with immutable := immutable } })

/-- `Interpreter.Var`, on the fields of the node `nv`. -/
def Var (ops : Ops) (Token : Token) (Name : Identifier) (Value : Node) (st : State) :
    Res (Data × State) := do
  let (data, st) ← ops.Interpreter Value st
  match data with
  | .absent => pure (.absent, st)
  | data =>
    match st.sc.Read Name.Value with
    | some _ =>
      pure (.absent, interpreterError st Token.Position
        ("Identifier '" ++ Name.Value ++ "' already declared"))
    | none => pure (data, { st with sc := st.sc.Write Name.Value data })

/-- The name `Assign` assigns to: the value of the identifier, or of the identifier on the
left of the subscript (a fault when the left of the subscript is not an identifier), and the
empty string for any other target. -/
def assignName : Node → Res String
  | .Identifier naType => .ok naType.Value
  | .Subscript _ (.Identifier left) _ => .ok left.Value
  | .Subscript _ _ _ => .fault
  | _ => .ok ""

/-- `Interpreter.Assign`, on the fields of the node `na` that it reads (it does not read
`Operator`). -/
def Assign (ops : Ops) (Token : Token) (Name : Node) (Right : Node) (st : State) :
    Res (Data × State) := do
  let name ← assignName Name
  match st.sc.Read name with
  | none =>
    pure (.absent, interpreterError st Token.Position
      ("Identifier '" ++ name ++ "' not found in current memory"))
  | some original =>
    match mapGet st.i.immutable name with
    | some _ =>
      pure (.absent, interpreterError st Token.Position
        ("Identifier '" ++ name ++ "' is immutable"))
    | none => do
      let (data, st) ← ops.Interpreter Right st
      match data with
      | .absent => pure (.absent, st)
      | data =>
        let r : Res (Option Data × State) :=
          match Name with
          | .Subscript _ _ index => do
            let (res, st) ← AssignSubscript ops index original data st
            match res with
            | .error err => pure (none, interpreterError st Token.Position err)
            | .ok data => pure (some data, st)
          | _ => pure (some data, st)
        let (data, st) ← r
        match data with
        | none => pure (.absent, st)
        | some data =>
          match data.Type, original.Type with
          | some dataType, some originalType =>
            if dataType ≠ originalType then
              pure (.absent, interpreterError st Token.Position
                ("Variable assignment should keep the original data type '"
                  ++ originalType ++ "'"))
            else pure (data, { st with sc := st.sc.Update name data })
          | _, _ => .fault

/-- An instance of `Ops` to run closed examples with: the cases of
`Interpreter.Interpreter` for boolean, string and integer literals in an interpreter that has
loaded its standard library (the value of the literal, the state as it was), and `nil` for
every other node. -/
def literalOps : Ops where
  Interpreter := fun n st =>
    match n with
    | .Boolean _ v => .ok (.TBoolean v, st)
    | .String s => .ok (.TString s.Value, st)
    | .Integer _ v => .ok (.TInteger v, st)
    | _ => .ok (.absent, st)
  Check := fun _ => none

end interpreter

/-! ## runtime/types.go: the canonical forms -/

namespace runtime

mutual
/-- The method `Check` of every value type.  The forms this development does not compute
(that of a `TFloat`, made by the verb `%f`, and those of a `TFunction` and a `TModule`, made
by the `Check` methods of the nodes) are given by `other`.  Calling it on the `nil`
interface faults (`none`).  The pairs of a dictionary are taken in the order of the list. -/
def Data.Check (other : Data → Option Str) : Data → Option Str
  | .absent => none
  | .TBoolean v => some (if v then "true" else "false")
  | .TString v => some v
  | .TInteger v => some (toString v)
  | .TFloat v => other (.TFloat v)
  | .TArray es =>
    match Data.checkElements other es with
    | some l => some ("[" ++ ", ".intercalate l ++ "]")
    | none => none
  | .TDictionary ps =>
    match Data.checkPairs other ps with
    | some l => some ("[" ++ ", ".intercalate l ++ "]")
    | none => none
  | .TSymbol v => some (":" ++ v)
  | .TPlaceHolder => some "PlaceHolder"
  | .TNil => some "nil"
  | .TFunction p b r v s => other (.TFunction p b r v s)
  | .TModule n b => other (.TModule n b)
  | .TBreak => some "Break"
  | .TContinue => some "Continue"
  | .TReturn v => Data.Check other v
/-- The loop of `TArray.Check`. -/
def Data.checkElements (other : Data → Option Str) : List Data → Option (List Str)
  | [] => some []
  | e :: rest =>
    match Data.Check other e, Data.checkElements other rest with
    | some c, some l => some (c :: l)
    | _, _ => none
/-- The loop of `TDictionary.Check`. -/
def Data.checkPairs (other : Data → Option Str) : List (Data × Data) → Option (List Str)
  | [] => some []
  | (key, value) :: rest =>
    match Data.Check other key, Data.Check other value, Data.checkPairs other rest with
    | some k, some v, some l => some ((k ++ " => " ++ v) :: l)
    | _, _, _ => none
end

end runtime

/-! ## interpreter/interpreter.go: the methods that evaluate nodes -/

namespace interpreter

open ast runtime

/-- The conversion `int64(x)` of an integer that is the mathematical result of an operation
on `int64` operands: the value the 64 bits hold. -/
def wrap64 (x : Int) : Int := (x + 2 ^ 63) % 2 ^ 64 - 2 ^ 63

/-- What the code compares a `float64` with `0.0` for: every bit but the sign bit is
clear. -/
def isZeroFloat (f : Float64) : Bool := decide (f.bits % 2 ^ 63 = 0)

namespace Interpreter

/-- `Interpreter.nativeToBoolean`. -/
def nativeToBoolean (value : Bool) : Data := .TBoolean value

/-- `Interpreter.shouldBreakImmediately`; a fault (`none`) on the `nil` interface. -/
def shouldBreakImmediately (data : Data) : Option Bool :=
  match data.Type with
  | none => none
  | some t => some (t = "Break" || t = "Continue" || t = "Return")

/-- `Interpreter.unwrapReturnValue`. -/
def unwrapReturnValue : Data → Data
  | .TReturn value => value
  | data => data

/-- `Interpreter.isType`. -/
def isType : Data → Bool
  | .TBoolean value => value
  | .TString value => value != ""
  | .TInteger value => value != 0
  | .TFloat value => !isZeroFloat value
  | .TArray elements => decide (elements.length > 0)
  | .TDictionary pairs => decide (pairs.length > 0)
  | .TSymbol _ => true
  | .TNil => false
  | _ => false

/-- `Interpreter.checkSupportedType`. -/
def checkSupportedType (t : String) : Bool :=
  t = "Boolean" || t = "String" || t = "Integer" || t = "Float" || t = "Array"
    || t = "Dictionary" || t = "Symbol" || t = "Function"

/-- `Interpreter.checkTypeMatch`: `none` for no error, or the message of the error. -/
def checkTypeMatch (actual expected : String) : Option String :=
  if !checkSupportedType actual then
    some ("Unknown type '" ++ actual ++ "' in function parameter")
  else if actual ≠ expected then
    some ("Function asks for type '" ++ expected ++ "' but got '" ++ actual ++ "'")
  else none

/-- `Interpreter.stringToArray`. -/
def stringToArray (str : String) : List Data :=
  str.data.map fun s => .TString (String.singleton s)

/-- How a method evaluates a node with `runtime.NewScopeFrom(sc)`: the node runs in a new
frame whose parent is the scope of the caller, and the caller goes on with that parent as
the run left it. -/
def inNewScope (ops : Ops) (n : Node) (st : State) : Res (Data × State) := do
  let (result, st') ← ops.Interpreter n { st with sc := NewScopeFrom st.sc }
  pure (result, { st' with sc := st'.sc.parent.getD st.sc })

/-- The loop of `Interpreter.Program`. -/
def programLoop (ops : Ops) : List Node → Data → State → Res (Data × State)
  | [], result, st => pure (result, st)
  | statement :: rest, _, st => do
    let (result, st) ← ops.Interpreter statement st
    programLoop ops rest result st

/-- `Interpreter.Program`. -/
def Program (ops : Ops) (Statements : List Node) (st : State) : Res (Data × State) :=
  programLoop ops Statements .absent st

/-- The loop of `Interpreter.BlockStatement`. -/
def blockLoop (ops : Ops) : List Node → Data → State → Res (Data × State)
  | [], result, st => pure (result, st)
  | statement :: rest, _, st => do
    let (result, st) ← ops.Interpreter statement st
    match result with
    | .absent => pure (.absent, st)
    | result =>
      match shouldBreakImmediately result with
      | none => .fault
      | some true => pure (result, st)
      | some false => blockLoop ops rest result st

/-- `Interpreter.BlockStatement`. -/
def BlockStatement (ops : Ops) (nb : ast.BlockStatement) (st : State) : Res (Data × State) :=
  blockLoop ops nb.Statements .absent st

/-- `Interpreter.Identifier`. -/
def Identifier (ni : ast.Identifier) (st : State) : Data × State :=
  match st.sc.Read ni.Value with
  | some data => (data, st)
  | none =>
    (.absent, interpreterError st ni.Token.Position
      ("Identifier '" ++ ni.Value ++ "' not found in current memory"))

/-- The loop of `Interpreter.Array`. -/
def arrayLoop (ops : Ops) : List Node → List Data → State → Res (List Data × State)
  | [], result, st => pure (result, st)
  | element :: rest, result, st => do
    let (value, st) ← ops.Interpreter element st
    arrayLoop ops rest (result ++ [value]) st

/-- `Interpreter.Array`. -/
def Array (ops : Ops) (List : ast.ExpressionList) (st : State) : Res (Data × State) := do
  let (result, st) ← arrayLoop ops List.Elements [] st
  pure (.TArray result, st)

/-- `Interpreter.If`. -/
def If (ops : Ops) (Condition : Node) (Then : ast.BlockStatement)
    (Else : Option ast.BlockStatement) (st : State) : Res (Data × State) := do
  let (condition, st) ← ops.Interpreter Condition st
  if isType condition then inNewScope ops (.Block Then) st
  else
    match Else with
    | some e => inNewScope ops (.Block e) st
    | none => pure (.TNil, st)

/-- The loop of `Interpreter.MatchWhen` over the values of one `when`, which is `ws` with
`count` values: `true` when the loop returns `ws`, `false` when it ends, or the message of
the error it returns. -/
def matchWhenLoop (ops : Ops) (control : Data) (count : Nat) :
    List Node → Nat → Nat → State → Res (Except String Bool × State)
  | [], _, _, st => pure (.ok false, st)
  | element :: rest, index, matched, st => do
    let (parameter, st) ← ops.Interpreter element st
    match parameter.Type, control.Type with
    | some parameterType, some controlType =>
      if parameterType = controlType then
        match ops.Check parameter, ops.Check control with
        | some pc, some cc =>
          if pc = cc then pure (.ok true, st)
          else matchWhenLoop ops control count rest (index + 1) matched st
        | _, _ => .fault
      else if controlType = "Array" then
        match control with
        | .TArray arrayData =>
          if count ≠ arrayData.length then
            matchWhenLoop ops control count rest (index + 1) matched st
          else
            match arrayData.get? index with
            | none => .fault
            | some arrayElement =>
              match arrayElement.Type with
              | none => .fault
              | some elementType =>
                let same : Res Bool :=
                  if parameterType = elementType then
                    match ops.Check parameter, ops.Check arrayElement with
                    | some pc, some ec => .ok (decide (pc = ec))
                    | _, _ => .fault
                  else .ok false
                match same with
                | .ok same =>
                  if same || parameterType = "PlaceHolder" then
                    if matched + 1 = arrayData.length then pure (.ok true, st)
                    else matchWhenLoop ops control count rest (index + 1) (matched + 1) st
                  else matchWhenLoop ops control count rest (index + 1) matched st
                | .fault => .fault
                | .timeout => .timeout
        | _ => .fault
      else if parameterType = "Symbol" ∧ controlType = "String" then
        match parameter, control with
        | .TSymbol p, .TString c =>
          if p = c then pure (.ok true, st)
          else matchWhenLoop ops control count rest (index + 1) matched st
        | _, _ => .fault
      else
        pure (.error ("Type '" ++ parameterType
          ++ "' can't be used in a match when with control type '" ++ controlType ++ "'"), st)
    | _, _ => .fault

/-- `Interpreter.MatchWhen`: the pair `(*ast.MatchWhen, error)` it returns, as the `when`
(`none` for `nil`) or the message of the error, and the state after the call. -/
def MatchWhen (ops : Ops) :
    List ast.MatchWhen → Data → State → Res (Except String (Option ast.MatchWhen) × State)
  | [], _, st => pure (.ok none, st)
  | .mk t values body :: rest, control, st => do
    let (r, st) ← matchWhenLoop ops control values.Elements.length values.Elements 0 0 st
    match r with
    | .error err => pure (.error err, st)
    | .ok true => pure (.ok (some (.mk t values body)), st)
    | .ok false => MatchWhen ops rest control st

/-- The value `control` of `Interpreter.Match`: `runtime.Yes` for a `match` without a
control, else what the control evaluates to. -/
def matchControl (ops : Ops) (Control : Node) (st : State) : Res (Data × State) :=
  match Control with
  | .absent => pure (.TBoolean true, st)
  | Control => ops.Interpreter Control st

/-- `Interpreter.Match`, on the fields of the node `nm`. -/
def Match (ops : Ops) (Token : Token) (Control : Node) (Whens : List ast.MatchWhen)
    (Else : Option ast.BlockStatement) (st : State) : Res (Data × State) := do
  let (control, st) ← matchControl ops Control st
  match control with
  | .absent =>
    pure (.absent, interpreterError st Token.Position
      "Match control expression couldn't be interpreted")
  | control => do
    let (theWhen, st) ← MatchWhen ops Whens control st
    match theWhen with
    | .error err => pure (.absent, interpreterError st Token.Position err)
    | .ok (some (.mk _ _ body)) => inNewScope ops (.Block body) st
    | .ok none =>
      match Else with
      | some e => inNewScope ops (.Block e) st
      | none => pure (.absent, st)

/-- What the three loops of `Repeat` do with the result of the body: `none` to return
`nil`, or the step to take. -/
inductive LoopStep where
  | stop
  | skip
  | leave (result : Data)
  | collect (result : Data)

/-- The tests the three loops of `Repeat` make on the result of the body. -/
def loopStep : Data → Option LoopStep
  | .absent => none
  | .TBreak => some .stop
  | .TContinue => some .skip
  | .TReturn value => some (.leave (.TReturn value))
  | result => some (.collect result)

/-- `Interpreter.RepeatInfinite`, with `fuel` bounding the number of iterations. -/
def RepeatInfinite (ops : Ops) (Body : ast.BlockStatement) :
    Nat → List Data → State → Res (Data × State)
  | 0, _, _ => .timeout
  | fuel + 1, out, st => do
    let (result, st) ← inNewScope ops (.Block Body) st
    match loopStep result with
    | none => pure (.absent, st)
    | some .stop => pure (.TArray out, st)
    | some .skip => RepeatInfinite ops Body fuel out st
    | some (.leave result) => pure (result, st)
    | some (.collect result) => RepeatInfinite ops Body fuel (out ++ [result]) st

/-- The loop of `Interpreter.ForArray` over the elements from position `index` on.  The
arguments are written to the scope of the caller, which is the parent of the new frame
the body runs in.  The source ranges over the slice `array.Elements` and reads an element
when its iteration begins; the list here holds the elements as they were when the loop
began, which are those the source reads when no iteration writes to the array. -/
def forArrayLoop (ops : Ops) (Token : Token) (Arguments : IdentifierList)
    (Body : ast.BlockStatement) : List Data → Nat → List Data → State → Res (Data × State)
  | [], _, out, st => pure (.TArray out, st)
  | value :: rest, index, out, st =>
    let sc : Option Scope :=
      match Arguments.Elements with
      | [a] => some (st.sc.Write a.Value value)
      | [a, b] => some ((st.sc.Write a.Value (.TInteger index)).Write b.Value value)
      | _ => none
    match sc with
    | none =>
      pure (.absent, interpreterError st Token.Position
        "A for loop with an array expects at most 2 arguments")
    | some sc => do
      let (result, st) ← inNewScope ops (.Block Body) { st with sc := sc }
      match loopStep result with
      | none => pure (.absent, st)
      | some .stop => pure (.TArray out, st)
      | some .skip => forArrayLoop ops Token Arguments Body rest (index + 1) out st
      | some (.leave result) => pure (result, st)
      | some (.collect result) =>
        forArrayLoop ops Token Arguments Body rest (index + 1) (out ++ [result]) st

/-- `Interpreter.ForArray`, on the fields of the node `nr` and the elements of `array`. -/
def ForArray (ops : Ops) (Token : Token) (Arguments : IdentifierList)
    (Body : ast.BlockStatement) (array : List Data) (st : State) : Res (Data × State) :=
  forArrayLoop ops Token Arguments Body array 0 [] st

/-- The loop of `Interpreter.ForDictionary`, over the pairs in the order of the list, as
they were when the loop began. -/
def forDictionaryLoop (ops : Ops) (Token : Token) (Arguments : IdentifierList)
    (Body : ast.BlockStatement) : List (Data × Data) → List Data → State → Res (Data × State)
  | [], out, st => pure (.TArray out, st)
  | (pair, value) :: rest, out, st =>
    let sc : Option Scope :=
      match Arguments.Elements with
      | [a] => some (st.sc.Write a.Value value)
      | [a, b] => some ((st.sc.Write a.Value pair).Write b.Value value)
      | _ => none
    match sc with
    | none =>
      pure (.absent, interpreterError st Token.Position
        "A for loop with a dictionary expects at most 2 arguments")
    | some sc => do
      let (result, st) ← inNewScope ops (.Block Body) { st with sc := sc }
      match loopStep result with
      | none => pure (.absent, st)
      | some .stop => pure (.TArray out, st)
      | some .skip => forDictionaryLoop ops Token Arguments Body rest out st
      | some (.leave result) => pure (result, st)
      | some (.collect result) =>
        forDictionaryLoop ops Token Arguments Body rest (out ++ [result]) st

/-- `Interpreter.ForDictionary`. -/
def ForDictionary (ops : Ops) (Token : Token) (Arguments : IdentifierList)
    (Body : ast.BlockStatement) (dictionary : List (Data × Data)) (st : State) :
    Res (Data × State) :=
  forDictionaryLoop ops Token Arguments Body dictionary [] st

/-- `Interpreter.Repeat`, on the fields of the node `nr`; `fuel` bounds the iterations of
the loop without an enumerable. -/
def Repeat (ops : Ops) (fuel : Nat) (Token : Token) (Arguments : IdentifierList)
    (Enumerable : Node) (Body : ast.BlockStatement) (st : State) : Res (Data × State) :=
  match Enumerable with
  | .absent => RepeatInfinite ops Body fuel [] st
  | Enumerable => do
    let (enumData, st) ← ops.Interpreter Enumerable st
    match enumData with
    | .absent => pure (.absent, st)
    | .TString value => ForArray ops Token Arguments Body (stringToArray value) st
    | .TArray elements => ForArray ops Token Arguments Body elements st
    | .TDictionary pairs => ForDictionary ops Token Arguments Body pairs st
    | .TSymbol value => ForArray ops Token Arguments Body (stringToArray value) st
    | enumData =>
      match enumData.Type with
      | some t =>
        pure (.absent, interpreterError st Token.Position
          ("Type " ++ t ++ " is not an enumerable"))
      | none => .fault

/-- A function of `runtime.FnRuntime`: given the arguments, the pair `(Data, error)` it
returns.  What such a function prints or reads is not modelled. -/
abbrev TRuntimeFn := List Data → Res (Except String Data)

/-- The loop of `Interpreter.RuntimeFunction` over the arguments of the call. -/
def runtimeArguments (ops : Ops) : List Node → List Data → State → Res (List Data × State)
  | [], args, st => pure (args, st)
  | element :: rest, args, st => do
    let (value, st) ← ops.Interpreter element st
    match value with
    | .absent => runtimeArguments ops rest args st
    | value => runtimeArguments ops rest (args ++ [value]) st

/-- `Interpreter.RuntimeFunction`. -/
def RuntimeFunction (ops : Ops) (Token : Token) (Arguments : ast.ExpressionList)
    (fn : TRuntimeFn) (st : State) : Res (Data × State) := do
  let (args, st) ← runtimeArguments ops Arguments.Elements [] st
  let r ← fn args
  match r with
  | .error err => pure (.absent, interpreterError st Token.Position err)
  | .ok data => pure (data, st)

/-- The check `checkTypeMatch(value.Type(), paramType.Value)` that `Function` makes when the
type `paramType` is given: `none` for no error. -/
def typeError (value : Data) (paramType : Option ast.Identifier) : Res (Option String) :=
  match paramType with
  | none => .ok none
  | some paramType =>
    match value.Type with
    | some actual => .ok (checkTypeMatch actual paramType.Value)
    | none => .fault

/-- The first loop of `Interpreter.Function`, over the parameters: the scope `fnScope` and
the count `defaultCount` after it, or `none` where the loop returns `nil`. -/
def defaultsLoop (ops : Ops) (Token : Token) :
    List FunctionParameter → Scope → Int → State → Res (Option (Scope × Int) × State)
  | [], fnScope, defaultCount, st => pure (some (fnScope, defaultCount), st)
  | .mk _ name typ dflt :: rest, fnScope, defaultCount, st =>
    match dflt with
    | .absent => defaultsLoop ops Token rest fnScope defaultCount st
    | dflt => do
      let (value, st) ← ops.Interpreter dflt st
      match value with
      | .absent => pure (none, st)
      | value => do
        let err ← typeError value typ
        match err with
        | some err => pure (none, interpreterError st Token.Position err)
        | none =>
          defaultsLoop ops Token rest (fnScope.Write name.Value value) (defaultCount + 1) st

/-- The second loop of `Interpreter.Function`, over the arguments of the call: the scope
`fnScope` and the slice `arguments` after it, or `none` where the loop returns `nil`. -/
def argumentsLoop (ops : Ops) (Token : Token) (Parameters : List FunctionParameter)
    (Variadic : Bool) (countParams : Int) :
    List Node → Nat → Scope → List Data → State → Res (Option (Scope × List Data) × State)
  | [], _, fnScope, arguments, st => pure (some (fnScope, arguments), st)
  | element :: rest, index, fnScope, arguments, st => do
    let (value, st) ← ops.Interpreter element st
    match value with
    | .absent => pure (none, st)
    | value =>
      let variadic := Variadic && decide ((index : Int) ≥ countParams)
      let param :=
        if variadic then
          (if countParams < 0 then none else Parameters.get? countParams.toNat)
        else Parameters.get? index
      match param with
      | none => .fault
      | some (.mk _ paramName paramType _) => do
        let err ← typeError value paramType
        match err with
        | some err => pure (none, interpreterError st Token.Position err)
        | none =>
          if variadic then
            argumentsLoop ops Token Parameters Variadic countParams rest (index + 1) fnScope
              (arguments ++ [value]) st
          else
            argumentsLoop ops Token Parameters Variadic countParams rest (index + 1)
              (fnScope.Write paramName.Value value) arguments st

/-- The end of `Interpreter.Function`: the body runs in `fnScope`, and the caller goes on
in its own scope.  The frames a function value holds are a copy of those it was made in:
what the body writes to them is not seen by the caller, and what is written to them after
the function was made, the name of the function among it, is not seen by the body.  The
value returned is that of the source whenever the body reads and writes no name of these
frames that has changed in between. -/
def callBody (ops : Ops) (Token : Token) (Body : ast.BlockStatement)
    (ReturnType : Option ast.Identifier) (fnScope : Scope) (st : State) :
    Res (Data × State) := do
  let (body, st') ← ops.Interpreter (.Block Body) { st with sc := fnScope }
  let st := { st' with sc := st.sc }
  match unwrapReturnValue body with
  | .absent => pure (.absent, st)
  | result => do
    let err ← typeError result ReturnType
    match err with
    | some err => pure (.absent, interpreterError st Token.Position err)
    | none => pure (result, st)

/-- The first statement of `Interpreter.Function`: the function of the runtime that the
call names, when its callee is an identifier that is a key of `runtime.FnRuntime`. -/
def runtimeFunction (FnRuntime : String → Option TRuntimeFn) : Node → Option TRuntimeFn
  | .Identifier nfType => FnRuntime nfType.Value
  | _ => none

/-- `Interpreter.Function`, on the fields of the node `nf`, given the map
`runtime.FnRuntime`. -/
def Function (ops : Ops) (FnRuntime : String → Option TRuntimeFn) (Token : Token)
    (Function : Node) (Arguments : ast.ExpressionList) (st : State) : Res (Data × State) :=
  match runtimeFunction FnRuntime Function with
  | some runtimeFn => RuntimeFunction ops Token Arguments runtimeFn st
  | none => do
    let (fn, st) ← ops.Interpreter Function st
    match fn with
    | .absent => pure (.absent, st)
    | .TFunction Parameters Body ReturnType Variadic Scope =>
      let fnScope := NewScopeFrom Scope
      if !Variadic && decide (Arguments.Elements.length > Parameters.length) then
        pure (.absent, interpreterError st Token.Position "Too many arguments in function call")
      else do
        let (r, st) ← defaultsLoop ops Token Parameters fnScope 0 st
        match r with
        | none => pure (.absent, st)
        | some (fnScope, defaultCount) =>
          if (Arguments.Elements.length : Int) < (Parameters.length : Int) - defaultCount then
            pure (.absent,
              interpreterError st Token.Position "Too few arguments in function call")
          else do
            let countParams : Int := (Parameters.length : Int) - 1
            let (r, st) ← argumentsLoop ops Token Parameters Variadic countParams
              Arguments.Elements 0 fnScope [] st
            match r with
            | none => pure (.absent, st)
            | some (fnScope, arguments) =>
              if Variadic && decide (arguments.length > 0) then
                match Parameters.getLast? with
                | some (.mk _ name _ _) =>
                  callBody ops Token Body ReturnType
                    (fnScope.Write name.Value (.TArray arguments)) st
                | none => .fault
              else callBody ops Token Body ReturnType fnScope st
    | _ => pure (.absent, interpreterError st Token.Position "Trying to call a non-function")

/-- `Interpreter.Module`. -/
def Module (Token : Token) (Name : ast.Identifier) (Body : ast.BlockStatement) (st : State) :
    Data × State :=
  match mapGet st.i.modules Name.Value with
  | some _ =>
    (.absent, interpreterError st Token.Position ("Module '" ++ Name.Value ++ "' redeclared"))
  | none =>
    (.absent, { st with i := { st.i with modules := mapSet st.i.modules Name.Value (Name, Body) } })

/-- `Interpreter.ArraySubscript`; a fault where a type assertion fails. -/
def ArraySubscript : Data → Data → Res Data
  | .TArray arrayData, .TInteger idx =>
    match checkArrayBounds arrayData idx with
    | .error _ => .ok .TNil
    | .ok idx =>
      match arrayData.get? idx.toNat with
      | some element => .ok element
      | none => .fault
  | _, _ => .fault

/-- The loop of `Interpreter.DictionarySubscript`, over the pairs in the order of the
list. -/
def dictionarySubscriptLoop (check : Data → Option String) (index : Data) :
    List (Data × Data) → Res Data
  | [] => .ok .TNil
  | (k, v) :: rest =>
    match check k, check index with
    | some ck, some ci => if ck = ci then .ok v else dictionarySubscriptLoop check index rest
    | _, _ => .fault

/-- `Interpreter.DictionarySubscript`. -/
def DictionarySubscript (check : Data → Option String) : Data → Data → Res Data
  | .TDictionary dictionaryData, index => dictionarySubscriptLoop check index dictionaryData
  | _, _ => .fault

/-- `Interpreter.StringSubscript`: the pair `(Data, error)` it returns.  The string is
indexed by byte, and `string(b)` of a byte `b` is the string of the one character with the
code `b`. -/
def StringSubscript : Data → Data → Res (Except String Data)
  | .TString stringData, .TInteger idx =>
    match checkStringBounds stringData idx with
    | .error _ => .ok (.ok .TNil)
    | .ok idx =>
      match (bytes stringData).get? idx.toNat with
      | some b => .ok (.ok (.TString (String.singleton (Char.ofNat b))))
      | none => .fault
  | _, _ => .fault

/-- `Interpreter.Subscript`, on the fields of the node `ns`. -/
def Subscript (ops : Ops) (Token : Token) (Left Index : Node) (st : State) :
    Res (Data × State) := do
  let (left, st) ← ops.Interpreter Left st
  let (index, st) ← ops.Interpreter Index st
  match left.Type, index.Type with
  | some leftType, some indexType =>
    if leftType = "String" ∧ indexType = "Integer" then do
      let r ← StringSubscript left index
      match r with
      | .error err => pure (.absent, interpreterError st Token.Position err)
      | .ok result => pure (result, st)
    else if leftType = "Array" ∧ indexType = "Integer" then do
      let result ← ArraySubscript left index
      pure (result, st)
    else if leftType = "Dictionary" then do
      let result ← DictionarySubscript ops.Check left index
      pure (result, st)
    else
      pure (.absent, interpreterError st Token.Position
        ("Subscript on '" ++ leftType ++ "' not supported with literal '" ++ indexType ++ "'"))
  | _, _ => pure (.absent, st)

/-- `Interpreter.MinusPrefix`: the value, or the message of the error. -/
def MinusPrefix : Data → Res (Except String Data)
  | .absent => .fault
  | .TInteger value => .ok (.ok (.TInteger (wrap64 (-value))))
  | .TFloat value =>
    .ok (.ok (.TFloat ⟨if value.bits < 2 ^ 63 then value.bits + 2 ^ 63 else value.bits - 2 ^ 63⟩))
  | _ => .ok (.error "Minus prefix can be applied to Integers and Floats only")

/-- `Interpreter.BitwiseNotPrefix`: the value, or the message of the error. -/
def BitwiseNotPrefix : Data → Res (Except String Data)
  | .absent => .fault
  | .TInteger value => .ok (.ok (.TInteger (-value - 1)))
  | _ => .ok (.error "Bitwise not prefix can be applied to Integers only")

/-- `Interpreter.PrefixExpression`, on the fields of the node `np`. -/
def PrefixExpression (ops : Ops) (Token : Token) (Operator : String) (Right : Node)
    (st : State) : Res (Data × State) := do
  let (data, st) ← ops.Interpreter Right st
  match data with
  | .absent =>
    pure (.absent, interpreterError st Token.Position
      ("Trying to run operator '" ++ Operator ++ "' with an unknown value"))
  | data => do
    let r ←
      if Operator = "!" then (.ok (.ok (nativeToBoolean (!isType data))) : Res (Except String Data))
      else if Operator = "-" then MinusPrefix data
      else if Operator = "~" then BitwiseNotPrefix data
      else .ok (.error "Unsupported prefix operator")
    match r with
    | .error err => pure (.absent, interpreterError st Token.Position err)
    | .ok out => pure (out, st)

/-- What the methods embedded here use and this development does not compute: the
arithmetic of `float64`, the functions of the runtime, the loading of the standard
library, the dictionaries made by `+`, and the nodes whose methods are not embedded. -/
structure Ext where
  /-- The body of `useStdLibModules` when the flag `useStdlib` is clear: the error it
  returns (`none` for `nil`) and the state after it. -/
  useStdLibModules : State → Res (Option String × State)
  /-- The map `runtime.FnRuntime`. -/
  FnRuntime : String → Option TRuntimeFn
  /-- The canonical forms of the values of type Float, Function and Module. -/
  CheckOther : Data → Option String
  /-- The string `fmt.Sprintf("%f", v)`. -/
  formatFloat : Float64 → String
  /-- The conversion `float64(v)` of an `int64`. -/
  toFloat : Int → Float64
  /-- The case `Divide` of `IntegerInfix` for a divisor that is not zero: the quotient
  `float64(leftVal) / float64(rightVal)`, as an Integer when it is whole. -/
  IntegerDivide : Int → Int → Data
  /-- The value `int64(math.Pow(float64(leftVal), float64(rightVal)))`. -/
  IntegerPower : Int → Int → Int
  /-- `Interpreter.FloatInfix`. -/
  FloatInfix : String → Float64 → Float64 → Res (Except String Data)
  /-- `Interpreter.DictionaryInfix`, on the pairs of the two dictionaries. -/
  DictionaryInfix : String → List (Data × Data) → List (Data × Data) → Res (Except String Data)
  /-- The methods `Dictionary`, `Is`, `As`, `Pipe`, `ModuleAccess` and `Use`, given the
  method `Interpreter` they call. -/
  Node : (Node → State → Res (Data × State)) → Node → State → Res (Data × State)

/-- `Interpreter.RangeIntegerInfix`, for `int64` operands: the elements the loop appends.
The loop does not end when its bound is the largest `int64` (counting up) or the smallest
(counting down), since the counter wraps around. -/
def RangeIntegerInfix (left right : Int) : Res Data :=
  if left < right then
    if right = 2 ^ 63 - 1 then .timeout
    else .ok (.TArray ((List.range (right - left + 1).toNat).map fun k => .TInteger (left + k)))
  else
    if right = -(2 ^ 63) then .timeout
    else .ok (.TArray ((List.range (left - right + 1).toNat).map fun k => .TInteger (left - k)))

/-- `Interpreter.RangeStringInfix`: the pair `(Data, error)` it returns.  A string of one
byte is one ASCII character. -/
def RangeStringInfix (left right : String) : Res (Except String Data) :=
  if left.utf8ByteSize > 1 ∨ right.utf8ByteSize > 1 then
    .ok (.error "Range operator expects 2 single character strings")
  else
    match left.toLower.data, right.toLower.data with
    | leftByte :: _, rightByte :: _ =>
      let alphabet := "0123456789abcdefghijklmnopqrstuvwxyz".data
      if leftByte.toNat < rightByte.toNat then
        .ok (.ok (.TArray ((alphabet.filter fun v =>
          decide (v.toNat ≥ leftByte.toNat ∧ v.toNat ≤ rightByte.toNat)).map
            fun v => .TString (String.singleton v))))
      else
        .ok (.ok (.TArray ((alphabet.reverse.filter fun v =>
          decide (v.toNat ≤ leftByte.toNat ∧ v.toNat ≥ rightByte.toNat)).map
            fun v => .TString (String.singleton v))))
    | _, _ => .fault

/-- `Interpreter.IntegerInfix`, on the values of the two integers: the pair `(Data, error)`
it returns.  The remainder by zero is a fault. -/
def IntegerInfix (ext : Ext) (operator : String) (leftVal rightVal : Int) :
    Res (Except String Data) :=
  if operator = "+" then .ok (.ok (.TInteger (wrap64 (leftVal + rightVal))))
  else if operator = "-" then .ok (.ok (.TInteger (wrap64 (leftVal - rightVal))))
  else if operator = "*" then .ok (.ok (.TInteger (wrap64 (leftVal * rightVal))))
  else if operator = "/" then
    if rightVal = 0 then .ok (.error "Division by 0")
    else .ok (.ok (ext.IntegerDivide leftVal rightVal))
  else if operator = "%" then
    if rightVal = 0 then .fault
    else .ok (.ok (.TInteger (wrap64 (Int.tmod leftVal rightVal))))
  else if operator = "**" then .ok (.ok (.TInteger (ext.IntegerPower leftVal rightVal)))
  else if operator = "<" then .ok (.ok (nativeToBoolean (decide (leftVal < rightVal))))
  else if operator = "<=" then .ok (.ok (nativeToBoolean (decide (leftVal ≤ rightVal))))
  else if operator = ">" then .ok (.ok (nativeToBoolean (decide (leftVal > rightVal))))
  else if operator = ">=" then .ok (.ok (nativeToBoolean (decide (leftVal ≥ rightVal))))
  else if operator = "<<" then
    if leftVal < 0 ∨ rightVal < 0 then
      .ok (.error "Bitwise shift requires two unsigned Integers")
    else if rightVal ≥ 64 then .ok (.ok (.TInteger 0))
    else .ok (.ok (.TInteger (wrap64 (leftVal * 2 ^ rightVal.toNat))))
  else if operator = ">>" then
    if leftVal < 0 ∨ rightVal < 0 then
      .ok (.error "Bitwsise shift requires two unsigned Integers")
    else if rightVal ≥ 64 then .ok (.ok (.TInteger 0))
    else .ok (.ok (.TInteger (leftVal / 2 ^ rightVal.toNat)))
  else if operator = "&" then .ok (.ok (.TInteger (Int.land leftVal rightVal)))
  else if operator = "|" then .ok (.ok (.TInteger (Int.lor leftVal rightVal)))
  else if operator = "==" then .ok (.ok (nativeToBoolean (decide (leftVal = rightVal))))
  else if operator = "!=" then .ok (.ok (nativeToBoolean (decide (leftVal ≠ rightVal))))
  else if operator = ".." then
    match RangeIntegerInfix leftVal rightVal with
    | .ok data => .ok (.ok data)
    | .fault => .fault
    | .timeout => .timeout
  else .ok (.error ("Unsupported Integer operator '" ++ operator ++ "'"))

/-- `Interpreter.StringInfix`: the pair `(Data, error)` it returns; `len` counts bytes. -/
def StringInfix (operator left right : String) : Res (Except String Data) :=
  if operator = "+" then .ok (.ok (.TString (left ++ right)))
  else if operator = "<" then
    .ok (.ok (nativeToBoolean (decide (left.utf8ByteSize < right.utf8ByteSize))))
  else if operator = "<=" then
    .ok (.ok (nativeToBoolean (decide (left.utf8ByteSize ≤ right.utf8ByteSize))))
  else if operator = ">" then
    .ok (.ok (nativeToBoolean (decide (left.utf8ByteSize > right.utf8ByteSize))))
  else if operator = ">=" then
    .ok (.ok (nativeToBoolean (decide (left.utf8ByteSize ≥ right.utf8ByteSize))))
  else if operator = "==" then .ok (.ok (nativeToBoolean (decide (left = right))))
  else if operator = "!=" then .ok (.ok (nativeToBoolean (decide (left ≠ right))))
  else if operator = ".." then RangeStringInfix left right
  else .ok (.error ("Unsupported String operator '" ++ operator ++ "'"))

/-- `Interpreter.BooleanInfix`, on the values of the two booleans. -/
def BooleanInfix (operator : String) (leftVal rightVal : Bool) : Except String Data :=
  if operator = "&&" then .ok (nativeToBoolean (leftVal && rightVal))
  else if operator = "||" then .ok (nativeToBoolean (leftVal || rightVal))
  else if operator = "==" then .ok (nativeToBoolean (decide (leftVal = rightVal)))
  else if operator = "!=" then .ok (nativeToBoolean (decide (leftVal ≠ rightVal)))
  else .error ("Unsupported Boolean operator '" ++ operator ++ "'")

/-- The loop of `Interpreter.compareArrays`, on two slices of the same length. -/
def compareArraysLoop (check : Data → Option String) : List Data → List Data → Res Bool
  | [], _ => .ok true
  | _ :: _, [] => .fault
  | v :: left, w :: right =>
    match v.Type, w.Type with
    | some vt, some wt =>
      if vt ≠ wt then .ok false
      else
        match check v, check w with
        | some vc, some wc => if vc ≠ wc then .ok false else compareArraysLoop check left right
        | _, _ => .fault
    | _, _ => .fault

/-- `Interpreter.compareArrays`. -/
def compareArrays (check : Data → Option String) (left right : List Data) : Res Bool :=
  if left.length ≠ right.length then .ok false else compareArraysLoop check left right

/-- `Interpreter.ArrayInfix`, on the elements of the two arrays. -/
def ArrayInfix (check : Data → Option String) (operator : String) (leftVal rightVal : List Data) :
    Res (Except String Data) :=
  if operator = "+" then .ok (.ok (.TArray (leftVal ++ rightVal)))
  else if operator = "==" then do
    let same ← compareArrays check leftVal rightVal
    pure (.ok (nativeToBoolean same))
  else if operator = "!=" then do
    let same ← compareArrays check leftVal rightVal
    pure (.ok (nativeToBoolean (!same)))
  else if operator = "<" then
    .ok (.ok (nativeToBoolean (decide (leftVal.length < rightVal.length))))
  else if operator = ">" then
    .ok (.ok (nativeToBoolean (decide (leftVal.length > rightVal.length))))
  else .ok (.error ("Unsupported Array operator '" ++ operator ++ "'"))

/-- `Interpreter.NilInfix`, on the types of the two values. -/
def NilInfix (operator leftType rightType : String) : Except String Data :=
  if operator = "==" then
    if leftType ≠ "Nil" ∨ rightType ≠ "Nil" then .ok (.TBoolean false) else .ok (.TBoolean true)
  else if operator = "!=" then
    if leftType ≠ "Nil" ∨ rightType ≠ "Nil" then .ok (.TBoolean true) else .ok (.TBoolean false)
  else .error ("Unsupported Nil operator '" ++ operator ++ "'")

/-- The verb `%t`. -/
def formatBool (b : Bool) : String := if b then "true" else "false"

/-- The switch of `Interpreter.InfixExpression` on the types of the two values, neither of
which is `nil`: the pair `(out, err)` after it. -/
def infixSwitch (ext : Ext) (check : Data → Option String) (operator : String) :
    Data → Data → Res (Except String Data)
  | .TBoolean l, .TString r => StringInfix operator (formatBool l) r
  | .TString l, .TBoolean r => StringInfix operator l (formatBool r)
  | .TBoolean l, .TBoolean r => .ok (BooleanInfix operator l r)
  | .TString l, .TString r => StringInfix operator l r
  | .TString l, .TSymbol r => StringInfix operator l r
  | .TInteger l, .TString r => StringInfix operator (toString l) r
  | .TString l, .TInteger r => StringInfix operator l (toString r)
  | .TInteger l, .TInteger r => IntegerInfix ext operator l r
  | .TInteger l, .TFloat r => ext.FloatInfix operator (ext.toFloat l) r
  | .TFloat l, .TString r => StringInfix operator (ext.formatFloat l) r
  | .TString l, .TFloat r => StringInfix operator l (ext.formatFloat r)
  | .TFloat l, .TFloat r => ext.FloatInfix operator l r
  | .TFloat l, .TInteger r => ext.FloatInfix operator l (ext.toFloat r)
  | .TArray l, .TArray r => ArrayInfix check operator l r
  | .TDictionary l, .TDictionary r => ext.DictionaryInfix operator l r
  | .TSymbol l, .TSymbol r => StringInfix operator l r
  | .TSymbol l, .TString r => StringInfix operator l r
  | left, right =>
    match left.Type, right.Type with
    | some leftType, some rightType =>
      if leftType = "Nil" ∨ rightType = "Nil" then .ok (NilInfix operator leftType rightType)
      else if leftType ≠ rightType then
        .ok (.error ("Cannot run expression with types '" ++ leftType ++ "' and '"
          ++ rightType ++ "'"))
      else
        .ok (.error ("Unknown operator " ++ operator ++ " for types '" ++ leftType
          ++ "' and '" ++ rightType ++ "'"))
    | _, _ => .fault

/-- `Interpreter.InfixExpression`, on the fields of the node `ni`. -/
def InfixExpression (ops : Ops) (ext : Ext) (Token : Token) (Left : Node) (Operator : String)
    (Right : Node) (st : State) : Res (Data × State) := do
  let (left, st) ← ops.Interpreter Left st
  if Operator = "&&" ∧ !isType left then pure (.TBoolean false, st)
  else if Operator = "||" ∧ isType left then pure (.TBoolean true, st)
  else do
    let (right, st) ← ops.Interpreter Right st
    match left, right with
    | .absent, _ => pure (.absent, st)
    | _, .absent => pure (.absent, st)
    | left, right => do
      let r ← infixSwitch ext ops.Check Operator left right
      match r with
      | .error err => pure (.absent, interpreterError st Token.Position err)
      | .ok out => pure (out, st)

set_option linter.dupNamespace false in
/-- `Interpreter.Interpreter`: the value it returns (`absent` for `nil`) and the state after
the call.  `fuel` bounds the depth of the calls and the iterations of a loop without an
enumerable. -/
def Interpreter (ext : Ext) : Nat → Node → State → Res (Data × State)
  | 0, _, _ => .timeout
  | fuel + 1, ni, st => do
    let (err, st) ←
      if st.i.useStdlib then (pure (none, st) : Res (Option String × State))
      else ext.useStdLibModules st
    match err with
    | some err =>
      match ni.TokenPosition with
      | some position => pure (.absent, interpreterError st position err)
      | none => .fault
    | none =>
      let ops : Ops := ⟨Interpreter ext fuel, Data.Check ext.CheckOther⟩
      match ni with
      | .Program Statements => Program ops Statements st
      | .Boolean _ Value => pure (nativeToBoolean Value, st)
      | .String s => pure (.TString s.Value, st)
      | .Integer _ Value => pure (.TInteger Value, st)
      | .Float _ Value => pure (.TFloat Value, st)
      | .Array _ List => Array ops List st
      | .Symbol _ Value => pure (.TSymbol Value, st)
      | .Nil _ => pure (.TNil, st)
      | .Val Token Name Value => Val ops Token Name Value st
      | .Var Token Name Value => Var ops Token Name Value st
      | .If _ Condition Then Else => If ops Condition Then Else st
      | .Repeat Token Arguments Enumerable Body =>
        Repeat ops fuel Token Arguments Enumerable Body st
      | .Match Token Control Whens Else => Match ops Token Control Whens Else st
      | .Break _ => pure (.TBreak, st)
      | .Continue _ => pure (.TContinue, st)
      | .Return _ Value => do
        let (value, st) ← Interpreter ext fuel Value st
        pure (.TReturn value, st)
      | .PlaceHolder _ => pure (.TPlaceHolder, st)
      | .Function _ Parameters Body ReturnType Variadic =>
        pure (.TFunction Parameters Body ReturnType Variadic (NewScopeFrom st.sc), st)
      | .FunctionCall Token Function Arguments =>
        Interpreter.Function ops ext.FnRuntime Token Function Arguments st
      | .Module Token Name Body => pure (Module Token Name Body st)
      | .Subscript Token Left Index => Subscript ops Token Left Index st
      | .Assign Token _ Name Right => Assign ops Token Name Right st
      | .Block nb => BlockStatement ops nb st
      | .ExpressionStatement _ Expression => Interpreter ext fuel Expression st
      | .Identifier ni => pure (Identifier ni st)
      | .PrefixExpression Token Operator Right => PrefixExpression ops Token Operator Right st
      | .InfixExpression Token Left Operator Right =>
        InfixExpression ops ext Token Left Operator Right st
      | .Dictionary _ _ | .Is _ _ _ | .As _ _ _ | .Pipe _ _ _ | .ModuleAccess _ _ _ | .Use _ _ =>
        ext.Node (Interpreter ext fuel) ni st
      | .ExpressionList _ | .absent => pure (.absent, st)

end Interpreter

end interpreter

/-! ## Notions the theorems about the interpreter are stated with -/

namespace interpreter

open ast runtime

/-- The nodes `ns` evaluated one after the other from the state `st`: the values they
return, in order, and the state after the last of them. -/
def sequence (ops : Ops) : List Node → State → Res (List Data × State)
  | [], st => .ok ([], st)
  | n :: ns, st =>
    match ops.Interpreter n st with
    | .ok (d, st1) =>
      match sequence ops ns st1 with
      | .ok (ds, st2) => .ok (d :: ds, st2)
      | .fault => .fault
      | .timeout => .timeout
    | .fault => .fault
    | .timeout => .timeout

/-- A Break, Continue or Return sentinel. -/
def sentinel : Data → Bool
  | .TBreak => true
  | .TContinue => true
  | .TReturn _ => true
  | _ => false

/-- A value that is neither `nil` nor a sentinel. -/
def plain : Data → Bool
  | .absent => false
  | d => !sentinel d

/-- A string whose characters are all below 128: each is one byte of the Go string. -/
def ascii (s : String) : Bool :=
  s.data.all fun c => decide (c.toNat < 128)

mutual

/-- A node that the source evaluates without a write to a scope, an array or a
dictionary: a literal, an identifier, `break`, `continue`, a `return`, a prefix
expression, a read through a subscript, an `if`, or an infix expression with an operator
other than `+` (the `+` of two dictionaries writes into its right operand, that of two
arrays appends to the slice of its left operand), over nodes of this kind.  No such node
is an assignment, a declaration, a call, a loop or a pipe. -/
def readOnly : Node → Bool
  | .Boolean _ _ | .String _ | .Integer _ _ | .Float _ _ | .Symbol _ _ | .Nil _ => true
  | .PlaceHolder _ | .Identifier _ | .Break _ | .Continue _ => true
  | .Return _ Value => readOnly Value
  | .ExpressionStatement _ Expression => readOnly Expression
  | .PrefixExpression _ _ Right => readOnly Right
  | .InfixExpression _ Left Operator Right =>
    Operator != "+" && readOnly Left && readOnly Right
  | .Subscript _ Left Index => readOnly Left && readOnly Index
  | .If _ Condition Then Else => readOnly Condition && readOnlyBlock Then && readOnlyElse Else
  | .Block nb => readOnlyBlock nb
  | _ => false

/-- A block whose statements are all `readOnly`. -/
def readOnlyBlock : ast.BlockStatement → Bool
  | .mk _ Statements => readOnlyList Statements

/-- The `else` of an `if`, when there is one, is a `readOnlyBlock`. -/
def readOnlyElse : Option ast.BlockStatement → Bool
  | none => true
  | some nb => readOnlyBlock nb

/-- The nodes of a list are all `readOnly`. -/
def readOnlyList : List Node → Bool
  | [] => true
  | n :: ns => readOnly n && readOnlyList ns

end

/-- The state `st'` has the scope and the interpreter of `st`: it differs from `st` by the
errors recorded at most. -/
def sameFrame (st st' : State) : Prop :=
  st'.sc = st.sc ∧ st'.i = st.i

/-- An evaluator that, in an interpreter that has loaded its library, leaves the scope and
the interpreter as they were when it evaluates a `readOnly` node. -/
def keepsFrame (ops : Ops) : Prop :=
  ∀ (n : Node) (st : State) (d : Data) (st' : State), readOnly n = true →
    st.i.useStdlib = true → ops.Interpreter n st = .ok (d, st') → sameFrame st st'

/-- Field `Values` of a `when`, as the list of its elements. -/
def whenValues : ast.MatchWhen → List Node
  | .mk _ values _ => values.Elements

/-- Field `Body` of a `when`. -/
def whenBody : ast.MatchWhen → ast.BlockStatement
  | .mk _ _ body => body

/-- The values of a list of whens, in the order in which `MatchWhen` evaluates them. -/
def whensValues : List ast.MatchWhen → List Node
  | [] => []
  | w :: ws => whenValues w ++ whensValues ws

/-- The value `d` has the runtime type of `c` and a canonical form that is not that of
`c`. -/
def sameTypeOtherForm (check : Data → Option String) (c d : Data) : Prop :=
  ∃ t a b, d.Type = some t ∧ c.Type = some t ∧ check d = some a ∧ check c = some b ∧ a ≠ b

/-- The value `d` has the runtime type and the canonical form of `c`. -/
def sameTypeAndForm (check : Data → Option String) (c d : Data) : Prop :=
  ∃ t a, d.Type = some t ∧ c.Type = some t ∧ check d = some a ∧ check c = some a

/-- The value `d` listed by a when matches the element `e` of the control array: it is a
PlaceHolder, or it has the runtime type and the canonical form of `e`. -/
def elementMatch (check : Data → Option String) (e d : Data) : Bool :=
  d.Type == some "PlaceHolder" || (d.Type == e.Type && check d == check e)

/-- Every value of `ds` matches the element of `es` at the same index. -/
def allMatch (check : Data → Option String) : List Data → List Data → Bool
  | e :: es, d :: ds => elementMatch check e d && allMatch check es ds
  | _, _ => true

/-- The keys of the map `runtime.FnRuntime`. -/
def runtimeNames : List String :=
  ["echo", "put", "puts", "write", "writeln", "print", "println", "prompt", "quit", "panic",
    "typeof", "len", "first", "last", "rest", "push", "String", "Int", "Float", "Array",
    "runtime_rand", "runtime_tolower", "runtime_toupper", "runtime_regex_match", "Environment",
    "NameVersionEnvironment", "Name", "Version", "NameVersion", "AuthorName", "AuthorEmail",
    "Copyright"]

/-- An instance of `Interpreter.Ext` to run closed examples with, in an interpreter that has
loaded its standard library.  It knows the names of the functions of the runtime and
computes none of what `Ext` stands for (its fields are a fault or a placeholder).  The
examples of this development call no function of the runtime, use no float, division or
power, add no dictionaries and evaluate no node whose method is not embedded, so that
none of these fields decides their result. -/
def exampleExt : Interpreter.Ext where
  useStdLibModules := fun _ => .fault
  FnRuntime := fun name => if name ∈ runtimeNames then some (fun _ => .fault) else none
  CheckOther := fun _ => none
  formatFloat := fun _ => ""
  toFloat := fun _ => ⟨0⟩
  IntegerDivide := fun _ _ => .absent
  IntegerPower := fun _ _ => 0
  FloatInfix := fun _ _ _ => .fault
  DictionaryInfix := fun _ _ _ => .fault
  Node := fun _ _ _ => .fault

/-- The interpreter of the closed examples, as the operations the methods call. -/
def exampleOps (fuel : Nat) : Ops :=
  ⟨Interpreter.Interpreter exampleExt fuel, Data.Check exampleExt.CheckOther⟩

/-- The value of a run of decimal digits that follows the value `acc`; `none` when a
character is not a decimal digit. -/
def digitsValue : List Char → Int → Option Int
  | [], acc => some acc
  | c :: cs, acc =>
    if 48 ≤ c.toNat ∧ c.toNat ≤ 57 then digitsValue cs (acc * 10 + ((c.toNat : Int) - 48))
    else none

/-- What `strconv.ParseInt` returns for the integer literals of the closed examples: the
value of a literal made of decimal digits, the first of which is not `0` unless it is the
only one.  Every other literal is outside the examples (`none`, as for an error). -/
def exampleParseInt (literal : String) (_ : Nat) : Option Int :=
  match literal.data with
  | [] => none
  | [c] => digitsValue [c] 0
  | c :: cs => if c = '0' then none else digitsValue (c :: cs) 0

/-- The parser's environment of the closed examples, which have no float literal. -/
def exampleEnv : parser.Env parser.TokenStream :=
  parser.streamEnv exampleParseInt (fun _ => none)

end interpreter


/-! ## runtime/runtime.go: the conversion functions -/

namespace runtime

/-- What the conversion functions of `runtime.FnRuntime` call outside the package, which
this development does not compute. -/
structure Conversions where
  /-- The string `fmt.Sprintf("%f", v)`. -/
  formatFloat : Float64 → String
  /-- `strconv.Atoi(s)`, `none` when it returns an error. -/
  Atoi : String → Option Int
  /-- `strconv.ParseFloat(s, 64)`, `none` when it returns an error. -/
  ParseFloat : String → Option Float64
  /-- The conversion `float64(v)` of an integer. -/
  toFloat : Int → Float64
  /-- The conversion `int64(v)` of a `float64`. -/
  toInteger : Float64 → Int

/-- The message of the `default` case of a conversion function, which calls `Type` on its
argument. -/
def cannotConvert (fn : String) (object : Data) (target : String) :
    Res (Except String Data) :=
  match object.Type with
  | some t => .ok (.error (fn ++ "() can't convert '" ++ t ++ "' to " ++ target))
  | none => .fault

/-- The entry `"String"` of `runtime.FnRuntime`. -/
def fnString (cv : Conversions) : List Data → Res (Except String Data)
  | [object] =>
    match object with
    | .TInteger v => .ok (.ok (.TString (toString v)))
    | .TFloat v => .ok (.ok (.TString (cv.formatFloat v)))
    | .TBoolean v => .ok (.ok (.TString (if v then "true" else "false")))
    | .TString v => .ok (.ok (.TString v))
    | object => cannotConvert "String" object "String"
  | _ => .ok (.error "String() expects exactly 1 argument")

/-- The entry `"Int"` of `runtime.FnRuntime`. -/
def fnInt (cv : Conversions) : List Data → Res (Except String Data)
  | [object] =>
    match object with
    | .TString v =>
      match cv.Atoi v with
      | none => .ok (.error ("Int() can't convert '" ++ v ++ "' to Integer"))
      | some i => .ok (.ok (.TInteger i))
    | .TFloat v => .ok (.ok (.TInteger (cv.toInteger v)))
    | .TBoolean v => .ok (.ok (.TInteger (if v then 1 else 0)))
    | .TInteger v => .ok (.ok (.TInteger v))
    | object => cannotConvert "Int" object "Integer"
  | _ => .ok (.error "Int() expects exactly 1 argument")

/-- The entry `"Float"` of `runtime.FnRuntime` (its messages say `Integer`). -/
def fnFloat (cv : Conversions) : List Data → Res (Except String Data)
  | [object] =>
    match object with
    | .TString v =>
      match cv.ParseFloat v with
      | none => .ok (.error ("Float() can't convert '" ++ v ++ "' to Integer"))
      | some i => .ok (.ok (.TFloat i))
    | .TInteger v => .ok (.ok (.TFloat (cv.toFloat v)))
    | .TBoolean v => .ok (.ok (.TFloat (cv.toFloat (if v then 1 else 0))))
    | .TFloat v => .ok (.ok (.TFloat v))
    | object => cannotConvert "Float" object "Integer"
  | _ => .ok (.error "Float() expects exactly 1 argument")

/-- The entry `"Array"` of `runtime.FnRuntime`. -/
def fnArray : List Data → Res (Except String Data)
  | [object] =>
    match object with
    | .TArray es => .ok (.ok (.TArray es))
    | object => .ok (.ok (.TArray [object]))
  | _ => .ok (.error "Array() expects exactly 1 argument")

/-- The map `runtime.FnRuntime`: `none` for a name that is not a key.  Its entries
`String`, `Int`, `Float` and `Array` are the functions above; the entries of its other
keys are given by `others`. -/
def FnRuntime (cv : Conversions) (others : String → List Data → Res (Except String Data))
    (name : String) : Option (List Data → Res (Except String Data)) :=
  if name = "String" then some (fnString cv)
  else if name = "Int" then some (fnInt cv)
  else if name = "Float" then some (fnFloat cv)
  else if name = "Array" then some fnArray
  else if name ∈ interpreter.runtimeNames then some (others name)
  else none

end runtime

/-! ## interpreter/interpreter.go: dictionaries, conversions, pipes and modules -/

namespace interpreter

open ast runtime

namespace Interpreter

/-- The loop of `Interpreter.Dictionary` over the pairs of the literal, in the order of the
list (the source ranges over a map): the pairs made, or `none` where a key is `nil`.  A
dictionary is the list of its pairs, each with a key object of its own: the key evaluated is
taken to be an object that is not yet a key of the map, so that `result[key] = value` adds a
pair. -/
def dictionaryLoop (ops : Ops) : List (Node × Node) → List (Data × Data) → State →
    Res (Option (List (Data × Data)) × State)
  | [], result, st => pure (some result, st)
  | (k, v) :: rest, result, st => do
    let (key, st) ← ops.Interpreter k st
    match key with
    | .absent => pure (none, st)
    | key => do
      let (value, st) ← ops.Interpreter v st
      dictionaryLoop ops rest (result ++ [(key, value)]) st

/-- `Interpreter.Dictionary`, on the pairs of the node `nd`. -/
def Dictionary (ops : Ops) (Pairs : List (Node × Node)) (st : State) :
    Res (Data × State) := do
  let (result, st) ← dictionaryLoop ops Pairs [] st
  match result with
  | none => pure (.absent, st)
  | some result => pure (.TDictionary result, st)

/-- The inner loop of `Interpreter.compareDictionaries`, for the pair `lk`, `lv` of the left
map: the counter `found` after it. -/
def compareDictionariesInner (check : Data → Option String) (lk lv : Data) :
    List (Data × Data) → Nat → Res Nat
  | [], found => .ok found
  | (rk, rv) :: rest, found =>
    match check lk, check rk with
    | some lkc, some rkc =>
      if lkc = rkc then
        match check lv, check rv with
        | some lvc, some rvc =>
          if lvc = rvc then compareDictionariesInner check lk lv rest (found + 1)
          else compareDictionariesInner check lk lv rest found
        | _, _ => .fault
      else compareDictionariesInner check lk lv rest found
    | _, _ => .fault

/-- The outer loop of `Interpreter.compareDictionaries`: the counter `found` after it. -/
def compareDictionariesLoop (check : Data → Option String) :
    List (Data × Data) → List (Data × Data) → Nat → Res Nat
  | [], _, found => .ok found
  | (lk, lv) :: rest, right, found => do
    let found ← compareDictionariesInner check lk lv right found
    compareDictionariesLoop check rest right found

/-- `Interpreter.compareDictionaries`, on the pairs of the two maps in the order of the
lists. -/
def compareDictionaries (check : Data → Option String) (left right : List (Data × Data)) :
    Res Bool :=
  if left.length ≠ right.length then .ok false
  else do
    let found ← compareDictionariesLoop check left right 0
    pure (decide (found = left.length))

/-- The loop of the case `+` of `Interpreter.DictionaryInfix`, which makes the write
`rightVal[k] = v` for every pair `k`, `v` of `leftVal`: the map `rightVal`, which is the
map of the right operand, after the loop.  A map of the source is keyed by the key objects, not by their canonical
forms; here the key objects of the left map are taken to be other objects than those of
the right map, as the keys of two dictionary literals are, so that each write adds a pair.
For a key object that is in both maps the source overwrites the pair of the right map. -/
def dictionaryPlusLoop : List (Data × Data) → List (Data × Data) → List (Data × Data)
  | [], rightVal => rightVal
  | (k, v) :: rest, rightVal => dictionaryPlusLoop rest (rightVal ++ [(k, v)])

/-- `Interpreter.DictionaryInfix`, on the pairs of the two dictionaries.  The case `+`
returns a dictionary on the map `rightVal` as its loop leaves it. -/
def DictionaryInfix (check : Data → Option String) (operator : String)
    (leftVal rightVal : List (Data × Data)) : Res (Except String Data) :=
  if operator = "+" then .ok (.ok (.TDictionary (dictionaryPlusLoop leftVal rightVal)))
  else if operator = "==" then do
    let same ← compareDictionaries check leftVal rightVal
    pure (.ok (nativeToBoolean same))
  else if operator = "!=" then do
    let same ← compareDictionaries check leftVal rightVal
    pure (.ok (nativeToBoolean (!same)))
  else if operator = "<" then
    .ok (.ok (nativeToBoolean (decide (leftVal.length < rightVal.length))))
  else if operator = ">" then
    .ok (.ok (nativeToBoolean (decide (leftVal.length > rightVal.length))))
  else .ok (.error ("Unsupported Dictionary operator '" ++ operator ++ "'"))

/-- `Interpreter.Is`, on the fields of the node `ni`. -/
def Is (ops : Ops) (Token : Token) (Left : Node) (Right : ast.Identifier) (st : State) :
    Res (Data × State) := do
  let (dataIs, st) ← ops.Interpreter Left st
  match dataIs with
  | .absent => pure (.absent, st)
  | dataIs =>
    if !checkSupportedType Right.Value then
      pure (.absent, interpreterError st Token.Position
        ("Unknown type '" ++ Right.Value ++ "' in is operator"))
    else
      match dataIs.Type with
      | some t => if t = Right.Value then pure (.TBoolean true, st) else pure (.TBoolean false, st)
      | none => .fault

/-- The function value `runtime.FnRuntime[name]` that `As` passes on: the entry of the map,
or the `nil` function, whose call faults, when `name` is not a key. -/
def runtimeEntry (FnRuntime : String → Option TRuntimeFn) (name : String) : TRuntimeFn :=
  match FnRuntime name with
  | some fn => fn
  | none => fun _ => .fault

/-- `Interpreter.As`, on the fields of the node `na`, given the map `runtime.FnRuntime`.
The call node `nf` it builds has the token of `na` and the one argument `na.Left`. -/
def As (ops : Ops) (FnRuntime : String → Option TRuntimeFn) (Token : Token) (Left : Node)
    (Right : ast.Identifier) (st : State) : Res (Data × State) :=
  if !checkSupportedType Right.Value then
    pure (.absent, interpreterError st Token.Position
      ("Unknown type '" ++ Right.Value ++ "' in as operator"))
  else
    let nfArguments : ast.ExpressionList := .mk token.Token.zero [Left]
    if Right.Value = "String" then
      RuntimeFunction ops Token nfArguments (runtimeEntry FnRuntime "String") st
    else if Right.Value = "Integer" then
      RuntimeFunction ops Token nfArguments (runtimeEntry FnRuntime "Integer") st
    else if Right.Value = "Float" then
      RuntimeFunction ops Token nfArguments (runtimeEntry FnRuntime "Float") st
    else if Right.Value = "Array" then
      RuntimeFunction ops Token nfArguments (runtimeEntry FnRuntime "Array") st
    else
      pure (.absent, interpreterError st Token.Position
        ("Can't convert to type '" ++ Right.Value ++ "'"))

/-- `Interpreter.Pipe`, on the fields of the node `np`: the value it returns, the state
after the call, and the node `np.Right` after the call, whose list of arguments the method
assigns to. -/
def Pipe (ops : Ops) (Token : Token) (Left Right : Node) (st : State) :
    Res (Data × State × Node) :=
  match Right with
  | .FunctionCall tok fn (.mk targs elements) => do
    let rightFunction : Node := .FunctionCall tok fn (.mk targs (Left :: elements))
    let (data, st) ← ops.Interpreter rightFunction st
    pure (data, st, rightFunction)
  | right =>
    pure (.absent,
      interpreterError st Token.Position "Pipe operator expects a function on the right side",
      right)

/-- The loop of `Interpreter.ModuleAccess` over the statements of the module, which run in
the scope of the state: the map `results` after it, or `none` where the method returns `nil`
from inside the loop. -/
def moduleLoop (ops : Ops) (position : Position) :
    List Node → List (String × Data) → State → Res (Option (List (String × Data)) × State)
  | [], results, st => pure (some results, st)
  | statement :: rest, results, st =>
    match statement with
    | .ExpressionStatement _ (.Val _ Name _) => do
      let (result, st) ← ops.Interpreter statement st
      match result with
      | .absent => pure (none, st)
      | result => moduleLoop ops position rest (mapSet results Name.Value result) st
    | _ =>
      pure (none,
        interpreterError st position "Only Val statements are accepted as Module members")

/-- `Interpreter.ModuleAccess`, on the fields of the node `na`.  The statements of the
module run in a new frame whose parent is the scope of the caller, and the caller goes on
with that parent as the run left it. -/
def ModuleAccess (ops : Ops) (Token : Token) (Object Parameter : ast.Identifier)
    (st : State) : Res (Data × State) :=
  let notFound (st : State) : Data × State :=
    (.absent, interpreterError st Token.Position
      (Object.Value ++ "." ++ Parameter.Value ++ " not found"))
  match mapGet st.i.modules Object.Value with
  | none => pure (notFound st)
  | some (Name, Body) =>
    match mapGet st.i.moduleCache Name.Value with
    | some results =>
      match mapGet results Parameter.Value with
      | some result => pure (result, st)
      | none => pure (notFound st)
    | none => do
      let (results, st') ←
        moduleLoop ops Token.Position Body.Statements [] { st with sc := NewScopeFrom st.sc }
      let st' : State := { st' with sc := st'.sc.parent.getD st.sc }
      match results with
      | none => pure (.absent, st')
      | some results =>
        let st' : State :=
          { st' with i := { st'.i with
              moduleCache := mapSet st'.i.moduleCache Name.Value results } }
        match (mapGet st'.i.moduleCache Name.Value).bind (mapGet · Parameter.Value) with
        | some val => pure (val, st')
        | none =>
          pure (.absent, interpreterError st' Token.Position
            ("Member '" ++ Parameter.Value ++ "' in module '" ++ Object.Value
              ++ "' not found"))

/-- The methods `Dictionary`, `Is`, `As`, `Pipe` and `ModuleAccess` as
`Interpreter.Interpreter` reaches them through the field `Node` of `Ext`, given the method
`interp` they call.  The node that `Pipe` has assigned to is dropped here, since the model
evaluates a tree that does not change: a run that evaluates one `Pipe` node twice is
outside it.  The method `Use`, which reads a file, is not embedded (a fault). -/
def nodeMethods (FnRuntime : String → Option TRuntimeFn) (check : Data → Option String)
    (interp : Node → State → Res (Data × State)) : Node → State → Res (Data × State)
  | .Dictionary _ Pairs, st => Dictionary ⟨interp, check⟩ Pairs st
  | .Is Token Left Right, st => Is ⟨interp, check⟩ Token Left Right st
  | .As Token Left Right, st => As ⟨interp, check⟩ FnRuntime Token Left Right st
  | .Pipe Token Left Right, st => do
    let (data, st, _) ← Pipe ⟨interp, check⟩ Token Left Right st
    pure (data, st)
  | .ModuleAccess Token Object Parameter, st =>
    ModuleAccess ⟨interp, check⟩ Token Object Parameter st
  | _, _ => .fault

end Interpreter

/-- An instance of `runtime.Conversions` to run closed examples with.  It computes none of
what `Conversions` stands for (its fields are placeholders): the examples convert no float
and no string to a number. -/
def exampleConversions : runtime.Conversions :=
  ⟨fun _ => "", fun _ => none, fun _ => none, fun _ => ⟨0⟩, fun _ => 0⟩

/-- The map `runtime.FnRuntime` of the closed examples: the four conversion functions, and
a fault for the functions of its other keys, which the examples do not call. -/
def exampleFnRuntime : String → Option Interpreter.TRuntimeFn :=
  runtime.FnRuntime exampleConversions (fun _ _ => .fault)

/-- The instance `exampleExt` with the methods of this section in place of its
placeholders: the map of the runtime functions, the dictionaries made by the infix
operators, and the nodes `Dictionary`, `Is`, `As`, `Pipe` and `ModuleAccess`. -/
def fullExt : Interpreter.Ext :=
  { exampleExt with
    FnRuntime := exampleFnRuntime
    DictionaryInfix := Interpreter.DictionaryInfix (Data.Check exampleExt.CheckOther)
    Node := Interpreter.nodeMethods exampleFnRuntime (Data.Check exampleExt.CheckOther) }

end interpreter

/-! ## runtime/cmd/command.go -/

namespace cmd

/-- The map `table` as `Command.InsertAll` fills it, which `lexer.New` calls before any
lookup.  (The method `Insert` can add to the map; the program does not call it.) -/
def table : List (String × TType) :=
  [("true", .Boolean), ("false", .Boolean), ("nil", .Nil), ("val", .Val), ("var", .Var),
    ("fn", .Function), ("do", .Do), ("end", .End), ("if", .If), ("else", .Else),
    ("repeat", .Repeat), ("in", .In), ("is", .Is), ("as", .As), ("return", .Return),
    ("then", .Then), ("match", .Match), ("when", .When), ("with", .With),
    ("break", .Break), ("continue", .Continue), ("module", .Module), ("use", .Use)]

/-- `Command.Lookup`: the token type of the name, `none` when the name is not found. -/
def Lookup (name : String) : Option TType :=
  interpreter.mapGet table name

end cmd

/-! ## lexer/lexer.go -/

namespace lexer

/-- The rune 0, which the lexer reads at the end of the buffer. -/
def nul : Char := Char.ofNat 0

/-- The rune of the double quote. -/
def quote : Char := Char.ofNat 34

/-- The rune of the backslash. -/
def backslash : Char := Char.ofNat 92

/-- The rune of the line feed. -/
def newline : Char := Char.ofNat 10

/-- The struct `lexer.Lexer`.  The buffer is the list of the bytes of the source, each as
the character `rune(b)` the lexer reads it as; the field `command`, whose methods work on
the map `cmd.table`, is left out, and `errors` holds the calls of `rerror.Error` made by the
lexer. -/
structure Lexer where
  buff : List Char
  offset : Nat
  curr : Nat
  nextr : Nat
  row : Int
  col : Int
  chr : Char
  token : Token
  errors : List rerror.Entry

namespace Lexer

/-- `Lexer.next`, as the lexer after the call. -/
def next (l : Lexer) : Lexer :=
  let chr := if l.nextr ≥ l.buff.length then nul else l.buff.getD l.nextr nul
  let l : Lexer :=
    { l with chr := chr, curr := l.nextr, offset := l.nextr, nextr := l.nextr + 1,
             col := l.col + 1 }
  if chr = newline then { l with row := l.row + 1, col := 0 } else l

/-- `Lexer.peek`. -/
def peek (l : Lexer) : Char :=
  if l.nextr ≥ l.buff.length then nul else l.buff.getD l.nextr nul

/-- `Lexer.rewind`.  The index `curr` is never above `nextr`, so `buff[curr]` is read inside
the buffer. -/
def rewind (l : Lexer) : Lexer :=
  let chr := if l.nextr ≥ l.buff.length then nul else l.buff.getD l.curr nul
  { l with chr := chr, nextr := l.curr, offset := l.curr, col := l.col - 1 }

/-- `Lexer.assignToken`. -/
def assignToken (l : Lexer) (tokenType : TType) (value : String) : Lexer :=
  { l with token := ⟨tokenType, value, ⟨l.row, l.col⟩⟩ }

/-- `Lexer.reportError`. -/
def reportError (l : Lexer) (msg : String) : Lexer :=
  { l with errors := rerror.Error l.errors .Parse ⟨l.row, l.col⟩ msg }

end Lexer

/-- `Lexer.isNumber`. -/
def isNumber (char : Char) : Bool :=
  decide ('0' ≤ char ∧ char ≤ '9')

/-- `Lexer.isAlpha`. -/
def isAlpha (char : Char) : Bool :=
  decide (('a' ≤ char ∧ char ≤ 'z') ∨ ('A' ≤ char ∧ char ≤ 'Z') ∨
    ('0' ≤ char ∧ char ≤ '9') ∨ char = '_' ∨ char = '!' ∨ char = '?')

/-- `Lexer.isHex`. -/
def isHex (char : Char) : Bool :=
  isNumber char || decide (('a' ≤ char ∧ char ≤ 'f') ∨ ('A' ≤ char ∧ char ≤ 'F'))

/-- `Lexer.isOctal`. -/
def isOctal (char : Char) : Bool :=
  decide ('0' ≤ char ∧ char ≤ '7')

/-- `Lexer.isBinary`. -/
def isBinary (char : Char) : Bool :=
  decide (char = '0' ∨ char = '1')

namespace Lexer

/-- The loop of `Lexer.readName`: the runes written to `out` and the lexer after it. -/
def readNameLoop : Nat → Lexer → List Char → Res (List Char × Lexer)
  | 0, _, _ => .timeout
  | fuel + 1, l, out =>
    if isAlpha l.peek then readNameLoop fuel l.next (out ++ [l.next.chr])
    else .ok (out, l)

/-- `Lexer.readName`. -/
def readName (fuel : Nat) (l : Lexer) : Res (String × Lexer) := do
  let (out, l) ← readNameLoop fuel l [l.chr]
  pure (String.mk out, l)

/-- `Lexer.skipWhiteSpace`. -/
def skipWhiteSpace : Nat → Lexer → Res Lexer
  | 0, _ => .timeout
  | fuel + 1, l =>
    if l.chr = ' ' ∨ l.chr = '\t' ∨ l.chr = '\r' then skipWhiteSpace fuel l.next
    else .ok l

/-- `Lexer.skipIdentifier`. -/
def skipIdentifier (fuel : Nat) (l : Lexer) : Res Lexer := do
  let (identifier, l) ← readName fuel l
  match cmd.Lookup identifier with
  | some tokType => pure (l.assignToken tokType identifier)
  | none => pure (l.assignToken .Identifier identifier)

/-- The loop of `Lexer.skipString`, entered with the current rune `l.chr`: the runes written
to `out` and the lexer when the loop is left. -/
def skipStringLoop : Nat → Lexer → List Char → Res (List Char × Lexer)
  | 0, _, _ => .timeout
  | fuel + 1, l, out =>
    if l.chr = backslash then
      let l := l.next
      if l.chr = quote then skipStringLoop fuel l.next (out ++ [backslash, quote])
      else if l.chr = backslash then skipStringLoop fuel l.next (out ++ [backslash])
      else if l.chr = 'n' ∨ l.chr = 't' ∨ l.chr = 'r' ∨ l.chr = 'a' ∨ l.chr = 'b' ∨
          l.chr = 'f' ∨ l.chr = 'v' then
        skipStringLoop fuel l.next (out ++ [backslash, l.chr])
      else
        skipStringLoop fuel
          (l.reportError ("Invalid escape character '" ++ String.singleton l.chr)).next out
    else if l.chr = nul then .ok (out, l.reportError "Unterminated string")
    else if l.chr = quote then .ok (out, l)
    else skipStringLoop fuel l.next (out ++ [l.chr])

/-- `Lexer.skipString`. -/
def skipString (fuel : Nat) (l : Lexer) : Res Lexer := do
  let (out, l) ← skipStringLoop fuel l.next []
  pure (l.assignToken .String (String.mk out))

/-- The loop of `Lexer.skipNumeric`: the runes written to `out`, the flag `floatFound` and
the lexer when the loop is left. -/
def skipNumericLoop : Nat → Lexer → List Char → Bool → Bool → Res (List Char × Bool × Lexer)
  | 0, _, _, _, _ => .timeout
  | fuel + 1, l, out, floatFound, scientificFound =>
    let l := l.next
    if isNumber l.chr then skipNumericLoop fuel l (out ++ [l.chr]) floatFound scientificFound
    else if l.chr = '_' then skipNumericLoop fuel l out floatFound scientificFound
    else if l.chr = '.' ∧ isNumber l.peek then
      skipNumericLoop fuel l (out ++ ['.']) true scientificFound
    else if l.chr = 'e' ∧ (isNumber l.peek ∨ l.peek = '-') then
      skipNumericLoop fuel l (out ++ ['e']) true true
    else if l.chr = '-' ∧ scientificFound then
      skipNumericLoop fuel l (out ++ ['-']) floatFound scientificFound
    else if l.chr = '.' ∧ l.peek = '.' then .ok (out, floatFound, l.rewind)
    else if l.chr = nul then .ok (out, floatFound, l)
    else .ok (out, floatFound, l.rewind)

/-- `Lexer.skipNumeric`. -/
def skipNumeric (fuel : Nat) (l : Lexer) : Res Lexer := do
  let (out, floatFound, l) ← skipNumericLoop fuel l [l.chr] false false
  if floatFound then pure (l.assignToken .Float (String.mk out))
  else pure (l.assignToken .Integer (String.mk out))

/-- The loop of `Lexer.skipSpecialInteger`. -/
def skipSpecialIntegerLoop (fn : Char → Bool) : Nat → Lexer → List Char →
    Res (List Char × Lexer)
  | 0, _, _ => .timeout
  | fuel + 1, l, out =>
    if fn l.peek then skipSpecialIntegerLoop fn fuel l.next (out ++ [l.peek])
    else .ok (out, l)

/-- `Lexer.skipSpecialInteger`; `len(ret)` counts the bytes of the string. -/
def skipSpecialInteger (fn : Char → Bool) (fuel : Nat) (l : Lexer) : Res Lexer := do
  let (out, l) ← skipSpecialIntegerLoop fn fuel l.next [l.chr, l.peek]
  let ret := String.mk out
  let l :=
    if ret.utf8ByteSize = 2 then
      l.reportError ("Literal sequence '" ++ ret ++ "' started but not continued")
    else l
  pure (l.assignToken .Integer ret)

/-- The loop of `Lexer.skipComment`, entered with the current rune `l.chr`. -/
def skipCommentLoop : Nat → Lexer → List Char → Res (List Char × Lexer)
  | 0, _, _ => .timeout
  | fuel + 1, l, out =>
    if l.chr = newline ∨ l.chr = nul then .ok (out, l)
    else if l.chr = '\r' then
      let l := l.next
      if l.chr = newline ∨ l.chr = nul then .ok (out, l)
      else .ok (out, l.reportError "Unexpected comment line ending")
    else skipCommentLoop fuel l.next (out ++ [l.chr])

/-- `Lexer.skipComment`. -/
def skipComment (fuel : Nat) (l : Lexer) : Res Lexer := do
  let (out, l) ← skipCommentLoop fuel l.next []
  pure (l.assignToken .Comment (String.mk out))

/-- The loop of `Lexer.skipMultiLineComment`. -/
def skipMultiLineCommentLoop : Nat → Lexer → List Char → Res (List Char × Lexer)
  | 0, _, _ => .timeout
  | fuel + 1, l, out =>
    let l := l.next
    if l.chr = '*' then
      if l.peek = '/' then .ok (out, l.next)
      else skipMultiLineCommentLoop fuel l out
    else if l.chr = nul then .ok (out, l.reportError "Unterminated multi line comment")
    else skipMultiLineCommentLoop fuel l (out ++ [l.chr])

/-- `Lexer.skipMultiLineComment`. -/
def skipMultiLineComment (fuel : Nat) (l : Lexer) : Res Lexer := do
  let (out, l) ← skipMultiLineCommentLoop fuel l []
  pure (l.assignToken .Comment (String.mk out))

/-- The switch of `Lexer.NextToken`, on the lexer after `skipWhiteSpace`: the lexer after the
case taken. -/
def nextTokenSwitch (fuel : Nat) (l : Lexer) : Res Lexer :=
  if l.chr = nul then pure (l.assignToken .Eof "")
  else if l.chr = '#' then skipComment fuel l.next
  else if l.chr = '=' then
    if l.peek = '=' then pure (l.next.assignToken .Equal "==")
    else if l.peek = '>' then pure (l.next.assignToken .FatArrow "=>")
    else pure (l.assignToken .Assign (String.singleton l.chr))
  else if l.chr = '>' then
    if l.peek = '=' then pure (l.next.assignToken .GreaterEqual ">=")
    else if l.peek = '>' then pure (l.next.assignToken .BitShiftRight ">>")
    else pure (l.assignToken .Greater (String.singleton l.chr))
  else if l.chr = '<' then
    if l.peek = '=' then pure (l.next.assignToken .LessEqual "<=")
    else if l.peek = '<' then pure (l.next.assignToken .BitShiftLeft "<<")
    else pure (l.assignToken .Less (String.singleton l.chr))
  else if l.chr = '+' then
    if l.peek = '=' then pure (l.next.assignToken .PlusAssign "+=")
    else pure (l.assignToken .Plus (String.singleton l.chr))
  else if l.chr = '-' then
    if l.peek = '>' then pure (l.next.assignToken .Arrow "->")
    else if l.peek = '=' then pure (l.next.assignToken .MinusAssign "-=")
    else pure (l.assignToken .Minus (String.singleton l.chr))
  else if l.chr = '*' then
    if l.peek = '*' then pure (l.next.assignToken .Exponential "**")
    else if l.peek = '=' then pure (l.next.assignToken .MultiplyAssign "*=")
    else pure (l.assignToken .Multiply (String.singleton l.chr))
  else if l.chr = '/' then
    if l.peek = '/' then skipComment fuel l.next
    else if l.peek = '*' then skipMultiLineComment fuel l.next
    else if l.peek = '=' then pure (l.next.assignToken .DivideAssign "/=")
    else pure (l.assignToken .Divide (String.singleton l.chr))
  else if l.chr = '%' then pure (l.assignToken .Modulus (String.singleton l.chr))
  else if l.chr = ',' then pure (l.assignToken .Comma (String.singleton l.chr))
  else if l.chr = '.' then
    if l.peek = '.' then
      let l := l.next
      if l.peek = '.' then pure (l.next.assignToken .Ellipsis "...")
      else pure (l.assignToken .Range "..")
    else pure (l.assignToken .Dot (String.singleton l.chr))
  else if l.chr = '|' then
    if l.peek = '|' then pure (l.next.assignToken .LogicalOr "||")
    else if l.peek = '>' then pure (l.next.assignToken .Pipe "|>")
    else pure (l.assignToken .BitwiseOr (String.singleton l.chr))
  else if l.chr = '&' then
    if l.peek = '&' then pure (l.next.assignToken .LogicalAnd "&&")
    else pure (l.assignToken .BitwiseAnd (String.singleton l.chr))
  else if l.chr = '~' then pure (l.assignToken .BitwiseNot (String.singleton l.chr))
  else if l.chr = '!' then
    if l.peek = '=' then pure (l.next.assignToken .NotEqual "!=")
    else pure (l.assignToken .Not (String.singleton l.chr))
  else if l.chr = '(' then pure (l.assignToken .LeftParenthesis "(")
  else if l.chr = ')' then pure (l.assignToken .RightParenthesis ")")
  else if l.chr = '[' then pure (l.assignToken .LeftBracket "[")
  else if l.chr = ']' then pure (l.assignToken .RightBracket "]")
  else if l.chr = '?' then pure (l.assignToken .QuestionMark "?")
  else if l.chr = ':' then pure (l.assignToken .Colon ":")
  else if l.chr = '_' then pure (l.assignToken .Underscore "_")
  else if l.chr = newline then pure (l.assignToken .NewLine "\n")
  else if l.chr = quote then skipString fuel l
  else if l.chr = '0' ∧ l.peek = 'x' then skipSpecialInteger isHex fuel l
  else if l.chr = '0' ∧ l.peek = 'o' then skipSpecialInteger isOctal fuel l
  else if l.chr = '0' ∧ l.peek = 'b' then skipSpecialInteger isBinary fuel l
  else if isNumber l.chr then skipNumeric fuel l
  else if isAlpha l.chr then skipIdentifier fuel l
  else pure (l.reportError ("Unidentified character '" ++ String.singleton l.chr ++ "'"))

/-- `Lexer.NextToken`: the token it returns and the lexer after the call.  `fuel` bounds the
iterations of each loop it runs. -/
def NextToken (fuel : Nat) (l : Lexer) : Res (Token × Lexer) := do
  let l ← skipWhiteSpace fuel l
  let l ← nextTokenSwitch fuel l
  let l := l.next
  pure (l.token, l)

end Lexer

/-- `lexer.New`. -/
def New (buffer : List Char) : Lexer :=
  Lexer.next ⟨buffer, 0, 0, 0, 1, 1, nul, Token.zero, []⟩

end lexer

/-! ## Notions used to state the theorems on the lexer -/

namespace lexer

/-- A letter, `[A-Za-z]`. -/
def isLetter (char : Char) : Bool :=
  decide (('a' ≤ char ∧ char ≤ 'z') ∨ ('A' ≤ char ∧ char ≤ 'Z'))

/-- The lexer whose current rune is the byte at index `k` of the buffer, read by the last
call of `next`, at the position `row`, `col`. -/
def Lexer.reading (buff : List Char) (k : Nat) (row col : Int) (token : Token)
    (errors : List rerror.Entry) : Lexer :=
  ⟨buff, k, k, k + 1, row, col, buff.getD k nul, token, errors⟩

/-- The escape sequences that `skipString` writes as their two runes: a backslash followed
by one of the runes of `"ntrabfv` (the sequence of two backslashes is not among them). -/
def isKeptEscape (char : Char) : Bool :=
  decide (char = quote ∨ char = 'n' ∨ char = 't' ∨ char = 'r' ∨ char = 'a' ∨ char = 'b' ∨
    char = 'f' ∨ char = 'v')

/-- The body of a string literal that `skipString` reads to its closing quote without a
diagnostic: a run of runes other than the quote, the backslash and the rune 0, and of
backslashes followed by a rune of `isKeptEscape`. -/
def keptBody : List Char → Bool
  | [] => true
  | c :: rest =>
    if c = backslash then
      match rest with
      | [] => false
      | e :: rest' => isKeptEscape e && keptBody rest'
    else if c = nul ∨ c = quote then false
    else keptBody rest

end lexer

/-! ## Notions used to state the theorems on modules -/

namespace interpreter

/-- The interpreter `i'` still has what `i` had loaded, registered and cached: it has
loaded the standard library when `i` had, every module registered in `i` is registered in
`i'` as the same module, and every member table cached in `i` is cached in `i'` as the same
table. -/
def modulesKept (i i' : Interpreter) : Prop :=
  (i.useStdlib = true → i'.useStdlib = true) ∧
  (∀ name m, mapGet i.modules name = some m → mapGet i'.modules name = some m) ∧
  (∀ name results, mapGet i.moduleCache name = some results →
    mapGet i'.moduleCache name = some results)

end interpreter

/-! ## strconv.ParseInt

The parser calls `strconv.ParseInt` of the Go library, which is no code of the repository.
It is defined here as the library defines it, for the bit size 64 of the calls: an optional
sign, for the base 0 the base read off the prefix (`0b`, `0o`, `0x`, a lone leading `0` for
octal, else decimal) with underscores allowed between digits, digits below the base, and a
value within the range of `int64`.  Every error is `none`. -/

namespace strconv

/-- The value of the byte `c` as a digit: `c - '0'` for a decimal digit, and
`lower(c) - 'a' + 10` for a letter. -/
def digit (c : Char) : Option Nat :=
  if '0' ≤ c ∧ c ≤ '9' then some (c.toNat - 48)
  else if 'a' ≤ c ∧ c ≤ 'z' then some (c.toNat - 97 + 10)
  else if 'A' ≤ c ∧ c ≤ 'Z' then some (c.toNat - 65 + 10)
  else none

/-- The loop of `ParseUint` over the bytes that follow the prefix, from the value `n`: the
value read, not yet compared with the largest `uint64`; `none` for a syntax error. -/
def parseUintLoop (base : Nat) (base0 : Bool) : List Char → Nat → Option Nat
  | [], n => some n
  | c :: cs, n =>
    if c = '_' ∧ base0 = true then parseUintLoop base base0 cs n
    else
      match digit c with
      | none => none
      | some d => if d ≥ base then none else parseUintLoop base base0 cs (n * base + d)

/-- What `underscoreOK` has seen last: the beginning of the number, a digit or the base
prefix, an underscore, or something else. -/
inductive Saw where
  | beginning
  | digit
  | underscore
  | other
  deriving DecidableEq

/-- The loop of `underscoreOK` over the bytes of the number proper. -/
def underscoreLoop (hex : Bool) : List Char → Saw → Bool
  | [], saw => decide (saw ≠ .underscore)
  | c :: cs, saw =>
    if ('0' ≤ c ∧ c ≤ '9') ∨
        (hex = true ∧ (('a' ≤ c ∧ c ≤ 'f') ∨ ('A' ≤ c ∧ c ≤ 'F'))) then
      underscoreLoop hex cs .digit
    else if c = '_' then
      if saw ≠ .digit then false else underscoreLoop hex cs .underscore
    else if saw = .underscore then false
    else underscoreLoop hex cs .other

/-- `underscoreOK`: the underscores of `s` stand between digits, or between a base prefix
and a digit. -/
def underscoreOK (s : List Char) : Bool :=
  let s :=
    match s with
    | c :: rest => if c = '-' ∨ c = '+' then rest else s
    | [] => s
  match s with
  | '0' :: p :: rest =>
    if p = 'b' ∨ p = 'B' ∨ p = 'o' ∨ p = 'O' ∨ p = 'x' ∨ p = 'X' then
      underscoreLoop (decide (p = 'x' ∨ p = 'X')) rest .digit
    else underscoreLoop false s .beginning
  | _ => underscoreLoop false s .beginning

/-- The base `ParseUint` reads a number in and the bytes that follow the prefix, for the
argument `base`: a base from 2 to 36 is taken as it is, and for the base 0 a leading `0`
gives 2, 8 or 16 when it is followed by `b`, `o` or `x` and there are at least three bytes,
else 8, and any other first byte gives 10.  `none` for any other base. -/
def splitBase (s : List Char) (base : Nat) : Option (Nat × List Char) :=
  if 2 ≤ base ∧ base ≤ 36 then some (base, s)
  else if base = 0 then
    match s with
    | '0' :: rest =>
      match rest with
      | p :: _ :: _ =>
        if p = 'b' ∨ p = 'B' then some (2, rest.drop 1)
        else if p = 'o' ∨ p = 'O' then some (8, rest.drop 1)
        else if p = 'x' ∨ p = 'X' then some (16, rest.drop 1)
        else some (8, rest)
      | _ => some (8, rest)
    | _ => some (10, s)
  else none

/-- `strconv.ParseUint(s, base, 64)`, on the bytes of `s`. -/
def ParseUint (s : List Char) (base : Nat) : Option Nat :=
  if s = [] then none
  else
    match splitBase s base with
    | none => none
    | some (b, digits) =>
      match parseUintLoop b (decide (base = 0)) digits 0 with
      | none => none
      | some n =>
        if n ≥ 2 ^ 64 then none
        else if base = 0 ∧ '_' ∈ digits ∧ underscoreOK s = false then none
        else some n

/-- `strconv.ParseInt(s, base, 64)`. -/
def ParseInt (s : String) (base : Nat) : Option Int :=
  match s.data with
  | [] => none
  | c :: rest =>
    let neg := decide (c = '-')
    let body := if c = '+' ∨ c = '-' then rest else c :: rest
    match ParseUint body base with
    | none => none
    | some un =>
      if neg = false ∧ un ≥ 2 ^ 63 then none
      else if neg = true ∧ un > 2 ^ 63 then none
      else some (if neg then -(un : Int) else (un : Int))

end strconv

/-! ## The parser on the lexer -/

namespace parser

/-- The parser's environment over the lexer of `lexer/lexer.go`, with `strconv.ParseInt`
and any `strconv.ParseFloat`.  A call of `NextToken` has the fuel of the length of the
buffer and two more, which every loop of the lexer ends within (each iteration reads a new
byte of the buffer); the other outcomes of the model do not arise and are given the token
and the lexer as they were. -/
def lexerEnv (ParseFloat : String → Option Float64) : Env lexer.Lexer :=
  ⟨fun l =>
    match lexer.Lexer.NextToken (l.buff.length + 2) l with
    | .ok r => r
    | _ => (l.token, l),
   strconv.ParseInt, ParseFloat⟩

/-- The number written by the string of digits `s` in base `b`, most significant digit
first: the digits `0` to `9` stand for 0 to 9 and the letters, of either case, for 10 and
above. -/
def digitsValue (b : Nat) (s : List Char) : Nat :=
  Nat.ofDigits b (s.reverse.map fun c => (strconv.digit c).getD 0)

end parser

namespace interpreter

open ast runtime

namespace Interpreter

/-- The loop of `Interpreter.useStdLibModules` over the sources of `stdlib.Modules`: each
is lexed, parsed with the fuel `pfuel` and evaluated by `interp`, the call of
`i.Interpreter`, in the scope of the state.  The bytes of a source are the characters of the
string, and the list of `rerror` that `HasErrors` reads is the list of the state with the
diagnostics of the lexer and of the parser of the module. -/
def useStdLibModulesLoop (env : parser.Env lexer.Lexer) (pfuel : Nat)
    (interp : Node → State → Res (Data × State)) :
    List String → State → Res (Option String × State)
  | [], st => pure (none, st)
  | source :: rest, st =>
    let lex := lexer.New source.data
    if rerror.HasErrors (st.errors ++ lex.errors) then
      pure (some "Problem reading Standard Library module", st)
    else do
      let parse := parser.New env lex
      let (program, parse) ← parser.Parse env pfuel parse
      if rerror.HasErrors (st.errors ++ parse.lexer.errors ++ parse.errors) then
        pure (some "Problem parsing Standard Library module", st)
      else do
        let (_, st) ← interp program st
        useStdLibModulesLoop env pfuel interp rest st

/-- `Interpreter.useStdLibModules` when the flag `useStdlib` is clear, for the sources
`Modules` of `stdlib.Modules`: the flag is set, then the modules are loaded. -/
def useStdLibModules (env : parser.Env lexer.Lexer) (pfuel : Nat)
    (interp : Node → State → Res (Data × State)) (Modules : List String) (st : State) :
    Res (Option String × State) :=
  useStdLibModulesLoop env pfuel interp Modules { st with i := { st.i with useStdlib := true } }

end Interpreter

/-- The instance `fullExt` with the loading of the standard library in place, for the
sources `Modules`.  The calls of `i.Interpreter` made while loading find the flag
`useStdlib` set and load nothing: they are those of the interpreter over `fullExt`, with the
fuel `ifuel`. -/
def freshExt (ParseFloat : String → Option Float64) (Modules : List String)
    (pfuel ifuel : Nat) : Interpreter.Ext :=
  { fullExt with
    useStdLibModules :=
      Interpreter.useStdLibModules (parser.lexerEnv ParseFloat) pfuel
        (Interpreter.Interpreter fullExt ifuel) Modules }

end interpreter
end Oro

/-! # Theorems -/

namespace Oro

theorem Res.bind_eq {α β : Type} (x : Res α) (f : α → Res β) : (x >>= f) = Res.bind x f := rfl

theorem Res.pure_eq {α : Type} (a : α) : (pure a : Res α) = Res.ok a := rfl

end Oro

namespace Oro.runtime

/-! ## Scope -/

theorem Store.get_set_self (st : Store) (n : String) (v : Data) :
    Store.get (Store.set st n v) n = some v := by
  induction st with
  | nil => simp [Store.set, Store.get]
  | cons kv rest ih =>
    obtain ⟨k, w⟩ := kv
    by_cases h : k = n
    · simp [Store.set, Store.get, h]
    · simp [Store.set, Store.get, h, ih]

theorem Store.get_set_other (st : Store) (n m : String) (v : Data) (h : m ≠ n) :
    Store.get (Store.set st n v) m = Store.get st m := by
  induction st with
  | nil => simp [Store.set, Store.get, Ne.symm h]
  | cons kv rest ih =>
    obtain ⟨k, w⟩ := kv
    by_cases hk : k = n
    · subst hk
      simp [Store.set, Store.get, Ne.symm h]
    · by_cases hm : k = m
      · subst hm
        simp [Store.set, Store.get, hk]
      · simp [Store.set, Store.get, hk, hm, ih]

theorem Scope.Read_eq_findSome : ∀ (s : Scope) (name : String),
    s.Read name = (s.frames).findSome? (fun f => Store.get f name)
  | .mk st none, name => by
    simp only [Scope.Read, Scope.frames, List.findSome?]
    cases Store.get st name <;> rfl
  | .mk st (some p), name => by
    simp only [Scope.Read, Scope.frames, List.findSome?]
    cases Store.get st name with
    | none => exact Scope.Read_eq_findSome p name
    | some v => rfl

/-- C1. `Scope.Read` returns the binding of the innermost frame of the chain that holds the
name locally, reports not-found exactly when no frame of the chain holds it, and a child made
by `NewScopeFrom` reads what its parent reads. -/
theorem Scope.Read_innermost (s : Scope) (name : String) :
    (∀ v, s.Read name = some v ↔
      ∃ pre f post, s.frames = pre ++ f :: post ∧
        (∀ g ∈ pre, Store.get g name = none) ∧ Store.get f name = some v) ∧
    (s.Read name = none ↔ ∀ f ∈ s.frames, Store.get f name = none) ∧
    (NewScopeFrom s).Read name = s.Read name := by
  refine ⟨fun v => ?_, ?_, ?_⟩
  · rw [Scope.Read_eq_findSome, List.findSome?_eq_some_iff]
    constructor
    · rintro ⟨pre, f, post, h1, h2, h3⟩
      exact ⟨pre, f, post, h1, h3, h2⟩
    · rintro ⟨pre, f, post, h1, h2, h3⟩
      exact ⟨pre, f, post, h1, h3, h2⟩
  · rw [Scope.Read_eq_findSome, List.findSome?_eq_none_iff]
  · simp [NewScopeFrom, Scope.Read, Store.get]

/-- C1, at the scopes of `TestScopeParent`: the child reads the 20 its parent holds. -/
theorem Scope.Read_innermost_witness :
    (NewScopeFrom (NewScope.Write "num" (.TInteger 20))).Read "num" = some (.TInteger 20) :=
  ((Scope.Read_innermost (NewScopeFrom (NewScope.Write "num" (.TInteger 20))) "num").1
    (.TInteger 20)).2 ⟨[[]], [("num", .TInteger 20)], [], rfl,
      by intro g hg; simp only [List.mem_singleton] at hg; subst hg; rfl, rfl⟩

theorem Scope.Read_Write_self : ∀ (s : Scope) (n : String) (v : Data),
    (s.Write n v).Read n = some v
  | .mk st none, n, v => by simp [Scope.Write, Scope.Read, Store.get_set_self]
  | .mk st (some p), n, v => by simp [Scope.Write, Scope.Read, Store.get_set_self]

theorem Scope.Read_Write_other : ∀ (s : Scope) (n m : String) (v : Data), m ≠ n →
    (s.Write n v).Read m = s.Read m
  | .mk st none, n, m, v, h => by simp [Scope.Write, Scope.Read, Store.get_set_other _ _ _ _ h]
  | .mk st (some p), n, m, v, h => by
    simp [Scope.Write, Scope.Read, Store.get_set_other _ _ _ _ h]

/-- C2. After `s.Write(n, v)` the scope reads `(v, true)` for `n`, reads every other name as
before, and its parent chain is the one it had. -/
theorem Scope.Write_Read_roundtrip (s : Scope) (n : String) (v : Data) :
    (s.Write n v).Read n = some v ∧
    (∀ m, m ≠ n → (s.Write n v).Read m = s.Read m) ∧
    (s.Write n v).parent = s.parent := by
  refine ⟨Scope.Read_Write_self s n v, fun m h => Scope.Read_Write_other s n m v h, ?_⟩
  cases s with
  | mk st p => rfl

/-- C2, at the scope of `TestScopeReadWrite`. -/
theorem Scope.Write_Read_roundtrip_witness :
    (NewScope.Write "num" (.TInteger 20)).Read "num" = some (.TInteger 20) ∧
    (NewScope.Write "num" (.TInteger 20)).Read "str" = NewScope.Read "str" :=
  ⟨(Scope.Write_Read_roundtrip NewScope "num" (.TInteger 20)).1,
   (Scope.Write_Read_roundtrip NewScope "num" (.TInteger 20)).2.1 "str" (by decide)⟩

theorem Scope.updateParents_store : ∀ (s : Scope) (n : String) (v : Data),
    (s.updateParents n v).store =
      if (s.Read n).isSome then Store.set s.store n v else s.store
  | .mk st none, n, v => by
    simp only [Scope.updateParents]
    split <;> simp [Scope.Write, Scope.store]
  | .mk st (some p), n, v => by
    simp only [Scope.updateParents]
    split <;> simp [Scope.Write, Scope.store]

theorem Scope.updateParents_ancestor : ∀ (s : Scope) (n : String) (v : Data) (k : Nat),
    (s.updateParents n v).ancestor k = (s.ancestor k).map (fun a => a.updateParents n v)
  | s, n, v, 0 => by simp [Scope.ancestor]
  | .mk st none, n, v, k + 1 => by
    simp only [Scope.updateParents]
    split <;> simp [Scope.Write, Scope.ancestor]
  | .mk st (some p), n, v, k + 1 => by
    simp only [Scope.updateParents, Scope.ancestor]
    exact Scope.updateParents_ancestor p n v k

theorem Scope.Read_store : ∀ (s : Scope) (n : String) (v : Data),
    Store.get s.store n = some v → s.Read n = some v
  | .mk st none, n, v, h => by simpa [Scope.Read, Scope.store] using h
  | .mk st (some p), n, v, h => by
    simp only [Scope.store] at h
    simp [Scope.Read, h]

theorem Scope.Read_updateParents : ∀ (s : Scope) (n : String) (v : Data),
    (s.Read n).isSome → (s.updateParents n v).Read n = some v := by
  intro s n v h
  apply Scope.Read_store
  rw [Scope.updateParents_store, if_pos h]
  exact Store.get_set_self _ _ _

theorem Scope.Read_of_ancestor : ∀ (s : Scope) (k : Nat) (p : Scope) (n : String),
    s.ancestor k = some p → (p.Read n).isSome → (s.Read n).isSome
  | s, 0, p, n, h, hp => by
    simp only [Scope.ancestor, Option.some.injEq] at h
    subst h
    exact hp
  | .mk st none, k + 1, p, n, h, hp => by simp [Scope.ancestor] at h
  | .mk st (some q), k + 1, p, n, h, hp => by
    simp only [Scope.ancestor] at h
    have := Scope.Read_of_ancestor q k p n h hp
    simp only [Scope.Read]
    cases Store.get st n with
    | none => exact this
    | some w => rfl

/-- C3. When the scope `p` reached from `s` by `k` parent links (any ancestor of a child scope
`s`) holds `n`, then after `s.Update(n, v)` both `s` and that ancestor read `v` for `n`. -/
theorem Scope.Update_propagates (s p : Scope) (k : Nat) (n : String) (v : Data)
    (hp : s.ancestor k = some p) (hn : (Store.get p.store n).isSome) :
    (s.Update n v).Read n = some v ∧
    ∃ p', (s.Update n v).ancestor k = some p' ∧ p'.Read n = some v := by
  have hpr : (p.Read n).isSome := by
    obtain ⟨w, hw⟩ := Option.isSome_iff_exists.mp hn
    rw [Scope.Read_store p n w hw]
    rfl
  refine ⟨?_, p.updateParents n v, ?_, ?_⟩
  · exact Scope.Read_updateParents s n v (Scope.Read_of_ancestor s k p n hp hpr)
  · simp [Scope.Update, Scope.updateParents_ancestor, hp]
  · exact Scope.Read_updateParents p n v hpr

/-- C3, at the scopes of `TestScopeUpdate`. -/
theorem Scope.Update_propagates_witness :
    (NewScopeFrom (NewScope.Write "num" (.TInteger 20))).ancestor 1
        = some (NewScope.Write "num" (.TInteger 20)) ∧
    ((NewScopeFrom (NewScope.Write "num" (.TInteger 20))).Update "num" (.TInteger 30)).Read "num"
      = some (.TInteger 30) :=
  ⟨rfl,
   (Scope.Update_propagates (NewScopeFrom (NewScope.Write "num" (.TInteger 20)))
      (NewScope.Write "num" (.TInteger 20)) 1 "num" (.TInteger 30) rfl rfl).1⟩

/-- C4 does not hold as stated: a child frame without a local `num`, whose parent holds
`num`, has a local binding for `num` after `Update`. -/
theorem Scope.Update_binds_in_frame_without_binding :
    Store.get (NewScopeFrom (NewScope.Write "num" (.TInteger 20))).store "num" = none ∧
    Store.get ((NewScopeFrom (NewScope.Write "num" (.TInteger 20))).Update "num"
      (.TInteger 30)).store "num" = some (.TInteger 30) :=
  ⟨rfl, rfl⟩

/-- C4 (amended). `Update(n, v)` keeps the shape of the chain and, in every frame of the
chain (the current one and each ancestor): binds `n` to `v` when `n` is readable from that
frame (held by it or by one of its own ancestors), leaves `n` unbound when it is not, and
leaves the binding of every other name as it was. -/
theorem Scope.Update_frame_condition (s : Scope) (n : String) (v : Data) (k : Nat) :
    (s.ancestor k = none → (s.Update n v).ancestor k = none) ∧
    (∀ a, s.ancestor k = some a →
      ∃ a', (s.Update n v).ancestor k = some a' ∧
        Store.get a'.store n = (if (a.Read n).isSome then some v else none) ∧
        (∀ m, m ≠ n → Store.get a'.store m = Store.get a.store m)) := by
  refine ⟨fun h => by simp [Scope.Update, Scope.updateParents_ancestor, h], fun a h => ?_⟩
  refine ⟨a.updateParents n v, by simp [Scope.Update, Scope.updateParents_ancestor, h], ?_, ?_⟩
  · rw [Scope.updateParents_store]
    by_cases hr : (a.Read n).isSome
    · simp only [hr, if_true]
      exact Store.get_set_self _ _ _
    · rw [if_neg hr, if_neg hr]
      cases hg : Store.get a.store n with
      | none => rfl
      | some w =>
        exfalso
        apply hr
        rw [Scope.Read_store a n w hg]
        rfl
  · intro m hm
    rw [Scope.updateParents_store]
    split
    · exact Store.get_set_other _ _ _ _ hm
    · rfl

/-- C4 (amended), at a child of a scope that holds `num`: after `Update` the child frame
binds `num` to the new value and still has no binding for `str`. -/
theorem Scope.Update_frame_condition_witness :
    ∃ a', ((NewScopeFrom (NewScope.Write "num" (.TInteger 20))).Update "num"
        (.TInteger 30)).ancestor 0 = some a' ∧
      Store.get a'.store "num" =
        (if ((NewScopeFrom (NewScope.Write "num" (.TInteger 20))).Read "num").isSome
          then some (.TInteger 30) else none) ∧
      (∀ m, m ≠ "num" → Store.get a'.store m =
        Store.get (NewScopeFrom (NewScope.Write "num" (.TInteger 20))).store m) :=
  (Scope.Update_frame_condition (NewScopeFrom (NewScope.Write "num" (.TInteger 20))) "num"
    (.TInteger 30) 0).2 _ rfl

theorem Scope.mergeLoop_get : ∀ (other st : Store) (k : String),
    Store.get (Scope.mergeLoop st other) k =
      match Store.get st k with
      | some v => some v
      | none => Store.get other k
  | [], st, k => by
    simp only [Scope.mergeLoop, Store.get]
    cases Store.get st k <;> rfl
  | (k', v') :: rest, st, k => by
    simp only [Scope.mergeLoop]
    cases h : Store.get st k' with
    | some w =>
      simp only [Scope.mergeLoop_get rest st k, Store.get]
      cases hk : Store.get st k with
      | some u => rfl
      | none =>
        have : k' ≠ k := by
          intro e
          rw [e] at h
          rw [h] at hk
          cases hk
        simp [this]
    | none =>
      simp only [Scope.mergeLoop_get rest (Store.set st k' v') k, Store.get]
      by_cases e : k' = k
      · subst e
        simp [Store.get_set_self, h]
      · rw [Store.get_set_other _ _ _ _ (Ne.symm e)]
        simp [e]

/-- C5. After `s.Merge(o)`: a name `s` held locally keeps its value, a name held locally by
`o` and not by `s` is bound in `s` to the value `o` has, no other name is bound, `o` is as it
was, and the parent of `s` is as it was. -/
theorem Scope.Merge_spec (s o : Scope) :
    (∀ k v, Store.get s.store k = some v → Store.get (s.Merge o).1.store k = some v) ∧
    (∀ k v, Store.get s.store k = none → Store.get o.store k = some v →
      Store.get (s.Merge o).1.store k = some v) ∧
    (∀ k, Store.get s.store k = none → Store.get o.store k = none →
      Store.get (s.Merge o).1.store k = none) ∧
    (s.Merge o).2 = o ∧ (s.Merge o).1.parent = s.parent := by
  cases s with
  | mk st p =>
    refine ⟨fun k v h => ?_, fun k v h1 h2 => ?_, fun k h1 h2 => ?_, rfl, rfl⟩
    · simp only [Scope.store] at h
      simp [Scope.Merge, Scope.store, Scope.mergeLoop_get, h]
    · simp only [Scope.store] at h1
      simp only [Scope.Merge, Scope.mergeLoop_get, Scope.store, h1]
      exact h2
    · simp only [Scope.store] at h1
      simp only [Scope.Merge, Scope.mergeLoop_get, Scope.store, h1]
      exact h2

/-- C5, at the scopes of `TestScopeMerge`: after the merge the receiver holds `num` with the
value of the other scope and keeps its own `str`. -/
theorem Scope.Merge_spec_witness :
    Store.get ((NewScope.Write "str" (.TString "test")).Merge
      (NewScope.Write "num" (.TInteger 20))).1.store "num" = some (.TInteger 20) ∧
    Store.get ((NewScope.Write "str" (.TString "test")).Merge
      (NewScope.Write "num" (.TInteger 20))).1.store "str" = some (.TString "test") :=
  ⟨(Scope.Merge_spec (NewScope.Write "str" (.TString "test"))
      (NewScope.Write "num" (.TInteger 20))).2.1 "num" (.TInteger 20) rfl rfl,
   (Scope.Merge_spec (NewScope.Write "str" (.TString "test"))
      (NewScope.Write "num" (.TInteger 20))).1 "str" (.TString "test") rfl⟩

end Oro.runtime

namespace Oro.parser

open Oro token ast

/-! ## Parser -/

/-- The token types `New` registers with `parseInfix` are the seventeen binary operators
`+ - * / % ** == != < <= > >= & | << >> ..`. -/
theorem infixFunction_parseInfix_iff (t : TType) :
    infixFunction t = some .parseInfix ↔
      t ∈ [TType.Plus, .Minus, .Multiply, .Divide, .Modulus, .Exponential, .Equal, .NotEqual,
        .Less, .LessEqual, .Greater, .GreaterEqual, .BitwiseAnd, .BitwiseOr, .BitShiftLeft,
        .BitShiftRight, .Range] := by
  cases t <;> simp [infixFunction]

set_option maxHeartbeats 8000000 in
/-- C6. For identifier tokens `a`, `b`, `c` and operator tokens `t1`, `t2` of types handled
by `parseInfix`, with precedences `v1` and `v2` in the table, parsing the input
`a t1 b t2 c` returns, with nothing reported, the program of one expression statement:
`(a t1 (b t2 c))` when `v1 < v2` and `((a t1 b) t2 c)` otherwise. -/
theorem Parse_precedence (ParseInt : String → Nat → Option Int)
    (ParseFloat : String → Option Float64) (a b c t1 t2 eof : Token) (v1 v2 : Int)
    (fuel : Nat)
    (ha : a.Typ = .Identifier) (hb : b.Typ = .Identifier) (hc : c.Typ = .Identifier)
    (h1 : infixFunction t1.Typ = some .parseInfix)
    (h2 : infixFunction t2.Typ = some .parseInfix)
    (hv1 : precedences t1.Typ = some v1) (hv2 : precedences t2.Typ = some v2)
    (he : eof.Typ = .Eof) :
    Parse (streamEnv ParseInt ParseFloat) (fuel + 13)
        (New (streamEnv ParseInt ParseFloat) ⟨[a, t1, b, t2, c], eof⟩) =
      .ok (.Program [.ExpressionStatement a
          (if v1 < v2 then
            .InfixExpression t1 (.Identifier ⟨a, a.Literal⟩) t1.Literal
              (.InfixExpression t2 (.Identifier ⟨b, b.Literal⟩) t2.Literal
                (.Identifier ⟨c, c.Literal⟩))
          else
            .InfixExpression t2
              (.InfixExpression t1 (.Identifier ⟨a, a.Literal⟩) t1.Literal
                (.Identifier ⟨b, b.Literal⟩))
              t2.Literal (.Identifier ⟨c, c.Literal⟩))],
        ⟨⟨[], eof⟩, eof, eof, []⟩) := by
  obtain ⟨ta, la, pa⟩ := a
  obtain ⟨tb, lb, pb⟩ := b
  obtain ⟨tc, lc, pc⟩ := c
  obtain ⟨te, le, pe⟩ := eof
  obtain ⟨ty1, l1, p1⟩ := t1
  obtain ⟨ty2, l2, p2⟩ := t2
  simp only at ha hb hc he h1 h2 hv1 hv2
  subst ha hb hc he
  cases ty1 <;> simp [infixFunction] at h1 <;>
    cases ty2 <;> simp [infixFunction] at h2 <;>
    (simp only [precedences, Option.some.injEq] at hv1 hv2; subst hv1 hv2;
      first | (rw [if_pos (by decide)]; rfl) | (rw [if_neg (by decide)]; rfl))

/-- C6, at the inputs `a + b * c` and `a - b + c`: they parse to `(a + (b * c))` and to
`((a - b) + c)`. -/
theorem Parse_precedence_witness :
    Parse (streamEnv (fun _ _ => none) (fun _ => none)) (0 + 13)
        (New (streamEnv (fun _ _ => none) (fun _ => none))
          ⟨[⟨.Identifier, "a", ⟨1, 1⟩⟩, ⟨.Plus, "+", ⟨1, 3⟩⟩, ⟨.Identifier, "b", ⟨1, 5⟩⟩,
            ⟨.Multiply, "*", ⟨1, 7⟩⟩, ⟨.Identifier, "c", ⟨1, 9⟩⟩], ⟨.Eof, "", ⟨1, 11⟩⟩⟩) =
      .ok (.Program [.ExpressionStatement ⟨.Identifier, "a", ⟨1, 1⟩⟩
          (.InfixExpression ⟨.Plus, "+", ⟨1, 3⟩⟩
            (.Identifier ⟨⟨.Identifier, "a", ⟨1, 1⟩⟩, "a"⟩) "+"
            (.InfixExpression ⟨.Multiply, "*", ⟨1, 7⟩⟩
              (.Identifier ⟨⟨.Identifier, "b", ⟨1, 5⟩⟩, "b"⟩) "*"
              (.Identifier ⟨⟨.Identifier, "c", ⟨1, 9⟩⟩, "c"⟩)))],
        ⟨⟨[], ⟨.Eof, "", ⟨1, 11⟩⟩⟩, ⟨.Eof, "", ⟨1, 11⟩⟩, ⟨.Eof, "", ⟨1, 11⟩⟩, []⟩) ∧
    Parse (streamEnv (fun _ _ => none) (fun _ => none)) (0 + 13)
        (New (streamEnv (fun _ _ => none) (fun _ => none))
          ⟨[⟨.Identifier, "a", ⟨1, 1⟩⟩, ⟨.Minus, "-", ⟨1, 3⟩⟩, ⟨.Identifier, "b", ⟨1, 5⟩⟩,
            ⟨.Plus, "+", ⟨1, 7⟩⟩, ⟨.Identifier, "c", ⟨1, 9⟩⟩], ⟨.Eof, "", ⟨1, 11⟩⟩⟩) =
      .ok (.Program [.ExpressionStatement ⟨.Identifier, "a", ⟨1, 1⟩⟩
          (.InfixExpression ⟨.Plus, "+", ⟨1, 7⟩⟩
            (.InfixExpression ⟨.Minus, "-", ⟨1, 3⟩⟩
              (.Identifier ⟨⟨.Identifier, "a", ⟨1, 1⟩⟩, "a"⟩) "-"
              (.Identifier ⟨⟨.Identifier, "b", ⟨1, 5⟩⟩, "b"⟩))
            "+" (.Identifier ⟨⟨.Identifier, "c", ⟨1, 9⟩⟩, "c"⟩))],
        ⟨⟨[], ⟨.Eof, "", ⟨1, 11⟩⟩⟩, ⟨.Eof, "", ⟨1, 11⟩⟩, ⟨.Eof, "", ⟨1, 11⟩⟩, []⟩) :=
  ⟨Parse_precedence (fun _ _ => none) (fun _ => none) ⟨.Identifier, "a", ⟨1, 1⟩⟩
      ⟨.Identifier, "b", ⟨1, 5⟩⟩ ⟨.Identifier, "c", ⟨1, 9⟩⟩ ⟨.Plus, "+", ⟨1, 3⟩⟩
      ⟨.Multiply, "*", ⟨1, 7⟩⟩ ⟨.Eof, "", ⟨1, 11⟩⟩ Sum Product 0 rfl rfl rfl rfl rfl rfl rfl rfl,
   Parse_precedence (fun _ _ => none) (fun _ => none) ⟨.Identifier, "a", ⟨1, 1⟩⟩
      ⟨.Identifier, "b", ⟨1, 5⟩⟩ ⟨.Identifier, "c", ⟨1, 9⟩⟩ ⟨.Minus, "-", ⟨1, 3⟩⟩
      ⟨.Plus, "+", ⟨1, 7⟩⟩ ⟨.Eof, "", ⟨1, 11⟩⟩ Sum Sum 0 rfl rfl rfl rfl rfl rfl rfl rfl⟩


theorem nextToken_positioned (ParseInt : String → Nat → Option Int)
    (ParseFloat : String → Option Float64) (cur t : Token) (rest : List Token) (eof : Token)
    (errors : List rerror.Entry) :
    nextToken (streamEnv ParseInt ParseFloat) (positioned cur (t :: rest) eof errors) =
      positioned t rest eof errors := by
  cases rest <;> rfl

theorem nextToken_positioned_nil (ParseInt : String → Nat → Option Int)
    (ParseFloat : String → Option Float64) (cur : Token) (eof : Token)
    (errors : List rerror.Entry) :
    nextToken (streamEnv ParseInt ParseFloat) (positioned cur [] eof errors) =
      positioned eof [] eof errors := rfl

theorem New_positioned (ParseInt : String → Nat → Option Int)
    (ParseFloat : String → Option Float64) (t : Token) (ts : List Token) (eof : Token) :
    New (streamEnv ParseInt ParseFloat) ⟨t :: ts, eof⟩ = positioned t ts eof [] := by
  cases ts <;> rfl

theorem positioned_token (cur : Token) (rest : List Token) (eof : Token)
    (errors : List rerror.Entry) : (positioned cur rest eof errors).token = cur := by
  cases rest <;> rfl

theorem peekPrecedence_positioned (cur t : Token) (rest : List Token) (eof : Token)
    (errors : List rerror.Entry) :
    peekPrecedence (positioned cur (t :: rest) eof errors) = precedenceOf t.Typ := rfl

theorem peekPrecedence_positioned_nil (cur : Token) (eof : Token)
    (errors : List rerror.Entry) (he : eof.Typ = .Eof) :
    peekPrecedence (positioned cur [] eof errors) = Lowest := by
  simp [peekPrecedence, positioned, he, precedences]

theorem parseExpressionLoop_stop (env : Env TokenStream) (n : Nat) (prec : Int) (left : Node)
    (cur eof : Token) (errors : List rerror.Entry) (he : eof.Typ = .Eof) (hp : Lowest ≤ prec) :
    parseExpressionLoop env (n + 1) prec left (positioned cur [] eof errors) =
      .ok (left, positioned cur [] eof errors) := by
  rw [parseExpressionLoop, peekPrecedence_positioned_nil _ _ _ he, if_neg (not_lt.mpr hp)]


theorem parseExpressionLoop_infixRight (ParseInt : String → Nat → Option Int)
    (ParseFloat : String → Option Float64) (n : Nat) (prec : Int) (left : Node)
    (cur o t : Token) (rest : List Token) (eof : Token) (errors : List rerror.Entry)
    (ho : o.Typ = .LogicalAnd ∨ o.Typ = .LogicalOr) (hp : prec < Boolean) :
    parseExpressionLoop (streamEnv ParseInt ParseFloat) (n + 3) prec left
        (positioned cur (o :: t :: rest) eof errors) =
      Res.bind (parseExpression (streamEnv ParseInt ParseFloat) n (Boolean - 1)
          (positioned t rest eof errors))
        (fun r => parseExpressionLoop (streamEnv ParseInt ParseFloat) (n + 2) prec
          (.InfixExpression o left o.Literal r.1) r.2) := by
  have hprec : precedenceOf o.Typ = Boolean := by
    rcases ho with h | h <;> simp [precedenceOf, precedences, h]
  have hinfix : infixFunction o.Typ = some .parseInfixRight := by
    rcases ho with h | h <;> simp [infixFunction, h]
  have hpos : (positioned cur (o :: t :: rest) eof errors).peekToken = o := rfl
  have hcur : (positioned o (t :: rest) eof errors).token = o := rfl
  have hprec2 : precedence (positioned o (t :: rest) eof errors) = Boolean := hprec
  rw [parseExpressionLoop, peekPrecedence_positioned, hprec, if_pos hp, hpos, hinfix]
  simp only [Res.bind_eq, nextToken_positioned, callInfix, parseInfixRight, hcur, hprec2]
  cases parseExpression (streamEnv ParseInt ParseFloat) n (Boolean - 1)
      (positioned t rest eof errors) with
  | ok r => rfl
  | fault => rfl
  | timeout => rfl


theorem ParseLoop_expression (env : Env TokenStream) (n : Nat) (p : Parser TokenStream)
    (statements : List Node) (hp : (prefixFunction p.token.Typ).isSome = true) :
    ParseLoop env (n + 3) p statements =
      Res.bind (parseExpression env n Lowest p)
        (fun r => ParseLoop env (n + 2) (nextToken env r.2)
          (statements ++ [.ExpressionStatement p.token r.1])) := by
  have hm : matchToken p [.Eof] = false := by
    cases h : p.token.Typ <;> simp_all [matchToken, prefixFunction]
  have hs : parseStatement env (n + 2) p = parseExpressionStatement env (n + 1) p := by
    rw [parseStatement]
    cases h : p.token.Typ <;> simp_all [prefixFunction]
  rw [ParseLoop, hm, hs, parseExpressionStatement]
  simp only [Res.bind_eq]
  cases parseExpression env n Lowest p with
  | ok r => rfl
  | fault => rfl
  | timeout => rfl

theorem peekPrecedence_positioned_le (cur : Token) (rest : List Token) (eof : Token)
    (errors : List rerror.Entry) (he : eof.Typ = .Eof)
    (hn : ∀ next, rest.head? = some next → precedenceOf next.Typ ≤ Boolean) :
    peekPrecedence (positioned cur rest eof errors) ≤ Boolean := by
  cases rest with
  | nil =>
    rw [peekPrecedence_positioned_nil _ _ _ he]
    decide
  | cons t ts =>
    rw [peekPrecedence_positioned]
    exact hn t rfl

/-- An identifier token is an operand that parses to the identifier. -/
theorem Operand_identifier (env : Env TokenStream) (t : Token) (ht : t.Typ = .Identifier) :
    Operand env [t] (.Identifier ⟨t, t.Literal⟩) := by
  refine ⟨t, [], t, rfl, rfl, by simp [prefixFunction, ht], 2, 1, ?_⟩
  intro fuel prec rest eof errors _ _ _ _
  rw [parseExpression, positioned_token, ht]
  simp only [prefixFunction, callPrefix, parseIdentifier, Res.bind_eq, Res.bind,
    positioned_token, List.nil_append]

/-- Two identifier tokens around an operator token handled by `parseInfix` are an operand
that parses to the infix expression of the two identifiers. -/
theorem Operand_binary (ParseInt : String → Nat → Option Int)
    (ParseFloat : String → Option Float64) (x o y : Token)
    (hx : x.Typ = .Identifier) (hy : y.Typ = .Identifier)
    (ho : infixFunction o.Typ = some .parseInfix) :
    Operand (streamEnv ParseInt ParseFloat) [x, o, y]
      (.InfixExpression o (.Identifier ⟨x, x.Literal⟩) o.Literal (.Identifier ⟨y, y.Literal⟩)) := by
  refine ⟨x, [o, y], y, rfl, rfl, by simp [prefixFunction, hx], 6, 4, ?_⟩
  intro fuel prec rest eof errors he _ hp hn
  have hprec : Boolean < precedenceOf o.Typ := by
    rw [infixFunction_parseInfix_iff] at ho
    simp only [List.mem_cons, List.mem_singleton, List.not_mem_nil, or_false] at ho
    rcases ho with h | h | h | h | h | h | h | h | h | h | h | h | h | h | h | h | h <;>
      rw [h] <;> decide
  have hlt : prec < precedenceOf o.Typ := lt_of_le_of_lt hp hprec
  have hstop : ¬ precedenceOf o.Typ < peekPrecedence (positioned y rest eof errors) :=
    not_lt.mpr (le_of_lt (lt_of_le_of_lt (peekPrecedence_positioned_le _ _ _ _ he hn) hprec))
  have hpeek : (positioned x (o :: y :: rest) eof errors).peekToken = o := rfl
  have hcur : (positioned o (y :: rest) eof errors).token = o := rfl
  have hprec2 : precedence (positioned o (y :: rest) eof errors) = precedenceOf o.Typ := rfl
  have e1 : fuel + 6 = (fuel + 5) + 1 := rfl
  rw [e1, parseExpression, positioned_token, hx]
  simp only [prefixFunction, callPrefix, parseIdentifier, Res.bind_eq, Res.bind,
    positioned_token, List.cons_append, List.nil_append]
  rw [parseExpressionLoop, peekPrecedence_positioned, if_pos hlt, hpeek, ho]
  simp only [Res.bind_eq, nextToken_positioned, callInfix, parseInfix, hcur, hprec2]
  rw [parseExpression, positioned_token, hy]
  simp only [prefixFunction, callPrefix, parseIdentifier, Res.bind_eq, Res.bind,
    positioned_token]
  rw [parseExpressionLoop, if_neg hstop]

/-- C7. Boolean chains are right-associative: for operands `ta`, `tb`, `tc` that bind tighter
than the boolean operators and parse to `A`, `B`, `C`, and operator tokens `o1`, `o2` of type
`&&` or `||`, parsing the input `ta o1 tb o2 tc` returns, given enough fuel and with nothing
reported, the program of the one expression statement `(A o1 (B o2 C))`. -/
theorem Parse_boolean_right_assoc (ParseInt : String → Nat → Option Int)
    (ParseFloat : String → Option Float64) (ta tb tc : List Token) (A B C : Node)
    (o1 o2 eof : Token)
    (hA : Operand (streamEnv ParseInt ParseFloat) ta A)
    (hB : Operand (streamEnv ParseInt ParseFloat) tb B)
    (hC : Operand (streamEnv ParseInt ParseFloat) tc C)
    (h1 : o1.Typ = .LogicalAnd ∨ o1.Typ = .LogicalOr)
    (h2 : o2.Typ = .LogicalAnd ∨ o2.Typ = .LogicalOr)
    (he : eof.Typ = .Eof) :
    ∃ (first : Token) (N : Nat), ta.head? = some first ∧ ∀ fuel : Nat,
      Parse (streamEnv ParseInt ParseFloat) (fuel + N)
          (New (streamEnv ParseInt ParseFloat) ⟨ta ++ [o1] ++ tb ++ [o2] ++ tc, eof⟩) =
        .ok (.Program [.ExpressionStatement first
            (.InfixExpression o1 A o1.Literal (.InfixExpression o2 B o2.Literal C))],
          ⟨⟨[], eof⟩, eof, eof, []⟩) := by
  obtain ⟨fa, ma, la, rfl, -, hpa, ka, ja, Ha⟩ := hA
  obtain ⟨fb, mb, lb, rfl, -, -, kb, jb, Hb⟩ := hB
  obtain ⟨fc, mc, lc, rfl, -, -, kc, jc, Hc⟩ := hC
  refine ⟨fa, ka + kb + kc + 12, rfl, fun fuel => ?_⟩
  have hl : (fa :: ma) ++ [o1] ++ (fb :: mb) ++ [o2] ++ (fc :: mc) =
      fa :: (ma ++ (o1 :: fb :: (mb ++ (o2 :: fc :: (mc ++ []))))) := by simp
  have hb1 : precedenceOf o1.Typ = Boolean := by
    rcases h1 with h | h <;> simp [precedenceOf, precedences, h]
  have hb2 : precedenceOf o2.Typ = Boolean := by
    rcases h2 with h | h <;> simp [precedenceOf, precedences, h]
  have hlow : Lowest ≤ Boolean - 1 := by decide
  have hbool : Boolean - 1 ≤ Boolean := by decide
  have hlt : Boolean - 1 < Boolean := by decide
  have hlb : Lowest < Boolean := by decide
  have hll : Lowest ≤ Boolean := by decide
  -- the three operands, each read at the fuel the run below reaches it with
  have Ea := Ha (fuel + kb + kc + 9) Lowest (o1 :: fb :: (mb ++ (o2 :: fc :: (mc ++ []))))
    eof [] he (le_refl _) hll (by intro next h; cases h; exact le_of_eq hb1)
  have Eb := Hb (fuel + kc + ja + 6) (Boolean - 1) (o2 :: fc :: (mc ++ [])) eof [] he hlow
    hbool (by intro next h; cases h; exact le_of_eq hb2)
  have Ec := Hc (fuel + ja + jb + 3) (Boolean - 1) [] eof [] he hlow hbool
    (by intro next h; cases h)
  have ea : fuel + (ka + kb + kc + 12) = (fuel + kb + kc + 9 + ka) + 3 := by omega
  have ea' : fuel + kb + kc + 9 + ja = (fuel + kc + ja + 6 + kb) + 3 := by omega
  have eb' : fuel + kc + ja + 6 + jb = (fuel + ja + jb + 3 + kc) + 3 := by omega
  have ec' : fuel + ja + jb + 3 + jc = (fuel + ja + jb + jc + 2) + 1 := by omega
  have e1 : fuel + ja + jb + 3 + kc + 2 = (fuel + ja + jb + kc + 4) + 1 := by omega
  have e2 : fuel + kc + ja + 6 + kb + 2 = (fuel + kc + ja + kb + 7) + 1 := by omega
  have e3 : fuel + kb + kc + 9 + ka + 2 = (fuel + kb + kc + ka + 10) + 1 := by omega
  have hpa' : (prefixFunction (positioned fa
      (ma ++ o1 :: fb :: (mb ++ o2 :: fc :: (mc ++ []))) eof []).token.Typ).isSome = true := by
    rw [positioned_token]
    exact hpa
  rw [hl, New_positioned, Parse, ea, ParseLoop_expression _ _ _ _ hpa', positioned_token, Ea,
    ea',
    parseExpressionLoop_infixRight _ _ _ _ _ _ _ _ _ _ _ h1 hlb, Eb, eb',
    parseExpressionLoop_infixRight _ _ _ _ _ _ _ _ _ _ _ h2 hlt, Ec, ec',
    parseExpressionLoop_stop _ _ _ _ _ _ _ he hlow]
  simp only [Res.bind, List.append_nil]
  rw [e1, parseExpressionLoop_stop _ _ _ _ _ _ _ he hlow]
  simp only [Res.bind]
  rw [e2, parseExpressionLoop_stop _ _ _ _ _ _ _ he (le_refl _)]
  simp only [Res.bind, nextToken_positioned_nil, List.nil_append]
  rw [e3, ParseLoop]
  simp [matchToken, positioned, he, Res.bind_eq, Res.bind]
  rfl


/-- C7, at the input `b > a && c <= d || e > f` of `TestOperatorPrecedence`: it parses to
`((b > a) && ((c <= d) || (e > f)))`. -/
theorem Parse_boolean_right_assoc_witness :
    ∃ (first : Token) (N : Nat),
      ([⟨.Identifier, "b", ⟨1, 1⟩⟩, ⟨.Greater, ">", ⟨1, 3⟩⟩,
        ⟨.Identifier, "a", ⟨1, 5⟩⟩] : List Token).head? = some first ∧
      ∀ fuel : Nat,
        Parse (streamEnv (fun _ _ => none) (fun _ => none)) (fuel + N)
          (New (streamEnv (fun _ _ => none) (fun _ => none))
            ⟨[⟨.Identifier, "b", ⟨1, 1⟩⟩, ⟨.Greater, ">", ⟨1, 3⟩⟩, ⟨.Identifier, "a", ⟨1, 5⟩⟩]
              ++ [⟨.LogicalAnd, "&&", ⟨1, 7⟩⟩]
              ++ [⟨.Identifier, "c", ⟨1, 10⟩⟩, ⟨.LessEqual, "<=", ⟨1, 12⟩⟩,
                  ⟨.Identifier, "d", ⟨1, 15⟩⟩]
              ++ [⟨.LogicalOr, "||", ⟨1, 17⟩⟩]
              ++ [⟨.Identifier, "e", ⟨1, 20⟩⟩, ⟨.Greater, ">", ⟨1, 22⟩⟩,
                  ⟨.Identifier, "f", ⟨1, 24⟩⟩],
             ⟨.Eof, "", ⟨1, 26⟩⟩⟩) =
        .ok (.Program [.ExpressionStatement first
            (.InfixExpression ⟨.LogicalAnd, "&&", ⟨1, 7⟩⟩
              (.InfixExpression ⟨.Greater, ">", ⟨1, 3⟩⟩
                (.Identifier ⟨⟨.Identifier, "b", ⟨1, 1⟩⟩, "b"⟩) ">"
                (.Identifier ⟨⟨.Identifier, "a", ⟨1, 5⟩⟩, "a"⟩))
              "&&"
              (.InfixExpression ⟨.LogicalOr, "||", ⟨1, 17⟩⟩
                (.InfixExpression ⟨.LessEqual, "<=", ⟨1, 12⟩⟩
                  (.Identifier ⟨⟨.Identifier, "c", ⟨1, 10⟩⟩, "c"⟩) "<="
                  (.Identifier ⟨⟨.Identifier, "d", ⟨1, 15⟩⟩, "d"⟩))
                "||"
                (.InfixExpression ⟨.Greater, ">", ⟨1, 22⟩⟩
                  (.Identifier ⟨⟨.Identifier, "e", ⟨1, 20⟩⟩, "e"⟩) ">"
                  (.Identifier ⟨⟨.Identifier, "f", ⟨1, 24⟩⟩, "f"⟩))))],
          ⟨⟨[], ⟨.Eof, "", ⟨1, 26⟩⟩⟩, ⟨.Eof, "", ⟨1, 26⟩⟩, ⟨.Eof, "", ⟨1, 26⟩⟩, []⟩) :=
  Parse_boolean_right_assoc (fun _ _ => none) (fun _ => none) _ _ _ _ _ _
    ⟨.LogicalAnd, "&&", ⟨1, 7⟩⟩ ⟨.LogicalOr, "||", ⟨1, 17⟩⟩ ⟨.Eof, "", ⟨1, 26⟩⟩
    (Operand_binary _ _ _ _ _ rfl rfl rfl) (Operand_binary _ _ _ _ _ rfl rfl rfl)
    (Operand_binary _ _ _ _ _ rfl rfl rfl) (Or.inl rfl) (Or.inr rfl) rfl


end Oro.parser

namespace Oro.interpreter

open Oro token ast runtime

/-! ## Val, Var and Assign -/

theorem mapGet_mapSet_self {V : Type} (m : List (String × V)) (n : String) (v : V) :
    mapGet (mapSet m n v) n = some v := by
  induction m with
  | nil => simp [mapSet, mapGet]
  | cons kv rest ih =>
    obtain ⟨k, w⟩ := kv
    by_cases h : k = n
    · simp [mapSet, mapGet, h]
    · simp [mapSet, mapGet, h, ih]

/-- A successful `Val` leaves the name in the immutability registry, bound in the scope to
the value it returns. -/
theorem Val_registers (ops : Ops) (tok : Token) (name : Identifier) (value : Node)
    (st st' : State) (d : Data) (h : Val ops tok name value st = .ok (d, st'))
    (hd : d ≠ .absent) :
    (mapGet st'.i.immutable name.Value).isSome = true ∧ st'.sc.Read name.Value = some d := by
  unfold Val at h
  simp only [Res.bind_eq] at h
  cases hi : ops.Interpreter value st with
  | fault => rw [hi] at h; cases h
  | timeout => rw [hi] at h; cases h
  | ok r =>
    obtain ⟨data, s1⟩ := r
    rw [hi] at h
    simp only [Res.bind] at h
    split at h
    · simp only [Res.pure_eq, Res.ok.injEq, Prod.mk.injEq] at h
      exact absurd h.1.symm hd
    · split at h
      · simp only [Res.pure_eq, Res.ok.injEq, Prod.mk.injEq] at h
        exact absurd h.1.symm hd
      · simp only [Res.pure_eq, Res.ok.injEq, Prod.mk.injEq] at h
        obtain ⟨h3, h4⟩ := h
        subst h3 h4
        refine ⟨?_, Scope.Read_Write_self _ _ _⟩
        cases hm : mapGet s1.i.immutable name.Value with
        | some y => simp [hm]
        | none => simp [mapGet_mapSet_self]

/-- An `Assign` to a name of the registry returns `nil` and leaves the state as it was but
for one Runtime Error: that the name is not found when the scope cannot read it, and that it
is immutable when the scope can. -/
theorem Assign_registered (ops : Ops) (tok : Token) (target right : Node) (st : State)
    (n : String) (ht : assignName target = .ok n)
    (hreg : (mapGet st.i.immutable n).isSome = true) :
    Assign ops tok target right st = .ok (.absent, interpreterError st tok.Position
      (if (st.sc.Read n).isSome then "Identifier '" ++ n ++ "' is immutable"
       else "Identifier '" ++ n ++ "' not found in current memory")) := by
  unfold Assign
  simp only [Res.bind_eq, ht, Res.bind]
  cases hr : st.sc.Read n with
  | none => rfl
  | some original =>
    obtain ⟨x, hx⟩ := Option.isSome_iff_exists.mp hreg
    simp only [hx]
    rfl

/-- A successful `Var` binds the name in the scope to the value it returns, and leaves the
interpreter and the errors as the evaluation of its right-hand side left them. -/
theorem Var_binds (ops : Ops) (tok : Token) (name : Identifier) (value : Node)
    (st st' : State) (d : Data) (h : Var ops tok name value st = .ok (d, st'))
    (hd : d ≠ .absent) :
    st'.sc.Read name.Value = some d ∧
    ∃ s1, ops.Interpreter value st = .ok (d, s1) ∧ st'.i = s1.i ∧ st'.errors = s1.errors := by
  unfold Var at h
  simp only [Res.bind_eq] at h
  cases hi : ops.Interpreter value st with
  | fault => rw [hi] at h; cases h
  | timeout => rw [hi] at h; cases h
  | ok r =>
    obtain ⟨data, s1⟩ := r
    rw [hi] at h
    simp only [Res.bind] at h
    split at h
    · simp only [Res.pure_eq, Res.ok.injEq, Prod.mk.injEq] at h
      exact absurd h.1.symm hd
    · split at h
      · simp only [Res.pure_eq, Res.ok.injEq, Prod.mk.injEq] at h
        exact absurd h.1.symm hd
      · simp only [Res.pure_eq, Res.ok.injEq, Prod.mk.injEq] at h
        obtain ⟨h3, h4⟩ := h
        subst h3 h4
        exact ⟨Scope.Read_Write_self _ _ _, s1, rfl, rfl, rfl⟩

/-- A plain `Assign` to a readable name that is not in the registry: with the right-hand
side evaluated to a value of the type of the value read before, the value is returned and
written by `Update`; with a value of another type, `nil` is returned and the state is the
one the right-hand side left, but for one Runtime Error. -/
theorem Assign_plain (ops : Ops) (tok : Token) (id : Identifier) (right : Node)
    (st st' : State) (v w : Data) (tv tw : String)
    (hx : st.sc.Read id.Value = some v) (hreg : mapGet st.i.immutable id.Value = none)
    (hr : ops.Interpreter right st = .ok (w, st'))
    (hv : v.Type = some tv) (hw : w.Type = some tw) :
    Assign ops tok (.Identifier id) right st =
      if tw = tv then .ok (w, { st' with sc := st'.sc.Update id.Value w })
      else .ok (.absent, interpreterError st' tok.Position
        ("Variable assignment should keep the original data type '" ++ tv ++ "'")) := by
  unfold Assign
  simp only [Res.bind_eq, assignName, Res.bind, hx, hreg, hr]
  have hne : w ≠ .absent := by
    intro h
    rw [h] at hw
    simp [Data.Type] at hw
  cases w <;> first
    | exact absurd rfl hne
    | (simp only [Res.pure_eq, Res.bind, hv, hw]
       by_cases h : tw = tv
       · simp [h]
       · simp [h])

theorem mapGet_mapSet {V : Type} (m : List (String × V)) (k n : String) (v : V) :
    mapGet (mapSet m k v) n = if k = n then some v else mapGet m n := by
  induction m with
  | nil => simp [mapSet, mapGet]
  | cons kv rest ih =>
    obtain ⟨k', w⟩ := kv
    by_cases hk : k' = k
    · subst hk
      by_cases hn : k' = n
      · simp [mapSet, mapGet, hn]
      · simp [mapSet, mapGet, hn]
    · by_cases hn : k' = n
      · subst hn
        have hk' : ¬ k = k' := fun e => hk e.symm
        simp [mapSet, mapGet, hk, hk']
      · simp [mapSet, mapGet, hk, hn, ih]

theorem mapGet_mapSet_isSome {V : Type} (m : List (String × V)) (k n : String) (v : V)
    (h : (mapGet m n).isSome = true) : (mapGet (mapSet m k v) n).isSome = true := by
  rw [mapGet_mapSet]
  split
  · rfl
  · exact h

/-- `Val` and `Var` keep every name of the registry when the evaluation of their
right-hand side does. -/
theorem Val_Var_keep_registry (ops : Ops) (n : String)
    (hops : ∀ node s d s', ops.Interpreter node s = .ok (d, s') →
      (mapGet s.i.immutable n).isSome = true → (mapGet s'.i.immutable n).isSome = true)
    (tok : Token) (name : Identifier) (value : Node) (st st' : State) (d : Data)
    (hn : (mapGet st.i.immutable n).isSome = true) :
    (Val ops tok name value st = .ok (d, st') → (mapGet st'.i.immutable n).isSome = true) ∧
    (Var ops tok name value st = .ok (d, st') → (mapGet st'.i.immutable n).isSome = true) := by
  constructor
  · intro h
    unfold Val at h
    simp only [Res.bind_eq] at h
    cases hi : ops.Interpreter value st with
    | fault => rw [hi] at h; cases h
    | timeout => rw [hi] at h; cases h
    | ok r =>
      obtain ⟨data, s1⟩ := r
      have h1 := hops _ _ _ _ hi hn
      rw [hi] at h
      simp only [Res.bind] at h
      split at h
      · simp only [Res.pure_eq, Res.ok.injEq, Prod.mk.injEq] at h
        rw [← h.2]
        exact h1
      · split at h
        · simp only [Res.pure_eq, Res.ok.injEq, Prod.mk.injEq] at h
          rw [← h.2]
          exact h1
        · simp only [Res.pure_eq, Res.ok.injEq, Prod.mk.injEq] at h
          rw [← h.2]
          cases hm : mapGet s1.i.immutable name.Value with
          | some y => simpa [hm] using h1
          | none => simpa [hm] using mapGet_mapSet_isSome _ _ _ _ h1
  · intro h
    unfold Var at h
    simp only [Res.bind_eq] at h
    cases hi : ops.Interpreter value st with
    | fault => rw [hi] at h; cases h
    | timeout => rw [hi] at h; cases h
    | ok r =>
      obtain ⟨data, s1⟩ := r
      have h1 := hops _ _ _ _ hi hn
      rw [hi] at h
      simp only [Res.bind] at h
      split at h
      · simp only [Res.pure_eq, Res.ok.injEq, Prod.mk.injEq] at h
        rw [← h.2]
        exact h1
      · split at h
        · simp only [Res.pure_eq, Res.ok.injEq, Prod.mk.injEq] at h
          rw [← h.2]
          exact h1
        · simp only [Res.pure_eq, Res.ok.injEq, Prod.mk.injEq] at h
          rw [← h.2]
          exact h1

theorem AssignSubscript_registry (ops : Ops) (n : String)
    (hops : ∀ node s d s', ops.Interpreter node s = .ok (d, s') →
      (mapGet s.i.immutable n).isSome = true → (mapGet s'.i.immutable n).isSome = true)
    (index : Node) (original value : Data) (st st' : State) (r : Except String Data)
    (hn : (mapGet st.i.immutable n).isSome = true)
    (h : AssignSubscript ops index original value st = .ok (r, st')) :
    (mapGet st'.i.immutable n).isSome = true := by
  unfold AssignSubscript at h
  simp only [Res.bind_eq] at h
  cases hi : ops.Interpreter index st with
  | fault => rw [hi] at h; cases h
  | timeout => rw [hi] at h; cases h
  | ok q =>
    obtain ⟨idx, s1⟩ := q
    have h1 := hops _ _ _ _ hi hn
    rw [hi] at h
    simp only [Res.bind] at h
    repeat' split at h
    all_goals first
      | (cases h; exact h1)
      | cases h

/-- `Assign` keeps every name of the registry when the evaluation of its sub-expressions
does. -/
theorem Assign_keeps_registry (ops : Ops) (n : String)
    (hops : ∀ node s d s', ops.Interpreter node s = .ok (d, s') →
      (mapGet s.i.immutable n).isSome = true → (mapGet s'.i.immutable n).isSome = true)
    (tok : Token) (target right : Node) (st st' : State) (d : Data)
    (hn : (mapGet st.i.immutable n).isSome = true)
    (h : Assign ops tok target right st = .ok (d, st')) :
    (mapGet st'.i.immutable n).isSome = true := by
  unfold Assign at h
  simp only [Res.bind_eq] at h
  cases hname : assignName target with
  | fault => rw [hname] at h; cases h
  | timeout => rw [hname] at h; cases h
  | ok name =>
    rw [hname] at h
    simp only [Res.bind] at h
    split at h
    · simp only [Res.pure_eq, Res.ok.injEq, Prod.mk.injEq] at h
      rw [← h.2]
      exact hn
    · split at h
      · simp only [Res.pure_eq, Res.ok.injEq, Prod.mk.injEq] at h
        rw [← h.2]
        exact hn
      · cases hi : ops.Interpreter right st with
        | fault => rw [hi] at h; cases h
        | timeout => rw [hi] at h; cases h
        | ok q =>
          obtain ⟨data, s1⟩ := q
          have h1 := hops _ _ _ _ hi hn
          rw [hi] at h
          simp only [Res.bind] at h
          split at h
          · simp only [Res.pure_eq, Res.ok.injEq, Prod.mk.injEq] at h
            rw [← h.2]
            exact h1
          · cases target <;> simp only [Res.pure_eq, Res.bind] at h
            all_goals try (
              repeat' split at h
              all_goals first
                | (cases h; exact h1)
                | cases h)
            rename_i tk lft idxn
            cases hA : AssignSubscript ops idxn _ data s1 with
            | fault => rw [hA] at h; cases h
            | timeout => rw [hA] at h; cases h
            | ok q =>
              obtain ⟨res, s2⟩ := q
              have h2 := AssignSubscript_registry ops n hops _ _ _ _ _ _ h1 hA
              rw [hA] at h
              cases res with
              | error err =>
                simp only [Res.pure_eq, Res.bind] at h
                cases h
                exact h2
              | ok data' =>
                simp only [Res.pure_eq, Res.bind] at h
                repeat' split at h
                all_goals first
                  | (cases h; exact h2)
                  | cases h

/-- C8. When a `Val` has bound the name `n` (it returned a value), then in every state of
the interpreter whose registry still holds `n`, an `Assign` whose target is `n` or a
subscript of `n` returns `nil` and changes nothing but the list of errors, to which it adds
one Runtime Error; so the scope chain reads for `n` what it read before. -/
theorem Assign_after_Val_fails (ops : Ops) (tokv : Token) (name : Identifier) (value : Node)
    (st0 st1 : State) (d : Data)
    (hval : Val ops tokv name value st0 = .ok (d, st1)) (hd : d ≠ .absent)
    (st : State)
    (hlater : (mapGet st1.i.immutable name.Value).isSome = true →
      (mapGet st.i.immutable name.Value).isSome = true)
    (tok : Token) (target right : Node)
    (ht : (∃ id, target = .Identifier id ∧ id.Value = name.Value) ∨
      (∃ t id index, target = .Subscript t (.Identifier id) index ∧ id.Value = name.Value)) :
    ∃ e : rerror.Entry, e.terror = .Runtime ∧
      Assign ops tok target right st = .ok (.absent, { st with errors := st.errors ++ [e] }) := by
  have hname : assignName target = .ok name.Value := by
    rcases ht with ⟨id, rfl, h⟩ | ⟨t, id, index, rfl, h⟩ <;> simp [assignName, h]
  have hreg := hlater (Val_registers ops tokv name value st0 st1 d hval hd).1
  exact ⟨_, rfl, Assign_registered ops tok target right st name.Value hname hreg⟩

/-- C8, run on `val x = 5` followed by `x = 7` and by `x[0] = 7`. -/
theorem Assign_after_Val_fails_witness :
    (∃ e : rerror.Entry, e.terror = .Runtime ∧
      Assign literalOps ⟨.Assign, "=", ⟨1, 13⟩⟩
          (.Identifier ⟨⟨.Identifier, "x", ⟨1, 11⟩⟩, "x"⟩) (.Integer ⟨.Integer, "7", ⟨1, 15⟩⟩ 7)
          ⟨⟨[], [], [], [("x", ⟨⟨.Identifier, "x", ⟨1, 5⟩⟩, "x"⟩)], true⟩,
            .mk [("x", .TInteger 5)] none, []⟩ =
        .ok (.absent,
          ⟨⟨[], [], [], [("x", ⟨⟨.Identifier, "x", ⟨1, 5⟩⟩, "x"⟩)], true⟩,
            .mk [("x", .TInteger 5)] none, [] ++ [e]⟩)) ∧
    (∃ e : rerror.Entry, e.terror = .Runtime ∧
      Assign literalOps ⟨.Assign, "=", ⟨1, 16⟩⟩
          (.Subscript ⟨.LeftBracket, "[", ⟨1, 12⟩⟩
            (.Identifier ⟨⟨.Identifier, "x", ⟨1, 11⟩⟩, "x"⟩)
            (.Integer ⟨.Integer, "0", ⟨1, 13⟩⟩ 0))
          (.Integer ⟨.Integer, "7", ⟨1, 18⟩⟩ 7)
          ⟨⟨[], [], [], [("x", ⟨⟨.Identifier, "x", ⟨1, 5⟩⟩, "x"⟩)], true⟩,
            .mk [("x", .TInteger 5)] none, []⟩ =
        .ok (.absent,
          ⟨⟨[], [], [], [("x", ⟨⟨.Identifier, "x", ⟨1, 5⟩⟩, "x"⟩)], true⟩,
            .mk [("x", .TInteger 5)] none, [] ++ [e]⟩)) :=
  ⟨Assign_after_Val_fails literalOps ⟨.Val, "val", ⟨1, 1⟩⟩ ⟨⟨.Identifier, "x", ⟨1, 5⟩⟩, "x"⟩
      (.Integer ⟨.Integer, "5", ⟨1, 9⟩⟩ 5) ⟨⟨[], [], [], [], true⟩, NewScope, []⟩ _ (.TInteger 5)
      rfl (by intro h; cases h) _ id _ _ _ (Or.inl ⟨_, rfl, rfl⟩),
   Assign_after_Val_fails literalOps ⟨.Val, "val", ⟨1, 1⟩⟩ ⟨⟨.Identifier, "x", ⟨1, 5⟩⟩, "x"⟩
      (.Integer ⟨.Integer, "5", ⟨1, 9⟩⟩ 5) ⟨⟨[], [], [], [], true⟩, NewScope, []⟩ _ (.TInteger 5)
      rfl (by intro h; cases h) _ id _ _ _ (Or.inr ⟨_, _, _, rfl, rfl⟩)⟩

/-- C9 does not hold as stated: run `val x = 1` in a child scope (as the body of an `if`
is), then, back in the parent scope, `var x = 1` and `x = 2`.  The `var` binds `x` to the
integer 1 and the value 2 has the same type, yet the assignment returns `nil`, records that
`x` is immutable, and `x` keeps 1. -/
theorem Assign_same_type_rejected :
    ∃ s1 s3 : State,
      Val literalOps ⟨.Val, "val", ⟨1, 14⟩⟩ ⟨⟨.Identifier, "x", ⟨1, 18⟩⟩, "x"⟩
          (.Integer ⟨.Integer, "1", ⟨1, 22⟩⟩ 1)
          ⟨⟨[], [], [], [], true⟩, NewScopeFrom NewScope, []⟩ = .ok (.TInteger 1, s1) ∧
      s1.sc.parent = some NewScope ∧
      Var literalOps ⟨.Var, "var", ⟨2, 1⟩⟩ ⟨⟨.Identifier, "x", ⟨2, 5⟩⟩, "x"⟩
          (.Integer ⟨.Integer, "1", ⟨2, 9⟩⟩ 1) { s1 with sc := NewScope } =
        .ok (.TInteger 1, s3) ∧
      (Data.TInteger 2).Type = (Data.TInteger 1).Type ∧
      Assign literalOps ⟨.Assign, "=", ⟨3, 3⟩⟩ (.Identifier ⟨⟨.Identifier, "x", ⟨3, 1⟩⟩, "x"⟩)
          (.Integer ⟨.Integer, "2", ⟨3, 5⟩⟩ 2) s3 =
        .ok (.absent, interpreterError s3 ⟨3, 3⟩ "Identifier 'x' is immutable") ∧
      s3.sc.Read "x" = some (.TInteger 1) :=
  ⟨_, _, rfl, rfl, rfl, rfl, rfl, rfl⟩

/-- C9 (amended). After `var x = v` has bound `x`, in a state where `x` is not in the
immutability registry, and for a right-hand side that evaluates to a value `w`: the plain
assignment `x = w` is accepted, returning `w` and making `x` read `w`, when the type of `w` is
the type of `v`; otherwise it returns `nil` and adds one Runtime Error, and the scope is as
the evaluation of the right-hand side left it. -/
theorem Assign_type_preserving (ops : Ops) (tokv : Token) (id : Identifier) (value : Node)
    (st0 st st' : State) (v w : Data) (tv tw : String)
    (hvar : Var ops tokv id value st0 = .ok (v, st)) (hv : v.Type = some tv)
    (hreg : mapGet st.i.immutable id.Value = none)
    (tok : Token) (right : Node)
    (hr : ops.Interpreter right st = .ok (w, st')) (hw : w.Type = some tw)
    (hkeep : (st'.sc.Read id.Value).isSome = true) :
    (tw = tv →
      Assign ops tok (.Identifier id) right st =
        .ok (w, { st' with sc := st'.sc.Update id.Value w }) ∧
      (st'.sc.Update id.Value w).Read id.Value = some w) ∧
    (tw ≠ tv →
      ∃ e : rerror.Entry, e.terror = .Runtime ∧
        Assign ops tok (.Identifier id) right st =
          .ok (.absent, { st' with errors := st'.errors ++ [e] })) := by
  have hne : v ≠ .absent := by
    intro h
    rw [h] at hv
    simp [Data.Type] at hv
  have hx := (Var_binds ops tokv id value st0 st v hvar hne).1
  have h := Assign_plain ops tok id right st st' v w tv tw hx hreg hr hv hw
  refine ⟨fun e => ⟨?_, Scope.Read_updateParents _ _ _ hkeep⟩,
    fun e => ⟨⟨.Runtime, tok.Position,
      "Variable assignment should keep the original data type '" ++ tv ++ "'"⟩, rfl, ?_⟩⟩
  · rw [h, if_pos e]
  · rw [h, if_neg e]
    rfl

/-- C9 (amended), run on `var x = 1` followed by `x = 2`, which is accepted, and by
`x = "a"`, which is rejected. -/
theorem Assign_type_preserving_witness :
    (Assign literalOps ⟨.Assign, "=", ⟨2, 3⟩⟩ (.Identifier ⟨⟨.Identifier, "x", ⟨1, 5⟩⟩, "x"⟩)
        (.Integer ⟨.Integer, "2", ⟨2, 5⟩⟩ 2)
        ⟨⟨[], [], [], [], true⟩, .mk [("x", .TInteger 1)] none, []⟩ =
      .ok (.TInteger 2, ⟨⟨[], [], [], [], true⟩, .mk [("x", .TInteger 2)] none, []⟩)) ∧
    (∃ e : rerror.Entry, e.terror = .Runtime ∧
      Assign literalOps ⟨.Assign, "=", ⟨2, 3⟩⟩ (.Identifier ⟨⟨.Identifier, "x", ⟨1, 5⟩⟩, "x"⟩)
          (.String ⟨⟨.String, "a", ⟨2, 5⟩⟩, "a"⟩)
          ⟨⟨[], [], [], [], true⟩, .mk [("x", .TInteger 1)] none, []⟩ =
        .ok (.absent, ⟨⟨[], [], [], [], true⟩, .mk [("x", .TInteger 1)] none, [] ++ [e]⟩)) :=
  ⟨((Assign_type_preserving literalOps ⟨.Var, "var", ⟨1, 1⟩⟩ ⟨⟨.Identifier, "x", ⟨1, 5⟩⟩, "x"⟩
      (.Integer ⟨.Integer, "1", ⟨1, 9⟩⟩ 1) ⟨⟨[], [], [], [], true⟩, NewScope, []⟩
      ⟨⟨[], [], [], [], true⟩, .mk [("x", .TInteger 1)] none, []⟩ _ (.TInteger 1) (.TInteger 2)
      "Integer" "Integer" rfl rfl rfl ⟨.Assign, "=", ⟨2, 3⟩⟩ (.Integer ⟨.Integer, "2", ⟨2, 5⟩⟩ 2)
      rfl rfl rfl).1 rfl).1,
   (Assign_type_preserving literalOps ⟨.Var, "var", ⟨1, 1⟩⟩ ⟨⟨.Identifier, "x", ⟨1, 5⟩⟩, "x"⟩
      (.Integer ⟨.Integer, "1", ⟨1, 9⟩⟩ 1) ⟨⟨[], [], [], [], true⟩, NewScope, []⟩
      ⟨⟨[], [], [], [], true⟩, .mk [("x", .TInteger 1)] none, []⟩ _ (.TInteger 1) (.TString "a")
      "Integer" "String" rfl rfl rfl ⟨.Assign, "=", ⟨2, 3⟩⟩
      (.String ⟨⟨.String, "a", ⟨2, 5⟩⟩, "a"⟩) rfl rfl rfl).2 (by decide)⟩

/-- C10 does not hold as stated: run `val n = 1` in a child scope (as the body of an `if`
is) and then `n = 2` in the parent scope, which cannot read `n`.  The assignment fails with
the error that `n` is not found, which is not the immutability error. -/
theorem Assign_unreadable_not_immutability_error :
    ∃ s1 : State,
      Val literalOps ⟨.Val, "val", ⟨1, 14⟩⟩ ⟨⟨.Identifier, "n", ⟨1, 18⟩⟩, "n"⟩
          (.Integer ⟨.Integer, "1", ⟨1, 22⟩⟩ 1)
          ⟨⟨[], [], [], [], true⟩, NewScopeFrom NewScope, []⟩ = .ok (.TInteger 1, s1) ∧
      s1.sc.parent = some NewScope ∧
      (mapGet s1.i.immutable "n").isSome = true ∧
      Assign literalOps ⟨.Assign, "=", ⟨2, 3⟩⟩ (.Identifier ⟨⟨.Identifier, "n", ⟨2, 1⟩⟩, "n"⟩)
          (.Integer ⟨.Integer, "2", ⟨2, 5⟩⟩ 2) { s1 with sc := NewScope } =
        .ok (.absent, interpreterError { s1 with sc := NewScope } ⟨2, 3⟩
          "Identifier 'n' not found in current memory") ∧
      "Identifier 'n' not found in current memory" ≠ "Identifier 'n' is immutable" :=
  ⟨_, rfl, rfl, rfl, rfl, by decide⟩

/-- C10 (amended). The registry is by name: once a `Val` has bound `n` in any scope, then
in every state of the interpreter whose registry still holds `n` and from every scope, an
`Assign` to `n` (plain or subscript) returns `nil` and adds one Runtime Error, changing
nothing else: the immutability error when the scope can read `n`, whatever made that binding,
and the error that `n` is not found when it cannot. -/
theorem Assign_registry_by_name (ops : Ops) (tokv : Token) (name : Identifier) (value : Node)
    (st0 st1 : State) (d : Data)
    (hval : Val ops tokv name value st0 = .ok (d, st1)) (hd : d ≠ .absent)
    (st : State)
    (hlater : (mapGet st1.i.immutable name.Value).isSome = true →
      (mapGet st.i.immutable name.Value).isSome = true)
    (tok : Token) (target right : Node)
    (ht : (∃ id, target = .Identifier id ∧ id.Value = name.Value) ∨
      (∃ t id index, target = .Subscript t (.Identifier id) index ∧ id.Value = name.Value)) :
    ((st.sc.Read name.Value).isSome = true →
      Assign ops tok target right st = .ok (.absent, { st with errors := st.errors ++
        [⟨.Runtime, tok.Position, "Identifier '" ++ name.Value ++ "' is immutable"⟩] })) ∧
    ((st.sc.Read name.Value).isSome = false →
      Assign ops tok target right st = .ok (.absent, { st with errors := st.errors ++
        [⟨.Runtime, tok.Position,
          "Identifier '" ++ name.Value ++ "' not found in current memory"⟩] })) := by
  have hname : assignName target = .ok name.Value := by
    rcases ht with ⟨id, rfl, h⟩ | ⟨t, id, index, rfl, h⟩ <;> simp [assignName, h]
  have hreg := hlater (Val_registers ops tokv name value st0 st1 d hval hd).1
  have h := Assign_registered ops tok target right st name.Value hname hreg
  refine ⟨fun hr => ?_, fun hr => ?_⟩
  · rw [h, hr]
    rfl
  · rw [h, hr]
    rfl

/-- C10 (amended), run on `val n = 1` in a child scope followed, in the parent scope, by
`var n = 1` and `n = 2`: the name resolves to the binding made by `var` and the assignment
fails with the immutability error. -/
theorem Assign_registry_by_name_witness :
    Assign literalOps ⟨.Assign, "=", ⟨3, 3⟩⟩ (.Identifier ⟨⟨.Identifier, "n", ⟨3, 1⟩⟩, "n"⟩)
        (.Integer ⟨.Integer, "2", ⟨3, 5⟩⟩ 2)
        ⟨⟨[], [], [], [("n", ⟨⟨.Identifier, "n", ⟨1, 18⟩⟩, "n"⟩)], true⟩,
          .mk [("n", .TInteger 1)] none, []⟩ =
      .ok (.absent,
        ⟨⟨[], [], [], [("n", ⟨⟨.Identifier, "n", ⟨1, 18⟩⟩, "n"⟩)], true⟩,
          .mk [("n", .TInteger 1)] none,
          [] ++ [⟨.Runtime, ⟨3, 3⟩, "Identifier '" ++ "n" ++ "' is immutable"⟩]⟩) :=
  (Assign_registry_by_name literalOps ⟨.Val, "val", ⟨1, 14⟩⟩
      ⟨⟨.Identifier, "n", ⟨1, 18⟩⟩, "n"⟩ (.Integer ⟨.Integer, "1", ⟨1, 22⟩⟩ 1)
      ⟨⟨[], [], [], [], true⟩, NewScopeFrom NewScope, []⟩ _ (.TInteger 1) rfl
      (by intro h; cases h)
      ⟨⟨[], [], [], [("n", ⟨⟨.Identifier, "n", ⟨1, 18⟩⟩, "n"⟩)], true⟩,
        .mk [("n", .TInteger 1)] none, []⟩ (fun _ => rfl) _ _ _ (Or.inl ⟨_, rfl, rfl⟩)).1 rfl

end Oro.interpreter
namespace Oro.interpreter

open Oro token ast runtime

/-! ## Declarations, blocks and loops -/

theorem frames_Write (s : Scope) (n : String) (v : Data) :
    (s.Write n v).frames = Store.set s.store n v :: s.frames.tail := by
  obtain ⟨store, parent⟩ := s
  cases parent <;> simp [Scope.Write, Scope.frames, Scope.store]

/-- C11. Let the right-hand side `e` of `val n = e` or `var n = e` evaluate to a value `d`,
leaving the state `st1`.  When `n` is readable in the scope of `st1` (in its own frame or
through a parent), the statement returns `nil` and its only effect is one more Runtime
Error: every frame of the scope is as the evaluation of `e` left it.  When `n` is not
readable, the statement returns `d`, the frames of the new scope are those of `st1` with
`n` set to `d` in the first (current) one, no error is added, and `n` now reads `d`. -/
theorem Val_Var_redeclaration (ops : Ops) (tok : Token) (name : Identifier) (value : Node)
    (st st1 : State) (d : Data)
    (he : ops.Interpreter value st = .ok (d, st1)) (hd : d ≠ .absent) :
    ((st1.sc.Read name.Value).isSome = true →
      ∃ e : rerror.Entry, e.terror = .Runtime ∧
        Val ops tok name value st = .ok (.absent, { st1 with errors := st1.errors ++ [e] }) ∧
        Var ops tok name value st = .ok (.absent, { st1 with errors := st1.errors ++ [e] })) ∧
    (st1.sc.Read name.Value = none →
      (∃ st2 : State, Val ops tok name value st = .ok (d, st2) ∧
        st2.sc.frames = Store.set st1.sc.store name.Value d :: st1.sc.frames.tail ∧
        st2.sc.Read name.Value = some d ∧ st2.errors = st1.errors) ∧
      (∃ st2 : State, Var ops tok name value st = .ok (d, st2) ∧
        st2.sc.frames = Store.set st1.sc.store name.Value d :: st1.sc.frames.tail ∧
        st2.sc.Read name.Value = some d ∧ st2.errors = st1.errors)) := by
  constructor
  · intro hr
    obtain ⟨old, hold⟩ := Option.isSome_iff_exists.mp hr
    refine ⟨⟨.Runtime, tok.Position, "Identifier '" ++ name.Value ++ "' already declared"⟩,
      rfl, ?_, ?_⟩
    · unfold Val
      simp only [Res.bind_eq, he, Res.bind]
      cases d with
      | absent => exact absurd rfl hd
      | _ => simp only [hold]; rfl
    · unfold Var
      simp only [Res.bind_eq, he, Res.bind]
      cases d with
      | absent => exact absurd rfl hd
      | _ => simp only [hold]; rfl
  · intro hr
    constructor
    · have h : ∃ st2 : State, Val ops tok name value st = .ok (d, st2) ∧
          st2.sc = st1.sc.Write name.Value d ∧ st2.errors = st1.errors := by
        unfold Val
        simp only [Res.bind_eq, he, Res.bind]
        cases d with
        | absent => exact absurd rfl hd
        | _ => simp only [hr]; exact ⟨_, rfl, rfl, rfl⟩
      obtain ⟨st2, h1, h2, h3⟩ := h
      exact ⟨st2, h1, by rw [h2]; exact frames_Write st1.sc name.Value d,
        by rw [h2]; exact Scope.Read_Write_self st1.sc name.Value d, h3⟩
    · have h : ∃ st2 : State, Var ops tok name value st = .ok (d, st2) ∧
          st2.sc = st1.sc.Write name.Value d ∧ st2.errors = st1.errors := by
        unfold Var
        simp only [Res.bind_eq, he, Res.bind]
        cases d with
        | absent => exact absurd rfl hd
        | _ => simp only [hr]; exact ⟨_, rfl, rfl, rfl⟩
      obtain ⟨st2, h1, h2, h3⟩ := h
      exact ⟨st2, h1, by rw [h2]; exact frames_Write st1.sc name.Value d,
        by rw [h2]; exact Scope.Read_Write_self st1.sc name.Value d, h3⟩

/-- C11, run in a new frame below a frame that binds `x` to 1: `val x = 5` and `var x = 5`
are rejected, `val y = 5` and `var y = 5` write `y` into the new frame. -/
theorem Val_Var_redeclaration_witness :
    (∃ e : rerror.Entry, e.terror = .Runtime ∧
      Val literalOps ⟨.Val, "val", ⟨1, 1⟩⟩ ⟨⟨.Identifier, "x", ⟨1, 5⟩⟩, "x"⟩
          (.Integer ⟨.Integer, "5", ⟨1, 9⟩⟩ 5)
          ⟨⟨[], [], [], [], true⟩, .mk [] (some (.mk [("x", .TInteger 1)] none)), []⟩ =
        .ok (.absent,
          ⟨⟨[], [], [], [], true⟩, .mk [] (some (.mk [("x", .TInteger 1)] none)), [] ++ [e]⟩) ∧
      Var literalOps ⟨.Val, "val", ⟨1, 1⟩⟩ ⟨⟨.Identifier, "x", ⟨1, 5⟩⟩, "x"⟩
          (.Integer ⟨.Integer, "5", ⟨1, 9⟩⟩ 5)
          ⟨⟨[], [], [], [], true⟩, .mk [] (some (.mk [("x", .TInteger 1)] none)), []⟩ =
        .ok (.absent,
          ⟨⟨[], [], [], [], true⟩, .mk [] (some (.mk [("x", .TInteger 1)] none)), [] ++ [e]⟩)) ∧
    ((∃ st2 : State,
      Val literalOps ⟨.Val, "val", ⟨1, 1⟩⟩ ⟨⟨.Identifier, "y", ⟨1, 5⟩⟩, "y"⟩
          (.Integer ⟨.Integer, "5", ⟨1, 9⟩⟩ 5)
          ⟨⟨[], [], [], [], true⟩, .mk [] (some (.mk [("x", .TInteger 1)] none)), []⟩ =
        .ok (.TInteger 5, st2) ∧
      st2.sc.frames = [[("y", .TInteger 5)], [("x", .TInteger 1)]] ∧
      st2.sc.Read "y" = some (.TInteger 5) ∧ st2.errors = []) ∧
    (∃ st2 : State,
      Var literalOps ⟨.Val, "val", ⟨1, 1⟩⟩ ⟨⟨.Identifier, "y", ⟨1, 5⟩⟩, "y"⟩
          (.Integer ⟨.Integer, "5", ⟨1, 9⟩⟩ 5)
          ⟨⟨[], [], [], [], true⟩, .mk [] (some (.mk [("x", .TInteger 1)] none)), []⟩ =
        .ok (.TInteger 5, st2) ∧
      st2.sc.frames = [[("y", .TInteger 5)], [("x", .TInteger 1)]] ∧
      st2.sc.Read "y" = some (.TInteger 5) ∧ st2.errors = [])) :=
  ⟨(Val_Var_redeclaration literalOps ⟨.Val, "val", ⟨1, 1⟩⟩ ⟨⟨.Identifier, "x", ⟨1, 5⟩⟩, "x"⟩
      (.Integer ⟨.Integer, "5", ⟨1, 9⟩⟩ 5)
      ⟨⟨[], [], [], [], true⟩, .mk [] (some (.mk [("x", .TInteger 1)] none)), []⟩ _ (.TInteger 5)
      rfl (by intro h; cases h)).1 rfl,
   (Val_Var_redeclaration literalOps ⟨.Val, "val", ⟨1, 1⟩⟩ ⟨⟨.Identifier, "y", ⟨1, 5⟩⟩, "y"⟩
      (.Integer ⟨.Integer, "5", ⟨1, 9⟩⟩ 5)
      ⟨⟨[], [], [], [], true⟩, .mk [] (some (.mk [("x", .TInteger 1)] none)), []⟩ _ (.TInteger 5)
      rfl (by intro h; cases h)).2 rfl⟩

theorem shouldBreakImmediately_eq (d : Data) (h : d ≠ .absent) :
    Interpreter.shouldBreakImmediately d = some (sentinel d) := by
  cases d <;> first | exact absurd rfl h | rfl

theorem plain_iff (d : Data) : plain d = true ↔ d ≠ .absent ∧ sentinel d = false := by
  cases d <;> simp [plain, sentinel]

/-- The loop of `BlockStatement` runs through statements that return plain values. -/
theorem blockLoop_plain (ops : Ops) : ∀ (pre rest : List Node) (r0 : Data) (st st1 : State)
    (ds : List Data), sequence ops pre st = .ok (ds, st1) → (∀ d ∈ ds, plain d = true) →
    Interpreter.blockLoop ops (pre ++ rest) r0 st =
      Interpreter.blockLoop ops rest (ds.getLast?.getD r0) st1 := by
  intro pre
  induction pre with
  | nil =>
    intro rest r0 st st1 ds h _
    simp only [sequence, Res.ok.injEq, Prod.mk.injEq] at h
    obtain ⟨rfl, rfl⟩ := h
    rfl
  | cons n ns ih =>
    intro rest r0 st st1 ds h hp
    simp only [sequence] at h
    cases hn : ops.Interpreter n st with
    | fault => rw [hn] at h; cases h
    | timeout => rw [hn] at h; cases h
    | ok r =>
      obtain ⟨d, s1⟩ := r
      rw [hn] at h
      simp only at h
      cases hs : sequence ops ns s1 with
      | fault => rw [hs] at h; cases h
      | timeout => rw [hs] at h; cases h
      | ok r2 =>
        obtain ⟨ds2, s2⟩ := r2
        rw [hs] at h
        simp only [Res.ok.injEq, Prod.mk.injEq] at h
        obtain ⟨rfl, rfl⟩ := h
        have hd := (plain_iff d).mp (hp d (List.mem_cons_self _ _))
        have ih2 := ih rest d s1 s2 ds2 hs (fun x hx => hp x (List.mem_cons_of_mem _ hx))
        have hstep : Interpreter.blockLoop ops (n :: ns ++ rest) r0 st =
            Interpreter.blockLoop ops (ns ++ rest) d s1 := by
          simp only [List.cons_append, Interpreter.blockLoop, Res.bind_eq, hn, Res.bind]
          cases d with
          | absent => exact absurd rfl hd.1
          | _ => simp only [shouldBreakImmediately_eq _ hd.1, hd.2]; rfl
        rw [hstep, ih2]
        cases ds2 with
        | nil => rfl
        | cons x xs =>
          rw [List.getLast?_cons_cons, List.getLast?_eq_getLast _ (List.cons_ne_nil x xs)]
          rfl

/-- C13. Let the statements `pre` of a block, evaluated in order, all return plain values
(neither `nil` nor a sentinel).  If the statement `s` that follows them returns `r`, which
is `nil` or a Break, Continue or Return sentinel, the block returns `r` in the state in
which `s` ended, whatever statements `post` come after `s`: none of them is evaluated.  If
`pre` is the whole block, the block returns the value of its last statement (`nil` for a
block without statements). -/
theorem BlockStatement_short_circuit (ops : Ops) (tok : Token) (pre : List Node)
    (st st1 : State) (ds : List Data)
    (hpre : sequence ops pre st = .ok (ds, st1)) (hds : ∀ d ∈ ds, plain d = true) :
    (∀ (s : Node) (post : List Node) (r : Data) (st2 : State),
      ops.Interpreter s st1 = .ok (r, st2) → (r = .absent ∨ sentinel r = true) →
      Interpreter.BlockStatement ops (.mk tok (pre ++ s :: post)) st = .ok (r, st2)) ∧
    Interpreter.BlockStatement ops (.mk tok pre) st = .ok (ds.getLast?.getD .absent, st1) := by
  constructor
  · intro s post r st2 hs hr
    unfold Interpreter.BlockStatement
    simp only [BlockStatement.Statements]
    rw [blockLoop_plain ops pre (s :: post) .absent st st1 ds hpre hds]
    simp only [Interpreter.blockLoop, Res.bind_eq, hs, Res.bind]
    rcases hr with rfl | hr
    · rfl
    · cases r with
      | absent => rfl
      | _ => first | (simp [sentinel] at hr; done) | rfl
  · unfold Interpreter.BlockStatement
    simp only [BlockStatement.Statements]
    have h := blockLoop_plain ops pre [] .absent st st1 ds hpre hds
    rw [List.append_nil] at h
    rw [h]
    rfl

/-- C13, run on the block `1 break 2` (the block returns the Break sentinel of its second
statement and the state is that after it) and on the block `1 2`, which returns 2. -/
theorem BlockStatement_short_circuit_witness :
    Interpreter.BlockStatement (exampleOps 1) (.mk ⟨.Do, "do", ⟨1, 1⟩⟩
        ([.Integer ⟨.Integer, "1", ⟨1, 4⟩⟩ 1] ++ .Break ⟨.Break, "break", ⟨1, 6⟩⟩ ::
          [.Integer ⟨.Integer, "2", ⟨1, 12⟩⟩ 2]))
        ⟨⟨[], [], [], [], true⟩, NewScope, []⟩ =
      .ok (.TBreak, ⟨⟨[], [], [], [], true⟩, NewScope, []⟩) ∧
    Interpreter.BlockStatement (exampleOps 1) (.mk ⟨.Do, "do", ⟨1, 1⟩⟩
        [.Integer ⟨.Integer, "1", ⟨1, 4⟩⟩ 1, .Integer ⟨.Integer, "2", ⟨1, 6⟩⟩ 2])
        ⟨⟨[], [], [], [], true⟩, NewScope, []⟩ =
      .ok (.TInteger 2, ⟨⟨[], [], [], [], true⟩, NewScope, []⟩) :=
  ⟨(BlockStatement_short_circuit (exampleOps 1) ⟨.Do, "do", ⟨1, 1⟩⟩
      [.Integer ⟨.Integer, "1", ⟨1, 4⟩⟩ 1] ⟨⟨[], [], [], [], true⟩, NewScope, []⟩ _
      [.TInteger 1] rfl (by simp [plain, sentinel])).1 (.Break ⟨.Break, "break", ⟨1, 6⟩⟩)
      [.Integer ⟨.Integer, "2", ⟨1, 12⟩⟩ 2] .TBreak _ rfl (Or.inr rfl),
   (BlockStatement_short_circuit (exampleOps 1) ⟨.Do, "do", ⟨1, 1⟩⟩
      [.Integer ⟨.Integer, "1", ⟨1, 4⟩⟩ 1, .Integer ⟨.Integer, "2", ⟨1, 6⟩⟩ 2]
      ⟨⟨[], [], [], [], true⟩, NewScope, []⟩ _
      [.TInteger 1, .TInteger 2] rfl (by simp [plain, sentinel])).2⟩

/-! ## Nodes that write nothing -/

theorem sameFrame_refl (st : State) : sameFrame st st := ⟨rfl, rfl⟩

theorem sameFrame_trans {a b c : State} (h1 : sameFrame a b) (h2 : sameFrame b c) :
    sameFrame a c := ⟨h2.1.trans h1.1, h2.2.trans h1.2⟩

theorem bind_ok_inv {α β : Type} {x : Res α} {f : α → Res β} {b : β}
    (h : Res.bind x f = .ok b) : ∃ a, x = .ok a ∧ f a = .ok b := by
  cases x with
  | ok a => exact ⟨a, rfl, h⟩
  | fault => cases h
  | timeout => cases h

theorem sameFrame_ok {st s st' : State} {x d : Data}
    (h : (Res.ok (x, s) : Res (Data × State)) = .ok (d, st')) (h1 : sameFrame st s) :
    sameFrame st st' := by
  simp only [Res.ok.injEq, Prod.mk.injEq] at h
  rw [← h.2]
  exact h1

theorem PrefixExpression_keepsFrame (ops : Ops) (hops : keepsFrame ops) (tok : Token)
    (op : String) (right : Node) (hr : readOnly right = true) (st : State)
    (hstd : st.i.useStdlib = true) (d : Data) (st' : State)
    (h : Interpreter.PrefixExpression ops tok op right st = .ok (d, st')) :
    sameFrame st st' := by
  unfold Interpreter.PrefixExpression at h
  simp only [Res.bind_eq] at h
  obtain ⟨⟨v, s1⟩, hv, h⟩ := bind_ok_inv h
  have h1 := hops right st v s1 hr hstd hv
  simp only at h
  split at h
  · exact sameFrame_ok h h1
  · repeat' (split at h)
    all_goals
      obtain ⟨r, -, h⟩ := bind_ok_inv h
      cases r with
      | error err => exact sameFrame_ok h h1
      | ok out => exact sameFrame_ok h h1

theorem InfixExpression_keepsFrame (ops : Ops) (ext : Interpreter.Ext) (hops : keepsFrame ops)
    (tok : Token) (left : Node) (op : String) (right : Node) (hl : readOnly left = true)
    (hr : readOnly right = true) (st : State) (hstd : st.i.useStdlib = true) (d : Data)
    (st' : State)
    (h : Interpreter.InfixExpression ops ext tok left op right st = .ok (d, st')) :
    sameFrame st st' := by
  unfold Interpreter.InfixExpression at h
  simp only [Res.bind_eq] at h
  obtain ⟨⟨l, s1⟩, hlv, h⟩ := bind_ok_inv h
  have h1 := hops left st l s1 hl hstd hlv
  have hstd1 : s1.i.useStdlib = true := by rw [h1.2]; exact hstd
  simp only at h
  split at h
  · exact sameFrame_ok h h1
  · split at h
    · exact sameFrame_ok h h1
    · obtain ⟨⟨r, s2⟩, hrv, h⟩ := bind_ok_inv h
      have h2 := sameFrame_trans h1 (hops right s1 r s2 hr hstd1 hrv)
      simp only at h
      split at h
      · exact sameFrame_ok h h2
      · exact sameFrame_ok h h2
      · obtain ⟨x, -, h⟩ := bind_ok_inv h
        cases x with
        | error err => exact sameFrame_ok h h2
        | ok out => exact sameFrame_ok h h2

theorem Subscript_keepsFrame (ops : Ops) (hops : keepsFrame ops) (tok : Token)
    (left index : Node) (hl : readOnly left = true) (hr : readOnly index = true) (st : State)
    (hstd : st.i.useStdlib = true) (d : Data) (st' : State)
    (h : Interpreter.Subscript ops tok left index st = .ok (d, st')) :
    sameFrame st st' := by
  unfold Interpreter.Subscript at h
  simp only [Res.bind_eq] at h
  obtain ⟨⟨l, s1⟩, hlv, h⟩ := bind_ok_inv h
  have h1 := hops left st l s1 hl hstd hlv
  have hstd1 : s1.i.useStdlib = true := by rw [h1.2]; exact hstd
  simp only at h
  obtain ⟨⟨r, s2⟩, hrv, h⟩ := bind_ok_inv h
  have h2 := sameFrame_trans h1 (hops index s1 r s2 hr hstd1 hrv)
  simp only at h
  split at h
  · split at h
    · obtain ⟨x, -, h⟩ := bind_ok_inv h
      cases x with
      | error err => exact sameFrame_ok h h2
      | ok out => exact sameFrame_ok h h2
    · split at h
      · obtain ⟨x, -, h⟩ := bind_ok_inv h
        exact sameFrame_ok h h2
      · split at h
        · obtain ⟨x, -, h⟩ := bind_ok_inv h
          exact sameFrame_ok h h2
        · exact sameFrame_ok h h2
  · exact sameFrame_ok h h2

theorem inNewScope_keepsFrame (ops : Ops) (hops : keepsFrame ops) (n : Node)
    (hn : readOnly n = true) (st : State) (hstd : st.i.useStdlib = true) (d : Data)
    (st' : State) (h : Interpreter.inNewScope ops n st = .ok (d, st')) :
    sameFrame st st' := by
  unfold Interpreter.inNewScope at h
  simp only [Res.bind_eq] at h
  obtain ⟨⟨r, s1⟩, hrv, h⟩ := bind_ok_inv h
  have h1 := hops n { st with sc := NewScopeFrom st.sc } r s1 hn hstd hrv
  simp only [Res.pure_eq, Res.ok.injEq, Prod.mk.injEq] at h
  rw [← h.2]
  refine ⟨?_, h1.2⟩
  show s1.sc.parent.getD st.sc = st.sc
  rw [h1.1]
  rfl

theorem If_keepsFrame (ops : Ops) (hops : keepsFrame ops) (cond : Node)
    (thn : ast.BlockStatement) (els : Option ast.BlockStatement)
    (hc : readOnly cond = true) (ht : readOnlyBlock thn = true)
    (he : readOnlyElse els = true) (st : State) (hstd : st.i.useStdlib = true) (d : Data)
    (st' : State) (h : Interpreter.If ops cond thn els st = .ok (d, st')) :
    sameFrame st st' := by
  unfold Interpreter.If at h
  simp only [Res.bind_eq] at h
  obtain ⟨⟨c, s1⟩, hcv, h⟩ := bind_ok_inv h
  have h1 := hops cond st c s1 hc hstd hcv
  have hstd1 : s1.i.useStdlib = true := by rw [h1.2]; exact hstd
  simp only at h
  split at h
  · exact sameFrame_trans h1
      (inNewScope_keepsFrame ops hops (.Block thn) (by simpa [readOnly] using ht) s1 hstd1 d
        st' h)
  · cases els with
    | none => exact sameFrame_ok h h1
    | some e =>
      exact sameFrame_trans h1
        (inNewScope_keepsFrame ops hops (.Block e) (by simpa [readOnly, readOnlyElse] using he)
          s1 hstd1 d st' h)

theorem blockLoop_keepsFrame (ops : Ops) (hops : keepsFrame ops) :
    ∀ (ss : List Node) (r : Data) (st : State), readOnlyList ss = true →
      st.i.useStdlib = true → ∀ (d : Data) (st' : State),
      Interpreter.blockLoop ops ss r st = .ok (d, st') → sameFrame st st' := by
  intro ss
  induction ss with
  | nil =>
    intro r st _ _ d st' h
    exact sameFrame_ok h (sameFrame_refl st)
  | cons s ss ih =>
    intro r st hro hstd d st' h
    simp only [readOnlyList, Bool.and_eq_true] at hro
    unfold Interpreter.blockLoop at h
    simp only [Res.bind_eq] at h
    obtain ⟨⟨v, s1⟩, hv, h⟩ := bind_ok_inv h
    have h1 := hops s st v s1 hro.1 hstd hv
    have hstd1 : s1.i.useStdlib = true := by rw [h1.2]; exact hstd
    simp only at h
    split at h
    · exact sameFrame_ok h h1
    · split at h
      · cases h
      · exact sameFrame_ok h h1
      · exact sameFrame_trans h1 (ih _ s1 hro.2 hstd1 d st' h)

/-- The dispatcher leaves the scope and the interpreter as they were on the `readOnly`
nodes, in an interpreter that has loaded its library: such an evaluation records errors at
most. -/
theorem Interpreter_keepsFrame (ext : Interpreter.Ext) :
    ∀ fuel : Nat, keepsFrame ⟨Interpreter.Interpreter ext fuel, Data.Check ext.CheckOther⟩ := by
  intro fuel
  induction fuel with
  | zero =>
    intro n st d st' _ _ h
    simp only [Interpreter.Interpreter] at h
    cases h
  | succ k ih =>
    intro n st d st' hro hstd h
    unfold Interpreter.Interpreter at h
    simp only [hstd, if_true, Res.pure_eq, Res.bind_eq, Res.bind] at h
    cases n with
    | Boolean t v => cases h; exact sameFrame_refl _
    | String s => cases h; exact sameFrame_refl _
    | Integer t v => cases h; exact sameFrame_refl _
    | Float t v => cases h; exact sameFrame_refl _
    | Symbol t v => cases h; exact sameFrame_refl _
    | Nil t => cases h; exact sameFrame_refl _
    | PlaceHolder t => cases h; exact sameFrame_refl _
    | Break t => cases h; exact sameFrame_refl _
    | Continue t => cases h; exact sameFrame_refl _
    | Identifier id =>
      simp only [Interpreter.Identifier] at h
      split at h
      · cases h; exact sameFrame_refl _
      · cases h; exact ⟨rfl, rfl⟩
    | Return t v =>
      simp only [readOnly] at hro
      obtain ⟨⟨r, s1⟩, hv, h⟩ := bind_ok_inv h
      have h1 := ih v st r s1 hro hstd hv
      cases h
      exact h1
    | ExpressionStatement t e =>
      simp only [readOnly] at hro
      exact ih e st d st' hro hstd h
    | PrefixExpression t op r =>
      simp only [readOnly] at hro
      exact PrefixExpression_keepsFrame _ ih t op r hro st hstd d st' h
    | InfixExpression t l op r =>
      simp only [readOnly, Bool.and_eq_true] at hro
      exact InfixExpression_keepsFrame _ ext ih t l op r hro.1.2 hro.2 st hstd d st' h
    | Subscript t l i =>
      simp only [readOnly, Bool.and_eq_true] at hro
      exact Subscript_keepsFrame _ ih t l i hro.1 hro.2 st hstd d st' h
    | If t c th el =>
      simp only [readOnly, Bool.and_eq_true] at hro
      exact If_keepsFrame _ ih c th el hro.1.1 hro.1.2 hro.2 st hstd d st' h
    | Block nb =>
      simp only [readOnly] at hro
      obtain ⟨t, ss⟩ := nb
      simp only [readOnlyBlock] at hro
      exact blockLoop_keepsFrame _ ih ss .absent st hro hstd d st' h
    | _ => simp [readOnly] at hro

/-- C18. The truthiness `isType` of a value: that of a Boolean is its value; a String, an
Array and a Dictionary are true when they are not empty; an Integer is true when it is not
0; a Float is false exactly for the two zeros, whose bits are all clear but for the sign
bit; every Symbol is true and Nil is false.  And for an operand that evaluates to a value
`v`, the prefix expression `!v` returns the Boolean that negates the truthiness of `v`,
adding no error. -/
theorem isType_table :
    (∀ b : Bool, Interpreter.isType (.TBoolean b) = b) ∧
    (∀ s : String, Interpreter.isType (.TString s) = true ↔ s ≠ "") ∧
    (∀ v : Int, Interpreter.isType (.TInteger v) = true ↔ v ≠ 0) ∧
    (∀ f : Float64, f.bits < 2 ^ 64 →
      (Interpreter.isType (.TFloat f) = false ↔ f.bits = 0 ∨ f.bits = 2 ^ 63)) ∧
    (∀ es : List Data, Interpreter.isType (.TArray es) = true ↔ es ≠ []) ∧
    (∀ ps : List (Data × Data), Interpreter.isType (.TDictionary ps) = true ↔ ps ≠ []) ∧
    (∀ s : String, Interpreter.isType (.TSymbol s) = true) ∧
    Interpreter.isType .TNil = false ∧
    (∀ (ops : Ops) (tok : Token) (right : Node) (st st1 : State) (v : Data),
      ops.Interpreter right st = .ok (v, st1) → v ≠ .absent →
      Interpreter.PrefixExpression ops tok "!" right st =
        .ok (.TBoolean (!Interpreter.isType v), st1)) := by
  refine ⟨fun _ => rfl, ?_, ?_, ?_, ?_, ?_, fun _ => rfl, rfl, ?_⟩
  · intro s; simp [Interpreter.isType]
  · intro v; simp [Interpreter.isType]
  · intro f hf
    simp only [Interpreter.isType, isZeroFloat, Bool.not_eq_false', decide_eq_true_eq]
    omega
  · intro es; cases es <;> simp [Interpreter.isType]
  · intro ps; cases ps <;> simp [Interpreter.isType]
  · intro ops tok right st st1 v hv hp
    unfold Interpreter.PrefixExpression
    simp only [Res.bind_eq, hv, Res.bind]
    cases v with
    | absent => exact absurd rfl hp
    | _ => rfl

/-- C18, on the operands `0` and `"a"`: `!0` is true and `!"a"` is false. -/
theorem isType_table_witness :
    Interpreter.PrefixExpression (exampleOps 1) ⟨.Not, "!", ⟨1, 1⟩⟩ "!"
        (.Integer ⟨.Integer, "0", ⟨1, 2⟩⟩ 0) ⟨⟨[], [], [], [], true⟩, NewScope, []⟩ =
      .ok (.TBoolean true, ⟨⟨[], [], [], [], true⟩, NewScope, []⟩) ∧
    Interpreter.PrefixExpression (exampleOps 1) ⟨.Not, "!", ⟨1, 1⟩⟩ "!"
        (.String ⟨⟨.String, "a", ⟨1, 2⟩⟩, "a"⟩) ⟨⟨[], [], [], [], true⟩, NewScope, []⟩ =
      .ok (.TBoolean false, ⟨⟨[], [], [], [], true⟩, NewScope, []⟩) :=
  ⟨isType_table.2.2.2.2.2.2.2.2 (exampleOps 1) ⟨.Not, "!", ⟨1, 1⟩⟩
      (.Integer ⟨.Integer, "0", ⟨1, 2⟩⟩ 0) ⟨⟨[], [], [], [], true⟩, NewScope, []⟩ _
      (.TInteger 0) rfl (by intro h; cases h),
   isType_table.2.2.2.2.2.2.2.2 (exampleOps 1) ⟨.Not, "!", ⟨1, 1⟩⟩
      (.String ⟨⟨.String, "a", ⟨1, 2⟩⟩, "a"⟩) ⟨⟨[], [], [], [], true⟩, NewScope, []⟩ _
      (.TString "a") rfl (by intro h; cases h)⟩

theorem checkArrayBounds_inside (es : List Data) (i : Int) (k : Nat) (hk : k < es.length)
    (hi : i = k ∨ i = (k : Int) - es.length) : checkArrayBounds es i = .ok (k : Int) := by
  unfold checkArrayBounds
  dsimp only
  have h2 : ¬ ((k : Int) < 0 ∨ (k : Int) > (es.length : Int) - 1) := by omega
  rcases hi with rfl | rfl
  · have h1 : ¬ ((k : Int) < 0) := by omega
    rw [if_neg h1, if_neg h2]
  · have h1 : (k : Int) - es.length < 0 := by omega
    have h3 : (es.length : Int) + ((k : Int) - es.length) = k := by omega
    rw [if_pos h1, h3, if_neg h2]

theorem checkArrayBounds_outside (es : List Data) (i : Int)
    (hi : i ≥ es.length ∨ i < -(es.length : Int)) :
    ∃ err, checkArrayBounds es i = .error err := by
  unfold checkArrayBounds
  dsimp only
  by_cases h1 : i < 0
  · have h2 : (es.length : Int) + i < 0 ∨ (es.length : Int) + i > (es.length : Int) - 1 := by
      omega
    rw [if_pos h1, if_pos h2]
    exact ⟨_, rfl⟩
  · have h2 : i < 0 ∨ i > (es.length : Int) - 1 := by omega
    rw [if_neg h1, if_pos h2]
    exact ⟨_, rfl⟩

theorem bytes_length (s : String) : (bytes s).length = s.utf8ByteSize := by
  rw [← String.size_toUTF8]
  simp [bytes, ByteArray.size]

theorem utf8EncodeChar_ascii (c : Char) (h : c.toNat < 128) :
    (String.utf8EncodeChar c).map UInt8.toNat = [c.toNat] := by
  have hv : c.val ≤ 127 := by
    show c.val.toNat ≤ 127
    have : c.val.toNat = c.toNat := rfl
    omega
  simp only [String.utf8EncodeChar, hv, if_true, List.map_cons, List.map_nil,
    List.cons.injEq, and_true]
  show c.val.toNat % 256 = c.val.toNat
  have : c.val.toNat = c.toNat := rfl
  omega

theorem bytes_ascii_data : ∀ cs : List Char, (∀ c ∈ cs, c.toNat < 128) →
    (cs.flatMap String.utf8EncodeChar).map UInt8.toNat = cs.map Char.toNat := by
  intro cs
  induction cs with
  | nil => intro _; rfl
  | cons c cs ih =>
    intro h
    simp only [List.flatMap_cons, List.map_append, List.map_cons]
    rw [utf8EncodeChar_ascii c (h c (List.mem_cons_self _ _)),
      ih (fun x hx => h x (List.mem_cons_of_mem _ hx))]
    rfl

theorem bytes_ascii (s : String) (h : ascii s = true) : bytes s = s.data.map Char.toNat := by
  unfold bytes String.toUTF8
  apply bytes_ascii_data
  intro c hc
  simp only [ascii, List.all_eq_true, decide_eq_true_eq] at h
  exact h c hc

theorem checkStringBounds_inside (s : String) (i : Int) (k : Nat) (hk : k < (bytes s).length)
    (hi : i = k ∨ i = (k : Int) - (bytes s).length) : checkStringBounds s i = .ok (k : Int) := by
  rw [bytes_length] at hk hi
  unfold checkStringBounds
  dsimp only
  have h2 : ¬ ((k : Int) < 0 ∨ (k : Int) > (s.utf8ByteSize : Int) - 1) := by omega
  rcases hi with rfl | rfl
  · have h1 : ¬ ((k : Int) < 0) := by omega
    rw [if_neg h1, if_neg h2]
  · have h1 : (k : Int) - s.utf8ByteSize < 0 := by omega
    have h3 : (s.utf8ByteSize : Int) + ((k : Int) - s.utf8ByteSize) = k := by omega
    rw [if_pos h1, h3, if_neg h2]

theorem checkStringBounds_outside (s : String) (i : Int)
    (hi : i ≥ (bytes s).length ∨ i < -((bytes s).length : Int)) :
    ∃ err, checkStringBounds s i = .error err := by
  rw [bytes_length] at hi
  unfold checkStringBounds
  dsimp only
  by_cases h1 : i < 0
  · have h2 : (s.utf8ByteSize : Int) + i < 0 ∨
        (s.utf8ByteSize : Int) + i > (s.utf8ByteSize : Int) - 1 := by omega
    rw [if_pos h1, if_pos h2]
    exact ⟨_, rfl⟩
  · have h2 : i < 0 ∨ i > (s.utf8ByteSize : Int) - 1 := by omega
    rw [if_neg h1, if_pos h2]
    exact ⟨_, rfl⟩

/-- The read of a string through a subscript whose index evaluates to an integer inside
the bounds: the string of the character whose code is the byte at the index. -/
theorem Subscript_string_inside (ops : Ops) (tok : Token) (left index : Node)
    (st st1 st2 : State) (i : Int) (s : String) (k b : Nat)
    (hl : ops.Interpreter left st = .ok (.TString s, st1))
    (hi : ops.Interpreter index st1 = .ok (.TInteger i, st2))
    (hb : (bytes s).get? k = some b) (hik : i = k ∨ i = (k : Int) - (bytes s).length) :
    Interpreter.Subscript ops tok left index st =
      .ok (.TString (String.singleton (Char.ofNat b)), st2) := by
  have hk : k < (bytes s).length := by
    rw [List.get?_eq_getElem?] at hb
    exact (List.getElem?_eq_some_iff.mp hb).1
  unfold Interpreter.Subscript
  simp only [Res.bind_eq, hl, hi, Res.bind, Data.Type, Interpreter.StringSubscript,
    checkStringBounds_inside s i k hk hik, Int.toNat_ofNat, hb]
  rfl

theorem singleton_ascii_bytes (c : Char) (h : c.toNat < 128) :
    (bytes (String.singleton c)).length = 1 := by
  have ha : ascii (String.singleton c) = true := by
    simp [ascii, String.singleton, h]
  rw [bytes_ascii _ ha]
  rfl

theorem toNat_ofNat_byte (b : Nat) (h : b < 256) : (Char.ofNat b).toNat = b := by
  have hvalid : b.isValidChar := Or.inl (by omega)
  unfold Char.ofNat
  rw [dif_pos hvalid]
  rfl

theorem singleton_high_bytes (b : Nat) (h1 : 128 ≤ b) (h2 : b < 256) :
    (bytes (String.singleton (Char.ofNat b))).length = 2 := by
  rw [bytes_length]
  have hv : (Char.ofNat b).val.toNat = b := toNat_ofNat_byte b h2
  have e : (String.singleton (Char.ofNat b)).utf8ByteSize = (Char.ofNat b).utf8Size := by
    simp [String.singleton, String.utf8ByteSize, String.utf8ByteSize.go]
  rw [e]
  unfold Char.utf8Size
  have h3 : ¬ ((Char.ofNat b).val ≤ UInt32.ofNatCore 127 (by decide)) := by
    show ¬ ((Char.ofNat b).val.toNat ≤ 127)
    omega
  have h4 : (Char.ofNat b).val ≤ UInt32.ofNatCore 2047 (by decide) := by
    show (Char.ofNat b).val.toNat ≤ 2047
    omega
  simp only [h3, h4, if_true, if_false]

/-- C19, as amended.  Let the index of a subscript be a `readOnly` expression, whose
evaluation writes to no array, and let it evaluate to the integer `i`: it leaves the scope
and the interpreter as they were.  On an array `es` of length `n`, the read returns the
element at position `k` when `i = k` or `i = k - n` for a position `k < n`, and the Nil
value when `i ≥ n` or `i < -n`.  On a string `s` of `n` bytes it returns, when `i = k` or
`i = k - n` for a position `k < n` that holds the byte `b`, the string of the one character
with the code `b`, which has one byte when `b < 128` and two bytes otherwise; and the Nil
value when `i ≥ n` or `i < -n`.  For an ASCII string the bytes are the characters, and the
string returned is that of the character at position `k`.  In each case the state is the
one the evaluation of the index left: no error is recorded. -/
theorem Subscript_read (ext : Interpreter.Ext) (fuel : Nat) (tok : Token)
    (left index : Node) (st st1 st2 : State) (i : Int) (hstd : st1.i.useStdlib = true)
    (hro : readOnly index = true)
    (hi : Interpreter.Interpreter ext fuel index st1 = .ok (.TInteger i, st2)) :
    (st2.sc = st1.sc ∧ st2.i = st1.i) ∧
    (∀ es : List Data, Interpreter.Interpreter ext fuel left st = .ok (.TArray es, st1) →
      (∀ (k : Nat) (hk : k < es.length), (i = k ∨ i = (k : Int) - es.length) →
        Interpreter.Subscript ⟨Interpreter.Interpreter ext fuel, Data.Check ext.CheckOther⟩
          tok left index st = .ok (es[k], st2)) ∧
      ((i ≥ es.length ∨ i < -(es.length : Int)) →
        Interpreter.Subscript ⟨Interpreter.Interpreter ext fuel, Data.Check ext.CheckOther⟩
          tok left index st = .ok (.TNil, st2))) ∧
    (∀ s : String, Interpreter.Interpreter ext fuel left st = .ok (.TString s, st1) →
      (∀ k b : Nat, (bytes s).get? k = some b →
        (i = k ∨ i = (k : Int) - (bytes s).length) →
        Interpreter.Subscript ⟨Interpreter.Interpreter ext fuel, Data.Check ext.CheckOther⟩
            tok left index st =
          .ok (.TString (String.singleton (Char.ofNat b)), st2) ∧
        (b < 128 → (bytes (String.singleton (Char.ofNat b))).length = 1) ∧
        (128 ≤ b → b < 256 → (bytes (String.singleton (Char.ofNat b))).length = 2)) ∧
      ((i ≥ (bytes s).length ∨ i < -((bytes s).length : Int)) →
        Interpreter.Subscript ⟨Interpreter.Interpreter ext fuel, Data.Check ext.CheckOther⟩
          tok left index st = .ok (.TNil, st2)) ∧
      (ascii s = true →
        (bytes s).length = s.length ∧
        ∀ (k : Nat) (hk : k < s.data.length), (i = k ∨ i = (k : Int) - s.length) →
          Interpreter.Subscript ⟨Interpreter.Interpreter ext fuel, Data.Check ext.CheckOther⟩
              tok left index st =
            .ok (.TString (String.singleton s.data[k]), st2))) := by
  refine ⟨Interpreter_keepsFrame ext fuel index st1 _ st2 hro hstd hi, ?_⟩
  constructor
  · intro es hl
    constructor
    · intro k hk hik
      unfold Interpreter.Subscript
      simp only [Res.bind_eq, hl, hi, Res.bind, Data.Type, Interpreter.ArraySubscript,
        checkArrayBounds_inside es i k hk hik, Int.toNat_ofNat, List.get?_eq_getElem?,
        List.getElem?_eq_getElem hk]
      rfl
    · intro hout
      obtain ⟨err, herr⟩ := checkArrayBounds_outside es i hout
      unfold Interpreter.Subscript
      simp only [Res.bind_eq, hl, hi, Res.bind, Data.Type, Interpreter.ArraySubscript, herr]
      rfl
  · intro s hl
    refine ⟨?_, ?_, ?_⟩
    · intro k b hb hik
      refine ⟨Subscript_string_inside
        ⟨Interpreter.Interpreter ext fuel, Data.Check ext.CheckOther⟩ tok left index st st1 st2
        i s k b hl hi hb hik, ?_, singleton_high_bytes b⟩
      intro hlt
      apply singleton_ascii_bytes
      rw [toNat_ofNat_byte b (by omega)]
      exact hlt
    · intro hout
      obtain ⟨err, herr⟩ := checkStringBounds_outside s i hout
      unfold Interpreter.Subscript
      simp only [Res.bind_eq, hl, hi, Res.bind, Data.Type, Interpreter.StringSubscript, herr]
      rfl
    · intro ha
      have hb := bytes_ascii s ha
      have hlen : (bytes s).length = s.length := by
        rw [hb, List.length_map]
        rfl
      refine ⟨hlen, ?_⟩
      intro k hk hik
      have hget : (bytes s).get? k = some (s.data[k]).toNat := by
        rw [hb, List.get?_eq_getElem?, List.getElem?_map, List.getElem?_eq_getElem hk]
        rfl
      have h := Subscript_string_inside
        ⟨Interpreter.Interpreter ext fuel, Data.Check ext.CheckOther⟩ tok left index st st1 st2
        i s k _ hl hi hget (by rw [hlen]; exact hik)
      rw [Char.ofNat_toNat] at h
      exact h

/-- C19 as amended, on the reads `[10, 20, 30][-1]`, `[10, 20, 30][3]` and `"abc"[1]`: they
return 30, the Nil value and `"b"`, and record no error. -/
theorem Subscript_read_witness :
    Interpreter.Subscript (exampleOps 3) ⟨.LeftBracket, "[", ⟨1, 13⟩⟩
        (.Array ⟨.LeftBracket, "[", ⟨1, 1⟩⟩ (.mk ⟨.LeftBracket, "[", ⟨1, 1⟩⟩
          [.Integer ⟨.Integer, "10", ⟨1, 2⟩⟩ 10, .Integer ⟨.Integer, "20", ⟨1, 6⟩⟩ 20,
            .Integer ⟨.Integer, "30", ⟨1, 10⟩⟩ 30]))
        (.PrefixExpression ⟨.Minus, "-", ⟨1, 14⟩⟩ "-" (.Integer ⟨.Integer, "1", ⟨1, 15⟩⟩ 1))
        ⟨⟨[], [], [], [], true⟩, NewScope, []⟩ =
      .ok (.TInteger 30, ⟨⟨[], [], [], [], true⟩, NewScope, []⟩) ∧
    Interpreter.Subscript (exampleOps 3) ⟨.LeftBracket, "[", ⟨1, 13⟩⟩
        (.Array ⟨.LeftBracket, "[", ⟨1, 1⟩⟩ (.mk ⟨.LeftBracket, "[", ⟨1, 1⟩⟩
          [.Integer ⟨.Integer, "10", ⟨1, 2⟩⟩ 10, .Integer ⟨.Integer, "20", ⟨1, 6⟩⟩ 20,
            .Integer ⟨.Integer, "30", ⟨1, 10⟩⟩ 30]))
        (.Integer ⟨.Integer, "3", ⟨1, 14⟩⟩ 3)
        ⟨⟨[], [], [], [], true⟩, NewScope, []⟩ =
      .ok (.TNil, ⟨⟨[], [], [], [], true⟩, NewScope, []⟩) ∧
    Interpreter.Subscript (exampleOps 3) ⟨.LeftBracket, "[", ⟨1, 6⟩⟩
        (.String ⟨⟨.String, "abc", ⟨1, 1⟩⟩, "abc"⟩) (.Integer ⟨.Integer, "1", ⟨1, 7⟩⟩ 1)
        ⟨⟨[], [], [], [], true⟩, NewScope, []⟩ =
      .ok (.TString "b", ⟨⟨[], [], [], [], true⟩, NewScope, []⟩) :=
  ⟨((Subscript_read exampleExt 3 ⟨.LeftBracket, "[", ⟨1, 13⟩⟩
      (.Array ⟨.LeftBracket, "[", ⟨1, 1⟩⟩ (.mk ⟨.LeftBracket, "[", ⟨1, 1⟩⟩
        [.Integer ⟨.Integer, "10", ⟨1, 2⟩⟩ 10, .Integer ⟨.Integer, "20", ⟨1, 6⟩⟩ 20,
          .Integer ⟨.Integer, "30", ⟨1, 10⟩⟩ 30]))
      (.PrefixExpression ⟨.Minus, "-", ⟨1, 14⟩⟩ "-" (.Integer ⟨.Integer, "1", ⟨1, 15⟩⟩ 1))
      ⟨⟨[], [], [], [], true⟩, NewScope, []⟩ ⟨⟨[], [], [], [], true⟩, NewScope, []⟩
      ⟨⟨[], [], [], [], true⟩, NewScope, []⟩ (-1) rfl rfl
      (by rfl)).2.1 [.TInteger 10, .TInteger 20, .TInteger 30] rfl).1 2 (by decide)
      (Or.inr (by decide)),
   ((Subscript_read exampleExt 3 ⟨.LeftBracket, "[", ⟨1, 13⟩⟩
      (.Array ⟨.LeftBracket, "[", ⟨1, 1⟩⟩ (.mk ⟨.LeftBracket, "[", ⟨1, 1⟩⟩
        [.Integer ⟨.Integer, "10", ⟨1, 2⟩⟩ 10, .Integer ⟨.Integer, "20", ⟨1, 6⟩⟩ 20,
          .Integer ⟨.Integer, "30", ⟨1, 10⟩⟩ 30]))
      (.Integer ⟨.Integer, "3", ⟨1, 14⟩⟩ 3)
      ⟨⟨[], [], [], [], true⟩, NewScope, []⟩ ⟨⟨[], [], [], [], true⟩, NewScope, []⟩
      ⟨⟨[], [], [], [], true⟩, NewScope, []⟩ 3 rfl rfl
      rfl).2.1 [.TInteger 10, .TInteger 20, .TInteger 30] rfl).2 (Or.inl (by decide)),
   (((Subscript_read exampleExt 3 ⟨.LeftBracket, "[", ⟨1, 6⟩⟩
      (.String ⟨⟨.String, "abc", ⟨1, 1⟩⟩, "abc"⟩)
      (.Integer ⟨.Integer, "1", ⟨1, 7⟩⟩ 1)
      ⟨⟨[], [], [], [], true⟩, NewScope, []⟩ ⟨⟨[], [], [], [], true⟩, NewScope, []⟩
      ⟨⟨[], [], [], [], true⟩, NewScope, []⟩ 1 rfl rfl
      rfl).2.2 "abc" rfl).2.2 rfl).2 1 (by decide) (Or.inl (by decide))⟩

/-! ## Writes through a subscript -/

theorem sequence_cons (ops : Ops) (n : Node) (ns : List Node) (st st2 : State)
    (ds : List Data) (h : sequence ops (n :: ns) st = .ok (ds, st2)) :
    ∃ d ds' st1, ops.Interpreter n st = .ok (d, st1) ∧ sequence ops ns st1 = .ok (ds', st2) ∧
      ds = d :: ds' := by
  simp only [sequence] at h
  cases hn : ops.Interpreter n st with
  | fault => rw [hn] at h; cases h
  | timeout => rw [hn] at h; cases h
  | ok r =>
    obtain ⟨d, s1⟩ := r
    rw [hn] at h
    simp only at h
    cases hs : sequence ops ns s1 with
    | fault => rw [hs] at h; cases h
    | timeout => rw [hs] at h; cases h
    | ok r2 =>
      obtain ⟨ds2, s2⟩ := r2
      rw [hs] at h
      simp only [Res.ok.injEq, Prod.mk.injEq] at h
      obtain ⟨rfl, rfl⟩ := h
      exact ⟨d, ds2, s1, rfl, hs, rfl⟩

theorem sequence_append (ops : Ops) : ∀ (xs ys : List Node) (st st2 : State)
    (ds : List Data), sequence ops (xs ++ ys) st = .ok (ds, st2) →
    ∃ ds1 ds2 st1, sequence ops xs st = .ok (ds1, st1) ∧
      sequence ops ys st1 = .ok (ds2, st2) ∧ ds = ds1 ++ ds2 := by
  intro xs
  induction xs with
  | nil => intro ys st st2 ds h; exact ⟨[], ds, st, rfl, h, rfl⟩
  | cons x xs ih =>
    intro ys st st2 ds h
    obtain ⟨d, ds', s1, hx, hrest, rfl⟩ := sequence_cons ops x (xs ++ ys) st st2 ds h
    obtain ⟨ds1, ds2, s2, h1, h2, rfl⟩ := ih ys s1 st2 ds' hrest
    refine ⟨d :: ds1, ds2, s2, ?_, h2, rfl⟩
    simp only [sequence, hx, h1]

/-- The loop over the values of a when passes the values that have the type of the control
and another canonical form. -/
theorem matchWhenLoop_pass (ops : Ops) (c : Data) (count : Nat) : ∀ (vs rest : List Node)
    (index matched : Nat) (st st1 : State) (ds : List Data),
    sequence ops vs st = .ok (ds, st1) → (∀ d ∈ ds, sameTypeOtherForm ops.Check c d) →
    Interpreter.matchWhenLoop ops c count (vs ++ rest) index matched st =
      Interpreter.matchWhenLoop ops c count rest (index + vs.length) matched st1 := by
  intro vs
  induction vs with
  | nil =>
    intro rest index matched st st1 ds h _
    simp only [sequence, Res.ok.injEq, Prod.mk.injEq] at h
    obtain ⟨rfl, rfl⟩ := h
    rfl
  | cons v vs ih =>
    intro rest index matched st st1 ds h hd
    obtain ⟨d, ds', s1, hv, hrest, rfl⟩ := sequence_cons ops v vs st st1 ds h
    obtain ⟨t, a, b, h1, h2, h3, h4, h5⟩ := hd d (List.mem_cons_self _ _)
    have hstep : Interpreter.matchWhenLoop ops c count (v :: vs ++ rest) index matched st =
        Interpreter.matchWhenLoop ops c count (vs ++ rest) (index + 1) matched s1 := by
      simp only [List.cons_append, Interpreter.matchWhenLoop, Res.bind_eq, hv, Res.bind, h1,
        h2, h3, h4, if_true, if_neg h5]
      rfl
    rw [hstep, ih rest (index + 1) matched s1 st1 ds' hrest
      (fun x hx => hd x (List.mem_cons_of_mem _ hx))]
    have : index + 1 + vs.length = index + (v :: vs).length := by
      simp only [List.length_cons]; omega
    rw [this]

/-- The loop over the values of a when returns the when at a value that has the type and
the canonical form of the control. -/
theorem matchWhenLoop_hit (ops : Ops) (c : Data) (count : Nat) (v : Node) (rest : List Node)
    (index matched : Nat) (st st1 : State) (d : Data)
    (hv : ops.Interpreter v st = .ok (d, st1)) (hd : sameTypeAndForm ops.Check c d) :
    Interpreter.matchWhenLoop ops c count (v :: rest) index matched st =
      .ok (.ok true, st1) := by
  obtain ⟨t, a, h1, h2, h3, h4⟩ := hd
  simp only [Interpreter.matchWhenLoop, Res.bind_eq, hv, Res.bind, h1, h2, h3, h4, if_true]
  rfl

/-- `MatchWhen` passes the whens whose values all have the type of the control and another
canonical form. -/
theorem MatchWhen_pass (ops : Ops) (c : Data) : ∀ (pre rest : List ast.MatchWhen)
    (st st1 : State) (ds : List Data),
    sequence ops (whensValues pre) st = .ok (ds, st1) →
    (∀ d ∈ ds, sameTypeOtherForm ops.Check c d) →
    Interpreter.MatchWhen ops (pre ++ rest) c st = Interpreter.MatchWhen ops rest c st1 := by
  intro pre
  induction pre with
  | nil =>
    intro rest st st1 ds h _
    simp only [whensValues, sequence, Res.ok.injEq, Prod.mk.injEq] at h
    obtain ⟨rfl, rfl⟩ := h
    rfl
  | cons w ws ih =>
    intro rest st st1 ds h hd
    obtain ⟨t, values, body⟩ := w
    obtain ⟨tv, vs⟩ := values
    simp only [whensValues, whenValues, ExpressionList.Elements] at h
    obtain ⟨ds1, ds2, s1, h1, h2, rfl⟩ := sequence_append ops vs (whensValues ws) st st1 ds h
    have hloop := matchWhenLoop_pass ops c vs.length vs [] 0 0 st s1 ds1 h1
      (fun x hx => hd x (List.mem_append_left _ hx))
    rw [List.append_nil] at hloop
    have hstep : Interpreter.MatchWhen ops (.mk t (.mk tv vs) body :: ws ++ rest) c st =
        Interpreter.MatchWhen ops (ws ++ rest) c s1 := by
      simp only [List.cons_append, Interpreter.MatchWhen, ExpressionList.Elements, Res.bind_eq,
        hloop, Interpreter.matchWhenLoop, Res.pure_eq, Res.bind]
      rfl
    rw [hstep]
    exact ih rest s1 st1 ds2 h2 (fun x hx => hd x (List.mem_append_right _ hx))

/-- C15. Let the control of a `match` evaluate to a value `c` (the Boolean true when the
`match` has no control), and let the values of the whens `pre`, evaluated in order, all
have the runtime type of `c` and a canonical form other than that of `c`.  If the when
that follows `pre` lists, after values `vs1` of the same kind, a value that has the type
and the canonical form of `c`, then `Match` evaluates the body of that when, in a new
frame below the scope in which that value was evaluated, whatever values and whens come
after.  If `pre` are all the whens and the `match` has an else, `Match` evaluates the body
of the else in the same way. -/
theorem Match_first_matching_when (ops : Ops) (tok : Token) (Control : Node)
    (st st0 st1 : State) (c : Data) (pre : List ast.MatchWhen) (ds : List Data)
    (hc : (Control = .absent ∧ c = .TBoolean true ∧ st0 = st) ∨
      (Control ≠ .absent ∧ ops.Interpreter Control st = .ok (c, st0)))
    (hcp : c ≠ .absent)
    (hpre : sequence ops (whensValues pre) st0 = .ok (ds, st1))
    (hds : ∀ d ∈ ds, sameTypeOtherForm ops.Check c d) :
    (∀ (tw tv : Token) (vs1 : List Node) (v : Node) (vs2 : List Node)
      (body : ast.BlockStatement) (post : List ast.MatchWhen)
      (els : Option ast.BlockStatement) (ds1 : List Data) (st2 st3 : State) (d : Data),
      sequence ops vs1 st1 = .ok (ds1, st2) → (∀ x ∈ ds1, sameTypeOtherForm ops.Check c x) →
      ops.Interpreter v st2 = .ok (d, st3) → sameTypeAndForm ops.Check c d →
      Interpreter.Match ops tok Control (pre ++ .mk tw (.mk tv (vs1 ++ v :: vs2)) body :: post)
          els st =
        Interpreter.inNewScope ops (.Block body) st3) ∧
    (∀ e : ast.BlockStatement,
      Interpreter.Match ops tok Control pre (some e) st =
        Interpreter.inNewScope ops (.Block e) st1) := by
  have hcontrol : ∀ (whens : List ast.MatchWhen) (els : Option ast.BlockStatement),
      Interpreter.Match ops tok Control whens els st =
        (Interpreter.MatchWhen ops whens c st0).bind fun r =>
          match r.1 with
          | .error err => pure (.absent, interpreterError r.2 tok.Position err)
          | .ok (some (.mk _ _ body)) => Interpreter.inNewScope ops (.Block body) r.2
          | .ok none =>
            match els with
            | some e => Interpreter.inNewScope ops (.Block e) r.2
            | none => pure (.absent, r.2) := by
    intro whens els
    have hev : Interpreter.matchControl ops Control st = .ok (c, st0) := by
      rcases hc with ⟨rfl, rfl, rfl⟩ | ⟨hne, hev⟩
      · rfl
      · cases Control with
        | absent => exact absurd rfl hne
        | _ => exact hev
    unfold Interpreter.Match
    simp only [Res.bind_eq, hev, Res.bind]
  constructor
  · intro tw tv vs1 v vs2 body post els ds1 st2 st3 d h1 hd1 hv hd
    rw [hcontrol, MatchWhen_pass ops c pre _ st0 st1 ds hpre hds]
    have hloop := matchWhenLoop_pass ops c (vs1 ++ v :: vs2).length vs1 (v :: vs2) 0 0 st1 st2
      ds1 h1 hd1
    rw [matchWhenLoop_hit ops c _ v vs2 _ 0 st2 st3 d hv hd] at hloop
    simp only [Interpreter.MatchWhen, ExpressionList.Elements, Res.bind_eq, hloop, Res.bind,
      Res.pure_eq]
  · intro e
    rw [hcontrol]
    have h := MatchWhen_pass ops c pre [] st0 st1 ds hpre hds
    rw [List.append_nil] at h
    rw [h]
    simp only [Interpreter.MatchWhen, Res.pure_eq, Res.bind]

/-- C15, run on the examples of the claim: `match 2 with when 1 then 10 when 2 then 20 end`
and `match 3 with when 1 then 10 else then 20 end` both return 20, and their tokens parse
without an error to programs that evaluate to 20. -/
theorem Match_first_matching_when_witness :
    Interpreter.Match (exampleOps 3) ⟨.Match, "match", ⟨1, 1⟩⟩
        (.Integer ⟨.Integer, "2", ⟨1, 7⟩⟩ 2)
        ([.mk ⟨.When, "when", ⟨1, 14⟩⟩
            (.mk ⟨.When, "when", ⟨1, 14⟩⟩ [.Integer ⟨.Integer, "1", ⟨1, 19⟩⟩ 1])
            (.mk ⟨.Then, "then", ⟨1, 21⟩⟩ [.ExpressionStatement ⟨.Integer, "10", ⟨1, 26⟩⟩
              (.Integer ⟨.Integer, "10", ⟨1, 26⟩⟩ 10)])] ++
          .mk ⟨.When, "when", ⟨1, 29⟩⟩
            (.mk ⟨.When, "when", ⟨1, 29⟩⟩ ([] ++ .Integer ⟨.Integer, "2", ⟨1, 34⟩⟩ 2 :: []))
            (.mk ⟨.Then, "then", ⟨1, 36⟩⟩ [.ExpressionStatement ⟨.Integer, "20", ⟨1, 41⟩⟩
              (.Integer ⟨.Integer, "20", ⟨1, 41⟩⟩ 20)]) :: [])
        none ⟨⟨[], [], [], [], true⟩, NewScope, []⟩ =
      .ok (.TInteger 20, ⟨⟨[], [], [], [], true⟩, NewScope, []⟩) ∧
    Interpreter.Match (exampleOps 3) ⟨.Match, "match", ⟨1, 1⟩⟩
        (.Integer ⟨.Integer, "3", ⟨1, 7⟩⟩ 3)
        [.mk ⟨.When, "when", ⟨1, 14⟩⟩
          (.mk ⟨.When, "when", ⟨1, 14⟩⟩ [.Integer ⟨.Integer, "1", ⟨1, 19⟩⟩ 1])
          (.mk ⟨.Then, "then", ⟨1, 21⟩⟩ [.ExpressionStatement ⟨.Integer, "10", ⟨1, 26⟩⟩
            (.Integer ⟨.Integer, "10", ⟨1, 26⟩⟩ 10)])]
        (some (.mk ⟨.Then, "then", ⟨1, 34⟩⟩ [.ExpressionStatement ⟨.Integer, "20", ⟨1, 39⟩⟩
          (.Integer ⟨.Integer, "20", ⟨1, 39⟩⟩ 20)]))
        ⟨⟨[], [], [], [], true⟩, NewScope, []⟩ =
      .ok (.TInteger 20, ⟨⟨[], [], [], [], true⟩, NewScope, []⟩) ∧
    (∃ program : Node,
      parser.Parse exampleEnv 14
          (parser.New exampleEnv
            ⟨[⟨.Match, "match", ⟨1, 1⟩⟩, ⟨.Integer, "2", ⟨1, 7⟩⟩, ⟨.With, "with", ⟨1, 9⟩⟩,
              ⟨.When, "when", ⟨1, 14⟩⟩, ⟨.Integer, "1", ⟨1, 19⟩⟩, ⟨.Then, "then", ⟨1, 21⟩⟩,
              ⟨.Integer, "10", ⟨1, 26⟩⟩, ⟨.When, "when", ⟨1, 29⟩⟩, ⟨.Integer, "2", ⟨1, 34⟩⟩,
              ⟨.Then, "then", ⟨1, 36⟩⟩, ⟨.Integer, "20", ⟨1, 41⟩⟩, ⟨.End, "end", ⟨1, 44⟩⟩],
              ⟨.Eof, "", ⟨1, 47⟩⟩⟩) =
        .ok (program, ⟨⟨[], ⟨.Eof, "", ⟨1, 47⟩⟩⟩, ⟨.Eof, "", ⟨1, 47⟩⟩, ⟨.Eof, "", ⟨1, 47⟩⟩, []⟩) ∧
      Interpreter.Interpreter exampleExt 6 program ⟨⟨[], [], [], [], true⟩, NewScope, []⟩ =
        .ok (.TInteger 20, ⟨⟨[], [], [], [], true⟩, NewScope, []⟩)) ∧
    (∃ program : Node,
      parser.Parse exampleEnv 14
          (parser.New exampleEnv
            ⟨[⟨.Match, "match", ⟨1, 1⟩⟩, ⟨.Integer, "3", ⟨1, 7⟩⟩, ⟨.With, "with", ⟨1, 9⟩⟩,
              ⟨.When, "when", ⟨1, 14⟩⟩, ⟨.Integer, "1", ⟨1, 19⟩⟩, ⟨.Then, "then", ⟨1, 21⟩⟩,
              ⟨.Integer, "10", ⟨1, 26⟩⟩, ⟨.Else, "else", ⟨1, 29⟩⟩, ⟨.Then, "then", ⟨1, 34⟩⟩,
              ⟨.Integer, "20", ⟨1, 39⟩⟩, ⟨.End, "end", ⟨1, 42⟩⟩], ⟨.Eof, "", ⟨1, 45⟩⟩⟩) =
        .ok (program, ⟨⟨[], ⟨.Eof, "", ⟨1, 45⟩⟩⟩, ⟨.Eof, "", ⟨1, 45⟩⟩, ⟨.Eof, "", ⟨1, 45⟩⟩, []⟩) ∧
      Interpreter.Interpreter exampleExt 6 program ⟨⟨[], [], [], [], true⟩, NewScope, []⟩ =
        .ok (.TInteger 20, ⟨⟨[], [], [], [], true⟩, NewScope, []⟩)) :=
  ⟨((Match_first_matching_when (exampleOps 3) ⟨.Match, "match", ⟨1, 1⟩⟩
      (.Integer ⟨.Integer, "2", ⟨1, 7⟩⟩ 2) ⟨⟨[], [], [], [], true⟩, NewScope, []⟩
      ⟨⟨[], [], [], [], true⟩, NewScope, []⟩ ⟨⟨[], [], [], [], true⟩, NewScope, []⟩
      (.TInteger 2)
      [.mk ⟨.When, "when", ⟨1, 14⟩⟩
        (.mk ⟨.When, "when", ⟨1, 14⟩⟩ [.Integer ⟨.Integer, "1", ⟨1, 19⟩⟩ 1])
        (.mk ⟨.Then, "then", ⟨1, 21⟩⟩ [.ExpressionStatement ⟨.Integer, "10", ⟨1, 26⟩⟩
          (.Integer ⟨.Integer, "10", ⟨1, 26⟩⟩ 10)])]
      [.TInteger 1] (Or.inr ⟨(by intro h; cases h), rfl⟩) (by intro h; cases h) rfl
      (by
        intro d hd
        rw [List.mem_singleton] at hd
        subst hd
        exact ⟨"Integer", "1", "2", rfl, rfl, rfl, rfl, by decide⟩)).1
      ⟨.When, "when", ⟨1, 29⟩⟩ ⟨.When, "when", ⟨1, 29⟩⟩ [] (.Integer ⟨.Integer, "2", ⟨1, 34⟩⟩ 2)
      [] (.mk ⟨.Then, "then", ⟨1, 36⟩⟩ [.ExpressionStatement ⟨.Integer, "20", ⟨1, 41⟩⟩
        (.Integer ⟨.Integer, "20", ⟨1, 41⟩⟩ 20)]) [] none []
      ⟨⟨[], [], [], [], true⟩, NewScope, []⟩ ⟨⟨[], [], [], [], true⟩, NewScope, []⟩
      (.TInteger 2) rfl (by intro x hx; cases hx) rfl ⟨"Integer", "2", rfl, rfl, rfl, rfl⟩).trans
      rfl,
   ((Match_first_matching_when (exampleOps 3) ⟨.Match, "match", ⟨1, 1⟩⟩
      (.Integer ⟨.Integer, "3", ⟨1, 7⟩⟩ 3) ⟨⟨[], [], [], [], true⟩, NewScope, []⟩
      ⟨⟨[], [], [], [], true⟩, NewScope, []⟩ ⟨⟨[], [], [], [], true⟩, NewScope, []⟩
      (.TInteger 3)
      [.mk ⟨.When, "when", ⟨1, 14⟩⟩
        (.mk ⟨.When, "when", ⟨1, 14⟩⟩ [.Integer ⟨.Integer, "1", ⟨1, 19⟩⟩ 1])
        (.mk ⟨.Then, "then", ⟨1, 21⟩⟩ [.ExpressionStatement ⟨.Integer, "10", ⟨1, 26⟩⟩
          (.Integer ⟨.Integer, "10", ⟨1, 26⟩⟩ 10)])]
      [.TInteger 1] (Or.inr ⟨(by intro h; cases h), rfl⟩) (by intro h; cases h) rfl
      (by
        intro d hd
        rw [List.mem_singleton] at hd
        subst hd
        exact ⟨"Integer", "1", "3", rfl, rfl, rfl, rfl, by decide⟩)).2
      (.mk ⟨.Then, "then", ⟨1, 34⟩⟩ [.ExpressionStatement ⟨.Integer, "20", ⟨1, 39⟩⟩
        (.Integer ⟨.Integer, "20", ⟨1, 39⟩⟩ 20)])).trans rfl,
   ⟨_, rfl, rfl⟩, ⟨_, rfl, rfl⟩⟩

/-- C16 does not hold on the code.  The tokens of `match 3 with when 1 then 10 end` parse
without an error to a program that evaluates to `nil`, the absent result, and not to the
Nil value; so does the method `Match` on the fields of its node: no when matches, there is
no else, and `Match` ends with `return nil`.  No error is recorded.  The method `If` on a
false condition and no else returns the Nil value. -/
theorem Match_no_else_absent :
    (∃ program : Node,
      parser.Parse exampleEnv 13
          (parser.New exampleEnv
            ⟨[⟨.Match, "match", ⟨1, 1⟩⟩, ⟨.Integer, "3", ⟨1, 7⟩⟩, ⟨.With, "with", ⟨1, 9⟩⟩,
              ⟨.When, "when", ⟨1, 14⟩⟩, ⟨.Integer, "1", ⟨1, 19⟩⟩, ⟨.Then, "then", ⟨1, 21⟩⟩,
              ⟨.Integer, "10", ⟨1, 26⟩⟩, ⟨.End, "end", ⟨1, 29⟩⟩], ⟨.Eof, "", ⟨1, 32⟩⟩⟩) =
        .ok (program, ⟨⟨[], ⟨.Eof, "", ⟨1, 32⟩⟩⟩, ⟨.Eof, "", ⟨1, 32⟩⟩, ⟨.Eof, "", ⟨1, 32⟩⟩, []⟩) ∧
      Interpreter.Interpreter exampleExt 6 program ⟨⟨[], [], [], [], true⟩, NewScope, []⟩ =
        .ok (.absent, ⟨⟨[], [], [], [], true⟩, NewScope, []⟩)) ∧
    Interpreter.Match (exampleOps 3) ⟨.Match, "match", ⟨1, 1⟩⟩
        (.Integer ⟨.Integer, "3", ⟨1, 7⟩⟩ 3)
        [.mk ⟨.When, "when", ⟨1, 14⟩⟩
          (.mk ⟨.When, "when", ⟨1, 14⟩⟩ [.Integer ⟨.Integer, "1", ⟨1, 19⟩⟩ 1])
          (.mk ⟨.Then, "then", ⟨1, 21⟩⟩ [.ExpressionStatement ⟨.Integer, "10", ⟨1, 26⟩⟩
            (.Integer ⟨.Integer, "10", ⟨1, 26⟩⟩ 10)])]
        none ⟨⟨[], [], [], [], true⟩, NewScope, []⟩ =
      .ok (.absent, ⟨⟨[], [], [], [], true⟩, NewScope, []⟩) ∧
    Interpreter.If (exampleOps 3) (.Boolean ⟨.False, "false", ⟨1, 4⟩⟩ false)
        (.mk ⟨.Then, "then", ⟨1, 10⟩⟩ [.ExpressionStatement ⟨.Integer, "10", ⟨1, 15⟩⟩
          (.Integer ⟨.Integer, "10", ⟨1, 15⟩⟩ 10)])
        none ⟨⟨[], [], [], [], true⟩, NewScope, []⟩ =
      .ok (.TNil, ⟨⟨[], [], [], [], true⟩, NewScope, []⟩) :=
  ⟨⟨_, rfl, rfl⟩, rfl, rfl⟩

/-- One step of the loop over the values of a when, for an array control and a value that
is not an array, when the when lists as many values as the array has elements. -/
theorem matchWhenLoop_array_step (ops : Ops) (es : List Data) (v : Node) (vs : List Node)
    (index matched : Nat) (st s1 : State) (d e : Data) (t : String)
    (hv : ops.Interpreter v st = .ok (d, s1)) (ht : d.Type = some t) (hta : t ≠ "Array")
    (hcd : (ops.Check d).isSome = true) (he : es.get? index = some e)
    (hte : e.Type.isSome = true) (hce : (ops.Check e).isSome = true) :
    Interpreter.matchWhenLoop ops (.TArray es) es.length (v :: vs) index matched st =
      if elementMatch ops.Check e d = true then
        if matched + 1 = es.length then .ok (.ok true, s1)
        else Interpreter.matchWhenLoop ops (.TArray es) es.length vs (index + 1) (matched + 1) s1
      else Interpreter.matchWhenLoop ops (.TArray es) es.length vs (index + 1) matched s1 := by
  obtain ⟨et, het⟩ := Option.isSome_iff_exists.mp hte
  obtain ⟨pc, hpc⟩ := Option.isSome_iff_exists.mp hcd
  obtain ⟨ec, hec⟩ := Option.isSome_iff_exists.mp hce
  have hca : (Data.TArray es).Type = some "Array" := rfl
  simp only [Interpreter.matchWhenLoop, Res.bind_eq, hv, Res.bind, ht, hca, he, het,
    hpc, hec, elementMatch, Option.some.injEq, hta, if_false, ne_eq, not_true_eq_false,
    Res.pure_eq]
  by_cases h2 : t = et
  · subst h2
    by_cases h3 : pc = ec
    · subst h3
      simp
    · by_cases h1 : t = "PlaceHolder"
      · subst h1; simp [h3]
      · simp [h1, h3]
  · by_cases h1 : t = "PlaceHolder"
    · subst h1; simp [h2]
    · simp [h1, h2]

theorem allMatch_nil_right (check : Data → Option String) (es : List Data) :
    allMatch check es [] = true := by
  cases es <;> rfl

/-- The loop over the values of a when, for an array control and values that are not
arrays, when the when lists as many values as the array has elements: it returns the when
exactly when every value matched the element at its index. -/
theorem matchWhenLoop_array (ops : Ops) (es : List Data)
    (hes : ∀ e ∈ es, e.Type.isSome = true ∧ (ops.Check e).isSome = true) :
    ∀ (vs : List Node) (index matched : Nat) (st st1 : State) (ds : List Data),
    sequence ops vs st = .ok (ds, st1) →
    (∀ d ∈ ds, ∃ t, d.Type = some t ∧ t ≠ "Array" ∧ (ops.Check d).isSome = true) →
    index + vs.length = es.length → matched ≤ index →
    Interpreter.matchWhenLoop ops (.TArray es) es.length vs index matched st =
      .ok (.ok (!vs.isEmpty && decide (matched = index) &&
        allMatch ops.Check (es.drop index) ds), st1) := by
  intro vs
  induction vs with
  | nil =>
    intro index matched st st1 ds h _ _ _
    simp only [sequence, Res.ok.injEq, Prod.mk.injEq] at h
    obtain ⟨rfl, rfl⟩ := h
    simp [Interpreter.matchWhenLoop, Res.pure_eq]
  | cons v vs ih =>
    intro index matched st st1 ds h hds hlen hm
    obtain ⟨d, ds', s1, hv, hrest, rfl⟩ := sequence_cons ops v vs st st1 ds h
    obtain ⟨t, ht, hta, hcd⟩ := hds d (List.mem_cons_self _ _)
    simp only [List.length_cons] at hlen
    have hidx : index < es.length := by omega
    have he : es.get? index = some es[index] := by
      rw [List.get?_eq_getElem?, List.getElem?_eq_getElem hidx]
    have hmem := hes es[index] (List.getElem_mem _)
    rw [matchWhenLoop_array_step ops es v vs index matched st s1 d es[index] t hv ht hta hcd he
      hmem.1 hmem.2]
    have hdrop : es.drop index = es[index] :: es.drop (index + 1) :=
      List.drop_eq_getElem_cons hidx
    have ih1 := fun m hm' => ih (index + 1) m s1 st1 ds' hrest
      (fun x hx => hds x (List.mem_cons_of_mem _ hx)) (by omega) hm'
    rw [hdrop]
    simp only [allMatch, List.isEmpty_cons, Bool.not_false, Bool.true_and]
    by_cases hmatch : elementMatch ops.Check es[index] d = true
    · rw [if_pos hmatch, hmatch]
      by_cases hlast : matched + 1 = es.length
      · rw [if_pos hlast]
        have hvs : vs = [] := List.length_eq_zero.mp (by omega)
        subst hvs
        simp only [sequence, Res.ok.injEq, Prod.mk.injEq] at hrest
        obtain ⟨rfl, rfl⟩ := hrest
        have : matched = index := by simp only [List.length_nil] at hlen; omega
        simp [this, allMatch_nil_right]
      · rw [if_neg hlast, ih1 (matched + 1) (by omega)]
        cases vs with
        | nil =>
          simp only [List.length_nil] at hlen
          have : matched ≠ index := by omega
          simp [this]
        | cons w ws => simp
    · rw [if_neg hmatch, ih1 matched (by omega)]
      have h1 : matched ≠ index + 1 := by omega
      have h2 : elementMatch ops.Check es[index] d = false := by
        cases hx : elementMatch ops.Check es[index] d with
        | true => exact absurd hx hmatch
        | false => rfl
      simp [h1, h2]

/-- The loop over the values of a when, for an array control and values that are not
arrays, when the when does not list as many values as the array has elements: it does not
return the when. -/
theorem matchWhenLoop_array_count (ops : Ops) (es : List Data) (count : Nat)
    (hcount : count ≠ es.length) :
    ∀ (vs : List Node) (index matched : Nat) (st st1 : State) (ds : List Data),
    sequence ops vs st = .ok (ds, st1) →
    (∀ d ∈ ds, ∃ t, d.Type = some t ∧ t ≠ "Array") →
    Interpreter.matchWhenLoop ops (.TArray es) count vs index matched st =
      .ok (.ok false, st1) := by
  intro vs
  induction vs with
  | nil =>
    intro index matched st st1 ds h _
    simp only [sequence, Res.ok.injEq, Prod.mk.injEq] at h
    obtain ⟨rfl, rfl⟩ := h
    rfl
  | cons v vs ih =>
    intro index matched st st1 ds h hds
    obtain ⟨d, ds', s1, hv, hrest, rfl⟩ := sequence_cons ops v vs st st1 ds h
    obtain ⟨t, ht, hta⟩ := hds d (List.mem_cons_self _ _)
    rw [← ih (index + 1) matched s1 st1 ds' hrest
      (fun x hx => hds x (List.mem_cons_of_mem _ hx))]
    have hca : (Data.TArray es).Type = some "Array" := rfl
    simp only [Interpreter.matchWhenLoop, Res.bind_eq, hv, Res.bind, ht, hca,
      Option.some.injEq, hta, if_false, ne_eq, hcount, not_false_eq_true, if_true]

/-- C17. Let the control of a `match` be an array `es`, and let the values a when lists
evaluate, in order, to `ds`, none of them an array.  (Every element of `es` and every value
of `ds` is a value with a canonical form, and the when lists at least one value, as every
when the parser builds does.)  If the when lists as many values as `es` has elements,
`MatchWhen` returns that when if every value is a PlaceHolder or has the runtime type and
the canonical form of the element of `es` at its index, and goes on to the next when if
one value does not.  If it lists another number of values, `MatchWhen` goes on to the next
when. -/
theorem MatchWhen_array_elementwise (ops : Ops) (tw tv : Token) (vs : List Node)
    (body : ast.BlockStatement) (rest : List ast.MatchWhen) (es : List Data)
    (st st1 : State) (ds : List Data)
    (hvs : sequence ops vs st = .ok (ds, st1))
    (hds : ∀ d ∈ ds, ∃ t, d.Type = some t ∧ t ≠ "Array" ∧ (ops.Check d).isSome = true)
    (hes : ∀ e ∈ es, e.Type.isSome = true ∧ (ops.Check e).isSome = true)
    (hne : vs ≠ []) :
    (vs.length = es.length →
      (allMatch ops.Check es ds = true →
        Interpreter.MatchWhen ops (.mk tw (.mk tv vs) body :: rest) (.TArray es) st =
          .ok (.ok (some (.mk tw (.mk tv vs) body)), st1)) ∧
      (allMatch ops.Check es ds = false →
        Interpreter.MatchWhen ops (.mk tw (.mk tv vs) body :: rest) (.TArray es) st =
          Interpreter.MatchWhen ops rest (.TArray es) st1)) ∧
    (vs.length ≠ es.length →
      Interpreter.MatchWhen ops (.mk tw (.mk tv vs) body :: rest) (.TArray es) st =
        Interpreter.MatchWhen ops rest (.TArray es) st1) := by
  constructor
  · intro hlen
    have hloop := matchWhenLoop_array ops es hes vs 0 0 st st1 ds hvs hds (by omega)
      (Nat.le_refl 0)
    have hemp : vs.isEmpty = false := by cases vs with
      | nil => exact absurd rfl hne
      | cons _ _ => rfl
    simp only [hemp, Bool.not_false, decide_True, Bool.true_and, List.drop_zero] at hloop
    rw [← hlen] at hloop
    constructor
    · intro hall
      rw [hall] at hloop
      simp only [Interpreter.MatchWhen, ExpressionList.Elements, Res.bind_eq, hloop, Res.bind,
        Res.pure_eq]
    · intro hall
      rw [hall] at hloop
      simp only [Interpreter.MatchWhen, ExpressionList.Elements, Res.bind_eq, hloop, Res.bind]
  · intro hlen
    have hloop := matchWhenLoop_array_count ops es vs.length hlen vs 0 0 st st1 ds hvs
      (fun d hd => by obtain ⟨t, h1, h2, _⟩ := hds d hd; exact ⟨t, h1, h2⟩)
    simp only [Interpreter.MatchWhen, ExpressionList.Elements, Res.bind_eq, hloop, Res.bind]

/-- C17, run on the example of the claim: for the control `["Luis", "Carlos", 2]` the when
that lists `"Luis", _, _` is returned, and the tokens of
`match ["Luis", "Carlos", 2] with when "Luis", _, _ then 10 else then -1 end` parse
without an error to a program that evaluates to 10. -/
theorem MatchWhen_array_elementwise_witness :
    Interpreter.MatchWhen (exampleOps 3)
        (.mk ⟨.When, "when", ⟨1, 34⟩⟩
          (.mk ⟨.When, "when", ⟨1, 34⟩⟩ [.String ⟨⟨.String, "Luis", ⟨1, 39⟩⟩, "Luis"⟩,
            .PlaceHolder ⟨.Underscore, "_", ⟨1, 47⟩⟩, .PlaceHolder ⟨.Underscore, "_", ⟨1, 50⟩⟩])
          (.mk ⟨.Then, "then", ⟨1, 52⟩⟩ [.ExpressionStatement ⟨.Integer, "10", ⟨1, 57⟩⟩
            (.Integer ⟨.Integer, "10", ⟨1, 57⟩⟩ 10)]) :: [])
        (.TArray [.TString "Luis", .TString "Carlos", .TInteger 2])
        ⟨⟨[], [], [], [], true⟩, NewScope, []⟩ =
      .ok (.ok (some (.mk ⟨.When, "when", ⟨1, 34⟩⟩
          (.mk ⟨.When, "when", ⟨1, 34⟩⟩ [.String ⟨⟨.String, "Luis", ⟨1, 39⟩⟩, "Luis"⟩,
            .PlaceHolder ⟨.Underscore, "_", ⟨1, 47⟩⟩, .PlaceHolder ⟨.Underscore, "_", ⟨1, 50⟩⟩])
          (.mk ⟨.Then, "then", ⟨1, 52⟩⟩ [.ExpressionStatement ⟨.Integer, "10", ⟨1, 57⟩⟩
            (.Integer ⟨.Integer, "10", ⟨1, 57⟩⟩ 10)]))),
        ⟨⟨[], [], [], [], true⟩, NewScope, []⟩) ∧
    (∃ program : Node,
      parser.Parse exampleEnv 17
          (parser.New exampleEnv
            ⟨[⟨.Match, "match", ⟨1, 1⟩⟩, ⟨.LeftBracket, "[", ⟨1, 7⟩⟩,
              ⟨.String, "Luis", ⟨1, 8⟩⟩, ⟨.Comma, ",", ⟨1, 14⟩⟩, ⟨.String, "Carlos", ⟨1, 16⟩⟩,
              ⟨.Comma, ",", ⟨1, 24⟩⟩, ⟨.Integer, "2", ⟨1, 26⟩⟩, ⟨.RightBracket, "]", ⟨1, 27⟩⟩,
              ⟨.With, "with", ⟨1, 29⟩⟩, ⟨.When, "when", ⟨1, 34⟩⟩, ⟨.String, "Luis", ⟨1, 39⟩⟩,
              ⟨.Comma, ",", ⟨1, 45⟩⟩, ⟨.Underscore, "_", ⟨1, 47⟩⟩, ⟨.Comma, ",", ⟨1, 48⟩⟩,
              ⟨.Underscore, "_", ⟨1, 50⟩⟩, ⟨.Then, "then", ⟨1, 52⟩⟩, ⟨.Integer, "10", ⟨1, 57⟩⟩,
              ⟨.Else, "else", ⟨1, 60⟩⟩, ⟨.Then, "then", ⟨1, 65⟩⟩, ⟨.Minus, "-", ⟨1, 70⟩⟩,
              ⟨.Integer, "1", ⟨1, 71⟩⟩, ⟨.End, "end", ⟨1, 73⟩⟩], ⟨.Eof, "", ⟨1, 76⟩⟩⟩) =
        .ok (program, ⟨⟨[], ⟨.Eof, "", ⟨1, 76⟩⟩⟩, ⟨.Eof, "", ⟨1, 76⟩⟩, ⟨.Eof, "", ⟨1, 76⟩⟩, []⟩) ∧
      Interpreter.Interpreter exampleExt 6 program ⟨⟨[], [], [], [], true⟩, NewScope, []⟩ =
        .ok (.TInteger 10, ⟨⟨[], [], [], [], true⟩, NewScope, []⟩)) :=
  ⟨((MatchWhen_array_elementwise (exampleOps 3) ⟨.When, "when", ⟨1, 34⟩⟩
      ⟨.When, "when", ⟨1, 34⟩⟩ [.String ⟨⟨.String, "Luis", ⟨1, 39⟩⟩, "Luis"⟩,
        .PlaceHolder ⟨.Underscore, "_", ⟨1, 47⟩⟩, .PlaceHolder ⟨.Underscore, "_", ⟨1, 50⟩⟩]
      (.mk ⟨.Then, "then", ⟨1, 52⟩⟩ [.ExpressionStatement ⟨.Integer, "10", ⟨1, 57⟩⟩
        (.Integer ⟨.Integer, "10", ⟨1, 57⟩⟩ 10)]) []
      [.TString "Luis", .TString "Carlos", .TInteger 2]
      ⟨⟨[], [], [], [], true⟩, NewScope, []⟩ ⟨⟨[], [], [], [], true⟩, NewScope, []⟩
      [.TString "Luis", .TPlaceHolder, .TPlaceHolder] rfl
      (by
        intro d hd
        simp only [List.mem_cons, List.mem_singleton, List.not_mem_nil, or_false] at hd
        rcases hd with rfl | rfl | rfl
        · exact ⟨"String", rfl, by decide, rfl⟩
        · exact ⟨"PlaceHolder", rfl, by decide, rfl⟩
        · exact ⟨"PlaceHolder", rfl, by decide, rfl⟩)
      (by
        intro e he
        simp only [List.mem_cons, List.mem_singleton, List.not_mem_nil, or_false] at he
        rcases he with rfl | rfl | rfl <;> exact ⟨rfl, rfl⟩)
      (by intro h; cases h)).1 rfl).1 rfl,
   ⟨_, rfl, rfl⟩⟩

end Oro.interpreter
namespace Oro.interpreter

open Oro token ast runtime

/-! ## Function calls -/

theorem checkTypeMatch_supported (actual expected : String)
    (h : Interpreter.checkTypeMatch actual expected = none) :
    Interpreter.checkSupportedType actual = true := by
  unfold Interpreter.checkTypeMatch at h
  cases hs : Interpreter.checkSupportedType actual with
  | true => rfl
  | false => simp [hs] at h

theorem sentinel_of_supported (d : Data) (t : String) (ht : d.Type = some t)
    (hs : Interpreter.checkSupportedType t = true) : sentinel d = false := by
  cases d <;> first
    | rfl
    | (simp only [Data.Type, Option.some.injEq] at ht
       subst ht
       simp [Interpreter.checkSupportedType] at hs)

/-- The end of `Function`, given that the body returns `r`: the value is `r` without its
Return wrapper, checked against the return type when one is declared. -/
theorem callBody_value (ops : Ops) (tok : Token) (body : ast.BlockStatement)
    (returnType : Option Identifier) (fnScope : Scope) (st sr : State) (r : Data)
    (hbody : ops.Interpreter (.Block body) { st with sc := fnScope } = .ok (r, sr)) :
    (returnType = none →
      Interpreter.callBody ops tok body returnType fnScope st =
        .ok (Interpreter.unwrapReturnValue r, { sr with sc := st.sc })) ∧
    (Interpreter.unwrapReturnValue r = .absent →
      Interpreter.callBody ops tok body returnType fnScope st =
        .ok (.absent, { sr with sc := st.sc })) ∧
    (∀ (rt : Identifier) (t : String), returnType = some rt →
      (Interpreter.unwrapReturnValue r).Type = some t →
      (Interpreter.checkTypeMatch t rt.Value = none →
        Interpreter.callBody ops tok body returnType fnScope st =
          .ok (Interpreter.unwrapReturnValue r, { sr with sc := st.sc })) ∧
      (∀ err, Interpreter.checkTypeMatch t rt.Value = some err →
        Interpreter.callBody ops tok body returnType fnScope st =
          .ok (.absent, interpreterError { sr with sc := st.sc } tok.Position err))) := by
  refine ⟨?_, ?_, ?_⟩
  · intro hrt
    subst hrt
    unfold Interpreter.callBody
    simp only [Res.bind_eq, hbody, Res.bind]
    cases hu : Interpreter.unwrapReturnValue r <;> rfl
  · intro hu
    unfold Interpreter.callBody
    simp only [Res.bind_eq, hbody, Res.bind, hu]
    rfl
  · intro rt t hrt ht
    subst hrt
    have hne : Interpreter.unwrapReturnValue r ≠ .absent := by
      intro h
      rw [h] at ht
      cases ht
    constructor
    · intro hm
      unfold Interpreter.callBody
      simp only [Res.bind_eq, hbody, Res.bind]
      cases hu : Interpreter.unwrapReturnValue r with
      | absent => exact absurd hu hne
      | _ =>
        rw [hu] at ht
        simp only [Interpreter.typeError, ht, hm, Res.pure_eq]
    · intro err hm
      unfold Interpreter.callBody
      simp only [Res.bind_eq, hbody, Res.bind]
      cases hu : Interpreter.unwrapReturnValue r with
      | absent => exact absurd hu hne
      | _ =>
        rw [hu] at ht
        simp only [Interpreter.typeError, ht, hm, Res.pure_eq]

theorem Type_of_sentinel (d : Data) (h : sentinel d = true) :
    ∃ t, d.Type = some t ∧ Interpreter.checkSupportedType t = false := by
  cases d <;> first
    | (simp [sentinel] at h; done)
    | exact ⟨_, rfl, rfl⟩

/-- The call of a user function whose callee, arguments and defaults are evaluated as the
hypotheses of `Function_result` say is the end of `Function` on the frame `frame`. -/
theorem Function_eq_callBody (ops : Ops) (FnRuntime : String → Option Interpreter.TRuntimeFn)
    (tok : Token) (callee : Node) (args : ast.ExpressionList) (st s0 s1 s2 : State)
    (parameters : List FunctionParameter) (body : ast.BlockStatement)
    (returnType : Option Identifier) (variadic : Bool) (scope fnScope1 fnScope2 frame : Scope)
    (defaultCount : Int) (arguments : List Data)
    (huser : Interpreter.runtimeFunction FnRuntime callee = none)
    (hfn : ops.Interpreter callee st =
      .ok (.TFunction parameters body returnType variadic scope, s0))
    (hmany : variadic = true ∨ args.Elements.length ≤ parameters.length)
    (hdef : Interpreter.defaultsLoop ops tok parameters (NewScopeFrom scope) 0 s0 =
      .ok (some (fnScope1, defaultCount), s1))
    (hfew : (parameters.length : Int) - defaultCount ≤ args.Elements.length)
    (harg : Interpreter.argumentsLoop ops tok parameters variadic
      ((parameters.length : Int) - 1) args.Elements 0 fnScope1 [] s1 =
      .ok (some (fnScope2, arguments), s2))
    (hframe : ((variadic = false ∨ arguments = []) ∧ frame = fnScope2) ∨
      ∃ (t : Token) (name : Identifier) (ty : Option Identifier) (dflt : Node),
        variadic = true ∧ arguments ≠ [] ∧ parameters.getLast? = some (.mk t name ty dflt) ∧
        frame = fnScope2.Write name.Value (.TArray arguments)) :
    Interpreter.Function ops FnRuntime tok callee args st =
      Interpreter.callBody ops tok body returnType frame s2 := by
  unfold Interpreter.Function
  rw [huser]
  have h1 : (!variadic && decide (args.Elements.length > parameters.length)) = false := by
    rcases hmany with h | h
    · rw [h]; rfl
    · have : ¬ (args.Elements.length > parameters.length) := by omega
      simp [this]
  have h2 : ¬ ((args.Elements.length : Int) < (parameters.length : Int) - defaultCount) := by
    omega
  simp only [Res.bind_eq, hfn, Res.bind, h1, hdef, if_neg h2, harg]
  rcases hframe with ⟨hv, rfl⟩ | ⟨t, name, ty, dflt, hv, hne, hlast, rfl⟩
  · have h3 : (variadic && decide (arguments.length > 0)) = false := by
      rcases hv with h | h
      · rw [h]; rfl
      · rw [h]; simp
    rw [h3]
    rfl
  · have h3 : (variadic && decide (arguments.length > 0)) = true := by
      rw [hv]
      cases arguments with
      | nil => exact absurd rfl hne
      | cons a as => simp
    rw [h3, hlast]
    rfl

set_option maxRecDepth 100000 in
/-- C12 does not hold as stated: a function whose body is `break` or `continue` returns the
sentinel to its caller, whose loop consumes it.  The call `f()`, in a scope that binds `f`
to the function `fn () do continue end`, returns the Continue sentinel, and with
`fn () do break end` the Break sentinel.  The source

    var n = 0
    val f = fn () do continue end
    val r = repeat i in 1..3
    n = n + 1
    f()
    i
    end
    [n, r]

lexes and parses without a diagnostic and evaluates to the array of 3 and the empty array:
the Continue that each call of `f` returns ends the iteration of the loop of the caller,
so that the loop runs three times and collects no element.  With `break` for `continue`
the program evaluates to the array of 1 and the empty array: the Break that the first
call returns ends the loop of the caller. -/
theorem Function_returns_break_sentinel :
    Interpreter.Function (exampleOps 3) exampleExt.FnRuntime ⟨.LeftParenthesis, "(", ⟨2, 2⟩⟩
        (.Identifier ⟨⟨.Identifier, "f", ⟨2, 1⟩⟩, "f"⟩) (.mk ⟨.LeftParenthesis, "(", ⟨2, 2⟩⟩ [])
        ⟨⟨[], [], [], [], true⟩,
          .mk [("f", .TFunction [] (.mk ⟨.Do, "do", ⟨1, 15⟩⟩
            [.Continue ⟨.Continue, "continue", ⟨1, 18⟩⟩]) none false (NewScopeFrom NewScope))]
            none, []⟩ =
      .ok (.TContinue, ⟨⟨[], [], [], [], true⟩,
          .mk [("f", .TFunction [] (.mk ⟨.Do, "do", ⟨1, 15⟩⟩
            [.Continue ⟨.Continue, "continue", ⟨1, 18⟩⟩]) none false (NewScopeFrom NewScope))]
            none, []⟩) ∧
    Interpreter.Function (exampleOps 3) exampleExt.FnRuntime ⟨.LeftParenthesis, "(", ⟨2, 2⟩⟩
        (.Identifier ⟨⟨.Identifier, "f", ⟨2, 1⟩⟩, "f"⟩) (.mk ⟨.LeftParenthesis, "(", ⟨2, 2⟩⟩ [])
        ⟨⟨[], [], [], [], true⟩,
          .mk [("f", .TFunction [] (.mk ⟨.Do, "do", ⟨1, 15⟩⟩ [.Break ⟨.Break, "break", ⟨1, 18⟩⟩])
            none false (NewScopeFrom NewScope))] none, []⟩ =
      .ok (.TBreak, ⟨⟨[], [], [], [], true⟩,
          .mk [("f", .TFunction [] (.mk ⟨.Do, "do", ⟨1, 15⟩⟩ [.Break ⟨.Break, "break", ⟨1, 18⟩⟩])
            none false (NewScopeFrom NewScope))] none, []⟩) ∧
    (∃ (program : Node) (p : parser.Parser lexer.Lexer) (st : State),
      parser.Parse (parser.lexerEnv fun _ => none) 40
          (parser.New (parser.lexerEnv fun _ => none)
            (lexer.New (
              ['v', 'a', 'r', ' ', 'n', ' ', '=', ' ', '0', lexer.newline, 'v', 'a', 'l', ' ',
               'f', ' ', '=', ' ', 'f', 'n', ' ', '(', ')', ' ', 'd', 'o', ' ', 'c', 'o', 'n',
               't', 'i', 'n', 'u', 'e', ' ', 'e', 'n', 'd', lexer.newline, 'v', 'a', 'l', ' ',
               'r', ' ', '=', ' ', 'r', 'e', 'p', 'e', 'a', 't', ' ', 'i', ' ', 'i', 'n', ' ',
               '1', '.', '.', '3', lexer.newline, 'n', ' ', '=', ' ', 'n', ' ', '+', ' ', '1',
               lexer.newline, 'f', '(', ')', lexer.newline, 'i', lexer.newline, 'e', 'n', 'd',
               lexer.newline, '[', 'n', ',', ' ', 'r', ']']))) = .ok (program, p) ∧
      p.errors = [] ∧ p.lexer.errors = [] ∧
      Interpreter.Interpreter exampleExt 12 program ⟨⟨[], [], [], [], true⟩, NewScope, []⟩ =
        .ok (.TArray [.TInteger 3, .TArray []], st) ∧
      st.errors = []) ∧
    (∃ (program : Node) (p : parser.Parser lexer.Lexer) (st : State),
      parser.Parse (parser.lexerEnv fun _ => none) 40
          (parser.New (parser.lexerEnv fun _ => none)
            (lexer.New (
              ['v', 'a', 'r', ' ', 'n', ' ', '=', ' ', '0', lexer.newline, 'v', 'a', 'l', ' ',
               'f', ' ', '=', ' ', 'f', 'n', ' ', '(', ')', ' ', 'd', 'o', ' ', 'b', 'r', 'e',
               'a', 'k', ' ', 'e', 'n', 'd', lexer.newline, 'v', 'a', 'l', ' ', 'r', ' ', '=',
               ' ', 'r', 'e', 'p', 'e', 'a', 't', ' ', 'i', ' ', 'i', 'n', ' ', '1', '.', '.',
               '3', lexer.newline, 'n', ' ', '=', ' ', 'n', ' ', '+', ' ', '1', lexer.newline,
               'f', '(', ')', lexer.newline, 'i', lexer.newline, 'e', 'n', 'd', lexer.newline,
               '[', 'n', ',', ' ', 'r', ']']))) = .ok (program, p) ∧
      p.errors = [] ∧ p.lexer.errors = [] ∧
      Interpreter.Interpreter exampleExt 12 program ⟨⟨[], [], [], [], true⟩, NewScope, []⟩ =
        .ok (.TArray [.TInteger 1, .TArray []], st) ∧
      st.errors = []) :=
  ⟨rfl, rfl, ⟨_, _, _, rfl, rfl, rfl, rfl, rfl⟩, ⟨_, _, _, rfl, rfl, rfl, rfl, rfl⟩⟩

/-- C12, as amended.  Let the callee of a call not name a function of the runtime and
evaluate to a function; let the call give neither too many nor too few arguments, let the
defaults and the arguments be evaluated and bound without an error, which leaves the
frame `frame` (with the variadic arguments, if any, bound to the last parameter), and let
the body of the function, run in that frame, return `r`.  Then the value that `Function`
returns to the caller is determined by `r`.  When no return type is declared it is `r`
without its Return wrapper: a `return v` yields `v`, and a Break or a Continue sentinel is
returned to the caller as it is.  When a return type is declared it is that value if it
is `nil` or its type is the declared one; otherwise one Runtime Error is recorded and `nil`
is returned, which is so for every sentinel: with a declared return type the caller never
receives a sentinel. -/
theorem Function_result (ops : Ops) (FnRuntime : String → Option Interpreter.TRuntimeFn)
    (tok : Token) (callee : Node) (args : ast.ExpressionList) (st s0 s1 s2 sr : State)
    (parameters : List FunctionParameter) (body : ast.BlockStatement)
    (returnType : Option Identifier) (variadic : Bool) (scope fnScope1 fnScope2 frame : Scope)
    (defaultCount : Int) (arguments : List Data) (r : Data)
    (huser : Interpreter.runtimeFunction FnRuntime callee = none)
    (hfn : ops.Interpreter callee st =
      .ok (.TFunction parameters body returnType variadic scope, s0))
    (hmany : variadic = true ∨ args.Elements.length ≤ parameters.length)
    (hdef : Interpreter.defaultsLoop ops tok parameters (NewScopeFrom scope) 0 s0 =
      .ok (some (fnScope1, defaultCount), s1))
    (hfew : (parameters.length : Int) - defaultCount ≤ args.Elements.length)
    (harg : Interpreter.argumentsLoop ops tok parameters variadic
      ((parameters.length : Int) - 1) args.Elements 0 fnScope1 [] s1 =
      .ok (some (fnScope2, arguments), s2))
    (hframe : ((variadic = false ∨ arguments = []) ∧ frame = fnScope2) ∨
      ∃ (t : Token) (name : Identifier) (ty : Option Identifier) (dflt : Node),
        variadic = true ∧ arguments ≠ [] ∧ parameters.getLast? = some (.mk t name ty dflt) ∧
        frame = fnScope2.Write name.Value (.TArray arguments))
    (hbody : ops.Interpreter (.Block body) { s2 with sc := frame } = .ok (r, sr)) :
    (returnType = none →
      (∃ st' : State, Interpreter.Function ops FnRuntime tok callee args st =
        .ok (Interpreter.unwrapReturnValue r, st') ∧ st'.errors = sr.errors) ∧
      (∀ v, r = .TReturn v → ∃ st' : State,
        Interpreter.Function ops FnRuntime tok callee args st = .ok (v, st')) ∧
      (r = .TBreak ∨ r = .TContinue → ∃ st' : State,
        Interpreter.Function ops FnRuntime tok callee args st = .ok (r, st'))) ∧
    (∀ rt : Identifier, returnType = some rt →
      (Interpreter.unwrapReturnValue r = .absent →
        ∃ st' : State, Interpreter.Function ops FnRuntime tok callee args st =
          .ok (.absent, st') ∧ st'.errors = sr.errors) ∧
      ((Interpreter.unwrapReturnValue r).Type = some rt.Value →
        Interpreter.checkSupportedType rt.Value = true →
        ∃ st' : State, Interpreter.Function ops FnRuntime tok callee args st =
          .ok (Interpreter.unwrapReturnValue r, st') ∧ st'.errors = sr.errors ∧
          sentinel (Interpreter.unwrapReturnValue r) = false) ∧
      (∀ t, (Interpreter.unwrapReturnValue r).Type = some t →
        (t ≠ rt.Value ∨ Interpreter.checkSupportedType t = false) →
        ∃ (st' : State) (e : rerror.Entry), e.terror = .Runtime ∧
          Interpreter.Function ops FnRuntime tok callee args st = .ok (.absent, st') ∧
          st'.errors = sr.errors ++ [e]) ∧
      (sentinel (Interpreter.unwrapReturnValue r) = true →
        ∃ (st' : State) (e : rerror.Entry), e.terror = .Runtime ∧
          Interpreter.Function ops FnRuntime tok callee args st = .ok (.absent, st') ∧
          st'.errors = sr.errors ++ [e]) ∧
      ∀ (d : Data) (st' : State),
        Interpreter.Function ops FnRuntime tok callee args st = .ok (d, st') →
        sentinel d = false) := by
  have hcall := Function_eq_callBody ops FnRuntime tok callee args st s0 s1 s2 parameters body
    returnType variadic scope fnScope1 fnScope2 frame defaultCount arguments huser hfn hmany
    hdef hfew harg hframe
  have hval := callBody_value ops tok body returnType frame s2 sr r hbody
  rw [hcall]
  have hmis : ∀ (rt : Identifier) (t : String), returnType = some rt →
      (Interpreter.unwrapReturnValue r).Type = some t →
      (t ≠ rt.Value ∨ Interpreter.checkSupportedType t = false) →
      ∃ (st' : State) (e : rerror.Entry), e.terror = .Runtime ∧
        Interpreter.callBody ops tok body returnType frame s2 = .ok (.absent, st') ∧
        st'.errors = sr.errors ++ [e] := by
    intro rt t hrt ht hbad
    have hm : ∃ err, Interpreter.checkTypeMatch t rt.Value = some err := by
      unfold Interpreter.checkTypeMatch
      cases hs : Interpreter.checkSupportedType t with
      | false => exact ⟨_, rfl⟩
      | true =>
        rcases hbad with hne | hf
        · simp only [Bool.not_true, Bool.false_eq_true, if_false, ne_eq, hne, not_false_eq_true,
            if_true]
          exact ⟨_, rfl⟩
        · rw [hs] at hf
          cases hf
    obtain ⟨err, hm⟩ := hm
    exact ⟨_, ⟨.Runtime, tok.Position, err⟩, rfl, (hval.2.2 rt t hrt ht).2 err hm, rfl⟩
  refine ⟨?_, ?_⟩
  · intro hrt
    refine ⟨⟨_, hval.1 hrt, rfl⟩, ?_, ?_⟩
    · intro v hv
      refine ⟨{ sr with sc := s2.sc }, ?_⟩
      rw [hval.1 hrt, hv]
      rfl
    · intro hs
      refine ⟨{ sr with sc := s2.sc }, ?_⟩
      rw [hval.1 hrt]
      rcases hs with h | h <;> (rw [h]; rfl)
  · intro rt hrt
    refine ⟨?_, ?_, fun t => hmis rt t hrt, ?_, ?_⟩
    · intro hu
      exact ⟨_, hval.2.1 hu, rfl⟩
    · intro ht hs
      have hm : Interpreter.checkTypeMatch rt.Value rt.Value = none := by
        unfold Interpreter.checkTypeMatch
        simp [hs]
      exact ⟨_, (hval.2.2 rt rt.Value hrt ht).1 hm, rfl, sentinel_of_supported _ _ ht hs⟩
    · intro hs
      obtain ⟨t, ht, hsup⟩ := Type_of_sentinel _ hs
      exact hmis rt t hrt ht (Or.inr hsup)
    · intro d st' h
      cases hu : (Interpreter.unwrapReturnValue r).Type with
      | none =>
        have habs : Interpreter.unwrapReturnValue r = .absent := by
          cases hx : Interpreter.unwrapReturnValue r <;> simp [hx, Data.Type] at hu
          rfl
        rw [hval.2.1 habs] at h
        cases h
        rfl
      | some t =>
        cases hm : Interpreter.checkTypeMatch t rt.Value with
        | none =>
          rw [(hval.2.2 rt t hrt hu).1 hm] at h
          simp only [Res.ok.injEq, Prod.mk.injEq] at h
          rw [← h.1]
          exact sentinel_of_supported _ t hu (checkTypeMatch_supported _ _ hm)
        | some err =>
          rw [(hval.2.2 rt t hrt hu).2 err hm] at h
          cases h
          rfl

/-- C12 as amended, run on the call `f(5)` in a scope that binds `f` to the function
`fn (x) do return x end`: it returns 5, the value of the Return that its body results in.
And the source of `val f = fn (x) do return x end`, a newline and `f(5)` lexes and parses
without a diagnostic and evaluates to 5. -/
theorem Function_result_witness :
    (∃ st' : State,
      Interpreter.Function (exampleOps 4) exampleExt.FnRuntime ⟨.LeftParenthesis, "(", ⟨2, 2⟩⟩
        (.Identifier ⟨⟨.Identifier, "f", ⟨2, 1⟩⟩, "f"⟩)
        (.mk ⟨.LeftParenthesis, "(", ⟨2, 2⟩⟩ [.Integer ⟨.Integer, "5", ⟨2, 3⟩⟩ 5])
        ⟨⟨[], [], [], [], true⟩,
          .mk [("f", .TFunction
            [.mk ⟨.Identifier, "x", ⟨1, 13⟩⟩ ⟨⟨.Identifier, "x", ⟨1, 13⟩⟩, "x"⟩ none .absent]
            (.mk ⟨.Do, "do", ⟨1, 16⟩⟩ [.Return ⟨.Return, "return", ⟨1, 19⟩⟩
              (.Identifier ⟨⟨.Identifier, "x", ⟨1, 26⟩⟩, "x"⟩)])
            none false (NewScopeFrom NewScope))] none, []⟩ =
      .ok (.TInteger 5, st')) ∧
    (∃ (program : Node) (p : parser.Parser lexer.Lexer) (st : State),
      parser.Parse (parser.lexerEnv fun _ => none) 20
          (parser.New (parser.lexerEnv fun _ => none)
            (lexer.New (
              ['v', 'a', 'l', ' ', 'f', ' ', '=', ' ', 'f', 'n', ' ', '(', 'x', ')', ' ', 'd',
               'o', ' ', 'r', 'e', 't', 'u', 'r', 'n', ' ', 'x', ' ', 'e', 'n', 'd',
               lexer.newline, 'f', '(', '5', ')']))) = .ok (program, p) ∧
      p.errors = [] ∧ p.lexer.errors = [] ∧
      Interpreter.Interpreter exampleExt 6 program ⟨⟨[], [], [], [], true⟩, NewScope, []⟩ =
        .ok (.TInteger 5, st) ∧
      st.errors = []) :=
  ⟨((Function_result (exampleOps 4) exampleExt.FnRuntime ⟨.LeftParenthesis, "(", ⟨2, 2⟩⟩
      (.Identifier ⟨⟨.Identifier, "f", ⟨2, 1⟩⟩, "f"⟩)
      (.mk ⟨.LeftParenthesis, "(", ⟨2, 2⟩⟩ [.Integer ⟨.Integer, "5", ⟨2, 3⟩⟩ 5])
      ⟨⟨[], [], [], [], true⟩,
        .mk [("f", .TFunction
          [.mk ⟨.Identifier, "x", ⟨1, 13⟩⟩ ⟨⟨.Identifier, "x", ⟨1, 13⟩⟩, "x"⟩ none .absent]
          (.mk ⟨.Do, "do", ⟨1, 16⟩⟩ [.Return ⟨.Return, "return", ⟨1, 19⟩⟩
            (.Identifier ⟨⟨.Identifier, "x", ⟨1, 26⟩⟩, "x"⟩)])
          none false (NewScopeFrom NewScope))] none, []⟩
      ⟨⟨[], [], [], [], true⟩,
        .mk [("f", .TFunction
          [.mk ⟨.Identifier, "x", ⟨1, 13⟩⟩ ⟨⟨.Identifier, "x", ⟨1, 13⟩⟩, "x"⟩ none .absent]
          (.mk ⟨.Do, "do", ⟨1, 16⟩⟩ [.Return ⟨.Return, "return", ⟨1, 19⟩⟩
            (.Identifier ⟨⟨.Identifier, "x", ⟨1, 26⟩⟩, "x"⟩)])
          none false (NewScopeFrom NewScope))] none, []⟩
      ⟨⟨[], [], [], [], true⟩,
        .mk [("f", .TFunction
          [.mk ⟨.Identifier, "x", ⟨1, 13⟩⟩ ⟨⟨.Identifier, "x", ⟨1, 13⟩⟩, "x"⟩ none .absent]
          (.mk ⟨.Do, "do", ⟨1, 16⟩⟩ [.Return ⟨.Return, "return", ⟨1, 19⟩⟩
            (.Identifier ⟨⟨.Identifier, "x", ⟨1, 26⟩⟩, "x"⟩)])
          none false (NewScopeFrom NewScope))] none, []⟩
      ⟨⟨[], [], [], [], true⟩,
        .mk [("f", .TFunction
          [.mk ⟨.Identifier, "x", ⟨1, 13⟩⟩ ⟨⟨.Identifier, "x", ⟨1, 13⟩⟩, "x"⟩ none .absent]
          (.mk ⟨.Do, "do", ⟨1, 16⟩⟩ [.Return ⟨.Return, "return", ⟨1, 19⟩⟩
            (.Identifier ⟨⟨.Identifier, "x", ⟨1, 26⟩⟩, "x"⟩)])
          none false (NewScopeFrom NewScope))] none, []⟩
      ⟨⟨[], [], [], [], true⟩,
        .mk [("x", .TInteger 5)] (some (NewScopeFrom NewScope)), []⟩
      [.mk ⟨.Identifier, "x", ⟨1, 13⟩⟩ ⟨⟨.Identifier, "x", ⟨1, 13⟩⟩, "x"⟩ none .absent]
      (.mk ⟨.Do, "do", ⟨1, 16⟩⟩ [.Return ⟨.Return, "return", ⟨1, 19⟩⟩
        (.Identifier ⟨⟨.Identifier, "x", ⟨1, 26⟩⟩, "x"⟩)])
      none false (NewScopeFrom NewScope) (NewScopeFrom (NewScopeFrom NewScope))
      (.mk [("x", .TInteger 5)] (some (NewScopeFrom NewScope)))
      (.mk [("x", .TInteger 5)] (some (NewScopeFrom NewScope)))
      0 [] (.TReturn (.TInteger 5))
      rfl rfl (Or.inr (by decide)) rfl (by decide) rfl (Or.inl ⟨Or.inl rfl, rfl⟩) rfl).1
      rfl).2.1 (.TInteger 5) rfl,
   ⟨_, _, _, rfl, rfl, rfl, rfl, rfl⟩⟩

/-! ## The whens the parser builds -/

/-- Every when that the loop of `parseMatch` adds lists at least one value: a when without
one is reported (`Missing expression in MATCH WHEN`) and left out. -/
theorem parseMatchLoop_values {L : Type} (env : parser.Env L) : ∀ (fuel : Nat)
    (p p' : parser.Parser L) (whens whens' : List ast.MatchWhen)
    (els els' : Option ast.BlockStatement),
    parser.parseMatchLoop env fuel p whens els = .ok (some (whens', els'), p') →
    (∀ w ∈ whens, whenValues w ≠ []) → ∀ w ∈ whens', whenValues w ≠ [] := by
  intro fuel
  induction fuel with
  | zero =>
    intro p p' whens whens' els els' h
    rw [parser.parseMatchLoop] at h
    cases h
  | succ n ih =>
    intro p p' whens whens' els els' h hw
    rw [parser.parseMatchLoop] at h
    split at h
    · simp only [Res.ok.injEq, Prod.mk.injEq, Option.some.injEq] at h
      obtain ⟨⟨rfl, _⟩, _⟩ := h
      exact hw
    · split at h
      · simp only [Res.bind_eq] at h
        cases hd : parser.parseDelimited env n .Comma [.NewLine, .Then] (parser.nextToken env p)
          with
        | fault => rw [hd] at h; cases h
        | timeout => rw [hd] at h; cases h
        | ok r =>
          obtain ⟨elements, p1⟩ := r
          rw [hd] at h
          simp only [Res.bind] at h
          split at h
          · cases he : parser.parserError env n p1 "Missing expression in MATCH WHEN" with
            | fault => rw [he] at h; cases h
            | timeout => rw [he] at h; cases h
            | ok p2 =>
              rw [he] at h
              exact ih _ _ _ _ _ _ h hw
          · rename_i hlen
            cases hb : parser.parseMatchWhen env n p1 with
            | fault => rw [hb] at h; cases h
            | timeout => rw [hb] at h; cases h
            | ok rb =>
              obtain ⟨body, p2⟩ := rb
              rw [hb] at h
              refine ih _ _ _ _ _ _ h ?_
              intro w hmem
              rcases List.mem_append.mp hmem with hm | hm
              · exact hw w hm
              · rw [List.mem_singleton] at hm
                subst hm
                intro hnil
                apply hlen
                simp only [whenValues, ExpressionList.Elements] at hnil
                rw [hnil]
                rfl
      · split at h
        · simp only [Res.bind_eq] at h
          cases he : parser.parserError env n p "ELSE when in MATCH can't have parameters" with
          | fault => rw [he] at h; cases h
          | timeout => rw [he] at h; cases h
          | ok p2 =>
            rw [he] at h
            simp only [Res.bind, Res.pure_eq, Res.ok.injEq, Prod.mk.injEq] at h
            cases h.1
        · simp only [Res.bind_eq] at h
          cases hb : parser.parseMatchWhen env n (parser.nextToken env p) with
          | fault => rw [hb] at h; cases h
          | timeout => rw [hb] at h; cases h
          | ok rb =>
            obtain ⟨body, p2⟩ := rb
            rw [hb] at h
            simp only [Res.bind] at h
            split at h
            · cases he : parser.parserError env n p2 "Missing ELSE when body in MATCH" with
              | fault => rw [he] at h; cases h
              | timeout => rw [he] at h; cases h
              | ok p3 =>
                rw [he] at h
                simp only [Res.bind, Res.pure_eq, Res.ok.injEq, Prod.mk.injEq] at h
                cases h.1
            · exact ih _ _ _ _ _ _ h hw
      · exact ih _ _ _ _ _ _ h hw

theorem bind_eq_ok {α β : Type} (x : Res α) (f : α → Res β) (b : β)
    (h : Res.bind x f = .ok b) : ∃ a, x = .ok a ∧ f a = .ok b := by
  cases x with
  | ok a => exact ⟨a, rfl, h⟩
  | fault => cases h
  | timeout => cases h

/-- Every when of a `match` that `parseMatch` returns lists at least one value. -/
theorem parseMatch_values {L : Type} (env : parser.Env L) (fuel : Nat)
    (p p' : parser.Parser L) (tok : Token) (control : Node) (whens : List ast.MatchWhen)
    (els : Option ast.BlockStatement)
    (h : parser.parseMatch env fuel p = .ok (.Match tok control whens els, p')) :
    ∀ w ∈ whens, whenValues w ≠ [] := by
  cases fuel with
  | zero => rw [parser.parseMatch] at h; cases h
  | succ n =>
    rw [parser.parseMatch] at h
    simp only [Res.bind_eq] at h
    obtain ⟨⟨c, p1⟩, _, h⟩ := bind_eq_ok _ _ _ h
    split at h
    all_goals
      obtain ⟨y, _, h⟩ := bind_eq_ok _ _ _ h
      obtain ⟨⟨rl, p3⟩, hl, h⟩ := bind_eq_ok _ _ _ h
      cases rl with
      | none =>
        simp only [Res.pure_eq, Res.ok.injEq, Prod.mk.injEq] at h
        cases h.1
      | some q =>
        obtain ⟨ws, e⟩ := q
        simp only at h
        have hws := parseMatchLoop_values env n _ p3 [] ws none e hl (fun w hw => by cases hw)
        split at h
        · obtain ⟨p4, _, h⟩ := bind_eq_ok _ _ _ h
          simp only [Res.pure_eq, Res.ok.injEq, Prod.mk.injEq] at h
          cases h.1
        · simp only [Res.pure_eq, Res.ok.injEq, Prod.mk.injEq, Node.Match.injEq] at h
          obtain ⟨⟨_, _, rfl, _⟩, _⟩ := h
          exact hws

end Oro.interpreter
namespace Oro.interpreter

open Oro token ast runtime

/-! ## Reads through a subscript of a string -/

/-- C19 does not hold as stated for a string with a byte above 127.  The source of
`"é"[3]`, in which the letter is the two bytes 195 and 169, lexes and parses without a
diagnostic: its literal is the string of the two characters with the codes 195 and 169,
which has the four bytes 195, 131, 194 and 169.  The read at the index 3, which is not
below the number of characters of the string, is inside the bounds: the program evaluates
to the string of the character with the code 169, and this string has two bytes, not one.
No error is recorded. -/
theorem Subscript_read_high_byte :
    (∃ (program : Node) (p : parser.Parser lexer.Lexer) (st : State) (t1 t2 t3 t4 : Token),
      parser.Parse (parser.lexerEnv fun _ => none) 12
          (parser.New (parser.lexerEnv fun _ => none)
            (lexer.New ['"', Char.ofNat 195, Char.ofNat 169, '"', '[', '3', ']'])) =
        .ok (program, p) ∧
      p.errors = [] ∧ p.lexer.errors = [] ∧
      program = .Program [.ExpressionStatement t1
        (.Subscript t2 (.String ⟨t3, String.mk [Char.ofNat 195, Char.ofNat 169]⟩)
          (.Integer t4 3))] ∧
      Interpreter.Interpreter exampleExt 4 program ⟨⟨[], [], [], [], true⟩, NewScope, []⟩ =
        .ok (.TString (String.singleton (Char.ofNat 169)), st) ∧
      st.errors = []) ∧
    bytes (String.mk [Char.ofNat 195, Char.ofNat 169]) = [195, 131, 194, 169] ∧
    (String.mk [Char.ofNat 195, Char.ofNat 169]).length = 2 ∧
    Interpreter.StringSubscript (.TString (String.mk [Char.ofNat 195, Char.ofNat 169]))
        (.TInteger 3) = .ok (.ok (.TString (String.singleton (Char.ofNat 169)))) ∧
    bytes (String.singleton (Char.ofNat 169)) = [194, 169] := by
  exact ⟨⟨_, _, _, _, _, _, _, rfl, rfl, rfl, rfl, rfl, rfl⟩, rfl, rfl, rfl, rfl⟩

/-! ## Writes through a subscript of a string -/

/-- C23 does not hold on the code.  The tokens of `val d = [1 => "a", "1" => "a"] d == d`
parse without an error to a program that evaluates to the Boolean false: the dictionary `d`,
whose two keys have the canonical form `1`, is not equal to itself.  The loops of
`compareDictionaries` count the pairs of a pair of the left map and a pair of the right map
that agree in both canonical forms, four here, and compare the count with the length, two.
And the dictionary `[1 => "a", 2 => "b"]` is equal to `[1 => "a", "1" => "a"]`, for which
the count is two, although the pair of `2` and `b` is in the first only. -/
theorem compareDictionaries_counts_pairs :
    (∃ (program : Node) (p : parser.Parser parser.TokenStream) (st : State),
      parser.Parse exampleEnv 20
          (parser.New exampleEnv
            ⟨[⟨.Val, "val", ⟨1, 1⟩⟩, ⟨.Identifier, "d", ⟨1, 5⟩⟩, ⟨.Assign, "=", ⟨1, 7⟩⟩,
              ⟨.LeftBracket, "[", ⟨1, 9⟩⟩, ⟨.Integer, "1", ⟨1, 10⟩⟩,
              ⟨.FatArrow, "=>", ⟨1, 13⟩⟩, ⟨.String, "a", ⟨1, 17⟩⟩, ⟨.Comma, ",", ⟨1, 18⟩⟩,
              ⟨.String, "1", ⟨1, 22⟩⟩, ⟨.FatArrow, "=>", ⟨1, 25⟩⟩, ⟨.String, "a", ⟨1, 29⟩⟩,
              ⟨.RightBracket, "]", ⟨1, 30⟩⟩, ⟨.Identifier, "d", ⟨1, 32⟩⟩,
              ⟨.Equal, "==", ⟨1, 35⟩⟩, ⟨.Identifier, "d", ⟨1, 37⟩⟩],
              ⟨.Eof, "", ⟨1, 38⟩⟩⟩) = .ok (program, p) ∧
      p.errors = [] ∧
      Interpreter.Interpreter fullExt 6 program ⟨⟨[], [], [], [], true⟩, NewScope, []⟩ =
        .ok (.TBoolean false, st) ∧
      st.sc.Read "d" =
        some (.TDictionary [(.TInteger 1, .TString "a"), (.TString "1", .TString "a")]) ∧
      st.errors = []) ∧
    Interpreter.compareDictionariesLoop (Data.Check fullExt.CheckOther)
        [(.TInteger 1, .TString "a"), (.TString "1", .TString "a")]
        [(.TInteger 1, .TString "a"), (.TString "1", .TString "a")] 0 = .ok 4 ∧
    Interpreter.compareDictionaries (Data.Check fullExt.CheckOther)
        [(.TInteger 1, .TString "a"), (.TString "1", .TString "a")]
        [(.TInteger 1, .TString "a"), (.TString "1", .TString "a")] = .ok false ∧
    Interpreter.compareDictionaries (Data.Check fullExt.CheckOther)
        [(.TInteger 1, .TString "a"), (.TInteger 2, .TString "b")]
        [(.TInteger 1, .TString "a"), (.TString "1", .TString "a")] = .ok true := by
  exact ⟨⟨_, _, _, rfl, rfl, rfl, rfl, rfl⟩, rfl, rfl, rfl⟩

/-- C24 does not hold on the code.  The tokens of `[1 => "a"] + [1 => "b"]` parse without
an error to a program that evaluates to a dictionary of two pairs, both with a key of the
canonical form `1`: the pair of the right operand and the pair of the left operand, which
the loop of `DictionaryInfix` has written under its own key object. -/
theorem DictionaryInfix_plus_keeps_both :
    (∃ (program : Node) (p : parser.Parser parser.TokenStream),
      parser.Parse exampleEnv 20
          (parser.New exampleEnv
            ⟨[⟨.LeftBracket, "[", ⟨1, 1⟩⟩, ⟨.Integer, "1", ⟨1, 2⟩⟩,
              ⟨.FatArrow, "=>", ⟨1, 5⟩⟩, ⟨.String, "a", ⟨1, 9⟩⟩,
              ⟨.RightBracket, "]", ⟨1, 10⟩⟩, ⟨.Plus, "+", ⟨1, 12⟩⟩,
              ⟨.LeftBracket, "[", ⟨1, 14⟩⟩, ⟨.Integer, "1", ⟨1, 15⟩⟩,
              ⟨.FatArrow, "=>", ⟨1, 18⟩⟩, ⟨.String, "b", ⟨1, 22⟩⟩,
              ⟨.RightBracket, "]", ⟨1, 23⟩⟩],
              ⟨.Eof, "", ⟨1, 24⟩⟩⟩) = .ok (program, p) ∧
      p.errors = [] ∧
      Interpreter.Interpreter fullExt 6 program ⟨⟨[], [], [], [], true⟩, NewScope, []⟩ =
        .ok (.TDictionary [(.TInteger 1, .TString "b"), (.TInteger 1, .TString "a")],
          ⟨⟨[], [], [], [], true⟩, NewScope, []⟩)) ∧
    Data.Check fullExt.CheckOther (.TInteger 1) = some "1" ∧
    Interpreter.DictionaryInfix (Data.Check fullExt.CheckOther) "+"
        [(.TInteger 1, .TString "a")] [(.TInteger 1, .TString "b")] =
      .ok (.ok (.TDictionary [(.TInteger 1, .TString "b"), (.TInteger 1, .TString "a")])) := by
  exact ⟨⟨_, _, rfl, rfl, rfl⟩, rfl, rfl⟩

/-! ## Strings under the infix operators -/

/-- C25. Let the operands of an infix expression evaluate to the strings `a` and `b`.
Then `<`, `<=`, `>` and `>=` return the comparison of the lengths of `a` and `b`, counted in
bytes as `len` does; `==` and `!=` return whether `a` and `b` are, or are not, the same
string; and `+` returns `a` followed by `b`.  No error is recorded. -/
theorem InfixExpression_strings (ops : Ops) (ext : Interpreter.Ext) (tok : Token)
    (left right : Node) (st st1 st2 : State) (a b : String)
    (hleft : ops.Interpreter left st = .ok (.TString a, st1))
    (hright : ops.Interpreter right st1 = .ok (.TString b, st2)) :
    Interpreter.InfixExpression ops ext tok left "<" right st =
      .ok (.TBoolean (decide (a.utf8ByteSize < b.utf8ByteSize)), st2) ∧
    Interpreter.InfixExpression ops ext tok left "<=" right st =
      .ok (.TBoolean (decide (a.utf8ByteSize ≤ b.utf8ByteSize)), st2) ∧
    Interpreter.InfixExpression ops ext tok left ">" right st =
      .ok (.TBoolean (decide (a.utf8ByteSize > b.utf8ByteSize)), st2) ∧
    Interpreter.InfixExpression ops ext tok left ">=" right st =
      .ok (.TBoolean (decide (a.utf8ByteSize ≥ b.utf8ByteSize)), st2) ∧
    Interpreter.InfixExpression ops ext tok left "==" right st =
      .ok (.TBoolean (decide (a = b)), st2) ∧
    Interpreter.InfixExpression ops ext tok left "!=" right st =
      .ok (.TBoolean (decide (a ≠ b)), st2) ∧
    Interpreter.InfixExpression ops ext tok left "+" right st =
      .ok (.TString (a ++ b), st2) := by
  refine ⟨?_, ?_, ?_, ?_, ?_, ?_, ?_⟩ <;>
    (simp only [Interpreter.InfixExpression, Res.bind_eq, Res.bind, hleft, hright]
     simp [Interpreter.infixSwitch, Interpreter.StringInfix, Interpreter.nativeToBoolean,
       Res.bind, Res.pure_eq])

/-- C25, run on the examples of the claim: `"four" > "one"` is true and `"b" > "a"` is
false; and as programs, the tokens of `"four" > "one"` and of `"b" > "a"` parse without an
error to programs that evaluate to the Booleans true and false. -/
theorem InfixExpression_strings_witness :
    Interpreter.InfixExpression (exampleOps 2) exampleExt ⟨.Greater, ">", ⟨1, 8⟩⟩
        (.String ⟨⟨.String, "four", ⟨1, 6⟩⟩, "four"⟩) ">"
        (.String ⟨⟨.String, "one", ⟨1, 14⟩⟩, "one"⟩)
        ⟨⟨[], [], [], [], true⟩, NewScope, []⟩ =
      .ok (.TBoolean true, ⟨⟨[], [], [], [], true⟩, NewScope, []⟩) ∧
    Interpreter.InfixExpression (exampleOps 2) exampleExt ⟨.Greater, ">", ⟨1, 5⟩⟩
        (.String ⟨⟨.String, "b", ⟨1, 3⟩⟩, "b"⟩) ">"
        (.String ⟨⟨.String, "a", ⟨1, 9⟩⟩, "a"⟩)
        ⟨⟨[], [], [], [], true⟩, NewScope, []⟩ =
      .ok (.TBoolean false, ⟨⟨[], [], [], [], true⟩, NewScope, []⟩) ∧
    (∃ (program : Node) (p : parser.Parser parser.TokenStream),
      parser.Parse exampleEnv 12
          (parser.New exampleEnv
            ⟨[⟨.String, "four", ⟨1, 6⟩⟩, ⟨.Greater, ">", ⟨1, 8⟩⟩,
              ⟨.String, "one", ⟨1, 14⟩⟩], ⟨.Eof, "", ⟨1, 15⟩⟩⟩) = .ok (program, p) ∧
      p.errors = [] ∧
      Interpreter.Interpreter exampleExt 5 program ⟨⟨[], [], [], [], true⟩, NewScope, []⟩ =
        .ok (.TBoolean true, ⟨⟨[], [], [], [], true⟩, NewScope, []⟩)) ∧
    ∃ (program : Node) (p : parser.Parser parser.TokenStream),
      parser.Parse exampleEnv 12
          (parser.New exampleEnv
            ⟨[⟨.String, "b", ⟨1, 3⟩⟩, ⟨.Greater, ">", ⟨1, 5⟩⟩,
              ⟨.String, "a", ⟨1, 9⟩⟩], ⟨.Eof, "", ⟨1, 10⟩⟩⟩) = .ok (program, p) ∧
      p.errors = [] ∧
      Interpreter.Interpreter exampleExt 5 program ⟨⟨[], [], [], [], true⟩, NewScope, []⟩ =
        .ok (.TBoolean false, ⟨⟨[], [], [], [], true⟩, NewScope, []⟩) := by
  refine ⟨?_, ?_, ⟨_, _, rfl, rfl, rfl⟩, ⟨_, _, rfl, rfl, rfl⟩⟩
  · exact (InfixExpression_strings (exampleOps 2) exampleExt ⟨.Greater, ">", ⟨1, 8⟩⟩
      (.String ⟨⟨.String, "four", ⟨1, 6⟩⟩, "four"⟩)
      (.String ⟨⟨.String, "one", ⟨1, 14⟩⟩, "one"⟩)
      ⟨⟨[], [], [], [], true⟩, NewScope, []⟩ ⟨⟨[], [], [], [], true⟩, NewScope, []⟩
      ⟨⟨[], [], [], [], true⟩, NewScope, []⟩ "four" "one" rfl rfl).2.2.1
  · exact (InfixExpression_strings (exampleOps 2) exampleExt ⟨.Greater, ">", ⟨1, 5⟩⟩
      (.String ⟨⟨.String, "b", ⟨1, 3⟩⟩, "b"⟩) (.String ⟨⟨.String, "a", ⟨1, 9⟩⟩, "a"⟩)
      ⟨⟨[], [], [], [], true⟩, NewScope, []⟩ ⟨⟨[], [], [], [], true⟩, NewScope, []⟩
      ⟨⟨[], [], [], [], true⟩, NewScope, []⟩ "b" "a" rfl rfl).2.2.1

/-! ## Conversions -/

theorem As_other_type (ops : Ops) (FnRuntime : String → Option Interpreter.TRuntimeFn)
    (tok : Token) (left : Node) (right : Identifier) (st : State)
    (h : right.Value ∉ ["String", "Integer", "Float", "Array"]) :
    ∃ msg : String, Interpreter.As ops FnRuntime tok left right st =
      .ok (.absent, ⟨st.i, st.sc, st.errors ++ [⟨.Runtime, tok.Position, msg⟩]⟩) := by
  simp only [List.mem_cons, List.mem_singleton, List.mem_nil_iff, or_false, not_or] at h
  obtain ⟨h1, h2, h3, h4⟩ := h
  unfold Interpreter.As
  by_cases hs : Interpreter.checkSupportedType right.Value = true
  · refine ⟨"Can't convert to type '" ++ right.Value ++ "'", ?_⟩
    simp only [hs, Bool.not_true, Bool.false_eq_true, if_false, if_neg h1, if_neg h2, if_neg h3,
      if_neg h4]
    rfl
  · refine ⟨"Unknown type '" ++ right.Value ++ "' in as operator", ?_⟩
    simp only [Bool.not_eq_true] at hs
    simp only [hs, Bool.not_false, if_true]
    rfl

/-- C26 does not hold on the code.  The tokens of `5 as Integer` parse without an error to
a program whose evaluation faults, while the program of `Int(5)` evaluates to the integer 5:
`As` looks the function up under the name `Integer` of the type, which is no key of
`runtime.FnRuntime` (the function is stored under `Int`), and calls the `nil` function it
gets.  For the targets `String`, `Float` and `Array`, whose functions are stored under the
name of the type, `x as T` is the call `T(x)` of the function of the runtime with the token
of the `as`; `5 as String` and `String(5)` evaluate to the string `5`.  Every type name other
than these four is rejected: `As` records one Runtime Error and returns `nil`. -/
theorem As_Integer_faults :
    (∃ (program : Node) (p : parser.Parser parser.TokenStream),
      parser.Parse exampleEnv 12
          (parser.New exampleEnv
            ⟨[⟨.Integer, "5", ⟨1, 1⟩⟩, ⟨.As, "as", ⟨1, 4⟩⟩,
              ⟨.Identifier, "Integer", ⟨1, 12⟩⟩], ⟨.Eof, "", ⟨1, 13⟩⟩⟩) = .ok (program, p) ∧
      p.errors = [] ∧
      program = .Program [.ExpressionStatement ⟨.Integer, "5", ⟨1, 1⟩⟩
        (.As ⟨.As, "as", ⟨1, 4⟩⟩ (.Integer ⟨.Integer, "5", ⟨1, 1⟩⟩ 5)
          ⟨⟨.Identifier, "Integer", ⟨1, 12⟩⟩, "Integer"⟩)] ∧
      Interpreter.Interpreter fullExt 5 program ⟨⟨[], [], [], [], true⟩, NewScope, []⟩ =
        .fault) ∧
    (∃ (program : Node) (p : parser.Parser parser.TokenStream),
      parser.Parse exampleEnv 12
          (parser.New exampleEnv
            ⟨[⟨.Identifier, "Int", ⟨1, 3⟩⟩, ⟨.LeftParenthesis, "(", ⟨1, 4⟩⟩,
              ⟨.Integer, "5", ⟨1, 5⟩⟩, ⟨.RightParenthesis, ")", ⟨1, 6⟩⟩],
              ⟨.Eof, "", ⟨1, 7⟩⟩⟩) = .ok (program, p) ∧
      p.errors = [] ∧
      Interpreter.Interpreter fullExt 5 program ⟨⟨[], [], [], [], true⟩, NewScope, []⟩ =
        .ok (.TInteger 5, ⟨⟨[], [], [], [], true⟩, NewScope, []⟩)) ∧
    (∃ (program : Node) (p : parser.Parser parser.TokenStream),
      parser.Parse exampleEnv 12
          (parser.New exampleEnv
            ⟨[⟨.Integer, "5", ⟨1, 1⟩⟩, ⟨.As, "as", ⟨1, 4⟩⟩,
              ⟨.Identifier, "String", ⟨1, 11⟩⟩], ⟨.Eof, "", ⟨1, 12⟩⟩⟩) = .ok (program, p) ∧
      p.errors = [] ∧
      Interpreter.Interpreter fullExt 5 program ⟨⟨[], [], [], [], true⟩, NewScope, []⟩ =
        .ok (.TString "5", ⟨⟨[], [], [], [], true⟩, NewScope, []⟩)) ∧
    (∃ (program : Node) (p : parser.Parser parser.TokenStream),
      parser.Parse exampleEnv 12
          (parser.New exampleEnv
            ⟨[⟨.Identifier, "String", ⟨1, 6⟩⟩, ⟨.LeftParenthesis, "(", ⟨1, 7⟩⟩,
              ⟨.Integer, "5", ⟨1, 8⟩⟩, ⟨.RightParenthesis, ")", ⟨1, 9⟩⟩],
              ⟨.Eof, "", ⟨1, 10⟩⟩⟩) = .ok (program, p) ∧
      p.errors = [] ∧
      Interpreter.Interpreter fullExt 5 program ⟨⟨[], [], [], [], true⟩, NewScope, []⟩ =
        .ok (.TString "5", ⟨⟨[], [], [], [], true⟩, NewScope, []⟩)) ∧
    (∀ (cv : runtime.Conversions) (others : String → Interpreter.TRuntimeFn),
      runtime.FnRuntime cv others "Integer" = none ∧
      runtime.FnRuntime cv others "Int" = some (runtime.fnInt cv)) ∧
    ∀ (ops : Ops) (cv : runtime.Conversions) (others : String → Interpreter.TRuntimeFn)
      (tok tright tcallee : Token) (left : Node) (st : State),
      Interpreter.As ops (runtime.FnRuntime cv others) tok left ⟨tright, "String"⟩ st =
        Interpreter.Function ops (runtime.FnRuntime cv others) tok
          (.Identifier ⟨tcallee, "String"⟩) (.mk Token.zero [left]) st ∧
      Interpreter.As ops (runtime.FnRuntime cv others) tok left ⟨tright, "Float"⟩ st =
        Interpreter.Function ops (runtime.FnRuntime cv others) tok
          (.Identifier ⟨tcallee, "Float"⟩) (.mk Token.zero [left]) st ∧
      Interpreter.As ops (runtime.FnRuntime cv others) tok left ⟨tright, "Array"⟩ st =
        Interpreter.Function ops (runtime.FnRuntime cv others) tok
          (.Identifier ⟨tcallee, "Array"⟩) (.mk Token.zero [left]) st ∧
      ∀ right : Identifier, right.Value ∉ ["String", "Integer", "Float", "Array"] →
        ∃ msg : String,
          Interpreter.As ops (runtime.FnRuntime cv others) tok left right st =
            .ok (.absent, ⟨st.i, st.sc, st.errors ++ [⟨.Runtime, tok.Position, msg⟩]⟩) := by
  refine ⟨⟨_, _, rfl, rfl, rfl, rfl⟩, ⟨_, _, rfl, rfl, rfl⟩, ⟨_, _, rfl, rfl, rfl⟩,
    ⟨_, _, rfl, rfl, rfl⟩, fun _ _ => ⟨rfl, rfl⟩,
    fun ops cv others tok _ _ left st => ⟨rfl, rfl, rfl, fun right h =>
      As_other_type ops (runtime.FnRuntime cv others) tok left right st h⟩⟩

/-! ## Pipes -/

theorem Pipe_call (ops : Ops) (tok t targs : Token) (a f : Node) (bs : List Node)
    (st : State) :
    Interpreter.Pipe ops tok a (.FunctionCall t f (.mk targs bs)) st =
      match ops.Interpreter (.FunctionCall t f (.mk targs (a :: bs))) st with
      | .ok (data, st') => .ok (data, st', .FunctionCall t f (.mk targs (a :: bs)))
      | .fault => .fault
      | .timeout => .timeout := by
  unfold Interpreter.Pipe
  simp only [Res.bind_eq]
  cases ops.Interpreter (.FunctionCall t f (.mk targs (a :: bs))) st <;> rfl

theorem Pipe_other (ops : Ops) (tok : Token) (a right : Node) (st : State)
    (h : ∀ t f args, right ≠ .FunctionCall t f args) :
    Interpreter.Pipe ops tok a right st =
      .ok (.absent,
        interpreterError st tok.Position "Pipe operator expects a function on the right side",
        right) := by
  unfold Interpreter.Pipe
  cases right <;> first
    | rfl
    | exact absurd rfl (h _ _ _)

/-- C27 does not hold on the code.  An evaluation of a pipe whose right side is the call
`f(b1..bn)` evaluates the call `f(a, b1..bn)`, and the node of the right side is that longer
call afterwards: the method assigns the longer list to the argument list of the node.  With
`f` declared by `val f = fn (x) do x end`, the first evaluation of the node of `5 |> f()`
returns 5 and leaves the call `f(5)` in the node; the second evaluation of the node
evaluates `f(5, 5)`, records the Runtime Error `Too many arguments in function call` and
returns `nil`.  A right side that is not a call records a Runtime Error. -/
theorem Pipe_prepends_in_place :
    (∀ (ops : Ops) (tok t targs : Token) (a f : Node) (bs : List Node) (st : State),
      Interpreter.Pipe ops tok a (.FunctionCall t f (.mk targs bs)) st =
        match ops.Interpreter (.FunctionCall t f (.mk targs (a :: bs))) st with
        | .ok (data, st') => .ok (data, st', .FunctionCall t f (.mk targs (a :: bs)))
        | .fault => .fault
        | .timeout => .timeout) ∧
    (∃ (program : Node) (p : parser.Parser parser.TokenStream) (d : Data) (st1 st2 : State),
      parser.Parse exampleEnv 16
          (parser.New exampleEnv
            ⟨[⟨.Val, "val", ⟨1, 1⟩⟩, ⟨.Identifier, "f", ⟨1, 5⟩⟩, ⟨.Assign, "=", ⟨1, 7⟩⟩,
              ⟨.Function, "fn", ⟨1, 9⟩⟩, ⟨.LeftParenthesis, "(", ⟨1, 12⟩⟩,
              ⟨.Identifier, "x", ⟨1, 13⟩⟩, ⟨.RightParenthesis, ")", ⟨1, 14⟩⟩,
              ⟨.Do, "do", ⟨1, 16⟩⟩, ⟨.Identifier, "x", ⟨1, 19⟩⟩, ⟨.End, "end", ⟨1, 21⟩⟩],
              ⟨.Eof, "", ⟨1, 24⟩⟩⟩) = .ok (program, p) ∧
      p.errors = [] ∧
      Interpreter.Interpreter exampleExt 5 program ⟨⟨[], [], [], [], true⟩, NewScope, []⟩ =
        .ok (d, st1) ∧
      st1.errors = [] ∧
      Interpreter.Pipe (exampleOps 5) ⟨.Pipe, "|>", ⟨2, 3⟩⟩ (.Integer ⟨.Integer, "5", ⟨2, 1⟩⟩ 5)
          (.FunctionCall ⟨.LeftParenthesis, "(", ⟨2, 7⟩⟩
            (.Identifier ⟨⟨.Identifier, "f", ⟨2, 6⟩⟩, "f"⟩)
            (.mk ⟨.LeftParenthesis, "(", ⟨2, 7⟩⟩ [])) st1 =
        .ok (.TInteger 5, st1,
          .FunctionCall ⟨.LeftParenthesis, "(", ⟨2, 7⟩⟩
            (.Identifier ⟨⟨.Identifier, "f", ⟨2, 6⟩⟩, "f"⟩)
            (.mk ⟨.LeftParenthesis, "(", ⟨2, 7⟩⟩ [.Integer ⟨.Integer, "5", ⟨2, 1⟩⟩ 5])) ∧
      Interpreter.Pipe (exampleOps 5) ⟨.Pipe, "|>", ⟨2, 3⟩⟩ (.Integer ⟨.Integer, "5", ⟨2, 1⟩⟩ 5)
          (.FunctionCall ⟨.LeftParenthesis, "(", ⟨2, 7⟩⟩
            (.Identifier ⟨⟨.Identifier, "f", ⟨2, 6⟩⟩, "f"⟩)
            (.mk ⟨.LeftParenthesis, "(", ⟨2, 7⟩⟩ [.Integer ⟨.Integer, "5", ⟨2, 1⟩⟩ 5])) st1 =
        .ok (.absent, st2,
          .FunctionCall ⟨.LeftParenthesis, "(", ⟨2, 7⟩⟩
            (.Identifier ⟨⟨.Identifier, "f", ⟨2, 6⟩⟩, "f"⟩)
            (.mk ⟨.LeftParenthesis, "(", ⟨2, 7⟩⟩
              [.Integer ⟨.Integer, "5", ⟨2, 1⟩⟩ 5, .Integer ⟨.Integer, "5", ⟨2, 1⟩⟩ 5])) ∧
      st2.errors = [⟨.Runtime, ⟨2, 7⟩, "Too many arguments in function call"⟩]) ∧
    ∀ (ops : Ops) (tok : Token) (a right : Node) (st : State),
      (∀ t f args, right ≠ .FunctionCall t f args) →
      Interpreter.Pipe ops tok a right st =
        .ok (.absent,
          interpreterError st tok.Position "Pipe operator expects a function on the right side",
          right) := by
  exact ⟨Pipe_call, ⟨_, _, _, _, _, rfl, rfl, rfl, rfl, rfl, rfl, rfl⟩, Pipe_other⟩

/-! ## Modules -/

theorem modulesKept_trans {i j k : Interpreter} (h1 : modulesKept i j) (h2 : modulesKept j k) :
    modulesKept i k :=
  ⟨fun h => h2.1 (h1.1 h), fun n m h => h2.2.1 n m (h1.2.1 n m h),
    fun n r h => h2.2.2 n r (h1.2.2 n r h)⟩

section
set_option linter.unusedTactic false
set_option linter.unreachableTactic false

end

end Oro.interpreter
namespace Oro.lexer

open Oro token

/-! ## The lexer -/

theorem getD_of_drop_cons {α : Type} (d x : α) : ∀ (buff : List α) (n : Nat) (xs : List α),
    buff.drop n = x :: xs → buff.getD n d = x ∧ buff.drop (n + 1) = xs ∧ n < buff.length := by
  intro buff
  induction buff with
  | nil => intro n xs h; simp at h
  | cons b bs ih =>
    intro n xs h
    cases n with
    | zero =>
      simp only [List.drop_zero, List.cons.injEq] at h
      obtain ⟨rfl, rfl⟩ := h
      simp
    | succ n =>
      simp only [List.drop_succ_cons] at h
      obtain ⟨h1, h2, h3⟩ := ih n xs h
      refine ⟨?_, ?_, ?_⟩
      · simpa using h1
      · simpa using h2
      · simp only [List.length_cons]
        omega

theorem getD_of_drop_nil {α : Type} (d : α) (buff : List α) (n : Nat)
    (h : buff.drop n = []) : buff.getD n d = d ∧ buff.length ≤ n := by
  have hlen : buff.length ≤ n := List.drop_eq_nil_iff.mp h
  refine ⟨?_, hlen⟩
  rw [List.getD_eq_getElem?_getD, List.getElem?_eq_none hlen]
  rfl

theorem Lexer.peek_reading (buff : List Char) (k : Nat) (row col : Int) (token : Token)
    (errors : List rerror.Entry) :
    (Lexer.reading buff k row col token errors).peek = buff.getD (k + 1) nul := by
  unfold Lexer.peek Lexer.reading
  dsimp only
  split
  · rename_i h
    rw [List.getD_eq_getElem?_getD, List.getElem?_eq_none h]
    rfl
  · rfl

theorem Lexer.next_reading (buff : List Char) (k : Nat) (row col : Int) (token : Token)
    (errors : List rerror.Entry) (h : buff.getD (k + 1) nul ≠ newline) :
    (Lexer.reading buff k row col token errors).next =
      Lexer.reading buff (k + 1) row (col + 1) token errors := by
  have hp := Lexer.peek_reading buff k row col token errors
  unfold Lexer.peek Lexer.reading at hp
  dsimp only at hp
  unfold Lexer.next Lexer.reading
  dsimp only
  rw [hp, if_neg h]

theorem isAlpha_ne_newline (c : Char) (h : isAlpha c = true) : c ≠ newline := by
  intro hc
  subst hc
  exact absurd h (by decide)

theorem isAlpha_nul : isAlpha nul = false := by decide

/-- The loop of `readName` on a lexer whose current rune is followed by the runes `rest`,
all of the class of `isAlpha`, and then by the end of the buffer or a rune that is not of
that class: it writes `rest` and stops on its last rune. -/
theorem Lexer.readNameLoop_reading (buff : List Char) (row : Int) (token : Token)
    (errors : List rerror.Entry) : ∀ (rest tail : List Char) (k : Nat) (col : Int)
    (out : List Char) (fuel : Nat),
    (∀ x ∈ rest, isAlpha x = true) → buff.drop (k + 1) = rest ++ tail →
    (∀ x, tail.head? = some x → isAlpha x = false) → rest.length < fuel →
    Lexer.readNameLoop fuel (Lexer.reading buff k row col token errors) out =
      .ok (out ++ rest,
        Lexer.reading buff (k + rest.length) row (col + rest.length) token errors) := by
  intro rest
  induction rest with
  | nil =>
    intro tail k col out fuel _ hdrop htail hfuel
    obtain ⟨fuel, rfl⟩ : ∃ f, fuel = f + 1 := ⟨fuel - 1, by simp at hfuel; omega⟩
    have hpeek : isAlpha (Lexer.reading buff k row col token errors).peek = false := by
      rw [Lexer.peek_reading]
      cases tail with
      | nil =>
        rw [(getD_of_drop_nil nul buff (k + 1) (by simpa using hdrop)).1]
        exact isAlpha_nul
      | cons t ts =>
        rw [(getD_of_drop_cons nul t buff (k + 1) ts (by simpa using hdrop)).1]
        exact htail t rfl
    simp [Lexer.readNameLoop, hpeek]
  | cons r rest ih =>
    intro tail k col out fuel hrest hdrop htail hfuel
    obtain ⟨fuel, rfl⟩ : ∃ f, fuel = f + 1 := ⟨fuel - 1, by simp at hfuel; omega⟩
    obtain ⟨hget, hdrop', _⟩ := getD_of_drop_cons nul r buff (k + 1) (rest ++ tail)
      (by simpa using hdrop)
    have hr : isAlpha r = true := hrest r (List.mem_cons_self _ _)
    have hpeek : isAlpha (Lexer.reading buff k row col token errors).peek = true := by
      rw [Lexer.peek_reading, hget]
      exact hr
    have hnext := Lexer.next_reading buff k row col token errors
      (by rw [hget]; exact isAlpha_ne_newline r hr)
    have hchr : (Lexer.reading buff (k + 1) row (col + 1) token errors).chr = r := hget
    rw [Lexer.readNameLoop, if_pos hpeek, hnext, hchr,
      ih tail (k + 1) (col + 1) (out ++ [r]) fuel
        (fun x hx => hrest x (List.mem_cons_of_mem _ hx)) hdrop' htail
        (by simp at hfuel; omega)]
    simp only [List.append_assoc, List.singleton_append, List.length_cons, Nat.cast_add,
      Nat.cast_one]
    have e1 : k + 1 + rest.length = k + (rest.length + 1) := by omega
    have e2 : col + 1 + (rest.length : Int) = col + ((rest.length : Int) + 1) := by omega
    rw [e1, e2]

theorem isLetter_ne (c d : Char) (hc : isLetter c = true) (hd : isLetter d = false) :
    c ≠ d := by
  intro h
  subst h
  rw [hc] at hd
  cases hd

theorem isLetter_isAlpha (c : Char) (hc : isLetter c = true) : isAlpha c = true := by
  unfold isLetter at hc
  unfold isAlpha
  simp only [decide_eq_true_eq] at hc ⊢
  rcases hc with h | h
  · exact Or.inl h
  · exact Or.inr (Or.inl h)

theorem isLetter_not_isNumber (c : Char) (hc : isLetter c = true) : isNumber c = false := by
  unfold isLetter at hc
  unfold isNumber
  simp only [decide_eq_true_eq] at hc
  simp only [decide_eq_false_iff_not]
  intro h2
  rcases hc with h | h
  · exact absurd (le_trans h.1 h2.2) (by decide)
  · exact absurd (le_trans h.1 h2.2) (by decide)

/-- The switch of `NextToken` on a letter takes its last case but one, `skipIdentifier`. -/
theorem Lexer.nextTokenSwitch_letter (fuel : Nat) (l : Lexer)
    (hc : isLetter l.chr = true) : Lexer.nextTokenSwitch fuel l = Lexer.skipIdentifier fuel l := by
  have hne : ∀ d, isLetter d = false → ¬ (l.chr = d) := fun d hd => isLetter_ne l.chr d hc hd
  unfold Lexer.nextTokenSwitch
  simp only [hne nul (by decide), hne '#' (by decide), hne '=' (by decide), hne '>' (by decide), hne
      '<' (by decide), hne '+' (by decide), hne '-' (by decide), hne '*' (by decide), hne '/'
      (by decide), hne '%' (by decide), hne ',' (by decide), hne '.' (by decide), hne '|' (by
      decide), hne '&' (by decide), hne '~' (by decide), hne '!' (by decide), hne '(' (by
      decide), hne ')' (by decide), hne '[' (by decide), hne ']' (by decide), hne '?' (by
      decide), hne ':' (by decide), hne '_' (by decide), hne newline (by decide), hne quote
      (by decide), hne '0' (by decide), false_and, if_false,
    isLetter_not_isNumber l.chr hc, isLetter_isAlpha l.chr hc, Bool.false_eq_true, if_true]

/-- What `NextToken` returns on a lexer whose current rune is a letter `c`, followed by
the runes `cs` of the class of `isAlpha` and then by the end of the buffer or a rune that is
not of that class: the token of the name `c :: cs`, of the type the keyword table gives or
else `Identifier`, and the lexer that has read one rune more. -/
theorem Lexer.NextToken_name (buff : List Char) (k : Nat) (row col : Int) (token : Token)
    (errors : List rerror.Entry) (c : Char) (cs tail : List Char) (fuel : Nat)
    (hdrop : buff.drop k = c :: cs ++ tail)
    (hc : isLetter c = true) (hcs : ∀ x ∈ cs, isAlpha x = true)
    (htail : ∀ x, tail.head? = some x → isAlpha x = false ∧ x ≠ newline)
    (hfuel : cs.length < fuel) :
    Lexer.NextToken fuel (Lexer.reading buff k row col token errors) =
      .ok (⟨(cmd.Lookup (String.mk (c :: cs))).getD .Identifier, String.mk (c :: cs),
          ⟨row, col + cs.length⟩⟩,
        Lexer.reading buff (k + cs.length + 1) row (col + cs.length + 1)
          ⟨(cmd.Lookup (String.mk (c :: cs))).getD .Identifier, String.mk (c :: cs),
            ⟨row, col + cs.length⟩⟩ errors) := by
  obtain ⟨fuel, rfl⟩ : ∃ f, fuel = f + 1 := ⟨fuel - 1, by omega⟩
  obtain ⟨hget, hdrop', _⟩ := getD_of_drop_cons nul c buff k (cs ++ tail) hdrop
  have hchr : (Lexer.reading buff k row col token errors).chr = c := hget
  have hne : ∀ d, isLetter d = false → ¬ (c = d) := fun d hd => isLetter_ne c d hc hd
  have hws : Lexer.skipWhiteSpace (fuel + 1) (Lexer.reading buff k row col token errors) =
      .ok (Lexer.reading buff k row col token errors) := by
    simp only [Lexer.skipWhiteSpace, hchr, hne ' ' (by decide), hne '\t' (by decide),
      hne '\r' (by decide), or_false, if_false]
  have hloop := Lexer.readNameLoop_reading buff row token errors cs tail k col [c] (fuel + 1)
    hcs hdrop' (fun x hx => (htail x hx).1) hfuel
  have hlast : buff.getD (k + cs.length + 1) nul ≠ newline := by
    cases tail with
    | nil =>
      have h0 : buff.drop (k + cs.length + 1) = [] := by
        have := congrArg (List.drop cs.length) hdrop'
        simpa [List.drop_drop, Nat.add_comm, Nat.add_left_comm, Nat.add_assoc] using this
      rw [(getD_of_drop_nil nul buff _ h0).1]
      decide
    | cons t ts =>
      have h0 : buff.drop (k + cs.length + 1) = t :: ts := by
        have := congrArg (List.drop cs.length) hdrop'
        simpa [List.drop_drop, Nat.add_comm, Nat.add_left_comm, Nat.add_assoc] using this
      rw [(getD_of_drop_cons nul t buff _ ts h0).1]
      exact (htail t rfl).2
  have hnext := Lexer.next_reading buff (k + cs.length) row (col + cs.length)
  unfold Lexer.NextToken
  simp only [Res.bind_eq, hws, Res.bind,
    Lexer.nextTokenSwitch_letter (fuel + 1) _ (by rw [hchr]; exact hc),
    Lexer.skipIdentifier, Lexer.readName, hchr, hloop, Res.pure_eq]
  cases hl : cmd.Lookup (String.mk ([c] ++ cs)) with
  | none =>
    have hl' : cmd.Lookup (String.mk (c :: cs)) = none := hl
    simp only [hl', Option.getD_none, Res.bind, Res.pure_eq]
    have := hnext ⟨.Identifier, String.mk (c :: cs), ⟨row, col + cs.length⟩⟩ errors hlast
    exact congrArg (fun x => Res.ok (Prod.mk _ x)) this
  | some t =>
    have hl' : cmd.Lookup (String.mk (c :: cs)) = some t := hl
    simp only [hl', Option.getD_some, Res.bind, Res.pure_eq]
    have := hnext ⟨t, String.mk (c :: cs), ⟨row, col + cs.length⟩⟩ errors hlast
    exact congrArg (fun x => Res.ok (Prod.mk _ x)) this

/-- At the end of the buffer `NextToken` returns the token `Eof`. -/
theorem Lexer.NextToken_eof (buff : List Char) (k : Nat) (row col : Int) (token : Token)
    (errors : List rerror.Entry) (fuel : Nat) (hk : buff.length ≤ k) (hfuel : 0 < fuel) :
    Lexer.NextToken fuel (Lexer.reading buff k row col token errors) =
      .ok (⟨.Eof, "", ⟨row, col⟩⟩,
        Lexer.reading buff (k + 1) row (col + 1) ⟨.Eof, "", ⟨row, col⟩⟩ errors) := by
  obtain ⟨fuel, rfl⟩ : ∃ f, fuel = f + 1 := ⟨fuel - 1, by omega⟩
  have hget : ∀ j, k ≤ j → buff.getD j nul = nul := by
    intro j hj
    rw [List.getD_eq_getElem?_getD, List.getElem?_eq_none (by omega)]
    rfl
  have hchr : (Lexer.reading buff k row col token errors).chr = nul := hget k (le_refl k)
  have hws : Lexer.skipWhiteSpace (fuel + 1) (Lexer.reading buff k row col token errors) =
      .ok (Lexer.reading buff k row col token errors) := by
    have h1 : ¬ (nul = ' ') := by decide
    have h2 : ¬ (nul = '\t') := by decide
    have h3 : ¬ (nul = '\r') := by decide
    simp only [Lexer.skipWhiteSpace, hchr, h1, h2, h3, or_false, if_false]
  have hnext := Lexer.next_reading buff k row col ⟨.Eof, "", ⟨row, col⟩⟩ errors
    (by rw [hget (k + 1) (by omega)]; decide)
  unfold Lexer.NextToken
  simp only [Res.bind_eq, hws, Res.bind, Lexer.nextTokenSwitch, hchr, if_true, Res.pure_eq]
  exact congrArg (fun x => Res.ok (Prod.mk _ x)) hnext

theorem New_reading (buff : List Char) (h : buff.getD 0 nul ≠ newline) :
    New buff = Lexer.reading buff 0 1 2 Token.zero [] := by
  unfold New Lexer.next Lexer.reading
  dsimp only
  have h2 : (if 0 ≥ buff.length then nul else buff.getD 0 nul) = buff.getD 0 nul := by
    split
    · rename_i h0
      rw [List.getD_eq_getElem?_getD, List.getElem?_eq_none h0]
      rfl
    · rfl
  rw [h2, if_neg h]
  rfl

/-- C29 does not hold as stated.  The inputs `_a`, `!a` and `?a` are names of the pattern
of the claim and are not in the keyword table, and the first `NextToken` on each returns the
token of its first character alone (Underscore, Not, QuestionMark); the Identifier token
`a` comes second. -/
theorem NextToken_leading_underscore :
    cmd.Lookup "_a" = none ∧ cmd.Lookup "!a" = none ∧ cmd.Lookup "?a" = none ∧
    (∃ l1 l2 : Lexer,
      Lexer.NextToken 3 (New ['_', 'a']) = .ok (⟨.Underscore, "_", ⟨1, 2⟩⟩, l1) ∧
      Lexer.NextToken 3 l1 = .ok (⟨.Identifier, "a", ⟨1, 3⟩⟩, l2) ∧ l2.errors = []) ∧
    (∃ l1 l2 : Lexer,
      Lexer.NextToken 3 (New ['!', 'a']) = .ok (⟨.Not, "!", ⟨1, 2⟩⟩, l1) ∧
      Lexer.NextToken 3 l1 = .ok (⟨.Identifier, "a", ⟨1, 3⟩⟩, l2) ∧ l2.errors = []) ∧
    ∃ l1 l2 : Lexer,
      Lexer.NextToken 3 (New ['?', 'a']) = .ok (⟨.QuestionMark, "?", ⟨1, 2⟩⟩, l1) ∧
      Lexer.NextToken 3 l1 = .ok (⟨.Identifier, "a", ⟨1, 3⟩⟩, l2) ∧ l2.errors = [] := by
  exact ⟨rfl, rfl, rfl, ⟨_, _, rfl, rfl, rfl⟩, ⟨_, _, rfl, rfl, rfl⟩, ⟨_, _, rfl, rfl, rfl⟩⟩

/-- C29 (amended). Let the input be a single name that starts with a letter `c` of
`[A-Za-z]` and goes on with characters `cs` of `[A-Za-z0-9_!?]`.  Then, with fuel above the
length of `cs`, the first `NextToken` returns one token whose literal is the whole name and
whose type is the one the keyword table gives for the name, or `Identifier` when the name
is not in the table; the second `NextToken` returns the `Eof` token; and no diagnostic is
recorded.  The keyword table gives `Boolean` for `true` and `false`, `Nil` for `nil`, and
for every name it holds the type it was filled with. -/
theorem NextToken_identifier (c : Char) (cs : List Char) (fuel : Nat)
    (hc : isLetter c = true) (hcs : ∀ x ∈ cs, isAlpha x = true) (hfuel : cs.length < fuel) :
    (∃ l1 l2 : Lexer,
      Lexer.NextToken fuel (New (c :: cs)) =
        .ok (⟨(cmd.Lookup (String.mk (c :: cs))).getD .Identifier, String.mk (c :: cs),
          ⟨1, cs.length + 2⟩⟩, l1) ∧
      Lexer.NextToken fuel l1 = .ok (⟨.Eof, "", ⟨1, cs.length + 3⟩⟩, l2) ∧
      l2.errors = []) ∧
    (cmd.Lookup (String.mk (c :: cs)) = none →
      (cmd.Lookup (String.mk (c :: cs))).getD .Identifier = .Identifier) ∧
    cmd.Lookup "true" = some .Boolean ∧ cmd.Lookup "false" = some .Boolean ∧
    cmd.Lookup "nil" = some .Nil ∧
    ∀ p ∈ cmd.table, cmd.Lookup p.1 = some p.2 := by
  refine ⟨?_, fun h => by rw [h]; rfl, rfl, rfl, rfl, by decide⟩
  have hnew : New (c :: cs) = Lexer.reading (c :: cs) 0 1 2 Token.zero [] :=
    New_reading (c :: cs) (isAlpha_ne_newline c (isLetter_isAlpha c hc))
  have h1 := Lexer.NextToken_name (c :: cs) 0 1 2 Token.zero [] c cs [] fuel (by simp) hc hcs
    (fun x hx => by simp at hx) hfuel
  have h2 := Lexer.NextToken_eof (c :: cs) (0 + cs.length + 1) 1 (2 + cs.length + 1)
    ⟨(cmd.Lookup (String.mk (c :: cs))).getD .Identifier, String.mk (c :: cs),
      ⟨1, 2 + cs.length⟩⟩ [] fuel (by simp) (by omega)
  have e1 : ((cs.length : Int) + 2) = 2 + cs.length := by omega
  have e2 : ((cs.length : Int) + 3) = 2 + cs.length + 1 := by omega
  rw [hnew, e1, e2]
  exact ⟨_, _, h1, h2, rfl⟩

/-- C29 (amended), run on the names `not` and `yes`, which are not in the keyword table,
and on `val`, which is: the first token is the Identifier `not`, the Identifier `yes` and the
keyword token `val`. -/
theorem NextToken_identifier_witness :
    (∃ l1 l2 : Lexer,
      Lexer.NextToken 3 (New ['n', 'o', 't']) = .ok (⟨.Identifier, "not", ⟨1, 4⟩⟩, l1) ∧
      Lexer.NextToken 3 l1 = .ok (⟨.Eof, "", ⟨1, 5⟩⟩, l2) ∧ l2.errors = []) ∧
    (∃ l1 l2 : Lexer,
      Lexer.NextToken 3 (New ['y', 'e', 's']) = .ok (⟨.Identifier, "yes", ⟨1, 4⟩⟩, l1) ∧
      Lexer.NextToken 3 l1 = .ok (⟨.Eof, "", ⟨1, 5⟩⟩, l2) ∧ l2.errors = []) ∧
    ∃ l1 l2 : Lexer,
      Lexer.NextToken 3 (New ['v', 'a', 'l']) = .ok (⟨.Val, "val", ⟨1, 4⟩⟩, l1) ∧
      Lexer.NextToken 3 l1 = .ok (⟨.Eof, "", ⟨1, 5⟩⟩, l2) ∧ l2.errors = [] :=
  ⟨(NextToken_identifier 'n' ['o', 't'] 3 (by decide) (by decide) (by decide)).1,
   (NextToken_identifier 'y' ['e', 's'] 3 (by decide) (by decide) (by decide)).1,
   (NextToken_identifier 'v' ['a', 'l'] 3 (by decide) (by decide) (by decide)).1⟩

/-! ## String literals -/

theorem Lexer.next_fields (l : Lexer) :
    l.next.buff = l.buff ∧ l.next.nextr = l.nextr + 1 ∧
      l.next.chr = l.buff.getD l.nextr nul ∧ l.next.errors = l.errors ∧
      l.next.token = l.token := by
  have hchr : (if l.nextr ≥ l.buff.length then nul else l.buff.getD l.nextr nul) =
      l.buff.getD l.nextr nul := by
    split
    · rename_i h
      rw [List.getD_eq_getElem?_getD, List.getElem?_eq_none h]
      rfl
    · rfl
  unfold Lexer.next
  dsimp only
  rw [hchr]
  split <;> exact ⟨rfl, rfl, rfl, rfl, rfl⟩

theorem keptBody_cons (c : Char) (rest : List Char) (h : keptBody (c :: rest) = true) :
    (c = backslash ∧ ∃ e rest', rest = e :: rest' ∧ isKeptEscape e = true ∧
      keptBody rest' = true) ∨
    (c ≠ backslash ∧ c ≠ nul ∧ c ≠ quote ∧ keptBody rest = true) := by
  unfold keptBody at h
  by_cases hb : c = backslash
  · rw [if_pos hb] at h
    cases rest with
    | nil => simp at h
    | cons e rest' =>
      simp only [Bool.and_eq_true] at h
      exact Or.inl ⟨hb, e, rest', rfl, h.1, h.2⟩
  · rw [if_neg hb] at h
    by_cases hn : c = nul ∨ c = quote
    · rw [if_pos hn] at h
      cases h
    · rw [if_neg hn] at h
      exact Or.inr ⟨hb, fun h1 => hn (Or.inl h1), fun h1 => hn (Or.inr h1), h⟩

/-- The loop of `skipString` on a body of the class `keptBody` that is followed by a
quote: it writes the body as it stands and stops on the closing quote, reporting
nothing. -/
theorem Lexer.skipStringLoop_kept : ∀ (n : Nat) (body : List Char), body.length ≤ n →
    keptBody body = true → ∀ (l : Lexer) (k : Nat) (tail out : List Char) (fuel : Nat),
    l.nextr = k + 1 → l.chr = l.buff.getD k nul → l.buff.drop k = body ++ quote :: tail →
    body.length < fuel →
    ∃ l' : Lexer, Lexer.skipStringLoop fuel l out = .ok (out ++ body, l') ∧
      l'.buff = l.buff ∧ l'.nextr = k + body.length + 1 ∧ l'.chr = quote ∧
      l'.errors = l.errors ∧ l'.token = l.token := by
  intro n
  induction n with
  | zero =>
    intro body hlen _ l k tail out fuel _ hchr hdrop hfuel
    have hb : body = [] := List.length_eq_zero.mp (Nat.le_zero.mp hlen)
    subst hb
    obtain ⟨fuel, rfl⟩ : ∃ f, fuel = f + 1 := ⟨fuel - 1, by simp at hfuel; omega⟩
    have hq : l.chr = quote := by
      rw [hchr]
      exact (getD_of_drop_cons nul quote l.buff k tail (by simpa using hdrop)).1
    refine ⟨l, ?_, rfl, by simp [*], hq, rfl, rfl⟩
    have h1 : ¬ (quote = backslash) := by decide
    have h2 : ¬ (quote = nul) := by decide
    simp [Lexer.skipStringLoop, hq, h1, h2]
  | succ n ih =>
    intro body hlen hkept l k tail out fuel hnextr hchr hdrop hfuel
    cases body with
    | nil =>
      obtain ⟨fuel, rfl⟩ : ∃ f, fuel = f + 1 := ⟨fuel - 1, by simp at hfuel; omega⟩
      have hq : l.chr = quote := by
        rw [hchr]
        exact (getD_of_drop_cons nul quote l.buff k tail (by simpa using hdrop)).1
      refine ⟨l, ?_, rfl, by simp [*], hq, rfl, rfl⟩
      have h1 : ¬ (quote = backslash) := by decide
      have h2 : ¬ (quote = nul) := by decide
      simp [Lexer.skipStringLoop, hq, h1, h2]
    | cons c rest =>
      obtain ⟨fuel, rfl⟩ : ∃ f, fuel = f + 1 := ⟨fuel - 1, by simp at hfuel; omega⟩
      obtain ⟨hget, hdrop1, _⟩ := getD_of_drop_cons nul c l.buff k (rest ++ quote :: tail)
        (by simpa using hdrop)
      have hc : l.chr = c := by rw [hchr]; exact hget
      obtain ⟨hb1, hn1, hc1, he1, ht1⟩ := Lexer.next_fields l
      rw [hnextr] at hn1 hc1
      rcases keptBody_cons c rest hkept with ⟨hb, e, rest', rfl, he, hk'⟩ | ⟨hb, hn, hq, hk'⟩
      · obtain ⟨hget2, hdrop2, _⟩ := getD_of_drop_cons nul e l.buff (k + 1)
          (rest' ++ quote :: tail) (by rw [hb1] at *; simpa using hdrop1)
        have hce : l.next.chr = e := by rw [hc1]; exact hget2
        obtain ⟨hb2, hn2, hc2, he2, ht2⟩ := Lexer.next_fields l.next
        rw [hn1] at hn2 hc2
        rw [hb1] at hc2
        obtain ⟨l', hl', h1, h2, h3, h4, h5⟩ := ih rest'
          (by simp at hlen; omega) hk' l.next.next (k + 2) tail (out ++ [backslash, e]) fuel
          hn2 (by rw [hc2, hb2, hb1]) (by rw [hb2, hb1]; exact hdrop2)
          (by simp at hfuel; omega)
        refine ⟨l', ?_, by rw [h1, hb2, hb1], by rw [h2]; simp; omega, h3,
          by rw [h4, he2, he1], by rw [h5, ht2, ht1]⟩
        have hnb : ¬ (e = backslash) := by
          intro h
          subst h
          exact absurd he (by decide)
        rw [Lexer.skipStringLoop, if_pos (by rw [hc]; exact hb)]
        dsimp only
        by_cases hq : e = quote
        · subst hq
          rw [if_pos hce, hl', hb]
          simp
        · have hesc : e = 'n' ∨ e = 't' ∨ e = 'r' ∨ e = 'a' ∨ e = 'b' ∨ e = 'f' ∨ e = 'v' := by
            unfold isKeptEscape at he
            simp only [decide_eq_true_eq] at he
            rcases he with h | h
            · exact absurd h hq
            · exact h
          rw [if_neg (by rw [hce]; exact hq), if_neg (by rw [hce]; exact hnb),
            if_pos (by rw [hce]; exact hesc), hce, hl', hb]
          simp
      · obtain ⟨l', hl', h1, h2, h3, h4, h5⟩ := ih rest
          (by simp at hlen; omega) hk' l.next (k + 1) tail (out ++ [c]) fuel
          hn1 (by rw [hc1, hb1]) (by rw [hb1]; exact hdrop1) (by simp at hfuel; omega)
        refine ⟨l', ?_, by rw [h1, hb1], by rw [h2]; simp; omega, h3, by rw [h4, he1],
          by rw [h5, ht1]⟩
        rw [Lexer.skipStringLoop, if_neg (by rw [hc]; exact hb),
          if_neg (by rw [hc]; exact hn), if_neg (by rw [hc]; exact hq), hc, hl']
        simp

theorem utf8Size_ascii (c : Char) (h : c.toNat < 128) : c.utf8Size = 1 := by
  have h1 : c.val ≤ 127 := by
    rw [UInt32.le_def]
    exact Nat.le_of_lt_succ h
  unfold Char.utf8Size
  simp [h1]

theorem utf8ByteSize_ascii : ∀ (cs : List Char), (∀ c ∈ cs, c.toNat < 128) →
    (String.mk cs).utf8ByteSize = cs.length := by
  intro cs
  induction cs with
  | nil => intro _; rfl
  | cons c cs ih =>
    intro h
    have h1 := ih (fun x hx => h x (List.mem_cons_of_mem _ hx))
    have h2 := utf8Size_ascii c (h c (List.mem_cons_self _ _))
    simp only [String.utf8ByteSize, String.utf8ByteSize.go, List.length_cons] at h1 ⊢
    omega

/-- What `NextToken` returns on a lexer whose current rune is a quote, followed by a body
of the class `keptBody` and a closing quote: the String token of the body as it stands, and
no diagnostic. -/
theorem Lexer.NextToken_string_at (l : Lexer) (k : Nat) (body tail : List Char) (fuel : Nat)
    (hnextr : l.nextr = k + 1) (hchr : l.chr = l.buff.getD k nul)
    (hdrop : l.buff.drop k = quote :: body ++ quote :: tail)
    (hkept : keptBody body = true) (hfuel : body.length < fuel) :
    ∃ (position : Position) (l1 : Lexer),
      Lexer.NextToken fuel l = .ok (⟨.String, String.mk body, position⟩, l1) ∧
      l1.errors = l.errors := by
  obtain ⟨fuel, rfl⟩ : ∃ f, fuel = f + 1 := ⟨fuel - 1, by omega⟩
  obtain ⟨hget, hdrop', _⟩ := getD_of_drop_cons nul quote l.buff k (body ++ quote :: tail)
    (by simpa using hdrop)
  have hq : l.chr = quote := by rw [hchr]; exact hget
  have hne : ∀ d, decide (quote = d) = false → ¬ (quote = d) := fun d hd h => by
    rw [decide_eq_false_iff_not] at hd
    exact hd h
  have hws : Lexer.skipWhiteSpace (fuel + 1) l = .ok l := by
    simp only [Lexer.skipWhiteSpace, hq, hne ' ' (by decide), hne '\t' (by decide),
      hne '\r' (by decide), or_false, if_false]
  obtain ⟨hb1, hn1, hc1, he1, ht1⟩ := Lexer.next_fields l
  rw [hnextr] at hn1 hc1
  obtain ⟨l', hl', h1, _, _, h4, _⟩ := Lexer.skipStringLoop_kept body.length body (le_refl _)
    hkept l.next (k + 1) tail [] (fuel + 1) hn1 (by rw [hc1, hb1]) (by rw [hb1]; exact hdrop')
    hfuel
  have hsw : Lexer.nextTokenSwitch (fuel + 1) l = Lexer.skipString (fuel + 1) l := by
    unfold Lexer.nextTokenSwitch
    simp only [hq, hne nul (by decide), hne '#' (by decide), hne '=' (by decide), hne '>' (by decide), hne
      '<' (by decide), hne '+' (by decide), hne '-' (by decide), hne '*' (by decide), hne '/'
      (by decide), hne '%' (by decide), hne ',' (by decide), hne '.' (by decide), hne '|' (by
      decide), hne '&' (by decide), hne '~' (by decide), hne '!' (by decide), hne '(' (by
      decide), hne ')' (by decide), hne '[' (by decide), hne ']' (by decide), hne '?' (by
      decide), hne ':' (by decide), hne '_' (by decide), hne newline (by decide), if_false, if_true]
  refine ⟨⟨l'.row, l'.col⟩, (l'.assignToken .String (String.mk body)).next, ?_, ?_⟩
  · unfold Lexer.NextToken
    simp only [Res.bind_eq, hws, Res.bind, hsw, Lexer.skipString, hl', Res.pure_eq,
      List.nil_append]
    have ht := (Lexer.next_fields (l'.assignToken .String (String.mk body))).2.2.2.2
    rw [ht]
    rfl
  · have he := (Lexer.next_fields (l'.assignToken .String (String.mk body))).2.2.2.1
    rw [he]
    show l'.errors = l.errors
    rw [h4, he1]

/-- C30 does not hold as stated.  On the source of the literal `"a\\b"` (a quote, `a`, two
backslashes, `b`, a quote) `NextToken` returns, without a diagnostic, the String token of
the three characters `a`, backslash, `b`: the escape of two backslashes is kept as one.
On a literal with the byte 0 between its quotes it returns the String token `a` and
records the diagnostic `Unterminated string`.  And on a literal with the one byte 233 between
its quotes it returns a literal of two bytes, the encoding of the rune 233. -/
theorem NextToken_string_not_verbatim :
    (∃ l1 : Lexer,
      Lexer.NextToken 6 (New [quote, 'a', backslash, backslash, 'b', quote]) =
        .ok (⟨.String, String.mk ['a', backslash, 'b'], ⟨1, 7⟩⟩, l1) ∧
      l1.errors = []) ∧
    (∃ l1 : Lexer,
      Lexer.NextToken 6 (New [quote, 'a', nul, 'b', quote]) =
        .ok (⟨.String, "a", ⟨1, 4⟩⟩, l1) ∧
      l1.errors = [⟨.Parse, ⟨1, 4⟩, "Unterminated string"⟩]) ∧
    ∃ l1 : Lexer,
      Lexer.NextToken 6 (New [quote, Char.ofNat 233, quote]) =
        .ok (⟨.String, String.mk [Char.ofNat 233], ⟨1, 4⟩⟩, l1) ∧
      l1.errors = [] ∧ (String.mk [Char.ofNat 233]).utf8ByteSize = 2 := by
  exact ⟨⟨_, rfl, rfl⟩, ⟨_, rfl, rfl⟩, ⟨_, rfl, rfl, rfl⟩⟩

/-- C30 (amended). Let the input be one double-quoted literal whose body, the bytes
between its quotes, is made of ASCII bytes other than the quote, the backslash and the byte
0, and of backslashes followed by one of the characters of `"ntrabfv`.  Then, with fuel
above the length of the body, `NextToken` returns the String token whose literal is the body
as it stands, byte for byte (the literal has as many bytes as the body), and no diagnostic
is recorded. -/
theorem NextToken_string (body : List Char) (fuel : Nat) (hkept : keptBody body = true)
    (hascii : ∀ c ∈ body, c.toNat < 128) (hfuel : body.length < fuel) :
    ∃ (position : Position) (l1 : Lexer),
      Lexer.NextToken fuel (New (quote :: body ++ [quote])) =
        .ok (⟨.String, String.mk body, position⟩, l1) ∧
      l1.errors = [] ∧ (String.mk body).utf8ByteSize = body.length := by
  have hnew : New (quote :: body ++ [quote]) =
      Lexer.reading (quote :: body ++ [quote]) 0 1 2 Token.zero [] :=
    New_reading _ (by show quote ≠ newline; decide)
  obtain ⟨position, l1, h1, h2⟩ := Lexer.NextToken_string_at
    (Lexer.reading (quote :: body ++ [quote]) 0 1 2 Token.zero []) 0 body [] fuel rfl rfl rfl
    hkept hfuel
  exact ⟨position, l1, by rw [hnew]; exact h1, h2, utf8ByteSize_ascii body hascii⟩

/-- C30 (amended), run on the source of the literal `"a\nb\"c"` (a quote, `a`, backslash,
`n`, `b`, backslash, quote, `c`, a quote): the literal of the String token is made of the
seven bytes between the quotes. -/
theorem NextToken_string_witness :
    ∃ (position : Position) (l1 : Lexer),
      Lexer.NextToken 8 (New [quote, 'a', backslash, 'n', 'b', backslash, quote, 'c', quote]) =
        .ok (⟨.String, String.mk ['a', backslash, 'n', 'b', backslash, quote, 'c'], position⟩,
          l1) ∧
      l1.errors = [] ∧
      (String.mk ['a', backslash, 'n', 'b', backslash, quote, 'c']).utf8ByteSize = 7 :=
  NextToken_string ['a', backslash, 'n', 'b', backslash, quote, 'c'] 8 (by decide)
    (by decide) (by decide)

end Oro.lexer
namespace Oro.lexer
open Oro token

/-! ## Numbers -/

theorem isNumber_ne (c d : Char) (hc : isNumber c = true) (hd : isNumber d = false) :
    c ≠ d := by
  intro h
  subst h
  rw [hc] at hd
  cases hd

theorem isNumber_ne_newline (c : Char) (hc : isNumber c = true) : c ≠ newline :=
  isNumber_ne c newline hc (by decide)

/-- The switch of `NextToken` on a decimal digit that is not the start of one of the
prefixes `0x`, `0o` and `0b` takes the case of `skipNumeric`. -/
theorem Lexer.nextTokenSwitch_number (fuel : Nat) (l : Lexer) (hc : isNumber l.chr = true)
    (hx : l.peek ≠ 'x') (ho : l.peek ≠ 'o') (hb : l.peek ≠ 'b') :
    Lexer.nextTokenSwitch fuel l = Lexer.skipNumeric fuel l := by
  have hne : ∀ d, isNumber d = false → ¬ (l.chr = d) := fun d hd => isNumber_ne l.chr d hc hd
  unfold Lexer.nextTokenSwitch
  simp only [hne nul (by decide), hne '#' (by decide), hne '=' (by decide), hne '>' (by decide), hne
      '<' (by decide), hne '+' (by decide), hne '-' (by decide), hne '*' (by decide), hne '/'
      (by decide), hne '%' (by decide), hne ',' (by decide), hne '.' (by decide), hne '|' (by
      decide), hne '&' (by decide), hne '~' (by decide), hne '!' (by decide), hne '(' (by
      decide), hne ')' (by decide), hne '[' (by decide), hne ']' (by decide), hne '?' (by
      decide), hne ':' (by decide), hne '_' (by decide), hne newline (by decide), hne quote
      (by decide), hx, ho, hb, and_false, if_false, hc, if_true]

/-- The loop of `skipNumeric` on a lexer whose current rune is followed by the decimal
digits `rest`: it writes them and goes on from the last of them. -/
theorem Lexer.skipNumericLoop_digits (buff : List Char) (row : Int) (token : Token)
    (errors : List rerror.Entry) : ∀ (rest tail : List Char) (k : Nat) (col : Int)
    (out : List Char) (ff sf : Bool) (fuel : Nat),
    (∀ x ∈ rest, isNumber x = true) → buff.drop (k + 1) = rest ++ tail →
    Lexer.skipNumericLoop (rest.length + fuel) (Lexer.reading buff k row col token errors)
        out ff sf =
      Lexer.skipNumericLoop fuel
        (Lexer.reading buff (k + rest.length) row (col + rest.length) token errors)
        (out ++ rest) ff sf := by
  intro rest
  induction rest with
  | nil =>
    intro tail k col out ff sf fuel _ _
    simp
  | cons r rest ih =>
    intro tail k col out ff sf fuel hrest hdrop
    obtain ⟨hget, hdrop', _⟩ := getD_of_drop_cons nul r buff (k + 1) (rest ++ tail)
      (by simpa using hdrop)
    have hr : isNumber r = true := hrest r (List.mem_cons_self _ _)
    have hnext := Lexer.next_reading buff k row col token errors
      (by rw [hget]; exact isNumber_ne_newline r hr)
    have hchr : (Lexer.reading buff (k + 1) row (col + 1) token errors).chr = r := hget
    have hf : (r :: rest).length + fuel = (rest.length + fuel) + 1 := by
      simp only [List.length_cons]
      omega
    rw [hf, Lexer.skipNumericLoop]
    simp only [hnext, hchr, hr, if_true]
    rw [ih tail (k + 1) (col + 1) (out ++ [r]) ff sf fuel
      (fun x hx => hrest x (List.mem_cons_of_mem _ hx)) hdrop']
    simp only [List.append_assoc, List.singleton_append, List.length_cons, Nat.cast_add,
      Nat.cast_one]
    have e1 : k + 1 + rest.length = k + (rest.length + 1) := by omega
    have e2 : col + 1 + (rest.length : Int) = col + ((rest.length : Int) + 1) := by omega
    rw [e1, e2]

/-- The loop of `skipNumeric` before two dots: it goes back one byte and ends. -/
theorem Lexer.skipNumericLoop_range (buff : List Char) (k : Nat) (row col : Int)
    (token : Token) (errors : List rerror.Entry) (tail out : List Char) (ff sf : Bool)
    (fuel : Nat) (hdrop : buff.drop (k + 1) = '.' :: '.' :: tail) :
    Lexer.skipNumericLoop (fuel + 1) (Lexer.reading buff k row col token errors) out ff sf =
      .ok (out, ff, (Lexer.reading buff (k + 1) row (col + 1) token errors).rewind) := by
  obtain ⟨hget, hdrop', _⟩ := getD_of_drop_cons nul '.' buff (k + 1) ('.' :: tail) hdrop
  obtain ⟨hget2, _, _⟩ := getD_of_drop_cons nul '.' buff (k + 1 + 1) tail hdrop'
  have hnext := Lexer.next_reading buff k row col token errors (by rw [hget]; decide)
  have hchr : (Lexer.reading buff (k + 1) row (col + 1) token errors).chr = '.' := hget
  have hpeek : (Lexer.reading buff (k + 1) row (col + 1) token errors).peek = '.' := by
    rw [Lexer.peek_reading, hget2]
  rw [Lexer.skipNumericLoop]
  simp only [hnext, hchr, hpeek]
  rfl

/-- The loop of `skipNumeric` before the end of the buffer. -/
theorem Lexer.skipNumericLoop_end (buff : List Char) (k : Nat) (row col : Int)
    (token : Token) (errors : List rerror.Entry) (out : List Char) (ff sf : Bool)
    (fuel : Nat) (hdrop : buff.drop (k + 1) = []) :
    Lexer.skipNumericLoop (fuel + 1) (Lexer.reading buff k row col token errors) out ff sf =
      .ok (out, ff, Lexer.reading buff (k + 1) row (col + 1) token errors) := by
  obtain ⟨hget, _⟩ := getD_of_drop_nil nul buff (k + 1) hdrop
  have hnext := Lexer.next_reading buff k row col token errors (by rw [hget]; decide)
  have hchr : (Lexer.reading buff (k + 1) row (col + 1) token errors).chr = nul := hget
  rw [Lexer.skipNumericLoop]
  simp only [hnext, hchr]
  rfl

/-- The loop of `skipNumeric` before a dot and a decimal digit: it writes the dot, sets
`floatFound` and goes on. -/
theorem Lexer.skipNumericLoop_point (buff : List Char) (k : Nat) (row col : Int)
    (token : Token) (errors : List rerror.Entry) (d : Char) (tail out : List Char)
    (ff sf : Bool) (fuel : Nat) (hdrop : buff.drop (k + 1) = '.' :: d :: tail)
    (hd : isNumber d = true) :
    Lexer.skipNumericLoop (fuel + 1) (Lexer.reading buff k row col token errors) out ff sf =
      Lexer.skipNumericLoop fuel (Lexer.reading buff (k + 1) row (col + 1) token errors)
        (out ++ ['.']) true sf := by
  obtain ⟨hget, hdrop', _⟩ := getD_of_drop_cons nul '.' buff (k + 1) (d :: tail) hdrop
  obtain ⟨hget2, _, _⟩ := getD_of_drop_cons nul d buff (k + 1 + 1) tail hdrop'
  have hnext := Lexer.next_reading buff k row col token errors (by rw [hget]; decide)
  have hchr : (Lexer.reading buff (k + 1) row (col + 1) token errors).chr = '.' := hget
  have hpeek : (Lexer.reading buff (k + 1) row (col + 1) token errors).peek = d := by
    rw [Lexer.peek_reading, hget2]
  rw [Lexer.skipNumericLoop]
  simp only [hnext, hchr, hpeek, hd]
  rfl

theorem getD_after_digits (buff : List Char) (k : Nat) (cs tail : List Char)
    (hcs : ∀ x ∈ cs, isNumber x = true) (htail : ∀ x, tail.head? = some x → x = '.')
    (hdrop : buff.drop k = cs ++ tail) :
    buff.getD k nul ≠ 'x' ∧ buff.getD k nul ≠ 'o' ∧ buff.getD k nul ≠ 'b' := by
  cases cs with
  | nil =>
    cases tail with
    | nil =>
      rw [(getD_of_drop_nil nul buff k (by simpa using hdrop)).1]
      decide
    | cons t ts =>
      rw [(getD_of_drop_cons nul t buff k ts (by simpa using hdrop)).1, htail t rfl]
      decide
  | cons c cs =>
    rw [(getD_of_drop_cons nul c buff k (cs ++ tail) (by simpa using hdrop)).1]
    have hc := hcs c (List.mem_cons_self _ _)
    exact ⟨isNumber_ne c 'x' hc (by decide), isNumber_ne c 'o' hc (by decide),
      isNumber_ne c 'b' hc (by decide)⟩

theorem Lexer.skipWhiteSpace_number (fuel : Nat) (l : Lexer) (hc : isNumber l.chr = true) :
    Lexer.skipWhiteSpace (fuel + 1) l = .ok l := by
  have hne : ∀ d, isNumber d = false → ¬ (l.chr = d) := fun d hd => isNumber_ne l.chr d hc hd
  simp only [Lexer.skipWhiteSpace, hne ' ' (by decide), hne '\t' (by decide),
    hne '\r' (by decide), or_false, if_false]

theorem Lexer.next_rewind_reading (buff : List Char) (k : Nat) (row col : Int)
    (token : Token) (errors : List rerror.Entry) (tokenType : TType) (value : String)
    (h : buff.getD k nul ≠ newline) :
    ((Lexer.reading buff k row (col + 1) token errors).rewind.assignToken tokenType
        value).next =
      Lexer.reading buff k row (col + 1) ⟨tokenType, value, ⟨row, col⟩⟩ errors := by
  have hchr : (if k ≥ buff.length then nul else buff.getD k nul) = buff.getD k nul := by
    split
    · rename_i h0
      rw [List.getD_eq_getElem?_getD, List.getElem?_eq_none h0]
      rfl
    · rfl
  unfold Lexer.rewind Lexer.assignToken Lexer.next Lexer.reading
  dsimp only
  rw [hchr, if_neg h]
  simp

/-- What `NextToken` returns on a lexer whose current rune is the first of the decimal
digits `c :: cs`, followed by two dots: the Integer token of the digits, and the lexer that
reads the first dot. -/
theorem Lexer.NextToken_integer_range (buff : List Char) (k : Nat) (row col : Int)
    (token : Token) (errors : List rerror.Entry) (c : Char) (cs tail : List Char)
    (fuel : Nat) (hdrop : buff.drop k = c :: cs ++ '.' :: '.' :: tail)
    (hc : isNumber c = true) (hcs : ∀ x ∈ cs, isNumber x = true)
    (hfuel : cs.length < fuel) :
    Lexer.NextToken fuel (Lexer.reading buff k row col token errors) =
      .ok (⟨.Integer, String.mk (c :: cs), ⟨row, col + cs.length⟩⟩,
        Lexer.reading buff (k + cs.length + 1) row (col + cs.length + 1)
          ⟨.Integer, String.mk (c :: cs), ⟨row, col + cs.length⟩⟩ errors) := by
  obtain ⟨fuel, rfl⟩ : ∃ f, fuel = cs.length + (f + 1) := ⟨fuel - cs.length - 1, by omega⟩
  obtain ⟨hget, hdrop', _⟩ := getD_of_drop_cons nul c buff k (cs ++ '.' :: '.' :: tail) hdrop
  have hchr : (Lexer.reading buff k row col token errors).chr = c := hget
  have hpk := getD_after_digits buff (k + 1) cs ('.' :: '.' :: tail) hcs
    (fun x hx => by simpa using hx.symm) hdrop'
  have hdrop2 : buff.drop (k + cs.length + 1) = '.' :: '.' :: tail := by
    have := congrArg (List.drop cs.length) hdrop'
    simpa [List.drop_drop, Nat.add_comm, Nat.add_left_comm, Nat.add_assoc] using this
  have hws : Lexer.skipWhiteSpace (cs.length + (fuel + 1))
      (Lexer.reading buff k row col token errors) = .ok _ :=
    Lexer.skipWhiteSpace_number (cs.length + fuel)
      (Lexer.reading buff k row col token errors) (by rw [hchr]; exact hc)
  have hsw := Lexer.nextTokenSwitch_number (cs.length + (fuel + 1))
    (Lexer.reading buff k row col token errors) (by rw [hchr]; exact hc)
    (by rw [Lexer.peek_reading]; exact hpk.1) (by rw [Lexer.peek_reading]; exact hpk.2.1)
    (by rw [Lexer.peek_reading]; exact hpk.2.2)
  have hloop := Lexer.skipNumericLoop_digits buff row token errors cs ('.' :: '.' :: tail) k
    col [c] false false (fuel + 1) hcs hdrop'
  have hlast := Lexer.skipNumericLoop_range buff (k + cs.length) row (col + cs.length) token
    errors tail ([c] ++ cs) false false fuel hdrop2
  have hnext := Lexer.next_rewind_reading buff (k + cs.length + 1) row (col + cs.length) token
    errors .Integer (String.mk (c :: cs))
    (by rw [(getD_of_drop_cons nul '.' buff _ _ hdrop2).1]; decide)
  unfold Lexer.NextToken
  simp only [Res.bind_eq, hws, Res.bind, hsw, Lexer.skipNumeric, hchr, hloop, hlast,
    Res.pure_eq, Bool.false_eq_true, if_false]
  exact congrArg (fun x => Res.ok (Prod.mk _ x)) hnext

/-- What `NextToken` returns on a lexer that reads the first of two dots followed by a
decimal digit: the Range token, and the lexer that reads the digit. -/
theorem Lexer.NextToken_range (buff : List Char) (k : Nat) (row col : Int)
    (token : Token) (errors : List rerror.Entry) (d : Char) (tail : List Char) (fuel : Nat)
    (hdrop : buff.drop k = '.' :: '.' :: d :: tail) (hd : isNumber d = true) :
    Lexer.NextToken (fuel + 1) (Lexer.reading buff k row col token errors) =
      .ok (⟨.Range, "..", ⟨row, col + 1⟩⟩,
        Lexer.reading buff (k + 2) row (col + 2) ⟨.Range, "..", ⟨row, col + 1⟩⟩ errors) := by
  obtain ⟨hget, hdrop1, _⟩ := getD_of_drop_cons nul '.' buff k ('.' :: d :: tail) hdrop
  obtain ⟨hget1, hdrop2, _⟩ := getD_of_drop_cons nul '.' buff (k + 1) (d :: tail) hdrop1
  obtain ⟨hget2, _, _⟩ := getD_of_drop_cons nul d buff (k + 1 + 1) tail hdrop2
  have hchr : (Lexer.reading buff k row col token errors).chr = '.' := hget
  have hpeek : (Lexer.reading buff k row col token errors).peek = '.' := by
    rw [Lexer.peek_reading, hget1]
  have hnext := Lexer.next_reading buff k row col token errors (by rw [hget1]; decide)
  have hpeek1 : (Lexer.reading buff (k + 1) row (col + 1) token errors).peek ≠ '.' := by
    rw [Lexer.peek_reading, hget2]
    exact isNumber_ne d '.' hd (by decide)
  have hnext1 := Lexer.next_reading buff (k + 1) row (col + 1)
    ⟨.Range, "..", ⟨row, col + 1⟩⟩ errors (by rw [hget2]; exact isNumber_ne_newline d hd)
  have hws : Lexer.skipWhiteSpace (fuel + 1) (Lexer.reading buff k row col token errors) =
      .ok (Lexer.reading buff k row col token errors) := by
    simp only [Lexer.skipWhiteSpace, hchr]
    rfl
  have e2 : col + 1 + 1 = col + 2 := by omega
  unfold Lexer.NextToken
  simp only [Res.bind_eq, hws, Res.bind, Lexer.nextTokenSwitch, hchr, hpeek, hnext, hpeek1,
    Res.pure_eq]
  rw [← e2]
  exact congrArg (fun x => Res.ok (Prod.mk _ x)) hnext1

/-- What `NextToken` returns on a lexer whose current rune is the first of the decimal
digits `c :: cs`, the last runes of the buffer: the Integer token of the digits. -/
theorem Lexer.NextToken_integer_end (buff : List Char) (k : Nat) (row col : Int)
    (token : Token) (errors : List rerror.Entry) (c : Char) (cs : List Char)
    (fuel : Nat) (hdrop : buff.drop k = c :: cs)
    (hc : isNumber c = true) (hcs : ∀ x ∈ cs, isNumber x = true)
    (hfuel : cs.length < fuel) :
    Lexer.NextToken fuel (Lexer.reading buff k row col token errors) =
      .ok (⟨.Integer, String.mk (c :: cs), ⟨row, col + cs.length + 1⟩⟩,
        Lexer.reading buff (k + cs.length + 2) row (col + cs.length + 2)
          ⟨.Integer, String.mk (c :: cs), ⟨row, col + cs.length + 1⟩⟩ errors) := by
  obtain ⟨fuel, rfl⟩ : ∃ f, fuel = cs.length + (f + 1) := ⟨fuel - cs.length - 1, by omega⟩
  obtain ⟨hget, hdrop', _⟩ := getD_of_drop_cons nul c buff k cs hdrop
  have hchr : (Lexer.reading buff k row col token errors).chr = c := hget
  have hpk := getD_after_digits buff (k + 1) cs [] hcs (fun x hx => by simp at hx)
    (by simpa using hdrop')
  have hdrop2 : buff.drop (k + cs.length + 1) = [] := by
    have := congrArg (List.drop cs.length) hdrop'
    simpa [List.drop_drop, Nat.add_comm, Nat.add_left_comm, Nat.add_assoc] using this
  have hlen := (getD_of_drop_nil nul buff _ hdrop2).2
  have hws : Lexer.skipWhiteSpace (cs.length + (fuel + 1))
      (Lexer.reading buff k row col token errors) = .ok _ :=
    Lexer.skipWhiteSpace_number (cs.length + fuel)
      (Lexer.reading buff k row col token errors) (by rw [hchr]; exact hc)
  have hsw := Lexer.nextTokenSwitch_number (cs.length + (fuel + 1))
    (Lexer.reading buff k row col token errors) (by rw [hchr]; exact hc)
    (by rw [Lexer.peek_reading]; exact hpk.1) (by rw [Lexer.peek_reading]; exact hpk.2.1)
    (by rw [Lexer.peek_reading]; exact hpk.2.2)
  have hloop := Lexer.skipNumericLoop_digits buff row token errors cs [] k
    col [c] false false (fuel + 1) hcs (by simpa using hdrop')
  have hlast := Lexer.skipNumericLoop_end buff (k + cs.length) row (col + cs.length) token
    errors ([c] ++ cs) false false fuel hdrop2
  have hnext := Lexer.next_reading buff (k + cs.length + 1) row (col + cs.length + 1)
    ⟨.Integer, String.mk (c :: cs), ⟨row, col + cs.length + 1⟩⟩ errors (by
      rw [List.getD_eq_getElem?_getD, List.getElem?_eq_none (by omega)]
      decide)
  have e2 : col + (cs.length : Int) + 1 + 1 = col + cs.length + 2 := by omega
  unfold Lexer.NextToken
  simp only [Res.bind_eq, hws, Res.bind, hsw, Lexer.skipNumeric, hchr, hloop, hlast,
    Res.pure_eq, Bool.false_eq_true, if_false]
  rw [← e2]
  exact congrArg (fun x => Res.ok (Prod.mk _ x)) hnext

/-- What `NextToken` returns on a lexer whose current rune is the first of the decimal
digits `c :: cs`, followed by a dot and the decimal digits `d :: ds`, the last runes of the
buffer: one Float token, whose literal is all these runes. -/
theorem Lexer.NextToken_float_end (buff : List Char) (k : Nat) (row col : Int)
    (token : Token) (errors : List rerror.Entry) (c d : Char) (cs ds : List Char)
    (fuel : Nat) (hdrop : buff.drop k = c :: cs ++ '.' :: d :: ds)
    (hc : isNumber c = true) (hcs : ∀ x ∈ cs, isNumber x = true)
    (hd : isNumber d = true) (hds : ∀ x ∈ ds, isNumber x = true)
    (hfuel : cs.length + ds.length + 2 < fuel) :
    Lexer.NextToken fuel (Lexer.reading buff k row col token errors) =
      .ok (⟨.Float, String.mk (c :: cs ++ '.' :: d :: ds),
          ⟨row, col + cs.length + ds.length + 3⟩⟩,
        Lexer.reading buff (k + cs.length + ds.length + 4) row
          (col + cs.length + ds.length + 4)
          ⟨.Float, String.mk (c :: cs ++ '.' :: d :: ds),
            ⟨row, col + cs.length + ds.length + 3⟩⟩ errors) := by
  obtain ⟨fuel, rfl⟩ : ∃ f, fuel = cs.length + ((ds.length + 1 + (f + 1)) + 1) :=
    ⟨fuel - cs.length - ds.length - 3, by omega⟩
  obtain ⟨hget, hdrop', _⟩ := getD_of_drop_cons nul c buff k (cs ++ '.' :: d :: ds) hdrop
  have hchr : (Lexer.reading buff k row col token errors).chr = c := hget
  have hpk := getD_after_digits buff (k + 1) cs ('.' :: d :: ds) hcs
    (fun x hx => by simpa using hx.symm) hdrop'
  have hdrop2 : buff.drop (k + cs.length + 1) = '.' :: d :: ds := by
    have := congrArg (List.drop cs.length) hdrop'
    simpa [List.drop_drop, Nat.add_comm, Nat.add_left_comm, Nat.add_assoc] using this
  have hdrop3 : buff.drop (k + cs.length + 1 + 1) = (d :: ds) ++ [] := by
    rw [List.append_nil]
    exact (getD_of_drop_cons nul '.' buff _ _ hdrop2).2.1
  have hdrop4 : buff.drop (k + cs.length + 1 + (d :: ds).length + 1) = [] := by
    have := congrArg (List.drop (d :: ds).length) hdrop3
    simpa [List.drop_drop, Nat.add_comm, Nat.add_left_comm, Nat.add_assoc] using this
  have hlen := (getD_of_drop_nil nul buff _ hdrop4).2
  have hws : Lexer.skipWhiteSpace (cs.length + ((ds.length + 1 + (fuel + 1)) + 1))
      (Lexer.reading buff k row col token errors) = .ok _ :=
    Lexer.skipWhiteSpace_number (cs.length + ((ds.length + 1 + (fuel + 1))))
      (Lexer.reading buff k row col token errors) (by rw [hchr]; exact hc)
  have hsw := Lexer.nextTokenSwitch_number (cs.length + ((ds.length + 1 + (fuel + 1)) + 1))
    (Lexer.reading buff k row col token errors) (by rw [hchr]; exact hc)
    (by rw [Lexer.peek_reading]; exact hpk.1) (by rw [Lexer.peek_reading]; exact hpk.2.1)
    (by rw [Lexer.peek_reading]; exact hpk.2.2)
  have hloop := Lexer.skipNumericLoop_digits buff row token errors cs ('.' :: d :: ds) k
    col [c] false false ((ds.length + 1 + (fuel + 1)) + 1) hcs hdrop'
  have hpoint := Lexer.skipNumericLoop_point buff (k + cs.length) row (col + cs.length) token
    errors d ds ([c] ++ cs) false false (ds.length + 1 + (fuel + 1)) hdrop2 hd
  have hloop2 := Lexer.skipNumericLoop_digits buff row token errors (d :: ds) []
    (k + cs.length + 1) (col + cs.length + 1) ([c] ++ cs ++ ['.']) true false (fuel + 1)
    (by
      intro x hx
      rcases List.mem_cons.mp hx with rfl | hx
      · exact hd
      · exact hds x hx) hdrop3
  have hlast := Lexer.skipNumericLoop_end buff (k + cs.length + 1 + (d :: ds).length) row
    (col + cs.length + 1 + (d :: ds).length) token errors ([c] ++ cs ++ ['.'] ++ d :: ds)
    true false fuel hdrop4
  have e4 : [c] ++ cs ++ ['.'] ++ d :: ds = c :: cs ++ '.' :: d :: ds := by simp
  have hlast2 : Lexer.skipNumericLoop (fuel + 1)
      (Lexer.reading buff (k + cs.length + 1 + (ds.length + 1)) row
        (col + cs.length + 1 + ((ds.length + 1 : Nat) : Int)) token errors)
      ([c] ++ cs ++ ['.'] ++ d :: ds) true false =
      .ok (c :: cs ++ '.' :: d :: ds, true,
        Lexer.reading buff (k + cs.length + ds.length + 3) row
          (col + cs.length + ds.length + 3) token errors) := by
    have h := hlast
    simp only [List.length_cons] at h
    rw [h]
    have a1 : k + cs.length + 1 + (ds.length + 1) + 1 = k + cs.length + ds.length + 3 := by
      omega
    have a2 : col + (cs.length : Int) + 1 + ((ds.length + 1 : Nat) : Int) + 1 =
        col + cs.length + ds.length + 3 := by
      push_cast
      omega
    rw [a1, a2, e4]
  have hnext := Lexer.next_reading buff (k + cs.length + ds.length + 3) row
    (col + cs.length + ds.length + 3)
    ⟨.Float, String.mk (c :: cs ++ '.' :: d :: ds), ⟨row, col + cs.length + ds.length + 3⟩⟩
    errors (by
      simp only [List.length_cons] at hlen
      rw [List.getD_eq_getElem?_getD, List.getElem?_eq_none (by omega)]
      decide)
  have e2 : col + (cs.length : Int) + ds.length + 3 + 1 = col + cs.length + ds.length + 4 := by
    omega
  rw [e2] at hnext
  unfold Lexer.NextToken
  simp only [List.length_cons] at hloop2
  simp only [Res.bind_eq, hws, Res.bind, hsw, Lexer.skipNumeric, hchr, hloop, hpoint, hloop2,
    hlast2, Res.pure_eq, if_true]
  exact congrArg (fun x => Res.ok (Prod.mk _ x)) hnext

/-- C31.  Let `c :: cs` and `d :: ds` be non-empty strings of decimal digits.  With fuel
above their lengths, the input of `c :: cs`, two dots and `d :: ds` lexes to the Integer
token of `c :: cs`, the Range token `..`, the Integer token of `d :: ds` and the Eof token,
and the input of `c :: cs`, one dot and `d :: ds` lexes to one Float token whose literal is
the whole input, and the Eof token; no diagnostic is recorded. -/
theorem NextToken_number_range (c d : Char) (cs ds : List Char) (fuel : Nat)
    (hc : isNumber c = true) (hcs : ∀ x ∈ cs, isNumber x = true)
    (hd : isNumber d = true) (hds : ∀ x ∈ ds, isNumber x = true)
    (hfuel : cs.length + ds.length + 2 < fuel) :
    (∃ (p1 p2 p3 p4 : Position) (l1 l2 l3 l4 : Lexer),
      Lexer.NextToken fuel (New (c :: cs ++ '.' :: '.' :: d :: ds)) =
        .ok (⟨.Integer, String.mk (c :: cs), p1⟩, l1) ∧
      Lexer.NextToken fuel l1 = .ok (⟨.Range, "..", p2⟩, l2) ∧
      Lexer.NextToken fuel l2 = .ok (⟨.Integer, String.mk (d :: ds), p3⟩, l3) ∧
      Lexer.NextToken fuel l3 = .ok (⟨.Eof, "", p4⟩, l4) ∧
      l4.errors = []) ∧
    ∃ (p1 p2 : Position) (l1 l2 : Lexer),
      Lexer.NextToken fuel (New (c :: cs ++ '.' :: d :: ds)) =
        .ok (⟨.Float, String.mk (c :: cs ++ '.' :: d :: ds), p1⟩, l1) ∧
      Lexer.NextToken fuel l1 = .ok (⟨.Eof, "", p2⟩, l2) ∧
      l2.errors = [] := by
  obtain ⟨fuel, rfl⟩ : ∃ f, fuel = f + 1 := ⟨fuel - 1, by omega⟩
  constructor
  · have hnew : New (c :: cs ++ '.' :: '.' :: d :: ds) =
        Lexer.reading (c :: cs ++ '.' :: '.' :: d :: ds) 0 1 2 Token.zero [] :=
      New_reading _ (isNumber_ne_newline c hc)
    have h1 := Lexer.NextToken_integer_range (c :: cs ++ '.' :: '.' :: d :: ds) 0 1 2
      Token.zero [] c cs (d :: ds) (fuel + 1) rfl hc hcs (by omega)
    have hdrop2 : (c :: cs ++ '.' :: '.' :: d :: ds).drop (0 + cs.length + 1) =
        '.' :: '.' :: d :: ds := by
      simp
    have h2 := Lexer.NextToken_range (c :: cs ++ '.' :: '.' :: d :: ds) (0 + cs.length + 1) 1
      (2 + cs.length + 1) ⟨.Integer, String.mk (c :: cs), ⟨1, 2 + cs.length⟩⟩ [] d ds fuel
      hdrop2 hd
    have hdrop3 : (c :: cs ++ '.' :: '.' :: d :: ds).drop (0 + cs.length + 1 + 2) =
        d :: ds := by
      simp
    have h3 := Lexer.NextToken_integer_end (c :: cs ++ '.' :: '.' :: d :: ds)
      (0 + cs.length + 1 + 2) 1 (2 + cs.length + 1 + 2)
      ⟨.Range, "..", ⟨1, 2 + cs.length + 1 + 1⟩⟩ [] d ds (fuel + 1) hdrop3 hd hds (by omega)
    have h4 := Lexer.NextToken_eof (c :: cs ++ '.' :: '.' :: d :: ds)
      (0 + cs.length + 1 + 2 + ds.length + 2) 1 (2 + cs.length + 1 + 2 + ds.length + 2)
      ⟨.Integer, String.mk (d :: ds), ⟨1, 2 + cs.length + 1 + 2 + ds.length + 1⟩⟩ []
      (fuel + 1) (by simp; omega) (by omega)
    rw [hnew]
    exact ⟨_, _, _, _, _, _, _, _, h1, h2, h3, h4, rfl⟩
  · have hnew : New (c :: cs ++ '.' :: d :: ds) =
        Lexer.reading (c :: cs ++ '.' :: d :: ds) 0 1 2 Token.zero [] :=
      New_reading _ (isNumber_ne_newline c hc)
    have h1 := Lexer.NextToken_float_end (c :: cs ++ '.' :: d :: ds) 0 1 2 Token.zero [] c d
      cs ds (fuel + 1) rfl hc hcs hd hds hfuel
    have h2 := Lexer.NextToken_eof (c :: cs ++ '.' :: d :: ds)
      (0 + cs.length + ds.length + 4) 1 (2 + cs.length + ds.length + 4)
      ⟨.Float, String.mk (c :: cs ++ '.' :: d :: ds), ⟨1, 2 + cs.length + ds.length + 3⟩⟩ []
      (fuel + 1) (by simp; omega) (by omega)
    rw [hnew]
    exact ⟨_, _, _, _, h1, h2, rfl⟩

/-- C31 on `12..345` and `12.5`, and the tokens of `1..5` and `5.20` of the tests of the
lexer. -/
theorem NextToken_number_range_witness :
    ((∃ (p1 p2 p3 p4 : Position) (l1 l2 l3 l4 : Lexer),
      Lexer.NextToken 6 (New ('1' :: ['2'] ++ '.' :: '.' :: '3' :: ['4', '5'])) =
        .ok (⟨.Integer, String.mk ('1' :: ['2']), p1⟩, l1) ∧
      Lexer.NextToken 6 l1 = .ok (⟨.Range, "..", p2⟩, l2) ∧
      Lexer.NextToken 6 l2 = .ok (⟨.Integer, String.mk ('3' :: ['4', '5']), p3⟩, l3) ∧
      Lexer.NextToken 6 l3 = .ok (⟨.Eof, "", p4⟩, l4) ∧
      l4.errors = []) ∧
    ∃ (p1 p2 : Position) (l1 l2 : Lexer),
      Lexer.NextToken 6 (New ('1' :: ['2'] ++ '.' :: '3' :: ['4', '5'])) =
        .ok (⟨.Float, String.mk ('1' :: ['2'] ++ '.' :: '3' :: ['4', '5']), p1⟩, l1) ∧
      Lexer.NextToken 6 l1 = .ok (⟨.Eof, "", p2⟩, l2) ∧
      l2.errors = []) ∧
    (∃ l1 l2 l3 l4 : Lexer,
      Lexer.NextToken 4 (New "1..5".data) = .ok (⟨.Integer, "1", ⟨1, 2⟩⟩, l1) ∧
      Lexer.NextToken 4 l1 = .ok (⟨.Range, "..", ⟨1, 4⟩⟩, l2) ∧
      Lexer.NextToken 4 l2 = .ok (⟨.Integer, "5", ⟨1, 6⟩⟩, l3) ∧
      Lexer.NextToken 4 l3 = .ok (⟨.Eof, "", ⟨1, 7⟩⟩, l4) ∧ l4.errors = []) ∧
    ∃ l1 l2 : Lexer,
      Lexer.NextToken 6 (New "5.20".data) = .ok (⟨.Float, "5.20", ⟨1, 6⟩⟩, l1) ∧
      Lexer.NextToken 6 l1 = .ok (⟨.Eof, "", ⟨1, 7⟩⟩, l2) ∧ l2.errors = [] :=
  ⟨NextToken_number_range '1' '3' ['2'] ['4', '5'] 6 (by decide) (by decide) (by decide)
    (by decide) (by decide), ⟨_, _, _, _, rfl, rfl, rfl, rfl, rfl⟩, ⟨_, _, rfl, rfl, rfl⟩⟩


/-! ## Comments -/

theorem Lexer.next_curr (l : Lexer) : l.next.curr = l.nextr := by
  unfold Lexer.next
  dsimp only
  split_ifs <;> rfl

theorem Lexer.next_reading_newline (buff : List Char) (k : Nat) (row col : Int)
    (token : Token) (errors : List rerror.Entry) (h : buff.getD (k + 1) nul = newline) :
    (Lexer.reading buff k row col token errors).next =
      Lexer.reading buff (k + 1) (row + 1) 0 token errors := by
  have hp := Lexer.peek_reading buff k row col token errors
  unfold Lexer.peek Lexer.reading at hp
  dsimp only at hp
  unfold Lexer.next Lexer.reading
  dsimp only
  rw [hp, if_pos h]

/-- The loop of `skipComment`, entered after a call of `next` on a lexer whose current rune
is followed by the text `t`, without a newline, a carriage return or a rune 0, and a
newline: it writes `t` and stops on the newline, which has been read. -/
theorem Lexer.skipCommentLoop_text (buff : List Char) (row : Int) (token : Token)
    (errors : List rerror.Entry) (rest : List Char) : ∀ (t : List Char) (k : Nat)
    (col : Int) (out : List Char) (fuel : Nat),
    (∀ c ∈ t, c ≠ newline ∧ c ≠ '\r' ∧ c ≠ nul) →
    buff.drop (k + 1) = t ++ newline :: rest → t.length < fuel →
    Lexer.skipCommentLoop fuel (Lexer.reading buff k row col token errors).next out =
      .ok (out ++ t, Lexer.reading buff (k + 1 + t.length) (row + 1) 0 token errors) := by
  intro t
  induction t with
  | nil =>
    intro k col out fuel _ hdrop hfuel
    obtain ⟨fuel, rfl⟩ : ∃ f, fuel = f + 1 := ⟨fuel - 1, by simp at hfuel; omega⟩
    obtain ⟨hget, _, _⟩ := getD_of_drop_cons nul newline buff (k + 1) rest
      (by simpa using hdrop)
    have hchr : (Lexer.reading buff (k + 1) (row + 1) 0 token errors).chr = newline := hget
    rw [Lexer.next_reading_newline buff k row col token errors hget, Lexer.skipCommentLoop]
    simp [hchr]
  | cons c t ih =>
    intro k col out fuel ht hdrop hfuel
    obtain ⟨fuel, rfl⟩ : ∃ f, fuel = f + 1 := ⟨fuel - 1, by simp at hfuel; omega⟩
    obtain ⟨hget, hdrop', _⟩ := getD_of_drop_cons nul c buff (k + 1) (t ++ newline :: rest)
      (by simpa using hdrop)
    obtain ⟨h1, h2, h3⟩ := ht c (List.mem_cons_self _ _)
    have hchr : (Lexer.reading buff (k + 1) row (col + 1) token errors).chr = c := hget
    rw [Lexer.next_reading buff k row col token errors (by rw [hget]; exact h1),
      Lexer.skipCommentLoop]
    simp only [hchr, h1, h2, h3, or_self, if_false]
    rw [ih (k + 1) (col + 1) (out ++ [c]) fuel
      (fun x hx => ht x (List.mem_cons_of_mem _ hx)) hdrop' (by simp at hfuel; omega)]
    simp only [List.append_assoc, List.singleton_append, List.length_cons]
    have e1 : k + 1 + 1 + t.length = k + 1 + (t.length + 1) := by omega
    rw [e1]

/-- What `NextToken` returns on a lexer that reads the first of two slashes, followed by
the text `t`, without a newline, a carriage return or a rune 0, a newline and `rest`: the
Comment token of `t`, and a lexer whose current rune is the first of `rest`. -/
theorem Lexer.NextToken_comment_at (buff : List Char) (k : Nat) (row col : Int)
    (token : Token) (errors : List rerror.Entry) (t rest : List Char) (fuel : Nat)
    (hdrop : buff.drop k = '/' :: '/' :: t ++ newline :: rest)
    (ht : ∀ c ∈ t, c ≠ newline ∧ c ≠ '\r' ∧ c ≠ nul) (hfuel : t.length < fuel) :
    ∃ l1 : Lexer,
      Lexer.NextToken fuel (Lexer.reading buff k row col token errors) =
        .ok (⟨.Comment, String.mk t, ⟨row + 1, 0⟩⟩, l1) ∧
      l1.errors = errors ∧ l1.buff = buff ∧ l1.buff.drop l1.curr = rest ∧
      l1.chr = rest.headD nul ∧ l1.nextr = l1.curr + 1 := by
  obtain ⟨fuel, rfl⟩ : ∃ f, fuel = f + 1 := ⟨fuel - 1, by omega⟩
  obtain ⟨hget, hdrop1, _⟩ := getD_of_drop_cons nul '/' buff k _ hdrop
  obtain ⟨hget1, hdrop2, _⟩ := getD_of_drop_cons nul '/' buff (k + 1) _ hdrop1
  have hchr : (Lexer.reading buff k row col token errors).chr = '/' := hget
  have hpeek : (Lexer.reading buff k row col token errors).peek = '/' := by
    rw [Lexer.peek_reading, hget1]
  have hnext := Lexer.next_reading buff k row col token errors (by rw [hget1]; decide)
  have hws : Lexer.skipWhiteSpace (fuel + 1) (Lexer.reading buff k row col token errors) =
      .ok (Lexer.reading buff k row col token errors) := by
    simp only [Lexer.skipWhiteSpace, hchr]
    rfl
  have hloop := Lexer.skipCommentLoop_text buff row token errors rest t (k + 1) (col + 1) []
    (fuel + 1) ht hdrop2 hfuel
  have hf := Lexer.next_fields ((Lexer.reading buff (k + 1 + 1 + t.length) (row + 1) 0 token
    errors).assignToken .Comment (String.mk t))
  have hc := Lexer.next_curr ((Lexer.reading buff (k + 1 + 1 + t.length) (row + 1) 0 token
    errors).assignToken .Comment (String.mk t))
  have hdrop3 : buff.drop (k + 1 + 1 + t.length + 1) = rest := by
    have := congrArg (List.drop (t.length + 1)) hdrop2
    simpa [List.drop_drop, Nat.add_comm, Nat.add_left_comm, Nat.add_assoc] using this
  refine ⟨((Lexer.reading buff (k + 1 + 1 + t.length) (row + 1) 0 token
    errors).assignToken .Comment (String.mk t)).next, ?_, hf.2.2.2.1, hf.1, ?_, ?_, ?_⟩
  · have hsw : Lexer.nextTokenSwitch (fuel + 1) (Lexer.reading buff k row col token errors) =
        Lexer.skipComment (fuel + 1)
          (Lexer.reading buff (k + 1) row (col + 1) token errors) := by
      have h0 : ¬ ('/' = nul) := by decide
      have h1 : ¬ ('/' = '#') := by decide
      have h2 : ¬ ('/' = '=') := by decide
      have h3 : ¬ ('/' = '>') := by decide
      have h4 : ¬ ('/' = '<') := by decide
      have h5 : ¬ ('/' = '+') := by decide
      have h6 : ¬ ('/' = '-') := by decide
      have h7 : ¬ ('/' = '*') := by decide
      simp only [Lexer.nextTokenSwitch, hchr, hpeek, hnext, h0, h1, h2, h3, h4, h5, h6, h7,
        if_false, if_true]
    unfold Lexer.NextToken
    simp only [Res.bind_eq, hws, Res.bind, hsw, Lexer.skipComment, hloop, Res.pure_eq]
    exact congrArg (fun x => Res.ok (Prod.mk x _)) hf.2.2.2.2
  · rw [hf.1, hc]
    exact hdrop3
  · rw [hf.2.2.1]
    show buff.getD (k + 1 + 1 + t.length + 1) nul = _
    cases rest with
    | nil => exact (getD_of_drop_nil nul _ _ hdrop3).1
    | cons r rs => exact (getD_of_drop_cons nul r _ _ rs hdrop3).1
  · rw [hf.2.1, hc]

/-- C32, as amended.  Let `t` be a text of ASCII bytes other than the newline, the carriage
return and the byte 0.  With fuel above the length of `t`, the first `NextToken` on the input
of `//`, `t`, a newline and `rest` returns the Comment token whose literal is `t`, byte for
byte, and records no diagnostic; the newline is read with the comment, and the lexer goes on
with `rest`: its current rune is the first byte of `rest`. -/
theorem NextToken_comment (t rest : List Char) (fuel : Nat)
    (ht : ∀ c ∈ t, c ≠ newline ∧ c ≠ '\r' ∧ c ≠ nul) (hascii : ∀ c ∈ t, c.toNat < 128)
    (hfuel : t.length < fuel) :
    (String.mk t).utf8ByteSize = t.length ∧
    ∃ l1 : Lexer,
      Lexer.NextToken fuel (New ('/' :: '/' :: t ++ newline :: rest)) =
        .ok (⟨.Comment, String.mk t, ⟨2, 0⟩⟩, l1) ∧
      l1.errors = [] ∧ l1.buff = '/' :: '/' :: t ++ newline :: rest ∧
      l1.buff.drop l1.curr = rest ∧ l1.chr = rest.headD nul ∧ l1.nextr = l1.curr + 1 := by
  have hnew : New ('/' :: '/' :: t ++ newline :: rest) =
      Lexer.reading ('/' :: '/' :: t ++ newline :: rest) 0 1 2 Token.zero [] :=
    New_reading _ (by show '/' ≠ newline; decide)
  rw [hnew]
  exact ⟨utf8ByteSize_ascii t hascii,
    Lexer.NextToken_comment_at ('/' :: '/' :: t ++ newline :: rest) 0 1 2 Token.zero [] t rest
      fuel rfl ht hfuel⟩

/-- C32 as amended, on the source of `// a`, a newline and `x`: the Comment token of ` a`,
then the Identifier token `x` and the Eof token. -/
theorem NextToken_comment_witness :
    ((String.mk [' ', 'a']).utf8ByteSize = [' ', 'a'].length ∧
    ∃ l1 : Lexer,
      Lexer.NextToken 3 (New ('/' :: '/' :: [' ', 'a'] ++ newline :: ['x'])) =
        .ok (⟨.Comment, String.mk [' ', 'a'], ⟨2, 0⟩⟩, l1) ∧
      l1.errors = [] ∧ l1.buff = '/' :: '/' :: [' ', 'a'] ++ newline :: ['x'] ∧
      l1.buff.drop l1.curr = ['x'] ∧ l1.chr = ['x'].headD nul ∧ l1.nextr = l1.curr + 1) ∧
    ∃ l1 l2 l3 : Lexer,
      Lexer.NextToken 3 (New ['/', '/', ' ', 'a', newline, 'x']) =
        .ok (⟨.Comment, " a", ⟨2, 0⟩⟩, l1) ∧
      Lexer.NextToken 3 l1 = .ok (⟨.Identifier, "x", ⟨2, 1⟩⟩, l2) ∧
      Lexer.NextToken 3 l2 = .ok (⟨.Eof, "", ⟨2, 2⟩⟩, l3) ∧ l3.errors = [] :=
  ⟨NextToken_comment [' ', 'a'] ['x'] 3 (by decide) (by decide) (by decide),
    ⟨_, _, _, rfl, rfl, rfl, rfl⟩⟩

/-- C32 does not hold as stated.  On the source of `//a`, a newline and `x` the tokens are
the Comment `a`, the Identifier `x` and Eof: no NewLine token comes after the comment.  On
the source of `#ab`, a newline and `x` the Comment token has the literal `b`: the case of
`#` calls `next` before `skipComment`, which calls it again, and the first byte of the text
is not written.  On `#`, a newline, `ab`, a newline and `x` the Comment token has the
literal `ab`, the text of the next line.  A byte 0 in the text ends the comment, and a byte
233 is written as the two bytes of the encoding of its rune. -/
theorem NextToken_comment_no_newline :
    (∃ l1 l2 l3 : Lexer,
      Lexer.NextToken 4 (New ['/', '/', 'a', newline, 'x']) =
        .ok (⟨.Comment, "a", ⟨2, 0⟩⟩, l1) ∧
      Lexer.NextToken 4 l1 = .ok (⟨.Identifier, "x", ⟨2, 1⟩⟩, l2) ∧
      Lexer.NextToken 4 l2 = .ok (⟨.Eof, "", ⟨2, 2⟩⟩, l3) ∧ l3.errors = []) ∧
    (∃ l1 l2 l3 : Lexer,
      Lexer.NextToken 4 (New ['#', 'a', 'b', newline, 'x']) =
        .ok (⟨.Comment, "b", ⟨2, 0⟩⟩, l1) ∧
      Lexer.NextToken 4 l1 = .ok (⟨.Identifier, "x", ⟨2, 1⟩⟩, l2) ∧
      Lexer.NextToken 4 l2 = .ok (⟨.Eof, "", ⟨2, 2⟩⟩, l3) ∧ l3.errors = []) ∧
    (∃ l1 l2 l3 : Lexer,
      Lexer.NextToken 4 (New ['#', newline, 'a', 'b', newline, 'x']) =
        .ok (⟨.Comment, "ab", ⟨3, 0⟩⟩, l1) ∧
      Lexer.NextToken 4 l1 = .ok (⟨.Identifier, "x", ⟨3, 1⟩⟩, l2) ∧
      Lexer.NextToken 4 l2 = .ok (⟨.Eof, "", ⟨3, 2⟩⟩, l3) ∧ l3.errors = []) ∧
    (∃ l1 : Lexer,
      Lexer.NextToken 4 (New ['/', '/', 'a', nul, 'b', newline, 'x']) =
        .ok (⟨.Comment, "a", ⟨1, 5⟩⟩, l1)) ∧
    ∃ l1 : Lexer,
      Lexer.NextToken 4 (New ['/', '/', Char.ofNat 233, newline, 'x']) =
        .ok (⟨.Comment, String.mk [Char.ofNat 233], ⟨2, 0⟩⟩, l1) ∧
      (String.mk [Char.ofNat 233]).utf8ByteSize = 2 :=
  ⟨⟨_, _, _, rfl, rfl, rfl, rfl⟩, ⟨_, _, _, rfl, rfl, rfl, rfl⟩, ⟨_, _, _, rfl, rfl, rfl, rfl⟩,
    ⟨_, rfl⟩, ⟨_, rfl, rfl⟩⟩


theorem NextToken_first_byte (c : Char) (rest : List Char) (fuel : Nat)
    (hc : c ∈ ['%', ',', '~', '(', ')', '[', ']', '?', ':']) :
    ∃ (t : Token) (l : Lexer),
      Lexer.NextToken (fuel + 1) (New (c :: rest)) = .ok (t, l) ∧
      t.Literal = String.singleton c ∧ t.Position = ⟨1, 2⟩ := by
  simp only [List.mem_cons, List.mem_singleton, List.not_mem_nil, or_false] at hc
  rcases hc with rfl | rfl | rfl | rfl | rfl | rfl | rfl | rfl | rfl <;>
    exact ⟨_, _, rfl, congrArg Token.Literal (Lexer.next_fields _).2.2.2.2,
      congrArg Token.Position (Lexer.next_fields _).2.2.2.2⟩

/-- C33 does not hold on the code.  `New` starts the column at 1 and reads the first byte
with `next`, which adds one: the token `+` that is the whole input reports the position
(1, 2), and so does every one-byte token at the start of an input.  A newline sets the
column to 0 and adds one to the row when it is read: in `a`, newline, `b` the NewLine token
reports (2, 0) and `b`, the first byte of its line, (2, 1).  After a number `skipNumeric`
goes back one byte with `rewind`, which takes one off the column and leaves the row: in
`1`, newline, the Integer token reports (2, -1) and the NewLine token (3, 0), on an input
of two lines. -/
theorem NextToken_position_off :
    (∃ l : Lexer, Lexer.NextToken 3 (New ['+']) = .ok (⟨.Plus, "+", ⟨1, 2⟩⟩, l)) ∧
    (∀ (c : Char) (rest : List Char) (fuel : Nat),
      c ∈ ['%', ',', '~', '(', ')', '[', ']', '?', ':'] →
      ∃ (t : Token) (l : Lexer),
        Lexer.NextToken (fuel + 1) (New (c :: rest)) = .ok (t, l) ∧
        t.Literal = String.singleton c ∧ t.Position = ⟨1, 2⟩) ∧
    (∃ l1 l2 l3 : Lexer,
      Lexer.NextToken 5 (New ['a', newline, 'b']) = .ok (⟨.Identifier, "a", ⟨1, 2⟩⟩, l1) ∧
      Lexer.NextToken 5 l1 = .ok (⟨.NewLine, "\n", ⟨2, 0⟩⟩, l2) ∧
      Lexer.NextToken 5 l2 = .ok (⟨.Identifier, "b", ⟨2, 1⟩⟩, l3)) ∧
    ∃ l1 l2 l3 : Lexer,
      Lexer.NextToken 4 (New ['1', newline]) = .ok (⟨.Integer, "1", ⟨2, -1⟩⟩, l1) ∧
      Lexer.NextToken 4 l1 = .ok (⟨.NewLine, "\n", ⟨3, 0⟩⟩, l2) ∧
      Lexer.NextToken 4 l2 = .ok (⟨.Eof, "", ⟨3, 1⟩⟩, l3) ∧
      l3.errors = [] := by
  exact ⟨⟨_, rfl⟩, NextToken_first_byte, ⟨_, _, _, rfl, rfl, rfl⟩, ⟨_, _, _, rfl, rfl, rfl, rfl⟩⟩

/-! ## Every call of `NextToken` returns

With the fuel of the length of the buffer and two more, every loop of the lexer ends: each
iteration reads a byte further, and past the end of the buffer the lexer reads the rune 0,
on which every loop stops. -/

theorem Res.ite_ok {α : Type} (c : Prop) [Decidable c] (a b : Res α)
    (ha : c → ∃ r, a = .ok r) (hb : ¬ c → ∃ r, b = .ok r) :
    ∃ r, (if c then a else b) = .ok r := by
  by_cases h : c
  · rw [if_pos h]
    exact ha h
  · rw [if_neg h]
    exact hb h

theorem Lexer.peek_lt (l : Lexer) (h : l.peek ≠ nul) : l.nextr < l.buff.length := by
  unfold Lexer.peek at h
  by_cases hge : l.nextr ≥ l.buff.length
  · rw [if_pos hge] at h
    exact absurd rfl h
  · omega

theorem Lexer.next_lt (l : Lexer) (h : l.next.chr ≠ nul) : l.nextr < l.buff.length := by
  rw [(Lexer.next_fields l).2.2.1] at h
  by_cases hge : l.buff.length ≤ l.nextr
  · rw [List.getD_eq_getElem?_getD, List.getElem?_eq_none hge] at h
    exact absurd rfl h
  · omega

/-- After a call of `next` the current rune is the rune 0 unless the byte read is inside the
buffer. -/
theorem Lexer.next_synced (l : Lexer) (h : l.next.chr ≠ nul) :
    l.next.nextr ≤ l.next.buff.length := by
  have := Lexer.next_lt l h
  rw [(Lexer.next_fields l).1, (Lexer.next_fields l).2.1]
  omega

theorem Lexer.skipWhiteSpace_ok : ∀ (fuel : Nat) (l : Lexer),
    (l.chr ≠ nul → l.nextr ≤ l.buff.length) → 1 ≤ fuel →
    l.buff.length + 2 ≤ fuel + l.nextr →
    ∃ r, Lexer.skipWhiteSpace fuel l = .ok r ∧ r.buff = l.buff
  | 0, _, _, h1, _ => absurd h1 (by omega)
  | fuel + 1, l, hs, _, hf => by
    rw [Lexer.skipWhiteSpace]
    by_cases hc : l.chr = ' ' ∨ l.chr = '\t' ∨ l.chr = '\r'
    · rw [if_pos hc]
      have hne : l.chr ≠ nul := by
        rcases hc with h | h | h <;> rw [h] <;> decide
      have hle := hs hne
      obtain ⟨hb, hn, _, _, _⟩ := Lexer.next_fields l
      obtain ⟨r, h1, h2⟩ := Lexer.skipWhiteSpace_ok fuel l.next (Lexer.next_synced l)
        (by omega) (by rw [hb, hn]; omega)
      exact ⟨r, h1, h2.trans hb⟩
    · rw [if_neg hc]
      exact ⟨l, rfl, rfl⟩

theorem Lexer.readNameLoop_ok : ∀ (fuel : Nat) (l : Lexer) (out : List Char),
    1 ≤ fuel → l.buff.length + 1 ≤ fuel + l.nextr →
    ∃ r, Lexer.readNameLoop fuel l out = .ok r
  | 0, _, _, h1, _ => absurd h1 (by omega)
  | fuel + 1, l, out, _, hf => by
    rw [Lexer.readNameLoop]
    apply Res.ite_ok
    · intro hc
      have hlt := Lexer.peek_lt l (fun h => by rw [h] at hc; exact absurd hc (by decide))
      obtain ⟨hb, hn, _, _, _⟩ := Lexer.next_fields l
      exact Lexer.readNameLoop_ok fuel l.next _ (by omega) (by rw [hb, hn]; omega)
    · intro _
      exact ⟨_, rfl⟩

theorem Lexer.skipSpecialIntegerLoop_ok (fn : Char → Bool) (hfn : fn nul = false) :
    ∀ (fuel : Nat) (l : Lexer) (out : List Char),
    1 ≤ fuel → l.buff.length + 1 ≤ fuel + l.nextr →
    ∃ r, Lexer.skipSpecialIntegerLoop fn fuel l out = .ok r
  | 0, _, _, h1, _ => absurd h1 (by omega)
  | fuel + 1, l, out, _, hf => by
    rw [Lexer.skipSpecialIntegerLoop]
    apply Res.ite_ok
    · intro hc
      have hlt := Lexer.peek_lt l (fun h => by rw [h, hfn] at hc; cases hc)
      obtain ⟨hb, hn, _, _, _⟩ := Lexer.next_fields l
      exact Lexer.skipSpecialIntegerLoop_ok fn hfn fuel l.next _ (by omega)
        (by rw [hb, hn]; omega)
    · intro _
      exact ⟨_, rfl⟩

theorem Lexer.skipNumericLoop_ok : ∀ (fuel : Nat) (l : Lexer) (out : List Char)
    (ff sf : Bool), 1 ≤ fuel → l.buff.length + 1 ≤ fuel + l.nextr →
    ∃ r, Lexer.skipNumericLoop fuel l out ff sf = .ok r
  | 0, _, _, _, _, h1, _ => absurd h1 (by omega)
  | fuel + 1, l, out, ff, sf, _, hf => by
    obtain ⟨hb, hn, _, _, _⟩ := Lexer.next_fields l
    have hrec : l.next.chr ≠ nul → ∀ (o : List Char) (f g : Bool),
        ∃ r, Lexer.skipNumericLoop fuel l.next o f g = .ok r := by
      intro hne o f g
      have hlt := Lexer.next_lt l hne
      exact Lexer.skipNumericLoop_ok fuel l.next o f g (by omega) (by rw [hb, hn]; omega)
    have hnum : isNumber l.next.chr = true → l.next.chr ≠ nul := fun h hc => by
      rw [hc] at h
      exact absurd h (by decide)
    rw [Lexer.skipNumericLoop]
    apply Res.ite_ok
    · intro hc
      exact hrec (hnum hc) _ _ _
    · intro _
      apply Res.ite_ok
      · intro hc
        exact hrec (by rw [hc]; decide) _ _ _
      · intro _
        apply Res.ite_ok
        · intro hc
          exact hrec (by rw [hc.1]; decide) _ _ _
        · intro _
          apply Res.ite_ok
          · intro hc
            exact hrec (by rw [hc.1]; decide) _ _ _
          · intro _
            apply Res.ite_ok
            · intro hc
              exact hrec (by rw [hc.1]; decide) _ _ _
            · intro _
              apply Res.ite_ok
              · intro _
                exact ⟨_, rfl⟩
              · intro _
                apply Res.ite_ok
                · intro _
                  exact ⟨_, rfl⟩
                · intro _
                  exact ⟨_, rfl⟩

theorem Lexer.skipMultiLineCommentLoop_ok : ∀ (fuel : Nat) (l : Lexer) (out : List Char),
    1 ≤ fuel → l.buff.length + 1 ≤ fuel + l.nextr →
    ∃ r, Lexer.skipMultiLineCommentLoop fuel l out = .ok r
  | 0, _, _, h1, _ => absurd h1 (by omega)
  | fuel + 1, l, out, _, hf => by
    obtain ⟨hb, hn, _, _, _⟩ := Lexer.next_fields l
    have hrec : l.next.chr ≠ nul → ∀ (o : List Char),
        ∃ r, Lexer.skipMultiLineCommentLoop fuel l.next o = .ok r := by
      intro hne o
      have hlt := Lexer.next_lt l hne
      exact Lexer.skipMultiLineCommentLoop_ok fuel l.next o (by omega) (by rw [hb, hn]; omega)
    rw [Lexer.skipMultiLineCommentLoop]
    apply Res.ite_ok
    · intro hc
      apply Res.ite_ok
      · intro _
        exact ⟨_, rfl⟩
      · intro _
        exact hrec (by rw [hc]; decide) _
    · intro _
      apply Res.ite_ok
      · intro _
        exact ⟨_, rfl⟩
      · intro hc
        exact hrec hc _

theorem Lexer.skipCommentLoop_ok : ∀ (fuel : Nat) (l : Lexer) (out : List Char),
    (l.chr ≠ nul → l.nextr ≤ l.buff.length) → 1 ≤ fuel →
    l.buff.length + 2 ≤ fuel + l.nextr →
    ∃ r, Lexer.skipCommentLoop fuel l out = .ok r
  | 0, _, _, _, h1, _ => absurd h1 (by omega)
  | fuel + 1, l, out, hs, _, hf => by
    obtain ⟨hb, hn, _, _, _⟩ := Lexer.next_fields l
    rw [Lexer.skipCommentLoop]
    apply Res.ite_ok
    · intro _
      exact ⟨_, rfl⟩
    · intro hc
      apply Res.ite_ok
      · intro _
        dsimp only
        apply Res.ite_ok
        · intro _
          exact ⟨_, rfl⟩
        · intro _
          exact ⟨_, rfl⟩
      · intro _
        have hle := hs (fun h => hc (Or.inr h))
        exact Lexer.skipCommentLoop_ok fuel l.next _ (Lexer.next_synced l) (by omega)
          (by rw [hb, hn]; omega)

theorem Lexer.skipStringLoop_ok : ∀ (fuel : Nat) (l : Lexer) (out : List Char),
    (l.chr ≠ nul → l.nextr ≤ l.buff.length) → 1 ≤ fuel →
    l.buff.length + 2 ≤ fuel + l.nextr →
    ∃ r, Lexer.skipStringLoop fuel l out = .ok r
  | 0, _, _, _, h1, _ => absurd h1 (by omega)
  | fuel + 1, l, out, hs, _, hf => by
    obtain ⟨hb, hn, _, _, _⟩ := Lexer.next_fields l
    obtain ⟨hb2, hn2, _, _, _⟩ := Lexer.next_fields l.next
    have hrec : l.chr ≠ nul → ∀ (o : List Char),
        ∃ r, Lexer.skipStringLoop fuel l.next o = .ok r := by
      intro hne o
      have hle := hs hne
      exact Lexer.skipStringLoop_ok fuel l.next o (Lexer.next_synced l) (by omega)
        (by rw [hb, hn]; omega)
    have hrec2 : l.chr ≠ nul → ∀ (o : List Char),
        ∃ r, Lexer.skipStringLoop fuel l.next.next o = .ok r := by
      intro hne o
      have hle := hs hne
      exact Lexer.skipStringLoop_ok fuel l.next.next o (Lexer.next_synced l.next) (by omega)
        (by rw [hb2, hn2, hb, hn]; omega)
    have hrec3 : l.chr ≠ nul → ∀ (msg : String) (o : List Char),
        ∃ r, Lexer.skipStringLoop fuel (l.next.reportError msg).next o = .ok r := by
      intro hne msg o
      have hle := hs hne
      obtain ⟨hb3, hn3, _, _, _⟩ := Lexer.next_fields (l.next.reportError msg)
      have e1 : (l.next.reportError msg).buff = l.next.buff := rfl
      have e2 : (l.next.reportError msg).nextr = l.next.nextr := rfl
      exact Lexer.skipStringLoop_ok fuel (l.next.reportError msg).next o
        (Lexer.next_synced (l.next.reportError msg)) (by omega)
        (by rw [hb3, hn3, e1, e2, hb, hn]; omega)
    rw [Lexer.skipStringLoop]
    apply Res.ite_ok
    · intro hc
      have hne : l.chr ≠ nul := by rw [hc]; decide
      dsimp only
      apply Res.ite_ok
      · intro _
        exact hrec2 hne _
      · intro _
        apply Res.ite_ok
        · intro _
          exact hrec2 hne _
        · intro _
          apply Res.ite_ok
          · intro _
            exact hrec2 hne _
          · intro _
            exact hrec3 hne _ _
    · intro _
      apply Res.ite_ok
      · intro _
        exact ⟨_, rfl⟩
      · intro hc
        apply Res.ite_ok
        · intro _
          exact ⟨_, rfl⟩
        · intro _
          exact hrec hc _

theorem Lexer.skipComment_ok (fuel : Nat) (l : Lexer) (hf : l.buff.length + 2 ≤ fuel) :
    ∃ r, Lexer.skipComment fuel l = .ok r := by
  obtain ⟨hb, hn, _, _, _⟩ := Lexer.next_fields l
  obtain ⟨r, hr⟩ := Lexer.skipCommentLoop_ok fuel l.next [] (Lexer.next_synced l) (by omega)
    (by rw [hb]; omega)
  unfold Lexer.skipComment
  simp only [Res.bind_eq, hr, Res.bind, Res.pure_eq]
  exact ⟨_, rfl⟩

theorem Lexer.skipMultiLineComment_ok (fuel : Nat) (l : Lexer)
    (hf : l.buff.length + 2 ≤ fuel) : ∃ r, Lexer.skipMultiLineComment fuel l = .ok r := by
  obtain ⟨r, hr⟩ := Lexer.skipMultiLineCommentLoop_ok fuel l [] (by omega) (by omega)
  unfold Lexer.skipMultiLineComment
  simp only [Res.bind_eq, hr, Res.bind, Res.pure_eq]
  exact ⟨_, rfl⟩

theorem Lexer.skipString_ok (fuel : Nat) (l : Lexer) (hf : l.buff.length + 2 ≤ fuel) :
    ∃ r, Lexer.skipString fuel l = .ok r := by
  obtain ⟨hb, hn, _, _, _⟩ := Lexer.next_fields l
  obtain ⟨r, hr⟩ := Lexer.skipStringLoop_ok fuel l.next [] (Lexer.next_synced l) (by omega)
    (by rw [hb]; omega)
  unfold Lexer.skipString
  simp only [Res.bind_eq, hr, Res.bind, Res.pure_eq]
  exact ⟨_, rfl⟩

theorem Lexer.skipNumeric_ok (fuel : Nat) (l : Lexer) (hf : l.buff.length + 2 ≤ fuel) :
    ∃ r, Lexer.skipNumeric fuel l = .ok r := by
  obtain ⟨r, hr⟩ := Lexer.skipNumericLoop_ok fuel l [l.chr] false false (by omega) (by omega)
  unfold Lexer.skipNumeric
  simp only [Res.bind_eq, hr, Res.bind, Res.pure_eq]
  split <;> exact ⟨_, rfl⟩

theorem Lexer.skipSpecialInteger_ok (fn : Char → Bool) (hfn : fn nul = false) (fuel : Nat)
    (l : Lexer) (hf : l.buff.length + 2 ≤ fuel) :
    ∃ r, Lexer.skipSpecialInteger fn fuel l = .ok r := by
  obtain ⟨hb, hn, _, _, _⟩ := Lexer.next_fields l
  obtain ⟨r, hr⟩ := Lexer.skipSpecialIntegerLoop_ok fn hfn fuel l.next [l.chr, l.peek]
    (by omega) (by rw [hb]; omega)
  unfold Lexer.skipSpecialInteger
  simp only [Res.bind_eq, hr, Res.bind, Res.pure_eq]
  exact ⟨_, rfl⟩

theorem Lexer.skipIdentifier_ok (fuel : Nat) (l : Lexer) (hf : l.buff.length + 2 ≤ fuel) :
    ∃ r, Lexer.skipIdentifier fuel l = .ok r := by
  obtain ⟨r, hr⟩ := Lexer.readNameLoop_ok fuel l [l.chr] (by omega) (by omega)
  unfold Lexer.skipIdentifier Lexer.readName
  simp only [Res.bind_eq, hr, Res.bind, Res.pure_eq]
  split <;> exact ⟨_, rfl⟩

theorem Lexer.nextTokenSwitch_ok (fuel : Nat) (l : Lexer) (hf : l.buff.length + 2 ≤ fuel) :
    ∃ r, Lexer.nextTokenSwitch fuel l = .ok r := by
  have hnext : l.next.buff.length + 2 ≤ fuel := by
    rw [(Lexer.next_fields l).1]
    exact hf
  unfold Lexer.nextTokenSwitch
  repeat' first
    | (apply Res.ite_ok <;> intro _)
    | exact Lexer.skipComment_ok fuel _ hnext
    | exact Lexer.skipMultiLineComment_ok fuel _ hnext
    | exact Lexer.skipString_ok fuel _ hf
    | exact Lexer.skipSpecialInteger_ok isHex (by decide) fuel _ hf
    | exact Lexer.skipSpecialInteger_ok isOctal (by decide) fuel _ hf
    | exact Lexer.skipSpecialInteger_ok isBinary (by decide) fuel _ hf
    | exact Lexer.skipNumeric_ok fuel _ hf
    | exact Lexer.skipIdentifier_ok fuel _ hf
    | exact ⟨_, rfl⟩

/-- With the fuel of the length of the buffer and two more, `NextToken` returns a token on
every lexer. -/
theorem Lexer.NextToken_ok (l : Lexer) :
    ∃ r, Lexer.NextToken (l.buff.length + 2) l = .ok r := by
  obtain ⟨hb, hn, _, _, _⟩ := Lexer.next_fields l
  have hws : ∃ r, Lexer.skipWhiteSpace (l.buff.length + 1 + 1) l = .ok r ∧ r.buff = l.buff := by
    rw [Lexer.skipWhiteSpace]
    by_cases hc : l.chr = ' ' ∨ l.chr = '\t' ∨ l.chr = '\r'
    · rw [if_pos hc]
      obtain ⟨r, h1, h2⟩ := Lexer.skipWhiteSpace_ok (l.buff.length + 1) l.next
        (Lexer.next_synced l) (by omega) (by rw [hb, hn]; omega)
      exact ⟨r, h1, h2.trans hb⟩
    · rw [if_neg hc]
      exact ⟨l, rfl, rfl⟩
  obtain ⟨r, h1, h2⟩ := hws
  obtain ⟨r2, h3⟩ := Lexer.nextTokenSwitch_ok (l.buff.length + 2) r (by rw [h2])
  unfold Lexer.NextToken
  simp only [Res.bind_eq, h1, h3, Res.bind, Res.pure_eq]
  exact ⟨_, rfl⟩

end Oro.lexer

namespace Oro.parser
open Oro token

/-- The parser's environment over the lexer hands out the token `NextToken` returns: the
calls of the lexer it makes all return. -/
theorem lexerEnv_NextToken (ParseFloat : String → Option Float64) (l : lexer.Lexer) :
    lexer.Lexer.NextToken (l.buff.length + 2) l = .ok ((lexerEnv ParseFloat).NextToken l) := by
  obtain ⟨r, hr⟩ := lexer.Lexer.NextToken_ok l
  rw [hr]
  unfold lexerEnv
  simp only [hr]

end Oro.parser
namespace Oro.strconv
open Oro lexer parser

/-! ## Integer literals -/

theorem toNat_le_of_le (c d : Char) (h : c ≤ d) : c.toNat ≤ d.toNat := h

theorem digitsValue_nil (b : Nat) : digitsValue b [] = 0 := rfl

theorem digitsValue_cons (b : Nat) (c : Char) (cs : List Char) :
    digitsValue b (c :: cs) = (digit c).getD 0 * b ^ cs.length + digitsValue b cs := by
  unfold digitsValue
  rw [List.reverse_cons, List.map_append, Nat.ofDigits_append]
  simp [Nat.ofDigits_singleton, Nat.mul_comm, Nat.add_comm]

/-- A byte that `digit` gives a value is not the underscore. -/
theorem digit_underscore : digit '_' = none := by decide

/-- The loop of `ParseUint` on digits below the base reads the number they write. -/
theorem parseUintLoop_digits (b : Nat) (base0 : Bool) : ∀ (s : List Char) (n : Nat),
    (∀ c ∈ s, ∃ d, digit c = some d ∧ d < b) →
    parseUintLoop b base0 s n = some (n * b ^ s.length + digitsValue b s) := by
  intro s
  induction s with
  | nil =>
    intro n _
    simp [parseUintLoop, digitsValue_nil]
  | cons c cs ih =>
    intro n h
    obtain ⟨d, hd, hlt⟩ := h c (List.mem_cons_self _ _)
    have hne : c ≠ '_' := by
      intro hc
      rw [hc, digit_underscore] at hd
      cases hd
    rw [parseUintLoop, if_neg (fun hh => hne hh.1), hd]
    simp only [ge_iff_le, Nat.not_le.mpr hlt, if_false]
    rw [ih (n * b + d) (fun x hx => h x (List.mem_cons_of_mem _ hx)), digitsValue_cons, hd]
    simp only [Option.getD_some, List.length_cons, pow_succ]
    ring_nf

theorem digit_isNumber (c : Char) (h : isNumber c = true) :
    ∃ d, digit c = some d ∧ d < 10 := by
  unfold isNumber at h
  simp only [decide_eq_true_eq] at h
  have h2 := toNat_le_of_le c '9' h.2
  have h9 : ('9' : Char).toNat = 57 := rfl
  refine ⟨c.toNat - 48, ?_, by omega⟩
  unfold digit
  rw [if_pos h]

theorem digit_isOctal (c : Char) (h : isOctal c = true) :
    ∃ d, digit c = some d ∧ d < 8 := by
  unfold isOctal at h
  simp only [decide_eq_true_eq] at h
  have h2 := toNat_le_of_le c '7' h.2
  have h7 : ('7' : Char).toNat = 55 := rfl
  refine ⟨c.toNat - 48, ?_, by omega⟩
  unfold digit
  rw [if_pos ⟨h.1, le_trans h.2 (by decide)⟩]

theorem digit_isBinary (c : Char) (h : isBinary c = true) :
    ∃ d, digit c = some d ∧ d < 2 := by
  unfold isBinary at h
  simp only [decide_eq_true_eq] at h
  rcases h with rfl | rfl
  · exact ⟨0, by decide, by decide⟩
  · exact ⟨1, by decide, by decide⟩

theorem digit_isHex (c : Char) (h : isHex c = true) :
    ∃ d, digit c = some d ∧ d < 16 := by
  unfold isHex at h
  simp only [Bool.or_eq_true, decide_eq_true_eq] at h
  rcases h with h | h | h
  · obtain ⟨d, hd, hlt⟩ := digit_isNumber c h
    exact ⟨d, hd, by omega⟩
  · have h1 := toNat_le_of_le 'a' c h.1
    have h2 := toNat_le_of_le c 'f' h.2
    have ha : ('a' : Char).toNat = 97 := rfl
    have hf : ('f' : Char).toNat = 102 := rfl
    have h9 : ('9' : Char).toNat = 57 := rfl
    refine ⟨c.toNat - 97 + 10, ?_, by omega⟩
    unfold digit
    rw [if_neg (fun hh => by have := toNat_le_of_le c '9' hh.2; omega),
      if_pos ⟨h.1, le_trans h.2 (by decide)⟩]
  · have h1 := toNat_le_of_le 'A' c h.1
    have h2 := toNat_le_of_le c 'F' h.2
    have ha : ('A' : Char).toNat = 65 := rfl
    have hf : ('F' : Char).toNat = 70 := rfl
    have h9 : ('9' : Char).toNat = 57 := rfl
    have hla : ('a' : Char).toNat = 97 := rfl
    refine ⟨c.toNat - 65 + 10, ?_, by omega⟩
    unfold digit
    rw [if_neg (fun hh => by have := toNat_le_of_le c '9' hh.2; omega),
      if_neg (fun hh => by have := toNat_le_of_le 'a' c hh.1; omega),
      if_pos ⟨h.1, le_trans h.2 (by decide)⟩]

theorem ParseUint_of (s : List Char) (base b : Nat) (digits : List Char) (hs : s ≠ [])
    (hsplit : splitBase s base = some (b, digits))
    (hdig : ∀ c ∈ digits, ∃ d, digit c = some d ∧ d < b)
    (hval : digitsValue b digits < 2 ^ 64) :
    ParseUint s base = some (digitsValue b digits) := by
  have hmem : ¬ ('_' ∈ digits) := by
    intro h
    obtain ⟨d, hd, _⟩ := hdig '_' h
    rw [digit_underscore] at hd
    cases hd
  unfold ParseUint
  rw [if_neg hs, hsplit]
  simp only [parseUintLoop_digits b _ digits 0 hdig, Nat.zero_mul, Nat.zero_add, ge_iff_le,
    Nat.not_le.mpr hval, if_false, hmem, false_and, and_false]

theorem ParseInt_of (s : String) (c : Char) (rest : List Char) (base b : Nat)
    (digits : List Char) (hdata : s.data = c :: rest) (hp : c ≠ '+') (hm : c ≠ '-')
    (hsplit : splitBase (c :: rest) base = some (b, digits))
    (hdig : ∀ c ∈ digits, ∃ d, digit c = some d ∧ d < b)
    (hval : digitsValue b digits < 2 ^ 63) :
    ParseInt s base = some (digitsValue b digits : Int) := by
  unfold ParseInt
  rw [hdata]
  simp only [hp, hm, or_self, if_false, decide_False,
    ParseUint_of (c :: rest) base b digits (by simp) hsplit hdig (by omega), ge_iff_le,
    Nat.not_le.mpr hval, and_false, Bool.false_eq_true, false_and]

theorem isNumber_not_sign (c : Char) (h : isNumber c = true) : c ≠ '+' ∧ c ≠ '-' :=
  ⟨fun hc => by subst hc; exact absurd h (by decide),
    fun hc => by subst hc; exact absurd h (by decide)⟩

theorem splitBase_decimal (c : Char) (cs : List Char) (h0 : c ≠ '0') :
    splitBase (c :: cs) 0 = some (10, c :: cs) := by
  unfold splitBase
  rw [if_neg (by omega), if_pos rfl]
  split
  · rename_i rest heq
    exact absurd (List.cons.inj heq).1 h0
  · rfl

theorem splitBase_octal (cs : List Char) (hcs : ∀ x ∈ cs, isOctal x = true) :
    splitBase ('0' :: cs) 0 = some (8, cs) := by
  unfold splitBase
  rw [if_neg (by omega), if_pos rfl]
  match cs, hcs with
  | [], _ => rfl
  | [_], _ => rfl
  | p :: q :: r, hcs =>
    have hp := hcs p (List.mem_cons_self _ _)
    have hne : ∀ d, isOctal d = false → ¬ (p = d) := fun d hd hpd => by
      rw [hpd, hd] at hp
      cases hp
    simp only [hne 'b' (by decide), hne 'B' (by decide), hne 'o' (by decide),
      hne 'O' (by decide), hne 'x' (by decide), hne 'X' (by decide), or_self, if_false]

theorem splitBase_hex (d : Char) (ds : List Char) :
    splitBase ('0' :: 'x' :: d :: ds) 0 = some (16, d :: ds) := by
  unfold splitBase
  rw [if_neg (by omega), if_pos rfl]
  rfl

theorem splitBase_binary (s : List Char) : splitBase s 2 = some (2, s) := by
  unfold splitBase
  rw [if_pos (by omega)]

end Oro.strconv
namespace Oro.parser
open Oro token ast lexer

theorem parseInteger_ParseInt {L : Type} (env : Env L) (fuel : Nat) (p : Parser L)
    (s : String) (base : Nat) (v : Int)
    (hcall : (if "0b".data.isPrefixOf p.token.Literal.data then
        env.ParseInt (String.mk (p.token.Literal.data.drop 2)) 2
      else if "0x".data.isPrefixOf p.token.Literal.data then env.ParseInt p.token.Literal 0
      else if "0o".data.isPrefixOf p.token.Literal.data then
        env.ParseInt (String.mk (p.token.Literal.data.take 1 ++ p.token.Literal.data.drop 2)) 0
      else env.ParseInt p.token.Literal 0) = env.ParseInt s base)
    (hv : env.ParseInt s base = some v) :
    parseInteger env fuel p = .ok (.Integer p.token v, p) := by
  unfold parseInteger
  simp only [hcall, hv]

theorem isPrefixOf_two (a b : Char) (l : List Char) :
    "0b".data = ['0', 'b'] ∧ "0x".data = ['0', 'x'] ∧ "0o".data = ['0', 'o'] ∧
    ([a, b].isPrefixOf l = true ↔ ∃ r, l = a :: b :: r) := by
  refine ⟨rfl, rfl, rfl, ?_⟩
  match l with
  | [] => simp [List.isPrefixOf]
  | [x] => simp [List.isPrefixOf]
  | x :: y :: r =>
    constructor
    · intro h
      simp only [List.isPrefixOf, Bool.and_true, Bool.and_eq_true, beq_iff_eq] at h
      obtain ⟨rfl, rfl⟩ := h
      exact ⟨r, rfl⟩
    · rintro ⟨q, h⟩
      obtain ⟨rfl, h2⟩ := List.cons.inj h
      obtain ⟨rfl, _⟩ := List.cons.inj h2
      simp [List.isPrefixOf]

/-- A literal of decimal digits has none of the prefixes `0b`, `0x` and `0o`. -/
theorem isPrefixOf_digits (a b : Char) (l : List Char) (hb : isNumber b = false)
    (hl : ∀ x ∈ l, isNumber x = true) : [a, b].isPrefixOf l = false := by
  cases h : [a, b].isPrefixOf l with
  | false => rfl
  | true =>
    obtain ⟨r, rfl⟩ := (isPrefixOf_two a b l).2.2.2.mp h
    have := hl b (by simp)
    rw [hb] at this
    cases this

theorem isNumber_of_isOctal (c : Char) (h : isOctal c = true) : isNumber c = true := by
  unfold isOctal at h
  unfold isNumber
  simp only [decide_eq_true_eq] at h ⊢
  exact ⟨h.1, le_trans h.2 (by decide)⟩

/-- C34, as amended.  Let the parser's `ParseInt` be `strconv.ParseInt`, and `ds` a
non-empty string of digits.  If the literal of the current token is `ds`, of decimal digits,
is `0` or does not start with `0`, and writes a number below 2^63 in base 10, `parseInteger`
returns the Integer node of that number and leaves the parser as it was, without a
diagnostic.  If the literal is `0` followed by `ds`, of octal digits, the node holds the
number `ds` writes in base 8.  If the literal is `0b`, `0o` or `0x` followed by `ds`, of
digits of the class of the prefix, the node holds the number `ds` writes in base 2, 8 or
16.  Each time the number is below 2^63. -/
theorem parseInteger_value {L : Type} (env : Env L) (fuel : Nat) (p : Parser L)
    (ds : List Char) (henv : env.ParseInt = strconv.ParseInt) (hds : ds ≠ []) :
    (p.token.Literal = String.mk ds → (∀ x ∈ ds, isNumber x = true) →
      (ds = ['0'] ∨ ds.head? ≠ some '0') → digitsValue 10 ds < 2 ^ 63 →
      parseInteger env fuel p = .ok (.Integer p.token (digitsValue 10 ds : Nat), p)) ∧
    (p.token.Literal = String.mk ('0' :: ds) → (∀ x ∈ ds, isOctal x = true) →
      digitsValue 8 ds < 2 ^ 63 →
      parseInteger env fuel p = .ok (.Integer p.token (digitsValue 8 ds : Nat), p)) ∧
    (p.token.Literal = String.mk ('0' :: 'b' :: ds) → (∀ x ∈ ds, isBinary x = true) →
      digitsValue 2 ds < 2 ^ 63 →
      parseInteger env fuel p = .ok (.Integer p.token (digitsValue 2 ds : Nat), p)) ∧
    (p.token.Literal = String.mk ('0' :: 'o' :: ds) → (∀ x ∈ ds, isOctal x = true) →
      digitsValue 8 ds < 2 ^ 63 →
      parseInteger env fuel p = .ok (.Integer p.token (digitsValue 8 ds : Nat), p)) ∧
    (p.token.Literal = String.mk ('0' :: 'x' :: ds) → (∀ x ∈ ds, isHex x = true) →
      digitsValue 16 ds < 2 ^ 63 →
      parseInteger env fuel p = .ok (.Integer p.token (digitsValue 16 ds : Nat), p)) := by
  obtain ⟨d, ds, rfl⟩ : ∃ d r, ds = d :: r := by
    cases ds with
    | nil => exact absurd rfl hds
    | cons d r => exact ⟨d, r, rfl⟩
  have hbx : isNumber 'b' = false ∧ isNumber 'x' = false ∧ isNumber 'o' = false :=
    ⟨by decide, by decide, by decide⟩
  refine ⟨?_, ?_, ?_, ?_, ?_⟩
  · intro hlit hnum hzero hval
    have hd := hnum d (List.mem_cons_self _ _)
    apply parseInteger_ParseInt env fuel p (String.mk (d :: ds)) 0
    · rw [hlit]
      show (if List.isPrefixOf ['0', 'b'] (d :: ds) = true then _
        else if List.isPrefixOf ['0', 'x'] (d :: ds) = true then _
        else if List.isPrefixOf ['0', 'o'] (d :: ds) = true then _ else _) = _
      rw [isPrefixOf_digits '0' 'b' _ hbx.1 hnum, isPrefixOf_digits '0' 'x' _ hbx.2.1 hnum,
        isPrefixOf_digits '0' 'o' _ hbx.2.2 hnum]
      rfl
    · rw [henv]
      rcases hzero with hz | hz
      · obtain ⟨rfl, rfl⟩ := List.cons.inj hz
        rfl
      · have h0 : d ≠ '0' := fun h => hz (by rw [h]; rfl)
        exact strconv.ParseInt_of _ d ds 0 10 (d :: ds) rfl
          (strconv.isNumber_not_sign d hd).1 (strconv.isNumber_not_sign d hd).2
          (strconv.splitBase_decimal d ds h0) (fun c hc => strconv.digit_isNumber c (hnum c hc))
          hval
  · intro hlit hoct hval
    have hnum : ∀ x ∈ '0' :: d :: ds, isNumber x = true := by
      intro x hx
      rcases List.mem_cons.mp hx with rfl | hx
      · decide
      · exact isNumber_of_isOctal x (hoct x hx)
    apply parseInteger_ParseInt env fuel p (String.mk ('0' :: d :: ds)) 0
    · rw [hlit]
      show (if List.isPrefixOf ['0', 'b'] ('0' :: d :: ds) = true then _
        else if List.isPrefixOf ['0', 'x'] ('0' :: d :: ds) = true then _
        else if List.isPrefixOf ['0', 'o'] ('0' :: d :: ds) = true then _ else _) = _
      rw [isPrefixOf_digits '0' 'b' _ hbx.1 hnum, isPrefixOf_digits '0' 'x' _ hbx.2.1 hnum,
        isPrefixOf_digits '0' 'o' _ hbx.2.2 hnum]
      rfl
    · rw [henv]
      exact strconv.ParseInt_of _ '0' (d :: ds) 0 8 (d :: ds) rfl (by decide) (by decide)
        (strconv.splitBase_octal (d :: ds) hoct)
        (fun c hc => strconv.digit_isOctal c (hoct c hc)) hval
  · intro hlit hbin hval
    have hd := hbin d (List.mem_cons_self _ _)
    have hsign : d ≠ '+' ∧ d ≠ '-' :=
      ⟨fun hc => by subst hc; exact absurd hd (by decide),
        fun hc => by subst hc; exact absurd hd (by decide)⟩
    apply parseInteger_ParseInt env fuel p (String.mk (d :: ds)) 2
    · rw [hlit]
      rfl
    · rw [henv]
      exact strconv.ParseInt_of _ d ds 2 2 (d :: ds) rfl hsign.1 hsign.2
        (strconv.splitBase_binary _) (fun c hc => strconv.digit_isBinary c (hbin c hc)) hval
  · intro hlit hoct hval
    apply parseInteger_ParseInt env fuel p (String.mk ('0' :: d :: ds)) 0
    · rw [hlit]
      rfl
    · rw [henv]
      exact strconv.ParseInt_of _ '0' (d :: ds) 0 8 (d :: ds) rfl (by decide) (by decide)
        (strconv.splitBase_octal (d :: ds) hoct)
        (fun c hc => strconv.digit_isOctal c (hoct c hc)) hval
  · intro hlit hhex hval
    apply parseInteger_ParseInt env fuel p (String.mk ('0' :: 'x' :: d :: ds)) 0
    · rw [hlit]
      rfl
    · rw [henv]
      exact strconv.ParseInt_of _ '0' ('x' :: d :: ds) 0 16 (d :: ds) rfl (by decide)
        (by decide) (strconv.splitBase_hex d ds)
        (fun c hc => strconv.digit_isHex c (hhex c hc)) hval


/-- C34 as amended, on the literals of the sources `12345`, `10`, `0`, `017`, `0b101`,
`0o17` and `0x1F`, each lexed by `lexer.New` and read by `parser.New`. -/
theorem parseInteger_value_witness :
    parseInteger (lexerEnv fun _ => none) 1
        (New (lexerEnv fun _ => none) (lexer.New "12345".data)) =
      .ok (.Integer ⟨.Integer, "12345", ⟨1, 7⟩⟩ 12345,
        New (lexerEnv fun _ => none) (lexer.New "12345".data)) ∧
    parseInteger (lexerEnv fun _ => none) 1
        (New (lexerEnv fun _ => none) (lexer.New "10".data)) =
      .ok (.Integer ⟨.Integer, "10", ⟨1, 4⟩⟩ 10,
        New (lexerEnv fun _ => none) (lexer.New "10".data)) ∧
    parseInteger (lexerEnv fun _ => none) 1
        (New (lexerEnv fun _ => none) (lexer.New "0".data)) =
      .ok (.Integer ⟨.Integer, "0", ⟨1, 3⟩⟩ 0,
        New (lexerEnv fun _ => none) (lexer.New "0".data)) ∧
    parseInteger (lexerEnv fun _ => none) 1
        (New (lexerEnv fun _ => none) (lexer.New "017".data)) =
      .ok (.Integer ⟨.Integer, "017", ⟨1, 5⟩⟩ 15,
        New (lexerEnv fun _ => none) (lexer.New "017".data)) ∧
    parseInteger (lexerEnv fun _ => none) 1
        (New (lexerEnv fun _ => none) (lexer.New "0b101".data)) =
      .ok (.Integer ⟨.Integer, "0b101", ⟨1, 6⟩⟩ 5,
        New (lexerEnv fun _ => none) (lexer.New "0b101".data)) ∧
    parseInteger (lexerEnv fun _ => none) 1
        (New (lexerEnv fun _ => none) (lexer.New "0o17".data)) =
      .ok (.Integer ⟨.Integer, "0o17", ⟨1, 5⟩⟩ 15,
        New (lexerEnv fun _ => none) (lexer.New "0o17".data)) ∧
    parseInteger (lexerEnv fun _ => none) 1
        (New (lexerEnv fun _ => none) (lexer.New "0x1F".data)) =
      .ok (.Integer ⟨.Integer, "0x1F", ⟨1, 5⟩⟩ 31,
        New (lexerEnv fun _ => none) (lexer.New "0x1F".data)) :=
  ⟨(parseInteger_value (lexerEnv fun _ => none) 1
      (New (lexerEnv fun _ => none) (lexer.New "12345".data)) ['1', '2', '3', '4', '5'] rfl
      (by simp)).1 rfl (by decide) (Or.inr (by decide)) (by decide),
   (parseInteger_value (lexerEnv fun _ => none) 1
      (New (lexerEnv fun _ => none) (lexer.New "10".data)) ['1', '0'] rfl
      (by simp)).1 rfl (by decide) (Or.inr (by decide)) (by decide),
   (parseInteger_value (lexerEnv fun _ => none) 1
      (New (lexerEnv fun _ => none) (lexer.New "0".data)) ['0'] rfl
      (by simp)).1 rfl (by decide) (Or.inl rfl) (by decide),
   (parseInteger_value (lexerEnv fun _ => none) 1
      (New (lexerEnv fun _ => none) (lexer.New "017".data)) ['1', '7'] rfl
      (by simp)).2.1 rfl (by decide) (by decide),
   (parseInteger_value (lexerEnv fun _ => none) 1
      (New (lexerEnv fun _ => none) (lexer.New "0b101".data)) ['1', '0', '1'] rfl
      (by simp)).2.2.1 rfl (by decide) (by decide),
   (parseInteger_value (lexerEnv fun _ => none) 1
      (New (lexerEnv fun _ => none) (lexer.New "0o17".data)) ['1', '7'] rfl
      (by simp)).2.2.2.1 rfl (by decide) (by decide),
   (parseInteger_value (lexerEnv fun _ => none) 1
      (New (lexerEnv fun _ => none) (lexer.New "0x1F".data)) ['1', 'F'] rfl
      (by simp)).2.2.2.2 rfl (by decide) (by decide)⟩

/-- C34 does not hold as stated.  `parseInteger` calls `strconv.ParseInt` with the base 0,
which reads a literal with a leading `0` in base 8: the source `010`, a string of decimal
digits whose decimal value is 10, parses to the Integer node of 8, and the source `09`
leaves the diagnostic `Couldn't parse 09 as Integer` and no node.  The source
`9223372036854775808`, whose value is 2^63, leaves a diagnostic too: the value has to fit
the 64 bits of a signed number. -/
theorem parseInteger_leading_zero :
    parseInteger (lexerEnv fun _ => none) 1
        (New (lexerEnv fun _ => none) (lexer.New "010".data)) =
      .ok (.Integer ⟨.Integer, "010", ⟨1, 5⟩⟩ 8,
        New (lexerEnv fun _ => none) (lexer.New "010".data)) ∧
    digitsValue 10 "010".data = 10 ∧
    (∃ p : Parser lexer.Lexer,
      parseInteger (lexerEnv fun _ => none) 2
          (New (lexerEnv fun _ => none) (lexer.New "09".data)) = .ok (.absent, p) ∧
      p.errors = [⟨.Parse, ⟨1, 4⟩, "Couldn't parse 09 as Integer"⟩]) ∧
    digitsValue 10 "9223372036854775808".data = 2 ^ 63 ∧
    ∃ p : Parser lexer.Lexer,
      parseInteger (lexerEnv fun _ => none) 2
          (New (lexerEnv fun _ => none) (lexer.New "9223372036854775808".data)) =
        .ok (.absent, p) ∧
      p.errors = [⟨.Parse, ⟨1, 21⟩, "Couldn't parse 9223372036854775808 as Integer"⟩] := by
  refine ⟨rfl, by decide, ⟨_, rfl, rfl⟩, by decide, ⟨_, rfl, rfl⟩⟩

end Oro.parser
namespace Oro.interpreter
open Oro token ast runtime

/-! ## A function literal, end to end -/

/-- C35 does not hold as stated.  The source of the claim lexes without a diagnostic, and
`parseFunction` goes on reading parameters until a `do` or a newline: after `-> Integer`
it takes `x` as a parameter and stops at `+` with the diagnostic `Unexpected token '+' as
function parameter`.  The program that is left evaluates, in an interpreter that has loaded
its standard library, to no value. -/
theorem Parse_function_without_do :
    ∃ (program : Node) (p : parser.Parser lexer.Lexer),
      parser.Parse (parser.lexerEnv fun _ => none) 40
          (parser.New (parser.lexerEnv fun _ => none)
            (lexer.New "val add = fn (x, y) -> Integer x + y end add(3, 4)".data)) =
        .ok (program, p) ∧
      p.lexer.errors = [] ∧
      p.errors = [⟨.Parse, ⟨1, 35⟩, "Unexpected token '+' as function parameter"⟩] ∧
      ∃ st : State,
        Interpreter.Interpreter fullExt 10 program ⟨⟨[], [], [], [], true⟩, NewScope, []⟩ =
          .ok (.absent, st) :=
  ⟨_, _, rfl, rfl, rfl, _, rfl⟩

/-- The first call of `Interpreter` on a fresh interpreter loads the standard library, and
goes on as the call from the state the loading leaves, when it returns no error and has set
the flag `useStdlib`. -/
theorem Interpreter_loads (ext : Interpreter.Ext) (fuel : Nat) (ni : Node) (st st1 : State)
    (hflag : st.i.useStdlib = false) (hload : ext.useStdLibModules st = .ok (none, st1))
    (hset : st1.i.useStdlib = true) :
    Interpreter.Interpreter ext (fuel + 1) ni st = Interpreter.Interpreter ext (fuel + 1) ni st1 := by
  rw [Interpreter.Interpreter, Interpreter.Interpreter]
  simp only [hflag, hset, hload, Bool.false_eq_true, if_false, if_true, Res.bind_eq, Res.bind,
    Res.pure_eq]

/-- C35, as amended.  Let the loading of the standard library, from the fresh interpreter
and scope, succeed and register modules: it returns no error and leaves the state of a
fresh interpreter with the flag `useStdlib` set and the map `modules` filled.  Then the
source of the claim with `do` after the return type lexes and parses without a diagnostic,
and the program evaluates, in the fresh interpreter and scope, to the Integer 7 without a
diagnostic, whatever the modules are. -/
theorem Interpreter_function_with_do (ParseFloat : String → Option Float64)
    (Modules : List String) (pfuel ifuel : Nat)
    (modules : List (String × (Identifier × BlockStatement)))
    (hload : Interpreter.useStdLibModules (parser.lexerEnv ParseFloat) pfuel
        (Interpreter.Interpreter fullExt ifuel) Modules ⟨New, NewScope, []⟩ =
      .ok (none, ⟨⟨modules, [], [], [], true⟩, NewScope, []⟩)) :
    ∃ (program : Node) (p : parser.Parser lexer.Lexer),
      parser.Parse (parser.lexerEnv fun _ => none) 40
          (parser.New (parser.lexerEnv fun _ => none)
            (lexer.New "val add = fn (x, y) -> Integer do x + y end add(3, 4)".data)) =
        .ok (program, p) ∧
      p.lexer.errors = [] ∧ p.errors = [] ∧
      ∃ st : State,
        Interpreter.Interpreter (freshExt ParseFloat Modules pfuel ifuel) 10 program
            ⟨New, NewScope, []⟩ = .ok (.TInteger 7, st) ∧
        st.errors = [] ∧ st.i.modules = modules := by
  refine ⟨_, _, rfl, rfl, rfl, ?_⟩
  rw [Interpreter_loads (freshExt ParseFloat Modules pfuel ifuel) 9 _ ⟨New, NewScope, []⟩
    ⟨⟨modules, [], [], [], true⟩, NewScope, []⟩ rfl hload rfl]
  exact ⟨_, rfl, rfl, rfl⟩

/-- C35 as amended, with the one module `M` for the standard library: the loading from the
fresh interpreter returns no error and registers the module, and the program evaluates to
the Integer 7. -/
theorem Interpreter_function_with_do_witness :
    ∃ modules : List (String × (Identifier × BlockStatement)),
      Interpreter.useStdLibModules (parser.lexerEnv fun _ => none) 20
          (Interpreter.Interpreter fullExt 5) ["module M\n  val a = 1\nend"]
          ⟨New, NewScope, []⟩ =
        .ok (none, ⟨⟨modules, [], [], [], true⟩, NewScope, []⟩) ∧
      modules.map Prod.fst = ["M"] ∧
      ∃ (program : Node) (p : parser.Parser lexer.Lexer),
        parser.Parse (parser.lexerEnv fun _ => none) 40
            (parser.New (parser.lexerEnv fun _ => none)
              (lexer.New "val add = fn (x, y) -> Integer do x + y end add(3, 4)".data)) =
          .ok (program, p) ∧
        p.lexer.errors = [] ∧ p.errors = [] ∧
        ∃ st : State,
          Interpreter.Interpreter
              (freshExt (fun _ => none) ["module M\n  val a = 1\nend"] 20 5) 10 program
              ⟨New, NewScope, []⟩ = .ok (.TInteger 7, st) ∧
          st.errors = [] ∧ st.i.modules = modules :=
  ⟨_, rfl, rfl,
    Interpreter_function_with_do (fun _ => none) ["module M\n  val a = 1\nend"] 20 5 _ rfl⟩

end Oro.interpreter
namespace Oro.interpreter

open Oro token ast runtime

/-! ## Integers under the infix operators -/

/-- C36 does not hold on the code.  The source `1 % 0` lexes and parses without a
diagnostic to a program whose evaluation faults: the case `%` of `IntegerInfix` takes the
remainder with no test of the divisor, and the remainder by zero is a fault for every
dividend, whereas the case `/` returns the error "Division by 0".  With a divisor other
than zero `%` returns the remainder, and every operator other than `%` and `..` returns a
value or an error for all operands. -/
theorem IntegerInfix_modulus_by_zero :
    (∃ (program : Node) (p : parser.Parser lexer.Lexer),
      parser.Parse (parser.lexerEnv fun _ => none) 12
          (parser.New (parser.lexerEnv fun _ => none) (lexer.New "1 % 0".data)) =
        .ok (program, p) ∧
      p.errors = [] ∧ p.lexer.errors = [] ∧
      Interpreter.Interpreter fullExt 6 program ⟨⟨[], [], [], [], true⟩, NewScope, []⟩ =
        .fault) ∧
    (∀ (ext : Interpreter.Ext) (a : Int), Interpreter.IntegerInfix ext "%" a 0 = .fault) ∧
    (∀ (ext : Interpreter.Ext) (a : Int),
      Interpreter.IntegerInfix ext "/" a 0 = .ok (.error "Division by 0")) ∧
    (∀ (ext : Interpreter.Ext) (a b : Int), b ≠ 0 →
      Interpreter.IntegerInfix ext "%" a b =
        .ok (.ok (.TInteger (wrap64 (Int.tmod a b))))) ∧
    ∀ (ext : Interpreter.Ext) (operator : String) (a b : Int),
      operator ≠ "%" → operator ≠ ".." →
      ∃ r : Except String Data, Interpreter.IntegerInfix ext operator a b = .ok r := by
  refine ⟨⟨_, _, rfl, rfl, rfl, rfl⟩, fun _ _ => rfl, fun _ _ => rfl, ?_, ?_⟩
  · intro ext a b hb
    unfold Interpreter.IntegerInfix
    rw [if_neg (by decide), if_neg (by decide), if_neg (by decide), if_neg (by decide),
      if_pos rfl, if_neg hb]
  · intro ext operator a b h1 h2
    unfold Interpreter.IntegerInfix
    by_cases h : operator = "+"
    · rw [if_pos h]; exact ⟨_, rfl⟩
    rw [if_neg h]
    clear h
    by_cases h : operator = "-"
    · rw [if_pos h]; exact ⟨_, rfl⟩
    rw [if_neg h]
    clear h
    by_cases h : operator = "*"
    · rw [if_pos h]; exact ⟨_, rfl⟩
    rw [if_neg h]
    clear h
    by_cases h : operator = "/"
    · rw [if_pos h]
      by_cases hb : b = 0
      · rw [if_pos hb]; exact ⟨_, rfl⟩
      · rw [if_neg hb]; exact ⟨_, rfl⟩
    rw [if_neg h]
    clear h
    rw [if_neg h1]
    by_cases h : operator = "**"
    · rw [if_pos h]; exact ⟨_, rfl⟩
    rw [if_neg h]
    clear h
    by_cases h : operator = "<"
    · rw [if_pos h]; exact ⟨_, rfl⟩
    rw [if_neg h]
    clear h
    by_cases h : operator = "<="
    · rw [if_pos h]; exact ⟨_, rfl⟩
    rw [if_neg h]
    clear h
    by_cases h : operator = ">"
    · rw [if_pos h]; exact ⟨_, rfl⟩
    rw [if_neg h]
    clear h
    by_cases h : operator = ">="
    · rw [if_pos h]; exact ⟨_, rfl⟩
    rw [if_neg h]
    clear h
    by_cases h : operator = "<<"
    · rw [if_pos h]
      by_cases hn : a < 0 ∨ b < 0
      · rw [if_pos hn]; exact ⟨_, rfl⟩
      · rw [if_neg hn]
        by_cases hb : b ≥ 64
        · rw [if_pos hb]; exact ⟨_, rfl⟩
        · rw [if_neg hb]; exact ⟨_, rfl⟩
    rw [if_neg h]
    clear h
    by_cases h : operator = ">>"
    · rw [if_pos h]
      by_cases hn : a < 0 ∨ b < 0
      · rw [if_pos hn]; exact ⟨_, rfl⟩
      · rw [if_neg hn]
        by_cases hb : b ≥ 64
        · rw [if_pos hb]; exact ⟨_, rfl⟩
        · rw [if_neg hb]; exact ⟨_, rfl⟩
    rw [if_neg h]
    clear h
    by_cases h : operator = "&"
    · rw [if_pos h]; exact ⟨_, rfl⟩
    rw [if_neg h]
    clear h
    by_cases h : operator = "|"
    · rw [if_pos h]; exact ⟨_, rfl⟩
    rw [if_neg h]
    clear h
    by_cases h : operator = "=="
    · rw [if_pos h]; exact ⟨_, rfl⟩
    rw [if_neg h]
    clear h
    by_cases h : operator = "!="
    · rw [if_pos h]; exact ⟨_, rfl⟩
    rw [if_neg h]
    clear h
    rw [if_neg h2]
    exact ⟨_, rfl⟩

/-! ## Ranges of strings -/

theorem toLower_empty_data : ("".toLower).data = [] := by
  simp [String.toLower, String.map_eq]

theorem RangeStringInfix_empty_left (r : String) (hr : r.utf8ByteSize ≤ 1) :
    Interpreter.RangeStringInfix "" r = .fault := by
  have h0 : ¬ ("".utf8ByteSize > 1 ∨ r.utf8ByteSize > 1) := by
    have : "".utf8ByteSize = 0 := rfl
    omega
  unfold Interpreter.RangeStringInfix
  rw [if_neg h0]
  simp only [toLower_empty_data]

theorem RangeStringInfix_empty_right (l : String) (hl : l.utf8ByteSize ≤ 1) :
    Interpreter.RangeStringInfix l "" = .fault := by
  have h0 : ¬ (l.utf8ByteSize > 1 ∨ "".utf8ByteSize > 1) := by
    have : "".utf8ByteSize = 0 := rfl
    omega
  unfold Interpreter.RangeStringInfix
  rw [if_neg h0]
  simp only [toLower_empty_data]
  split <;> first | rfl | (rename_i h; simp at h)

/-- A program of the one statement `a .. b`, for two string literals, evaluates as
`RangeStringInfix` on the two strings. -/
theorem Interpreter_range_of_strings (t tok t1 t2 : Token) (a b : String) (st : State)
    (hstd : st.i.useStdlib = true) (hfault : Interpreter.RangeStringInfix a b = .fault) :
    Interpreter.Interpreter fullExt 6
        (.Program [.ExpressionStatement t
          (.InfixExpression tok (.String ⟨t1, a⟩) ".." (.String ⟨t2, b⟩))]) st = .fault := by
  simp only [Interpreter.Interpreter, hstd, if_true, Res.pure_eq, Res.bind_eq, Res.bind,
    Interpreter.Program, Interpreter.programLoop, Interpreter.InfixExpression]
  simp [Interpreter.infixSwitch, Interpreter.StringInfix, hfault, Data.Type, Res.bind,
    Interpreter.isType]

/-- C37 does not hold on the code.  The sources `"".."a"` and `"a"..""` lex and parse
without a diagnostic to programs whose evaluation faults: `RangeStringInfix` rejects the
strings of more than one byte only, and then reads the first rune of each string, which the
empty string does not have.  So the range of the empty string and a string of at most one
byte, on either side, is a fault, and the range of two strings one of which has more than
one byte is the error the claim states. -/
theorem RangeStringInfix_empty_faults :
    (∃ (program : Node) (p : parser.Parser lexer.Lexer),
      parser.Parse (parser.lexerEnv fun _ => none) 12
          (parser.New (parser.lexerEnv fun _ => none)
            (lexer.New [lexer.quote, lexer.quote, '.', '.', lexer.quote, 'a',
              lexer.quote])) = .ok (program, p) ∧
      p.errors = [] ∧ p.lexer.errors = [] ∧
      Interpreter.Interpreter fullExt 6 program ⟨⟨[], [], [], [], true⟩, NewScope, []⟩ =
        .fault) ∧
    (∃ (program : Node) (p : parser.Parser lexer.Lexer),
      parser.Parse (parser.lexerEnv fun _ => none) 12
          (parser.New (parser.lexerEnv fun _ => none)
            (lexer.New [lexer.quote, 'a', lexer.quote, '.', '.', lexer.quote,
              lexer.quote])) = .ok (program, p) ∧
      p.errors = [] ∧ p.lexer.errors = [] ∧
      Interpreter.Interpreter fullExt 6 program ⟨⟨[], [], [], [], true⟩, NewScope, []⟩ =
        .fault) ∧
    (∀ r : String, r.utf8ByteSize ≤ 1 → Interpreter.RangeStringInfix "" r = .fault) ∧
    (∀ l : String, l.utf8ByteSize ≤ 1 → Interpreter.RangeStringInfix l "" = .fault) ∧
    ∀ l r : String, l.utf8ByteSize > 1 ∨ r.utf8ByteSize > 1 →
      Interpreter.RangeStringInfix l r =
        .ok (.error "Range operator expects 2 single character strings") := by
  refine ⟨⟨_, _, rfl, rfl, rfl, ?_⟩, ⟨_, _, rfl, rfl, rfl, ?_⟩,
    RangeStringInfix_empty_left, RangeStringInfix_empty_right, ?_⟩
  · exact Interpreter_range_of_strings _ _ _ _ "" "a" _ rfl
      (RangeStringInfix_empty_left "a" (by decide))
  · exact Interpreter_range_of_strings _ _ _ _ "a" "" _ rfl
      (RangeStringInfix_empty_right "a" (by decide))
  · intro l r h
    unfold Interpreter.RangeStringInfix
    rw [if_pos h]

/-! ## Writes through a subscript without an index -/

/-- C38 does not hold on the code.  The source of `var s = "abc"`, a newline and
`s[] = "x"` lexes and parses without a diagnostic to a program whose evaluation faults.
The second case of `AssignSubscript` is taken whenever the index is a PlaceHolder, whatever
the type of the original value, and asserts that the original value is an Array: with a
PlaceHolder index, an original value that is not an Array is a fault, and an Array gets the
value appended. -/
theorem AssignSubscript_placeholder_faults :
    (∃ (program : Node) (p : parser.Parser lexer.Lexer),
      parser.Parse (parser.lexerEnv fun _ => none) 16
          (parser.New (parser.lexerEnv fun _ => none)
            (lexer.New (['v', 'a', 'r', ' ', 's', ' ', '=', ' ', lexer.quote, 'a', 'b', 'c',
              lexer.quote, lexer.newline, 's', '[', ']', ' ', '=', ' ', lexer.quote, 'x',
              lexer.quote]))) = .ok (program, p) ∧
      p.errors = [] ∧ p.lexer.errors = [] ∧
      Interpreter.Interpreter fullExt 8 program ⟨⟨[], [], [], [], true⟩, NewScope, []⟩ =
        .fault) ∧
    (∀ (ops : Ops) (index : Node) (original value : Data) (st st1 : State),
      ops.Interpreter index st = .ok (.TPlaceHolder, st1) →
      (∀ elements, original ≠ .TArray elements) →
      AssignSubscript ops index original value st = .fault) ∧
    ∀ (ops : Ops) (index : Node) (elements : List Data) (value : Data) (st st1 : State),
      ops.Interpreter index st = .ok (.TPlaceHolder, st1) →
      AssignSubscript ops index (.TArray elements) value st =
        .ok (.ok (.TArray (elements ++ [value])), st1) := by
  refine ⟨⟨_, _, rfl, rfl, rfl, rfl⟩, ?_, ?_⟩
  · intro ops index original value st st1 hidx harr
    unfold AssignSubscript
    simp only [Res.bind_eq, hidx, Res.bind]
    cases original with
    | TArray elements => exact absurd rfl (harr elements)
    | _ => rfl
  · intro ops index elements value st st1 hidx
    unfold AssignSubscript
    simp only [Res.bind_eq, hidx, Res.bind]
    rfl

/-! ## The operands of `+` -/

end Oro.interpreter
